import Mathlib

/-!
# The bit-vector linear solver of STP (`src/simplifier/bvsolver.cpp`)

A shallow embedding of `BEEV::BVSolver` and a verification of the properties
its specification states.

* Expression nodes are hash-consed in the program, so that structural equality
  is identity; here they are the values of an inductive type.
* The solver's three maps and the substitution map of the simplifier are
  explicit state, passed through every operation.
* The simplifier (`_simp`) is not part of the translated file.  Its
  term-rewriting entry points are the fields of `Simplifier`; every theorem
  states what it assumes of them.
-/

set_option autoImplicit false

namespace BEEV

/-! ## Expression nodes -/

/-- The node kinds the solver distinguishes (`Kind` of the AST library);
`OTHER` stands for every kind the solver never tests for. -/
inductive Kind where
  | UNDEFINED | SYMBOL | BVCONST | BVPLUS | BVMULT | BVUMINUS | BVEXTRACT
  | BVCONCAT | BVDIV | BVMOD | READ | EQ | AND | NOT | TRUE | FALSE | OTHER
  deriving DecidableEq, Repr

/-- An `ASTNode`: its kind, its value width, its payload (the name of a
`SYMBOL`, the value of a `BVCONST`, `0` otherwise) and its children. -/
inductive ASTNode where
  | mk (kind : Kind) (width : Nat) (value : Nat) (children : List ASTNode)
  deriving Repr

/-- The sequence type `ASTVec`. -/
abbrev ASTVec := List ASTNode

namespace ASTNode

mutual
/-- Structural equality of nodes is decidable. -/
def decEq : (a b : ASTNode) → Decidable (a = b)
  | mk k w v c, mk k2 w2 v2 c2 =>
    if hk : k = k2 then
      if hw : w = w2 then
        if hv : v = v2 then
          match decEqList c c2 with
          | isTrue hc => isTrue (by rw [hk, hw, hv, hc])
          | isFalse _ => isFalse (by intro h; injection h; contradiction)
        else isFalse (by intro h; injection h; contradiction)
      else isFalse (by intro h; injection h; contradiction)
    else isFalse (by intro h; injection h; contradiction)
/-- Structural equality of node sequences is decidable. -/
def decEqList : (as bs : List ASTNode) → Decidable (as = bs)
  | [], [] => isTrue rfl
  | _ :: _, [] => isFalse (by intro h; contradiction)
  | [], _ :: _ => isFalse (by intro h; contradiction)
  | a :: as, b :: bs =>
    match decEq a b with
    | isTrue h₁ =>
      match decEqList as bs with
      | isTrue h₂ => isTrue (by rw [h₁, h₂])
      | isFalse _ => isFalse (by intro h; injection h; contradiction)
    | isFalse _ => isFalse (by intro h; injection h; contradiction)
end

instance : DecidableEq ASTNode := decEq

/-- `GetKind()`. -/
def GetKind : ASTNode → Kind
  | mk k _ _ _ => k

/-- `GetValueWidth()`. -/
def GetValueWidth : ASTNode → Nat
  | mk _ w _ _ => w

/-- `GetBVConst()`, the value of a constant; also the name of a symbol. -/
def GetBVConst : ASTNode → Nat
  | mk _ _ v _ => v

/-- `GetChildren()`. -/
def GetChildren : ASTNode → ASTVec
  | mk _ _ _ c => c

/-- `Degree()`, the number of children. -/
def Degree (n : ASTNode) : Nat := n.GetChildren.length

/-- `isConstant()`: a bit-vector constant or one of the two boolean constants. -/
def isConstant (n : ASTNode) : Bool :=
  n.GetKind = Kind.BVCONST || n.GetKind = Kind.TRUE || n.GetKind = Kind.FALSE

end ASTNode

open Kind

/-- The null node `ASTUndefined`. -/
def ASTUndefined : ASTNode := ASTNode.mk UNDEFINED 0 0 []

/-- The boolean constant `ASTTrue`. -/
def ASTTrue : ASTNode := ASTNode.mk TRUE 0 0 []

/-- The boolean constant `ASTFalse`. -/
def ASTFalse : ASTNode := ASTNode.mk FALSE 0 0 []

/-- The child `n[i]`.  The program indexes only children the kind of the node
guarantees; outside the arity the embedding yields the null node. -/
def ASTNode.child (n : ASTNode) (i : Nat) : ASTNode := n.GetChildren.getD i ASTUndefined

/-! ## The node manager `_bm` -/

/-- `CreateNode(kind, children)`: a formula node. -/
def CreateNode (k : Kind) (c : ASTVec) : ASTNode := ASTNode.mk k 0 0 c

/-- `CreateTerm(kind, width, children)`: a term node of the given width. -/
def CreateTerm (k : Kind) (w : Nat) (c : ASTVec) : ASTNode := ASTNode.mk k w 0 c

/-- `CreateBVConst(width, value)`: the constant of that width. -/
def CreateBVConst (w v : Nat) : ASTNode := ASTNode.mk BVCONST w (v % 2 ^ w) []

/-- `CreateZeroConst(width)`. -/
def CreateZeroConst (w : Nat) : ASTNode := CreateBVConst w 0

/-- `CreateTwoConst(width)`. -/
def CreateTwoConst (w : Nat) : ASTNode := CreateBVConst w 2

/-- Subtraction of two `unsigned int`, which wraps modulo `2^32`. -/
def usub (a b : Nat) : Nat := (a + 2 ^ 32 - b % 2 ^ 32) % 2 ^ 32

/-! ## Maps and sets keyed by nodes -/

/-- The type `ASTNodeMap`, a finite map from nodes to nodes. -/
abbrev ASTNodeMap := ASTNode → Option ASTNode

/-- The type `ASTNodeSet`, a finite set of nodes. -/
abbrev ASTNodeSet := ASTNode → Bool

/-- The empty map. -/
def ASTNodeMap.empty : ASTNodeMap := fun _ => none

/-- The assignment `m[key] = value`. -/
def ASTNodeMap.set (m : ASTNodeMap) (key value : ASTNode) : ASTNodeMap :=
  fun n => if n = key then some value else m n

/-- The empty set. -/
def ASTNodeSet.empty : ASTNodeSet := fun _ => false

/-- The call `s.insert(key)`. -/
def ASTNodeSet.insert (s : ASTNodeSet) (key : ASTNode) : ASTNodeSet :=
  fun n => if n = key then true else s n

/-! ## The simplifier `_simp` -/

/-- The rewriting entry points of the simplifier that the solver calls.  They
read the substitution map, which the simplifier owns. -/
structure Simplifier where
  /-- `SimplifyTerm(term)`. -/
  SimplifyTerm : ASTNodeMap → ASTNode → ASTNode
  /-- `SimplifyTerm_TopLevel(term)`. -/
  SimplifyTerm_TopLevel : ASTNodeMap → ASTNode → ASTNode
  /-- `SimplifyFormula(formula, false)`. -/
  SimplifyFormula : ASTNodeMap → ASTNode → ASTNode
  /-- `CreateSimplifiedEQ(lhs, rhs)`. -/
  CreateSimplifiedEQ : ASTNodeMap → ASTNode → ASTNode → ASTNode
  /-- `MultiplicativeInverse(constant)`. -/
  MultiplicativeInverse : ASTNode → ASTNode

/-- `BVConstIsOdd(constant)`: the least significant bit of the constant is set. -/
def BVConstIsOdd (c : ASTNode) : Bool := c.GetBVConst % 2 = 1

/-! ## The solver instance -/

/-- The state a solving pass works on: the three maps of `BVSolver`, the
substitution map of the simplifier and the symbol counter of the node
manager. -/
structure BVSolver where
  /-- The solved-formula memo. -/
  FormulasAlreadySolvedMap : ASTNodeMap
  /-- The forbidden variables. -/
  DoNotSolve_TheseVars : ASTNodeSet
  /-- The occurrence memo. -/
  TermsAlreadySeenMap : ASTNodeMap
  /-- The substitution map `SolverMap` of the simplifier. -/
  SolverMap : ASTNodeMap
  /-- The counter `_symbol_count` from which `NewVar` names its symbols. -/
  symbol_count : Nat

/-- A solver instance as it is created: every map empty. -/
def BVSolver.init : BVSolver :=
  { FormulasAlreadySolvedMap := ASTNodeMap.empty
    DoNotSolve_TheseVars := ASTNodeSet.empty
    TermsAlreadySeenMap := ASTNodeMap.empty
    SolverMap := ASTNodeMap.empty
    symbol_count := 0 }

/-- Modelled from the spec: `NewVar(width)` of the node manager, which is to
"synthesize a fresh unconstrained variable"; the symbol is named by the
counter, which is then advanced. -/
def NewVar (st : BVSolver) (w : Nat) : ASTNode × BVSolver :=
  (ASTNode.mk SYMBOL w st.symbol_count [], { st with symbol_count := st.symbol_count + 1 })

/-- Modelled from the spec: `UpdateSolverMap(key, value)` of the simplifier,
which "extends the global substitution map, fails (returns false) if the
variable is already bound". -/
def UpdateSolverMap (st : BVSolver) (key value : ASTNode) : Bool × BVSolver :=
  match st.SolverMap key with
  | some _ => (false, st)
  | none => (true, { st with SolverMap := st.SolverMap.set key value })

/-- `CheckAlreadySolvedMap(key, output)`: the memo entry of `key`, if any. -/
def CheckAlreadySolvedMap (st : BVSolver) (key : ASTNode) : Option ASTNode :=
  st.FormulasAlreadySolvedMap key

/-- `UpdateAlreadySolvedMap(key, value)`. -/
def UpdateAlreadySolvedMap (st : BVSolver) (key value : ASTNode) : BVSolver :=
  { st with FormulasAlreadySolvedMap := st.FormulasAlreadySolvedMap.set key value }

/-- `DoNotSolveThis(var)`. -/
def DoNotSolveThis (st : BVSolver) (var : ASTNode) : Bool := st.DoNotSolve_TheseVars var

/-- The statement `DoNotSolve_TheseVars.insert(var)`. -/
def BVSolver.forbid (st : BVSolver) (var : ASTNode) : BVSolver :=
  { st with DoNotSolve_TheseVars := st.DoNotSolve_TheseVars.insert var }

/-! ## The occurs check -/

mutual
/-- `VarSeenInTerm(var, term)` on the occurrence memo: the answer and the memo
after the call. -/
def VarSeenInTermMemo (var : ASTNode) : ASTNode → ASTNodeMap → Bool × ASTNodeMap
  | ASTNode.mk k w v c, seen =>
    if seen (ASTNode.mk k w v c) = some var then (false, seen)
    else if var = ASTNode.mk k w v c then (true, seen)
    else if (ASTNode.mk k w v c).isConstant then (false, seen)
    else
      match VarSeenInTermsMemo var c seen with
      | (true, seen1) => (true, seen1)
      | (false, seen1) => (false, seen1.set (ASTNode.mk k w v c) var)
/-- The loop of `VarSeenInTerm` over the children of the term. -/
def VarSeenInTermsMemo (var : ASTNode) : ASTVec → ASTNodeMap → Bool × ASTNodeMap
  | [], seen => (false, seen)
  | t :: ts, seen =>
    match VarSeenInTermMemo var t seen with
    | (true, seen1) => (true, seen1)
    | (false, seen1) => VarSeenInTermsMemo var ts seen1
end

/-- `VarSeenInTerm(var, term)` as a member of the solver. -/
def VarSeenInTerm (st : BVSolver) (var term : ASTNode) : Bool × BVSolver :=
  ((VarSeenInTermMemo var term st.TermsAlreadySeenMap).1,
   { st with TermsAlreadySeenMap := (VarSeenInTermMemo var term st.TermsAlreadySeenMap).2 })

mutual
/-- The occurs check without the memo: `var` is `term` or occurs in a child of
it (constants are leaves). -/
def occursIn (var : ASTNode) : ASTNode → Bool
  | ASTNode.mk k w v c =>
    if var = ASTNode.mk k w v c then true
    else if (ASTNode.mk k w v c).isConstant then false
    else occursInAny var c
/-- Some term of the sequence contains `var`. -/
def occursInAny (var : ASTNode) : ASTVec → Bool
  | [] => false
  | t :: ts => occursIn var t || occursInAny var ts
end

mutual
/-- The number of times `m` occurs in a term (constants are leaves). -/
def countIn (m : ASTNode) : ASTNode → Nat
  | ASTNode.mk k w v c =>
    if m = ASTNode.mk k w v c then 1
    else if (ASTNode.mk k w v c).isConstant then 0
    else countInAll m c
/-- The number of times `m` occurs in the terms of a sequence. -/
def countInAll (m : ASTNode) : ASTVec → Nat
  | [] => 0
  | t :: ts => countIn m t + countInAll m ts
end

/-- Modelled from the spec: `CountOfSymbols count(top)` with its query
`count.single(m)`, declared in a header that is not part of the translated
file: the variable "occurs exactly once among lhs's monomials". -/
def CountOfSymbols.single (top m : ASTNode) : Bool := countIn m top = 1

/-! ## The monomial selector -/

/-- The conjunction `guard && !VarSeenInTerm(var, term)` as C++ evaluates it:
the occurs check runs, and writes the occurrence memo, only when `guard`
holds. -/
def andNotSeen (guard : Bool) (st : BVSolver) (var term : ASTNode) : Bool × BVSolver :=
  if guard then (!(VarSeenInTerm st var term).1, (VarSeenInTerm st var term).2)
  else (false, st)

/-- The local variables of `ChooseMonom` that its loops update. -/
structure MonomChoice where
  /-- The solver, of which the loops write the occurrence memo. -/
  st : BVSolver
  /-- The vector `o` of the monomials that were not chosen. -/
  o : ASTVec
  /-- The variable `outmonom`. -/
  outmonom : ASTNode
  /-- The flag `chosen_symbol`, in the second loop `chosen_odd`. -/
  chosen : Bool

/-- The first loop of `ChooseMonom` ("choose variables with no coeffs"). -/
def ChooseMonom_symbols (lhs rhs : ASTNode) : ASTVec → MonomChoice → MonomChoice
  | [], r => r
  | monom :: rest, r =>
    let t1 := andNotSeen
      (SYMBOL = monom.GetKind && !r.chosen && !DoNotSolveThis r.st monom
        && CountOfSymbols.single lhs monom) r.st monom rhs
    if t1.1 then
      ChooseMonom_symbols lhs rhs rest { st := t1.2, o := r.o, outmonom := monom, chosen := true }
    else
      let t2 := andNotSeen
        (BVUMINUS = monom.GetKind && SYMBOL = (monom.child 0).GetKind && !r.chosen
          && !DoNotSolveThis t1.2 (monom.child 0)
          && CountOfSymbols.single lhs (monom.child 0)) t1.2 (monom.child 0) rhs
      if t2.1 then
        ChooseMonom_symbols lhs rhs rest
          { st := t2.2, o := r.o, outmonom := monom, chosen := true }
      else
        ChooseMonom_symbols lhs rhs rest
          { st := t2.2, o := r.o ++ [monom], outmonom := r.outmonom, chosen := r.chosen }

/-- The second loop of `ChooseMonom` ("try to choose only odd coeffed
variables first"). -/
def ChooseMonom_odd (lhs rhs : ASTNode) : ASTVec → MonomChoice → MonomChoice
  | [], r => r
  | monom :: rest, r =>
    let zero := CreateZeroConst 32
    let var := if BVMULT = monom.GetKind then monom.child 1 else ASTUndefined
    let g := BVMULT = monom.GetKind && BVCONST = (monom.child 0).GetKind
      && BVConstIsOdd (monom.child 0) && !r.chosen && !DoNotSolveThis r.st var
    let a := SYMBOL = var.GetKind && CountOfSymbols.single lhs var
    let b := andNotSeen
      (g && !a && BVEXTRACT = var.GetKind && SYMBOL = (var.child 0).GetKind
        && BVCONST = (var.child 1).GetKind && zero = var.child 2
        && !DoNotSolveThis r.st (var.child 0)) r.st (var.child 0) rhs
    let t := andNotSeen (g && (a || b.1)) b.2 var rhs
    if t.1 then
      ChooseMonom_odd lhs rhs rest { st := t.2, o := r.o, outmonom := monom, chosen := true }
    else
      ChooseMonom_odd lhs rhs rest
        { st := t.2, o := r.o ++ [monom], outmonom := r.outmonom, chosen := r.chosen }

/-- Both loops of `ChooseMonom` on the equation `eq`. -/
def ChooseMonom_loops (st : BVSolver) (eq : ASTNode) : MonomChoice :=
  let lhs := eq.child 0
  let rhs := eq.child 1
  let r1 := ChooseMonom_symbols lhs rhs lhs.GetChildren
    { st := st, o := [], outmonom := ASTUndefined, chosen := false }
  if !r1.chosen then
    ChooseMonom_odd lhs rhs lhs.GetChildren
      { st := r1.st, o := [], outmonom := r1.outmonom, chosen := false }
  else r1

/-- `ChooseMonom(eq, modifiedlhs)`: the chosen monomial (`ASTUndefined` when
there is none), `modifiedlhs` and the solver after the call.  There is no
result when the input is refused with `FatalError` and when `o[0]` is read
from an empty `o`. -/
def ChooseMonom (st : BVSolver) (eq : ASTNode) : Option (ASTNode × ASTNode × BVSolver) :=
  if !(EQ = eq.GetKind && BVPLUS = (eq.child 0).GetKind) then none
  else
    let r := ChooseMonom_loops st eq
    match r.o with
    | [] => none
    | [m] => some (r.outmonom, m, r.st)
    | m :: m2 :: ms =>
      some (r.outmonom, CreateTerm BVPLUS (eq.child 0).GetValueWidth (m :: m2 :: ms), r.st)

/-! ## The odd-coefficient solver -/

/-- How the `switch` of `BVSolve_Odd` is left. -/
inductive SwitchExit where
  /-- By `return eq;`, which skips the update of the memo. -/
  | returnEq
  /-- By `break;` with this value of `output`. -/
  | breakWith (output : ASTNode)
  deriving DecidableEq

/-- The block `if (BVPLUS == lhs.GetKind())` of `BVSolve_Odd`: outer `none`
when `ChooseMonom` has no result, inner `none` for `return eq;`, otherwise the
new `lhs`, `rhs` and `single`. -/
def BVSolve_Odd_sum (S : Simplifier) (st : BVSolver) (eq lhs rhs : ASTNode) :
    Option (Option (ASTNode × ASTNode × Bool) × BVSolver) :=
  if BVPLUS = lhs.GetKind then
    match ChooseMonom st eq with
    | none => none
    | some (chosen_monom, leftover_lhs, st1) =>
      if chosen_monom = ASTUndefined then some (none, st1)
      else
        let len := lhs.GetValueWidth
        let leftover := S.SimplifyTerm_TopLevel st1.SolverMap
          (CreateTerm BVUMINUS len [leftover_lhs])
        let rhs1 := S.SimplifyTerm st1.SolverMap (CreateTerm BVPLUS len [rhs, leftover])
        some (some (chosen_monom, rhs1, true), st1)
  else some (some (lhs, rhs, false), st)

/-- The block `if (BVUMINUS == lhs.GetKind())` of `BVSolve_Odd`: the new `lhs`
and `rhs`. -/
def BVSolve_Odd_uminus (S : Simplifier) (st : BVSolver) (lhs rhs : ASTNode) :
    ASTNode × ASTNode :=
  if BVUMINUS = lhs.GetKind then
    (lhs.child 0, S.SimplifyTerm st.SolverMap (CreateTerm BVUMINUS rhs.GetValueWidth [rhs]))
  else (lhs, rhs)

/-- The `case SYMBOL` of the `switch` of `BVSolve_Odd`. -/
def BVSolve_Odd_symbol (st : BVSolver) (lhs rhs : ASTNode) (single : Bool) :
    SwitchExit × BVSolver :=
  let st1 := st.forbid lhs
  let seen := if !single then VarSeenInTerm st1 lhs rhs else (false, st1)
  if seen.1 then (SwitchExit.returnEq, seen.2)
  else
    let u := UpdateSolverMap seen.2 lhs rhs
    if !u.1 then (SwitchExit.returnEq, u.2)
    else (SwitchExit.breakWith ASTTrue, u.2)

/-- The `case BVEXTRACT` of the `switch` of `BVSolve_Odd`. -/
def BVSolve_Odd_extract (st : BVSolver) (lhs rhs : ASTNode) : SwitchExit × BVSolver :=
  let zero := CreateZeroConst 32
  let t := andNotSeen
    (SYMBOL = (lhs.child 0).GetKind && BVCONST = (lhs.child 1).GetKind && zero = lhs.child 2)
    st (lhs.child 0) rhs
  if !(t.1 && !DoNotSolveThis t.2 (lhs.child 0)) then (SwitchExit.returnEq, t.2)
  else
    let seen := VarSeenInTerm t.2 (lhs.child 0) rhs
    if seen.1 then (SwitchExit.returnEq, seen.2.forbid (lhs.child 0))
    else
      let st1 := seen.2.forbid (lhs.child 0)
      let u := UpdateSolverMap st1 lhs rhs
      if !u.1 then (SwitchExit.returnEq, u.2)
      else if (lhs.child 0).GetValueWidth ≠ lhs.GetValueWidth then
        let var := lhs.child 0
        let nv := NewVar u.2 (usub var.GetValueWidth lhs.GetValueWidth)
        let newvar := CreateTerm BVCONCAT var.GetValueWidth [nv.1, rhs]
        (SwitchExit.breakWith ASTTrue, (UpdateSolverMap nv.2 var newvar).2)
      else (SwitchExit.breakWith ASTTrue, (UpdateSolverMap u.2 (lhs.child 0) rhs).2)

/-- The `case BVMULT` of the `switch` of `BVSolve_Odd`. -/
def BVSolve_Odd_mult (S : Simplifier) (st : BVSolver) (lhs rhs : ASTNode) :
    SwitchExit × BVSolver :=
  if BVCONST ≠ (lhs.child 0).GetKind then (SwitchExit.returnEq, st)
  else if !(SYMBOL = (lhs.child 1).GetKind
      || (BVEXTRACT = (lhs.child 1).GetKind && SYMBOL = ((lhs.child 1).child 0).GetKind)) then
    (SwitchExit.returnEq, st)
  else
    let ChosenVar_Is_Extract : Bool := BVEXTRACT = (lhs.child 1).GetKind
    if !BVConstIsOdd (lhs.child 0) then (SwitchExit.returnEq, st)
    else
      let a := S.MultiplicativeInverse (lhs.child 0)
      let chosenvar := if ChosenVar_Is_Extract then (lhs.child 1).child 0 else lhs.child 1
      let chosenvar_value :=
        S.SimplifyTerm st.SolverMap (CreateTerm BVMULT rhs.GetValueWidth [a, rhs])
      let seen := VarSeenInTerm st chosenvar chosenvar_value
      if seen.1 then (SwitchExit.returnEq, seen.2.forbid lhs)
      else
        let st1 := seen.2.forbid chosenvar
        let u := UpdateSolverMap st1 (lhs.child 1) chosenvar_value
        if !u.1 then (SwitchExit.returnEq, u.2)
        else if ChosenVar_Is_Extract then
          let var := (lhs.child 1).child 0
          let nv := NewVar u.2 (usub var.GetValueWidth (lhs.child 1).GetValueWidth)
          let newvar := CreateTerm BVCONCAT var.GetValueWidth [nv.1, chosenvar_value]
          (SwitchExit.breakWith ASTTrue, (UpdateSolverMap nv.2 var newvar).2)
        else (SwitchExit.breakWith ASTTrue, u.2)

/-- The statement `switch (lhs.GetKind())` of `BVSolve_Odd`. -/
def BVSolve_Odd_switch (S : Simplifier) (st : BVSolver) (eq lhs rhs : ASTNode)
    (single : Bool) : SwitchExit × BVSolver :=
  match lhs.GetKind with
  | SYMBOL => BVSolve_Odd_symbol st lhs rhs single
  | BVEXTRACT => BVSolve_Odd_extract st lhs rhs
  | BVMULT => BVSolve_Odd_mult S st lhs rhs
  | _ => (SwitchExit.breakWith eq, st)

/-- The test "if only one side is a constant, it should be on the RHS" of
`BVSolve_Odd`. -/
def BVSolve_Odd_swaps (input : ASTNode) : Bool :=
  Bool.xor (decide (BVCONST = (input.child 0).GetKind))
      (decide (BVCONST = (input.child 1).GetKind))
    && decide ((input.child 0).GetKind = BVCONST)

/-- The equation `eq` that `BVSolve_Odd` works on: the input, with its sides
exchanged when only the left one is a constant. -/
def BVSolve_Odd_eq (input : ASTNode) : ASTNode :=
  if BVSolve_Odd_swaps input then CreateNode EQ [input.child 1, input.child 0] else input

/-- `BVSolve_Odd(input)`: the node returned and the solver after the call.
There is no result when `ChooseMonom` has none. -/
def BVSolve_Odd (S : Simplifier) (st : BVSolver) (input : ASTNode) :
    Option (ASTNode × BVSolver) :=
  if EQ ≠ input.GetKind then some (input, st)
  else
    let eq := BVSolve_Odd_eq input
    let lhs := if BVSolve_Odd_swaps input then input.child 1 else input.child 0
    let rhs := if BVSolve_Odd_swaps input then input.child 0 else input.child 1
    match CheckAlreadySolvedMap st eq with
    | some output => some (output, st)
    | none =>
      match BVSolve_Odd_sum S st eq lhs rhs with
      | none => none
      | some (none, st1) => some (eq, st1)
      | some (some (lhs1, rhs1, single), st1) =>
        let lr := BVSolve_Odd_uminus S st1 lhs1 rhs1
        match BVSolve_Odd_switch S st1 eq lr.1 lr.2 single with
        | (SwitchExit.returnEq, st2) => some (eq, st2)
        | (SwitchExit.breakWith output, st2) =>
          some (output, UpdateAlreadySolvedMap st2 input output)

/-- The formula `(v.size() > 0) ? ((v.size() > 1) ? CreateNode(AND, v) : v[0])
: ASTTrue` that `BVSolve_Even` and `TopLevelBVSolve` build from a vector. -/
def conjunctionOf (v : ASTVec) : ASTNode :=
  match v with
  | [] => ASTTrue
  | [f] => f
  | f :: f2 :: fs => CreateNode AND (f :: f2 :: fs)

/-! ## The even-coefficient solver -/

/-- `CONSTANTBV::BitVector_bit_test(value, n)`: bit `n` of the value is set. -/
def BitVector_bit_test (value n : Nat) : Bool := value / 2 ^ n % 2 = 1

/-- The `for` loop of `SplitEven_into_Oddnum_PowerOf2`; the counter gives the
number of iterations that remain before `number_shifts` reaches the width. -/
def SplitEven_loop (value width : Nat) : Nat → Nat → Nat
  | 0, number_shifts => number_shifts
  | remaining + 1, number_shifts =>
    if number_shifts < width && !BitVector_bit_test value number_shifts then
      SplitEven_loop value width remaining (number_shifts + 1)
    else number_shifts

/-- `SplitEven_into_Oddnum_PowerOf2(in, number_shifts)`: the value the `for`
loop leaves in `number_shifts`, "the location of the lowest bit that is turned
on".  The two assertions and the block `#ifndef NDEBUG`, which calls
`SplitEven_into_Oddnum_PowerOf2_OLD` and compares, are not part of this value:
`SplitEven_into_Oddnum_PowerOf2_checked` is the function with them.  The two
agree on an even constant that is not zero; on zero the old routine does not
leave its loop, and the function compiled with assertions returns nothing. -/
def SplitEven_into_Oddnum_PowerOf2 (input : ASTNode) : Nat :=
  SplitEven_loop input.GetBVConst input.GetValueWidth input.GetValueWidth 0

/-- Modelled from the spec: `BVConstEvaluator(term)` of the simplifier, the
"constant folding" of a term whose children are constants, for the four kinds
the solver builds; a division by zero has no result. -/
def BVConstEvaluator (t : ASTNode) : Option ASTNode :=
  match t.GetKind with
  | BVMULT =>
    some (CreateBVConst t.GetValueWidth ((t.child 0).GetBVConst * (t.child 1).GetBVConst))
  | BVDIV =>
    if (t.child 1).GetBVConst = 0 then none
    else some (CreateBVConst t.GetValueWidth ((t.child 0).GetBVConst / (t.child 1).GetBVConst))
  | BVMOD =>
    if (t.child 1).GetBVConst = 0 then none
    else some (CreateBVConst t.GetValueWidth ((t.child 0).GetBVConst % (t.child 1).GetBVConst))
  | BVEXTRACT =>
    some (CreateBVConst t.GetValueWidth
      ((t.child 0).GetBVConst / 2 ^ (t.child 2).GetBVConst
        % 2 ^ ((t.child 1).GetBVConst + 1 - (t.child 2).GetBVConst)))
  | _ => some t

/-- The loop of `CheckEvenEqn` over the monomials of the lhs: the value of
`savetheconst` after the loop, `none` when a monomial is not of the form `a*x`
with `a` even. -/
def CheckEvenEqn_loop : ASTVec → ASTNode → Option ASTNode
  | [], savetheconst => some savetheconst
  | aaa :: rest, savetheconst =>
    if BVCONST = aaa.GetKind then CheckEvenEqn_loop rest aaa
    else if !(BVMULT = aaa.GetKind && BVCONST = (aaa.child 0).GetKind
        && SYMBOL = (aaa.child 1).GetKind && !BVConstIsOdd (aaa.child 0)) then none
    else CheckEvenEqn_loop rest savetheconst

/-- `CheckEvenEqn(input, evenflag)`: the node returned and `evenflag`. -/
def CheckEvenEqn (input : ASTNode) : ASTNode × Bool :=
  if EQ ≠ input.GetKind then (input, false)
  else
    let lhs := input.child 0
    let rhs := input.child 1
    let zero := CreateZeroConst rhs.GetValueWidth
    if !(BVPLUS = lhs.GetKind && zero = rhs) then (input, false)
    else
      match CheckEvenEqn_loop lhs.GetChildren rhs with
      | none => (input, false)
      | some savetheconst =>
        if BVConstIsOdd savetheconst then (ASTFalse, false) else (input, true)

/-- The inner loop of the first pass of `BVSolve_Even`: `power_of_2_lowest`
after the monomials of one lhs, `none` for `return input;`. -/
def BVSolve_Even_lowest_monoms : ASTVec → Nat → Option Nat
  | [], power_of_2_lowest => some power_of_2_lowest
  | aaa :: rest, power_of_2_lowest =>
    if !(BVCONST = aaa.GetKind && !BVConstIsOdd aaa)
        && !(BVMULT = aaa.GetKind && BVCONST = (aaa.child 0).GetKind
          && SYMBOL = (aaa.child 1).GetKind && !BVConstIsOdd (aaa.child 0)) then none
    else
      let coeff := if BVCONST = aaa.GetKind then aaa else aaa.child 0
      let power_of_2 := SplitEven_into_Oddnum_PowerOf2 coeff
      BVSolve_Even_lowest_monoms rest
        (if power_of_2 < power_of_2_lowest then power_of_2 else power_of_2_lowest)

/-- The first pass of `BVSolve_Even` over the equations: `power_of_2_lowest`
after it, `none` for `return input;`. -/
def BVSolve_Even_lowest : ASTVec → Nat → Option Nat
  | [], power_of_2_lowest => some power_of_2_lowest
  | eq :: rest, power_of_2_lowest =>
    let lhs := eq.child 0
    let rhs := eq.child 1
    let zero := CreateZeroConst rhs.GetValueWidth
    if !(BVPLUS = lhs.GetKind && zero = rhs) then none
    else
      match BVSolve_Even_lowest_monoms lhs.GetChildren power_of_2_lowest with
      | none => none
      | some lowest => BVSolve_Even_lowest rest lowest

/-- The loop `while (--count)` of `BVSolve_Even`, run the given number of
times on `two`. -/
def BVSolve_Even_two (len : Nat) : Nat → ASTNode → Option ASTNode
  | 0, two => some two
  | iterations + 1, two =>
    (BVConstEvaluator (CreateTerm BVMULT len [CreateTwoConst len, two])).bind
      (BVSolve_Even_two len iterations)

/-- The body of the inner loop of the second pass of `BVSolve_Even`: the
monomial `aaa` divided by `two` and cut to `newlen` bits. -/
def BVSolve_Even_monom (S : Simplifier) (sm : ASTNodeMap) (len newlen : Nat)
    (two low_minus_one low_zero aaa : ASTNode) : Option ASTNode :=
  if BVCONST = aaa.GetKind then
    (BVConstEvaluator (CreateTerm BVDIV len [aaa, two])).bind fun q =>
      BVConstEvaluator (CreateTerm BVEXTRACT newlen [q, low_minus_one, low_zero])
  else
    (BVConstEvaluator (CreateTerm BVDIV len [aaa.child 0, two])).bind fun q =>
      (BVConstEvaluator (CreateTerm BVEXTRACT newlen [q, low_minus_one, low_zero])).bind
        fun coeff =>
          let lower_x := S.SimplifyTerm sm
            (CreateTerm BVEXTRACT newlen [aaa.child 1, low_minus_one, low_zero])
          some (CreateTerm BVMULT newlen [coeff, lower_x])

/-- The inner loop of the second pass of `BVSolve_Even`: the vector `lhs_out`. -/
def BVSolve_Even_monoms (S : Simplifier) (sm : ASTNodeMap) (len newlen : Nat)
    (two low_minus_one low_zero : ASTNode) : ASTVec → Option ASTVec
  | [] => some []
  | aaa :: rest =>
    (BVSolve_Even_monom S sm len newlen two low_minus_one low_zero aaa).bind fun m =>
      (BVSolve_Even_monoms S sm len newlen two low_minus_one low_zero rest).bind fun ms =>
        some (m :: ms)

/-- The body of the outer loop of the second pass of `BVSolve_Even` once the
shape of `eq` is checked: the equation pushed on `formula_out`. -/
def BVSolve_Even_equation (S : Simplifier) (sm : ASTNodeMap) (power_of_2 : Nat)
    (eq : ASTNode) : Option ASTNode :=
  let lhs := eq.child 0
  let len := lhs.GetValueWidth
  let low_minus_one := CreateBVConst 32 (usub (usub len power_of_2) 1)
  let low_zero := CreateZeroConst 32
  let newlen := usub len power_of_2
  let two_const := CreateTwoConst len
  (BVSolve_Even_two len (usub power_of_2 1) two_const).bind fun two =>
    (BVSolve_Even_monoms S sm len newlen two low_minus_one low_zero lhs.GetChildren).bind
      fun lhs_out =>
        let rhs := CreateZeroConst newlen
        let lhs1 := CreateTerm BVPLUS newlen lhs_out
        some (S.CreateSimplifiedEQ sm lhs1 rhs)

/-- The second pass of `BVSolve_Even`: the vector `formula_out`; the outer
`none` when a constant evaluation has no result, the inner `none` for
`return input;`. -/
def BVSolve_Even_reduce (S : Simplifier) (sm : ASTNodeMap) (power_of_2 : Nat) :
    ASTVec → Option (Option ASTVec)
  | [] => some (some [])
  | eq :: rest =>
    let lhs := eq.child 0
    let rhs := eq.child 1
    let zero := CreateZeroConst rhs.GetValueWidth
    if !(BVPLUS = lhs.GetKind && zero = rhs) then some none
    else
      (BVSolve_Even_equation S sm power_of_2 eq).bind fun f =>
        (BVSolve_Even_reduce S sm power_of_2 rest).bind fun formula_out =>
          some (formula_out.map fun fs => f :: fs)

/-- `BVSolve_Even(input)`: the node returned and the solver after the call.
There is no result when a constant evaluation has none. -/
def BVSolve_Even (S : Simplifier) (st : BVSolver) (input : ASTNode) :
    Option (ASTNode × BVSolver) :=
  if !(EQ = input.GetKind || AND = input.GetKind) then some (input, st)
  else
    match CheckAlreadySolvedMap st input with
    | some output => some (output, st)
    | none =>
      let input_c := if EQ = input.GetKind then [input] else input.GetChildren
      match BVSolve_Even_lowest input_c (2 ^ 32 - 1) with
      | none => some (input, st)
      | some power_of_2 =>
        match BVSolve_Even_reduce S st.SolverMap power_of_2 input_c with
        | none => none
        | some none => some (input, st)
        | some (some formula_out) =>
          let output := conjunctionOf formula_out
          some (output, UpdateAlreadySolvedMap st input output)

/-! ## The ordering heuristic -/

mutual
/-- `containsExtract(n, visited)`: the answer and `visited` after the call. -/
def containsExtract : ASTNode → ASTNodeSet → Bool × ASTNodeSet
  | ASTNode.mk k w v c, visited =>
    if visited (ASTNode.mk k w v c) then (false, visited)
    else if BVEXTRACT = k then (true, visited)
    else
      match containsExtractAny c visited with
      | (true, visited1) => (true, visited1)
      | (false, visited1) => (false, visited1.insert (ASTNode.mk k w v c))
/-- The loop of `containsExtract` over the children. -/
def containsExtractAny : ASTVec → ASTNodeSet → Bool × ASTNodeSet
  | [], visited => (false, visited)
  | t :: ts, visited =>
    match containsExtract t visited with
    | (true, visited1) => (true, visited1)
    | (false, visited1) => containsExtractAny ts visited1
end

/-- The first loop of `specialSort`: the deque `extracts` after it. -/
def specialSort_loop : ASTVec → List ASTNode → ASTNodeSet → List ASTNode
  | [], extracts, _ => extracts
  | ci :: rest, extracts, v =>
    match containsExtract ci v with
    | (true, v1) => specialSort_loop rest (extracts ++ [ci]) v1
    | (false, v1) => specialSort_loop rest (ci :: extracts) v1

/-- `specialSort(c)`: the vector `c` after the call. -/
def specialSort (c : ASTVec) : ASTVec := specialSort_loop c [] ASTNodeSet.empty

/-! ## The top-level driver -/

/-- The constant `flatten_ands`.  It is `false`, so the block it guards in
`TopLevelBVSolve` never runs and is not translated. -/
def flatten_ands : Bool := false

/-- The constant `sort_extracts_last`. -/
def sort_extracts_last : Bool := false

/-- The local variables of `TopLevelBVSolve` that its loop updates. -/
structure DriverLoop where
  /-- The solver. -/
  st : BVSolver
  /-- The vector `o` of the conjuncts that stay open. -/
  o : ASTVec
  /-- The vector `eveneqns`. -/
  eveneqns : ASTVec
  /-- The flag `any_solved`. -/
  any_solved : Bool

/-- The loop of `TopLevelBVSolve` over the conjuncts. -/
def TopLevelBVSolve_loop (S : Simplifier) : ASTVec → DriverLoop → Option DriverLoop
  | [], r => some r
  | it :: rest, r =>
    let aaa := if r.any_solved && EQ = it.GetKind then S.SimplifyFormula r.st.SolverMap it else it
    match BVSolve_Odd S r.st aaa with
    | none => none
    | some (aaa1, st1) =>
      let ce := CheckEvenEqn aaa1
      let aaa2 := ce.1
      let even := ce.2
      TopLevelBVSolve_loop S rest
        { st := st1
          o := if even then r.o else if ASTTrue ≠ aaa2 then r.o ++ [aaa2] else r.o
          eveneqns := if even then r.eveneqns ++ [aaa2] else r.eveneqns
          any_solved := if ASTTrue = aaa2 then true else r.any_solved }

/-- `TopLevelBVSolve(_input)`: the node returned and the solver after the
call.  There is no result when a call it makes has none.  The timer calls have
no effect on either. -/
def TopLevelBVSolve (S : Simplifier) (st : BVSolver) (_input : ASTNode) :
    Option (ASTNode × BVSolver) :=
  let input := _input
  let k := input.GetKind
  if !(EQ = k || AND = k) then some (input, st)
  else
    match CheckAlreadySolvedMap st input with
    | some output => some (output, st)
    | none =>
      let c := if EQ = k then [input] else input.GetChildren
      let c := if sort_extracts_last then specialSort c else c
      match TopLevelBVSolve_loop S c { st := st, o := [], eveneqns := [], any_solved := false } with
      | none => none
      | some r =>
        let solved :=
          match r.eveneqns with
          | [] => some (ASTTrue, r.st)
          | e :: es => BVSolve_Even S r.st (conjunctionOf (e :: es))
        match solved with
        | none => none
        | some (evens, st2) =>
          let output := conjunctionOf r.o
          let output := CreateNode AND [output, evens]
          some (output, UpdateAlreadySolvedMap st2 _input output)

/-! ## The meaning of terms and formulas -/

/-- An assignment gives a value to every symbol (and to every term of a kind
that is not interpreted). -/
abbrev Assignment := ASTNode → Nat

/-- The value of a node from the values of its children: arithmetic modulo
`2^width`. -/
def evalNode (k : Kind) (w v : Nat) (self : Nat) (args widths : List Nat) : Nat :=
  match k with
  | BVCONST => v % 2 ^ w
  | BVPLUS => args.sum % 2 ^ w
  | BVMULT => args.prod % 2 ^ w
  | BVUMINUS => (2 ^ w - args.headD 0 % 2 ^ w) % 2 ^ w
  | BVEXTRACT =>
    args.headD 0 / 2 ^ args.getD 2 0 % 2 ^ (args.getD 1 0 + 1 - args.getD 2 0) % 2 ^ w
  | BVCONCAT => (args.headD 0 * 2 ^ widths.getD 1 0 + args.getD 1 0) % 2 ^ w
  | _ => self % 2 ^ w

mutual
/-- The value of a term under an assignment. -/
def eval (env : Assignment) : ASTNode → Nat
  | ASTNode.mk k w v c =>
    evalNode k w v (env (ASTNode.mk k w v c)) (evalAll env c) (c.map ASTNode.GetValueWidth)
/-- The values of the terms of a sequence. -/
def evalAll (env : Assignment) : ASTVec → List Nat
  | [] => []
  | t :: ts => eval env t :: evalAll env ts
end

mutual
/-- The truth of a formula under an assignment: equalities compare the values
of their sides, conjunctions hold when all conjuncts do; a formula of another
kind is read off the assignment. -/
def holds (env : Assignment) : ASTNode → Bool
  | ASTNode.mk k w v c =>
    match k with
    | TRUE => true
    | FALSE => false
    | EQ => decide (eval env (c.getD 0 ASTUndefined) = eval env (c.getD 1 ASTUndefined))
    | AND => holdsAll env c
    | _ => decide (env (ASTNode.mk k w v c) ≠ 0)
/-- All formulas of a sequence hold. -/
def holdsAll (env : Assignment) : ASTVec → Bool
  | [] => true
  | f :: fs => holds env f && holdsAll env fs
end

/-! ## A simplifier that rewrites nothing -/

/-- The inverse of an odd value modulo `2^w`, as a power of the value. -/
def inverseMod (w a : Nat) : Nat := a ^ (2 ^ (w - 1) - 1) % 2 ^ w

/-- The simplifier whose rewriting entry points return their argument as it
is, and whose `MultiplicativeInverse` computes the inverse modulo `2^width`.
It instantiates the theorems on concrete equations. -/
def idSimplifier : Simplifier where
  SimplifyTerm := fun _ t => t
  SimplifyTerm_TopLevel := fun _ t => t
  SimplifyFormula := fun _ t => t
  CreateSimplifiedEQ := fun _ lhs rhs => CreateNode EQ [lhs, rhs]
  MultiplicativeInverse := fun c =>
    CreateBVConst c.GetValueWidth (inverseMod c.GetValueWidth c.GetBVConst)

/-! ## Notions used in the statements -/

/-- The occurrence memo records only true facts: a variable stored for a term does not occur in it. -/
def CacheValid (seen : ASTNodeMap) : Prop :=
  ∀ t v, seen t = some v → occursIn v t = false

/-- The solver with another occurrence memo. -/
def BVSolver.withSeen (st : BVSolver) (m : ASTNodeMap) : BVSolver :=
  { st with TermsAlreadySeenMap := m }

/-- Tier 1 of the selector, which the spec words as the first loop of
`ChooseMonom` tests it: the monomial is a bare variable or its negation, and the
variable is not forbidden, occurs exactly once in the lhs and does not occur in
the rhs. -/
def tier1Eligible (st : BVSolver) (lhs rhs monom : ASTNode) : Bool :=
  (SYMBOL = monom.GetKind && !DoNotSolveThis st monom && CountOfSymbols.single lhs monom
      && !occursIn monom rhs)
  || (BVUMINUS = monom.GetKind && SYMBOL = (monom.child 0).GetKind
      && !DoNotSolveThis st (monom.child 0) && CountOfSymbols.single lhs (monom.child 0)
      && !occursIn (monom.child 0) rhs)

/-- The test of the second loop of `ChooseMonom`: the monomial is an odd
constant times a variable that occurs exactly once in the lhs, or an odd
constant times a zero-based extract of a variable, for which `count.single` is
not asked. -/
def tier2Accepted (st : BVSolver) (lhs rhs monom : ASTNode) : Bool :=
  BVMULT = monom.GetKind && BVCONST = (monom.child 0).GetKind && BVConstIsOdd (monom.child 0)
    && !DoNotSolveThis st (monom.child 1)
    && ((SYMBOL = (monom.child 1).GetKind && CountOfSymbols.single lhs (monom.child 1))
      || (BVEXTRACT = (monom.child 1).GetKind && SYMBOL = ((monom.child 1).child 0).GetKind
        && BVCONST = ((monom.child 1).child 1).GetKind
        && CreateZeroConst 32 = (monom.child 1).child 2
        && !DoNotSolveThis st ((monom.child 1).child 0)
        && !occursIn ((monom.child 1).child 0) rhs))
    && !occursIn (monom.child 1) rhs

/-- A loop that takes the first element accepted by `p` out of a sequence, as both loops of `ChooseMonom` do. -/
def pickFirst (p : ASTNode → Bool) : ASTVec → ASTVec × ASTNode × Bool → ASTVec × ASTNode × Bool
  | [], r => r
  | m :: rest, (o, out, chosen) =>
    if !chosen && p m then pickFirst p rest (o, m, true)
    else pickFirst p rest (o ++ [m], out, chosen)

/-- The substitution map with `key` bound to `value` unless `key` is bound already: the map after `UpdateSolverMap`. -/
def bindIfFree (m : ASTNodeMap) (key value : ASTNode) : ASTNodeMap :=
  match m key with
  | some _ => m
  | none => m.set key value

/-- The first map is the second one with more keys bound: a key bound in the second keeps its value. -/
def MapExtends (m2 m1 : ASTNodeMap) : Prop := ∀ k v, m1 k = some v → m2 k = some v

/-- A key is bound in the second map that is free in the first. -/
def NewlyBound (m2 m1 : ASTNodeMap) : Prop := ∃ k, m1 k = none ∧ (m2 k).isSome = true

/-- The simplifier brings no symbol into a term: a symbol of the simplified
term is a symbol of the term. -/
def NoNewSymbols (S : Simplifier) : Prop :=
  ∀ (sm : ASTNodeMap) (t v : ASTNode), v.GetKind = SYMBOL →
    (occursIn v (S.SimplifyTerm sm t) = true → occursIn v t = true) ∧
    (occursIn v (S.SimplifyTerm_TopLevel sm t) = true → occursIn v t = true)

/-- The value `ChooseMonom` gives `modifiedlhs` for a vector `o` that is not
empty: its only element, or the sum of its elements. -/
def leftoverOf (w : Nat) (o : ASTVec) : ASTNode :=
  match o with
  | [m] => m
  | _ => CreateTerm BVPLUS w o

/-- The variable a key of the substitution map stands for: the variable
itself, or the variable under a bit-extract. -/
def boundVariable (key : ASTNode) : ASTNode :=
  if key.GetKind = BVEXTRACT then key.child 0 else key

mutual
/-- Some symbol of the term bears the name `n`. -/
def usesName (n : Nat) : ASTNode → Bool
  | ASTNode.mk k _ v c => (decide (k = SYMBOL) && decide (v = n)) || usesNameAny n c
/-- Some symbol of a term of the sequence bears the name `n`. -/
def usesNameAny (n : Nat) : ASTVec → Bool
  | [] => false
  | t :: ts => usesName n t || usesNameAny n ts
end

/-- No symbol of the term bears the name that `NewVar` gives out next. -/
def FreshFor (st : BVSolver) (t : ASTNode) : Prop := usesName st.symbol_count t = false

instance (st : BVSolver) (t : ASTNode) : Decidable (FreshFor st t) :=
  inferInstanceAs (Decidable (usesName st.symbol_count t = false))

/-- The symbols that `NewVar` can return next do not occur in the term. -/
def NewVarAbsent (st : BVSolver) (t : ASTNode) : Prop :=
  ∀ w, occursIn (NewVar st w).1 t = false

/-- Every key bound in the second solver and free in the first is bound to a
term in which its variable does not occur. -/
def NewBindingsSound (st st2 : BVSolver) : Prop :=
  ∀ key t, st.SolverMap key = none → st2.SolverMap key = some t →
    occursIn (boundVariable key) t = false

/-- The second solver is the first one with another occurrence memo. -/
def SameButSeen (st st2 : BVSolver) : Prop := ∃ m, st2 = st.withSeen m

/-! ## Equations the theorems are instantiated on -/

/-- The variable of the given width and name. -/
def bvVar (w name : Nat) : ASTNode := ASTNode.mk SYMBOL w name []

/-- The 8-bit variable `x`. -/
def varX : ASTNode := bvVar 8 100

/-- The 8-bit variable `y`. -/
def varY : ASTNode := bvVar 8 101

/-- The equation `lhs = rhs`. -/
def mkEq (lhs rhs : ASTNode) : ASTNode := CreateNode EQ [lhs, rhs]

/-- The product `a * x` of a constant and a term, at 8 bits. -/
def times8 (a : Nat) (x : ASTNode) : ASTNode := CreateTerm BVMULT 8 [CreateBVConst 8 a, x]

/-- Scenario 1 of the specification: `x + y = 5` at 8 bits. -/
def scenario1 : ASTNode := mkEq (CreateTerm BVPLUS 8 [varX, varY]) (CreateBVConst 8 5)

/-- Scenario 2 of the specification: `3*x = 9` at 8 bits. -/
def scenario2 : ASTNode := mkEq (times8 3 varX) (CreateBVConst 8 9)

/-- Scenario 3 of the specification: `2*x + 4*y = 1` at 8 bits. -/
def scenario3 : ASTNode :=
  mkEq (CreateTerm BVPLUS 8 [times8 2 varX, times8 4 varY]) (CreateBVConst 8 1)

/-- The solver after the call `BVSolve_Odd(input)`; the solver itself when the
call has no result. -/
def solverAfter (S : Simplifier) (st : BVSolver) (input : ASTNode) : BVSolver :=
  match BVSolve_Odd S st input with
  | some r => r.2
  | none => st

/-- The equation `x = x + 1` at 8 bits, which the occurs check declines. -/
def eqXisXplus1 : ASTNode :=
  mkEq varX (CreateTerm BVPLUS 8 [varX, CreateBVConst 8 1])

/-- The equation `x = 5` at 8 bits. -/
def eqXis5 : ASTNode := mkEq varX (CreateBVConst 8 5)

/-- The equation `5 = x` at 8 bits, the constant on the left. -/
def eq5isX : ASTNode := mkEq (CreateBVConst 8 5) varX

/-- The equation `5 = x + x` at 8 bits: the constant on the left and no
monomial to choose, since `x` occurs twice. -/
def eq5isXplusX : ASTNode := mkEq (CreateBVConst 8 5) (CreateTerm BVPLUS 8 [varX, varX])

/-- The equation `2*x + 4*y = 0` at 8 bits, every coefficient even. -/
def evenEquation : ASTNode :=
  mkEq (CreateTerm BVPLUS 8 [times8 2 varX, times8 4 varY]) (CreateBVConst 8 0)

/-- The equation `2*z + 4*u = 0` at 8 bits, over two other variables. -/
def evenEquation2 : ASTNode :=
  mkEq (CreateTerm BVPLUS 8 [times8 2 (bvVar 8 102), times8 4 (bvVar 8 103)]) (CreateBVConst 8 0)

/-- The node `TopLevelBVSolve` returns when it is run on `F` and then on its
own output, in the same solver. -/
def solveTwice (S : Simplifier) (st : BVSolver) (F : ASTNode) : Option ASTNode :=
  match TopLevelBVSolve S st F with
  | none => none
  | some r =>
    match TopLevelBVSolve S r.2 r.1 with
    | none => none
    | some r2 => some r2.1

/-- The result of `TopLevelBVSolve(F)`; the input and the solver themselves
when the call has no result. -/
def driverRun (S : Simplifier) (st : BVSolver) (F : ASTNode) : ASTNode × BVSolver :=
  match TopLevelBVSolve S st F with
  | some r => r
  | none => (F, st)

/-- The equation `x[6:0] + 2*y[6:0] = 0` at 7 bits with coefficient 1 written out,
to which `BVSolve_Even` reduces `2*x + 4*y = 0`. -/
def reducedEquation : ASTNode :=
  mkEq (CreateTerm BVPLUS 7
    [CreateTerm BVMULT 7 [CreateBVConst 7 1,
       CreateTerm BVEXTRACT 7 [varX, CreateBVConst 32 6, CreateBVConst 32 0]],
     CreateTerm BVMULT 7 [CreateBVConst 7 2,
       CreateTerm BVEXTRACT 7 [varY, CreateBVConst 32 6, CreateBVConst 32 0]]])
    (CreateBVConst 7 0)

/-- The coefficient of a monomial of an even equation: the monomial itself when
it is a constant, its first factor otherwise. -/
def coeffOf (m : ASTNode) : ASTNode := if BVCONST = m.GetKind then m else m.child 0

/-- The shape `BVSolve_Even` accepts for a monomial: an even constant, or an
even constant times a variable. -/
def evenMonom (m : ASTNode) : Bool :=
  (BVCONST = m.GetKind && !BVConstIsOdd m)
  || (BVMULT = m.GetKind && BVCONST = (m.child 0).GetKind && SYMBOL = (m.child 1).GetKind
    && !BVConstIsOdd (m.child 0))

/-- The monomial is well typed at width `len`: it has that width, and so have
its coefficient, whose value fits the width, and its variable; a product has
no third factor. -/
def monomTyped (len : Nat) (m : ASTNode) : Bool :=
  m.GetValueWidth = len
  && (if m.GetKind = BVCONST then decide (m.GetBVConst < 2 ^ len)
      else m.GetChildren.length = 2 && (m.child 0).GetValueWidth = len
        && (m.child 0).GetBVConst < 2 ^ len && (m.child 1).GetValueWidth = len)

/-- The conjunct of an even system is well typed: an equality whose lhs has a
width below `2^32` and well-typed monomials of that width. -/
def evenEquationTyped (e : ASTNode) : Bool :=
  e.GetKind = EQ && (e.child 0).GetValueWidth < 2 ^ 32
  && (e.child 0).GetChildren.all (monomTyped (e.child 0).GetValueWidth)

/-- The simplifier keeps the meaning under the assignment: a simplified term
has the value of the term, a simplified formula the truth of the formula, and
a simplified equality holds when its two sides have one value. -/
def SimplifierSound (S : Simplifier) (sm : ASTNodeMap) (env : Assignment) : Prop :=
  (∀ t, eval env (S.SimplifyTerm sm t) = eval env t) ∧
  (∀ t, eval env (S.SimplifyTerm_TopLevel sm t) = eval env t) ∧
  (∀ f, holds env (S.SimplifyFormula sm f) = holds env f) ∧
  (∀ a b, holds env (S.CreateSimplifiedEQ sm a b) = decide (eval env a = eval env b))

/-- The bare-constant addends of a sum. -/
def constantAddends (c : ASTVec) : ASTVec := c.filter fun m => BVCONST = m.GetKind

/-- The equation `1 + 2*x + 1 = 0` at 8 bits: an lhs with two bare constants. -/
def twoConstants : ASTNode :=
  mkEq (CreateTerm BVPLUS 8 [CreateBVConst 8 1, times8 2 varX, CreateBVConst 8 1])
    (CreateBVConst 8 0)

/-- The equation `2*x + 1 = 0` at 8 bits. -/
def oddConstant : ASTNode :=
  mkEq (CreateTerm BVPLUS 8 [times8 2 varX, CreateBVConst 8 1]) (CreateBVConst 8 0)

/-- The node `i` is a constant of width `w` whose value is an inverse of the
value of `a` modulo `2^w`: what `MultiplicativeInverse(a)` has to return. -/
def IsInverseOf (w : Nat) (a i : ASTNode) : Prop :=
  i.GetKind = BVCONST ∧ i.GetValueWidth = w ∧
    a.GetBVConst * i.GetBVConst % 2 ^ w = 1 % 2 ^ w

instance (w : Nat) (a i : ASTNode) : Decidable (IsInverseOf w a i) :=
  inferInstanceAs (Decidable (_ ∧ _ ∧ _))

/-- A monomial `a*x` of an even constant `a` and a variable `x`. -/
def evenVarMonom (m : ASTNode) : Bool :=
  BVMULT = m.GetKind && BVCONST = (m.child 0).GetKind && SYMBOL = (m.child 1).GetKind
    && !BVConstIsOdd (m.child 0)

/-- The equation `2*x + 4*y + 255 = 0` at 8 bits: scenario 3 with its odd
constant moved to the lhs. -/
def scenario3Normalised : ASTNode :=
  mkEq (CreateTerm BVPLUS 8 ([times8 2 varX, times8 4 varY] ++ CreateBVConst 8 255 :: []))
    (CreateZeroConst 8)

/-- Scenario 4 of the specification: `x = x` at 8 bits. -/
def scenario4 : ASTNode := mkEq varX varX

/-- The conjunction of `2*x + 4*y + 255 = 0` and `x + y = 5` at 8 bits. -/
def contradictionAndSum : ASTNode := CreateNode AND [scenario3Normalised, scenario1]

/-- The concatenation `a @ b` of two 4-bit variables. -/
def concatAB : ASTNode := CreateTerm BVCONCAT 8 [bvVar 4 110, bvVar 4 111]

/-- The equation `5 = a @ b` at 8 bits: the constant on the left, and on the
right a term of a kind that `BVSolve_Odd` has no case for. -/
def eq5isConcat : ASTNode := mkEq (CreateBVConst 8 5) concatAB

/-- The equation `a @ b = 5`, which `BVSolve_Odd` makes of `5 = a @ b`. -/
def eqConcatIs5 : ASTNode := mkEq concatAB (CreateBVConst 8 5)

/-- The conjunction of `5 = a @ b` and the constant true. -/
def eq5isConcatAndTrue : ASTNode := CreateNode AND [eq5isConcat, ASTTrue]

/-- The extract `v[k-1:0]` of the low `k` bits of `v`. -/
def lowBits (k : Nat) (v : ASTNode) : ASTNode :=
  CreateTerm BVEXTRACT k [v, CreateBVConst 32 (k - 1), CreateZeroConst 32]

/-- The equation `x[3:0] = 9`, on the low four bits of the 8-bit variable `x`. -/
def extractEquation : ASTNode := mkEq (lowBits 4 varX) (CreateBVConst 4 9)

/-- The equation `x[7:0] = 9`, on all the bits of the 8-bit variable `x`. -/
def fullExtractEquation : ASTNode := mkEq (lowBits 8 varX) (CreateBVConst 8 9)

/-- The state `case BVEXTRACT` works on after its two occurs checks and
`DoNotSolve_TheseVars.insert`. -/
def afterExtractChecks (st : BVSolver) (v t : ASTNode) : BVSolver :=
  (VarSeenInTerm (VarSeenInTerm st v t).2 v t).2.forbid v

/-- The equation `3*x[3:0] + x[7:4] = 1` at 4 bits, in which the 8-bit variable
`x` occurs twice in the lhs. -/
def extractTwice : ASTNode :=
  mkEq (CreateTerm BVPLUS 4
    [CreateTerm BVMULT 4 [CreateBVConst 4 3, lowBits 4 varX],
     CreateTerm BVEXTRACT 4 [varX, CreateBVConst 32 7, CreateBVConst 32 4]])
    (CreateBVConst 4 1)

/-- The equation `x + y = z` at 8 bits, the rhs a third variable. -/
def sumIsVariable : ASTNode := mkEq (CreateTerm BVPLUS 8 [varX, varY]) (bvVar 8 102)

/-- The extract `x[7:4]` of the high four bits of the 8-bit variable `x`. -/
def highBitsX : ASTNode := CreateTerm BVEXTRACT 4 [varX, CreateBVConst 32 7, CreateBVConst 32 4]

/-- The equation `3*x[7:4] = 9` at 4 bits, over an extract that is not
zero-based. -/
def highExtractEquation : ASTNode :=
  mkEq (CreateTerm BVMULT 4 [CreateBVConst 4 3, highBitsX]) (CreateBVConst 4 9)

/-- The assignment that gives `x` the value 3 and every other symbol 0. -/
def assignXis3 : Assignment := fun n => if n = varX then 3 else 0

mutual
/-- The node contains a bit-extract: it is one, or a child of it contains one.
The check `containsExtract` without the set `visited`. -/
def hasExtract : ASTNode → Bool
  | ASTNode.mk k _ _ c => decide (BVEXTRACT = k) || hasExtractAny c
/-- Some node of the sequence contains a bit-extract. -/
def hasExtractAny : ASTVec → Bool
  | [] => false
  | t :: ts => hasExtract t || hasExtractAny ts
end

/-- The set `visited` holds only nodes without a bit-extract. -/
def VisitedValid (visited : ASTNodeSet) : Prop :=
  ∀ n, visited n = true → hasExtract n = false

mutual
/-- The occurs check in the words of the specification: `var` is `term` itself
or a transitive child of `term`. -/
def isSubterm (var : ASTNode) : ASTNode → Bool
  | ASTNode.mk k w v c => decide (var = ASTNode.mk k w v c) || isSubtermAny var c
/-- The node `var` is one of the terms of the sequence or a transitive child of
one. -/
def isSubtermAny (var : ASTNode) : ASTVec → Bool
  | [] => false
  | t :: ts => isSubterm var t || isSubtermAny var ts
end

mutual
/-- The constants of the term are leaves: a node for which `isConstant()`
holds has no children, as in every node the node manager builds. -/
def constantsAreLeaves : ASTNode → Bool
  | ASTNode.mk k w v c =>
    (!(ASTNode.mk k w v c).isConstant || c.isEmpty) && constantsAreLeavesAll c
/-- The constants of the terms of the sequence are leaves. -/
def constantsAreLeavesAll : ASTVec → Bool
  | [] => true
  | t :: ts => constantsAreLeaves t && constantsAreLeavesAll ts
end

/-- The occurrence memos that calls of `VarSeenInTerm` make of the empty one. -/
inductive MemoReachable : ASTNodeMap → Prop where
  /-- The memo of a new solver. -/
  | empty : MemoReachable ASTNodeMap.empty
  /-- The memo after one more call `VarSeenInTerm(var, term)`. -/
  | call (var term : ASTNode) (m : ASTNodeMap) :
    MemoReachable m → MemoReachable (VarSeenInTermMemo var term m).2

/-- The body of the `while` loop of `SplitEven_into_Oddnum_PowerOf2_OLD` on the
variables `div_by_2`, `mod_by_2` and `number_shifts`. -/
def SplitEven_OLD_body (len : Nat) (two : ASTNode) (s : ASTNode × ASTNode × Nat) :
    Option (ASTNode × ASTNode × Nat) :=
  (BVConstEvaluator (CreateTerm BVDIV len [s.1, two])).bind fun div_by_2 =>
    (BVConstEvaluator (CreateTerm BVMOD len [div_by_2, two])).bind fun mod_by_2 =>
      some (div_by_2, mod_by_2, s.2.2 + 1)

/-- The loop `while (mod_by_2 == zero)` of `SplitEven_into_Oddnum_PowerOf2_OLD`,
run for at most `fuel` iterations: `div_by_2` and `number_shifts` when the loop
is left; no result when it is not left within `fuel` iterations or a constant
evaluation has none. -/
def SplitEven_OLD_loop (len : Nat) (zero two : ASTNode) :
    Nat → ASTNode × ASTNode × Nat → Option (ASTNode × Nat)
  | 0, _ => none
  | fuel + 1, s =>
    if s.2.1 = zero then (SplitEven_OLD_body len two s).bind (SplitEven_OLD_loop len zero two fuel)
    else some (s.1, s.2.2)

/-- `SplitEven_into_Oddnum_PowerOf2_OLD(in, number_shifts)` with its loop run
for at most `fuel` iterations: the node returned and `number_shifts` after the
call.  There is no result when the input is refused with `FatalError`, and
when the loop has none. -/
def SplitEven_into_Oddnum_PowerOf2_OLD (fuel : Nat) (input : ASTNode) (number_shifts : Nat) :
    Option (ASTNode × Nat) :=
  if BVCONST ≠ input.GetKind || BVConstIsOdd input then none
  else
    let len := input.GetValueWidth
    let zero := CreateZeroConst len
    let two := CreateTwoConst len
    let div_by_2 := input
    (BVConstEvaluator (CreateTerm BVMOD len [div_by_2, two])).bind fun mod_by_2 =>
      SplitEven_OLD_loop len zero two fuel (div_by_2, mod_by_2, number_shifts)

/-- The shape the first pass of `BVSolve_Even` asks of an equation: the lhs a
sum, the rhs the zero constant, every addend an even constant or an even
constant times a variable. -/
def evenEquationAccepted (e : ASTNode) : Bool :=
  decide (BVPLUS = (e.child 0).GetKind)
    && decide (CreateZeroConst (e.child 1).GetValueWidth = e.child 1)
    && (e.child 0).GetChildren.all evenMonom

/-- No coefficient and no bare constant of the lhs of the equation is zero. -/
def coefficientsNonZero (e : ASTNode) : Bool :=
  (e.child 0).GetChildren.all fun m => decide ((coeffOf m).GetBVConst ≠ 0)

/-- The even system of `2*x + 4*y = 0` and `4*z + 12*u = 0` at 8 bits. -/
def evenSystem : ASTVec :=
  [evenEquation,
   mkEq (CreateTerm BVPLUS 8 [times8 4 (bvVar 8 102), times8 12 (bvVar 8 103)])
     (CreateBVConst 8 0)]

/-- The relation of a monomial of width `len` to what the second pass makes of
it: the same kind, and for coefficient the constant of width `len - k` whose
value is the old coefficient shifted right by `k` bits. -/
def ReducedMonom (len k : Nat) (m m2 : ASTNode) : Prop :=
  m2.GetKind = m.GetKind ∧ (coeffOf m2).GetKind = BVCONST ∧
  (coeffOf m2).GetValueWidth = len - k ∧
  (coeffOf m2).GetBVConst = (coeffOf m).GetBVConst >>> k

/-- The vector `lhs_out` the second pass of `BVSolve_Even` builds for the
equation `eq`, before `CreateSimplifiedEQ` is called on its sum. -/
def reducedLhs (S : Simplifier) (sm : ASTNodeMap) (power_of_2 : Nat) (eq : ASTNode) :
    Option ASTVec :=
  (BVSolve_Even_two (eq.child 0).GetValueWidth (usub power_of_2 1)
      (CreateTwoConst (eq.child 0).GetValueWidth)).bind fun two =>
    BVSolve_Even_monoms S sm (eq.child 0).GetValueWidth
      (usub (eq.child 0).GetValueWidth power_of_2) two
      (CreateBVConst 32 (usub (usub (eq.child 0).GetValueWidth power_of_2) 1))
      (CreateZeroConst 32) (eq.child 0).GetChildren

/-- A coefficient is odd exactly when the coefficient it comes from has its
lowest set bit at position `k`. -/
def OddIffLowest (k : Nat) (m m2 : ASTNode) : Prop :=
  BVConstIsOdd (coeffOf m2) = true ↔ SplitEven_into_Oddnum_PowerOf2 (coeffOf m) = k

/-- Follows the spec's words for tier 2 of the selector: the monomial is an odd
constant times a variable, or an odd constant times a zero-based low-bit
extract of a variable, and the variable is not forbidden, occurs exactly once
in the lhs and does not occur in the rhs. -/
def tier2Eligible (st : BVSolver) (lhs rhs monom : ASTNode) : Bool :=
  BVMULT = monom.GetKind && BVCONST = (monom.child 0).GetKind && BVConstIsOdd (monom.child 0)
    && ((SYMBOL = (monom.child 1).GetKind
        && !DoNotSolveThis st (monom.child 1)
        && CountOfSymbols.single lhs (monom.child 1)
        && !occursIn (monom.child 1) rhs)
      || (BVEXTRACT = (monom.child 1).GetKind && SYMBOL = ((monom.child 1).child 0).GetKind
        && BVCONST = ((monom.child 1).child 1).GetKind
        && CreateZeroConst 32 = (monom.child 1).child 2
        && !DoNotSolveThis st ((monom.child 1).child 0)
        && CountOfSymbols.single lhs ((monom.child 1).child 0)
        && !occursIn ((monom.child 1).child 0) rhs))

/-- The 4-bit variable `z`. -/
def varZ4 : ASTNode := bvVar 4 102

/-- The equation `3*x[3:0] + x[7:4] + 5*z = 1`: a sum of three 4-bit addends,
`x` an 8-bit variable and `z` a 4-bit one. -/
def extractThenOdd : ASTNode :=
  mkEq (CreateTerm BVPLUS 4
    [CreateTerm BVMULT 4 [CreateBVConst 4 3, lowBits 4 varX],
     CreateTerm BVEXTRACT 4 [varX, CreateBVConst 32 7, CreateBVConst 32 4],
     CreateTerm BVMULT 4 [CreateBVConst 4 5, varZ4]])
    (CreateBVConst 4 1)

mutual
/-- Modelled from the spec: the substitutions of the map made in a term, a
bound node replaced by the term it is bound to and the other nodes rebuilt
from their children (4.5 step 5, re-simplify against substitutions
accumulated so far). -/
def applySolverMap (sm : ASTNodeMap) : ASTNode → ASTNode
  | ASTNode.mk k w v c =>
    match sm (ASTNode.mk k w v c) with
    | some t => t
    | none => ASTNode.mk k w v (applySolverMapAll sm c)
/-- The substitutions of the map made in the terms of a sequence. -/
def applySolverMapAll (sm : ASTNodeMap) : ASTVec → ASTVec
  | [] => []
  | t :: ts => applySolverMap sm t :: applySolverMapAll sm ts
end

/-- `SplitEven_into_Oddnum_PowerOf2(in, number_shifts)` as it is compiled
without `NDEBUG`: the value of `number_shifts` when the two assertions hold and
the block `#ifndef NDEBUG` finds that the old routine, its loop run for at most
`fuel` iterations, counts the same shifts; no result when an assertion fails
or the old routine has no result. -/
def SplitEven_into_Oddnum_PowerOf2_checked (fuel : Nat) (input : ASTNode) : Option Nat :=
  if !(BVCONST = input.GetKind && !BVConstIsOdd input) then none
  else
    let number_shifts := SplitEven_into_Oddnum_PowerOf2 input
    if !(number_shifts > 0) then none
    else
      (SplitEven_into_Oddnum_PowerOf2_OLD fuel input 0).bind fun r =>
        let t_number_shifts := r.2
        if number_shifts = t_number_shifts then some number_shifts else none

/-- Follows the spec's words: the addend of the reduced equation that stands
for a monomial of the original one, `(a / 2^k) * (x mod 2^(w-k))` for the
monomial `a*x` and `c / 2^k` for the bare constant `c`. -/
def reducedAddend (env : Assignment) (w k : Nat) (m : ASTNode) : Nat :=
  if BVCONST = m.GetKind then m.GetBVConst / 2 ^ k
  else (m.child 0).GetBVConst / 2 ^ k * (eval env (m.child 1) % 2 ^ (w - k))

/-- Follows the spec's words: the value of the lhs of the reduced equation,
`sum_i (a_i / 2^k) * (x_i mod 2^(w-k)) + c / 2^k` modulo `2^(w-k)`, for the
equation `e` of width `w`. -/
def reducedSum (env : Assignment) (k : Nat) (e : ASTNode) : Nat :=
  ((e.child 0).GetChildren.map (reducedAddend env (e.child 0).GetValueWidth k)).sum
    % 2 ^ ((e.child 0).GetValueWidth - k)

/-- Follows the spec's words: the reduced equation
`sum_i (a_i / 2^k) * (x_i mod 2^(w-k)) + c / 2^k = 0` holds modulo `2^(w-k)`. -/
def reducedEquationHolds (env : Assignment) (k : Nat) (e : ASTNode) : Bool :=
  decide (reducedSum env k e = 0)

/-- The equation `f` is the one the second pass of `BVSolve_Even` builds from
the equation `e` with the exponent `k`: `CreateSimplifiedEQ` of the sum of
`lhs_out` and the zero constant, at the width of `e` less `k`; every monomial
of `lhs_out` has the kind of the one it comes from and its coefficient shifted
right by `k` bits; and under an assignment for which the simplifier keeps
meanings the sum has the value of the lhs of the reduced equation of the
spec, so that `f` holds exactly when that equation does. -/
def ReducedEquation (S : Simplifier) (sm : ASTNodeMap) (k : Nat) (e f : ASTNode) : Prop :=
  ∃ lhs_out, reducedLhs S sm k e = some lhs_out ∧
    f = S.CreateSimplifiedEQ sm
      (CreateTerm BVPLUS (usub (e.child 0).GetValueWidth k) lhs_out)
      (CreateZeroConst (usub (e.child 0).GetValueWidth k)) ∧
    (CreateTerm BVPLUS (usub (e.child 0).GetValueWidth k) lhs_out).GetValueWidth
      = (e.child 0).GetValueWidth - k ∧
    List.Forall₂ (ReducedMonom (e.child 0).GetValueWidth k) (e.child 0).GetChildren lhs_out ∧
    ∀ env, SimplifierSound S sm env →
      eval env (CreateTerm BVPLUS (usub (e.child 0).GetValueWidth k) lhs_out)
        = reducedSum env k e ∧
      (holds env f = true ↔ reducedEquationHolds env k e = true)

/-- The even system `2*x + 4*y = 0` and `4*z + 12*u = 0` at 8 bits as one
formula. -/
def evenConjunction : ASTNode := CreateNode AND evenSystem

/-- The equation `y = y + 1` at 8 bits. -/
def eqYisYplus1 : ASTNode := mkEq varY (CreateTerm BVPLUS 8 [varY, CreateBVConst 8 1])

/-- The conjunction of `x = x + 1` and `y = y + 1`. -/
def twoDeclined : ASTNode := CreateNode AND [eqXisXplus1, eqYisYplus1]

/-- A new solver whose memo maps `AND(true, true)` to false. -/
def solverWithMemo : BVSolver :=
  { BVSolver.init with
    FormulasAlreadySolvedMap := ASTNodeMap.empty.set (CreateNode AND [ASTTrue, ASTTrue]) ASTFalse }

/-! # Verification

## The occurs check and its memo -/

theorem occursIn_self (v : ASTNode) : occursIn v v = true := by
  cases v with
  | mk k w x c => simp [occursIn]

theorem occursInAny_iff (v : ASTNode) (c : ASTVec) :
    occursInAny v c = true ↔ ∃ t ∈ c, occursIn v t = true := by
  induction c with
  | nil => simp [occursInAny]
  | cons t ts ih => simp [occursInAny, ih]

theorem occursInAny_false_iff (v : ASTNode) (c : ASTVec) :
    occursInAny v c = false ↔ ∀ t ∈ c, occursIn v t = false := by
  induction c with
  | nil => simp [occursInAny]
  | cons t ts ih => simp [occursInAny, ih]

theorem occursIn_eq (v t : ASTNode) :
    occursIn v t = (decide (v = t) || (!t.isConstant && occursInAny v t.GetChildren)) := by
  cases t with
  | mk k w x c =>
    simp only [occursIn, ASTNode.GetChildren]
    by_cases h : v = ASTNode.mk k w x c
    · simp [h]
    · by_cases h2 : (ASTNode.mk k w x c).isConstant = true <;> simp [h, h2]

mutual
theorem VarSeenInTermMemo_spec (var : ASTNode) :
    ∀ (t : ASTNode) (seen : ASTNodeMap), CacheValid seen →
      (VarSeenInTermMemo var t seen).1 = occursIn var t ∧
      CacheValid (VarSeenInTermMemo var t seen).2
  | ASTNode.mk k w v c, seen, h => by
    have ih := VarSeenInTermsMemo_spec var c
    rw [VarSeenInTermMemo, occursIn]
    by_cases h1 : seen (ASTNode.mk k w v c) = some var
    · have := h _ _ h1
      rw [occursIn] at this
      simp only [h1, if_true]
      exact ⟨this.symm, h⟩
    · simp only [h1, if_false]
      by_cases h2 : var = ASTNode.mk k w v c
      · simp only [h2, if_true]; exact ⟨trivial, h⟩
      · simp only [h2, if_false]
        by_cases h3 : (ASTNode.mk k w v c).isConstant = true
        · simp only [h3, if_true]; exact ⟨trivial, h⟩
        · simp only [h3]
          obtain ⟨e1, e2⟩ := ih seen h
          cases hr : VarSeenInTermsMemo var c seen with
          | mk b seen1 =>
            rw [hr] at e1 e2
            cases b with
            | true => simp at e1 ⊢; exact ⟨e1, e2⟩
            | false =>
              simp at e1 ⊢
              refine ⟨e1, ?_⟩
              intro t2 v2 hs
              simp only [ASTNodeMap.set] at hs
              split at hs
              · rename_i heq
                cases hs
                rw [heq, occursIn]
                simp [h2, h3, ← e1]
              · exact e2 _ _ hs
theorem VarSeenInTermsMemo_spec (var : ASTNode) :
    ∀ (c : ASTVec) (seen : ASTNodeMap), CacheValid seen →
      (VarSeenInTermsMemo var c seen).1 = occursInAny var c ∧
      CacheValid (VarSeenInTermsMemo var c seen).2
  | [], seen, h => by
    simp [VarSeenInTermsMemo, occursInAny]; exact h
  | t :: ts, seen, h => by
    have ih1 := VarSeenInTermMemo_spec var t seen h
    rw [VarSeenInTermsMemo, occursInAny]
    cases hr : VarSeenInTermMemo var t seen with
    | mk b seen1 =>
      rw [hr] at ih1
      cases b with
      | true => simp at ih1 ⊢; exact ⟨Or.inl ih1.1, ih1.2⟩
      | false =>
        simp at ih1 ⊢
        have ih2 := VarSeenInTermsMemo_spec var ts seen1 ih1.2
        rw [ih1.1]
        simpa using ih2
end

@[simp] theorem withSeen_withSeen (st : BVSolver) (a b : ASTNodeMap) :
    (st.withSeen a).withSeen b = st.withSeen b := rfl
@[simp] theorem withSeen_seen (st : BVSolver) (a : ASTNodeMap) :
    (st.withSeen a).TermsAlreadySeenMap = a := rfl
@[simp] theorem withSeen_self (st : BVSolver) : st.withSeen st.TermsAlreadySeenMap = st := rfl
@[simp] theorem DoNotSolveThis_withSeen (st : BVSolver) (a : ASTNodeMap) (v : ASTNode) :
    DoNotSolveThis (st.withSeen a) v = DoNotSolveThis st v := rfl

theorem VarSeenInTerm_spec (st : BVSolver) (var term : ASTNode)
    (h : CacheValid st.TermsAlreadySeenMap) :
    ∃ m, CacheValid m ∧ VarSeenInTerm st var term = (occursIn var term, st.withSeen m) := by
  obtain ⟨e1, e2⟩ := VarSeenInTermMemo_spec var term _ h
  exact ⟨_, e2, by simp [VarSeenInTerm, e1, BVSolver.withSeen]⟩

theorem andNotSeen_spec (g : Bool) (st : BVSolver) (var term : ASTNode)
    (h : CacheValid st.TermsAlreadySeenMap) :
    ∃ m, CacheValid m ∧ andNotSeen g st var term = (g && !occursIn var term, st.withSeen m) := by
  cases g with
  | false => exact ⟨_, h, by simp [andNotSeen]⟩
  | true =>
    obtain ⟨m, hm, e⟩ := VarSeenInTerm_spec st var term h
    exact ⟨m, hm, by simp [andNotSeen, e]⟩

theorem ChooseMonom_symbols_eq (lhs rhs : ASTNode) :
    ∀ (c : ASTVec) (r : MonomChoice), CacheValid r.st.TermsAlreadySeenMap →
      ∃ m, CacheValid m ∧
        ChooseMonom_symbols lhs rhs c r =
          { st := r.st.withSeen m
            o := (pickFirst (tier1Eligible r.st lhs rhs) c (r.o, r.outmonom, r.chosen)).1
            outmonom := (pickFirst (tier1Eligible r.st lhs rhs) c (r.o, r.outmonom, r.chosen)).2.1
            chosen := (pickFirst (tier1Eligible r.st lhs rhs) c (r.o, r.outmonom, r.chosen)).2.2 }
  | [], r, h => ⟨_, h, by simp [ChooseMonom_symbols, pickFirst]⟩
  | monom :: rest, r, h => by
    obtain ⟨m1, hm1, e1⟩ := andNotSeen_spec
      (SYMBOL = monom.GetKind && !r.chosen && !DoNotSolveThis r.st monom
        && CountOfSymbols.single lhs monom) r.st monom rhs h
    obtain ⟨m2, hm2, e2⟩ := andNotSeen_spec
      (BVUMINUS = monom.GetKind && SYMBOL = (monom.child 0).GetKind && !r.chosen
          && !DoNotSolveThis (r.st.withSeen m1) (monom.child 0)
          && CountOfSymbols.single lhs (monom.child 0)) (r.st.withSeen m1) (monom.child 0) rhs hm1
    rw [ChooseMonom_symbols]
    simp only [e1, e2]
    by_cases c1 : (SYMBOL = monom.GetKind && !r.chosen && !DoNotSolveThis r.st monom
        && CountOfSymbols.single lhs monom && !occursIn monom rhs) = true
    · rw [if_pos c1]
      obtain ⟨m3, hm3, e3⟩ := ChooseMonom_symbols_eq lhs rhs rest
        { st := r.st.withSeen m1, o := r.o, outmonom := monom, chosen := true } hm1
      refine ⟨m3, hm3, ?_⟩
      rw [e3]
      have hp : (!r.chosen && tier1Eligible r.st lhs rhs monom) = true := by
        simp only [tier1Eligible]
        simp only [Bool.and_eq_true, Bool.not_eq_true', decide_eq_true_eq, Bool.or_eq_true] at c1 ⊢
        tauto
      simp only [pickFirst, hp, if_true, withSeen_withSeen]
      rfl
    · rw [if_neg c1]
      by_cases c2 : (BVUMINUS = monom.GetKind && SYMBOL = (monom.child 0).GetKind && !r.chosen
          && !DoNotSolveThis (r.st.withSeen m1) (monom.child 0)
          && CountOfSymbols.single lhs (monom.child 0) && !occursIn (monom.child 0) rhs) = true
      · rw [if_pos c2]
        obtain ⟨m3, hm3, e3⟩ := ChooseMonom_symbols_eq lhs rhs rest
          { st := (r.st.withSeen m1).withSeen m2, o := r.o, outmonom := monom, chosen := true } hm2
        refine ⟨m3, hm3, ?_⟩
        rw [e3]
        have hp : (!r.chosen && tier1Eligible r.st lhs rhs monom) = true := by
          simp only [tier1Eligible]
          simp only [Bool.and_eq_true, Bool.not_eq_true', decide_eq_true_eq, Bool.or_eq_true,
            DoNotSolveThis_withSeen] at c2 ⊢
          tauto
        simp only [pickFirst, hp, if_true, withSeen_withSeen]
        rfl
      · rw [if_neg c2]
        obtain ⟨m3, hm3, e3⟩ := ChooseMonom_symbols_eq lhs rhs rest
          { st := (r.st.withSeen m1).withSeen m2, o := r.o ++ [monom], outmonom := r.outmonom,
            chosen := r.chosen } hm2
        refine ⟨m3, hm3, ?_⟩
        rw [e3]
        have hp : ¬ (!r.chosen && tier1Eligible r.st lhs rhs monom) = true := by
          simp only [tier1Eligible]
          simp only [Bool.and_eq_true, Bool.not_eq_true', decide_eq_true_eq, Bool.or_eq_true,
            DoNotSolveThis_withSeen] at c1 c2 ⊢
          tauto
        simp only [pickFirst, hp, if_false, withSeen_withSeen]
        rfl

theorem ChooseMonom_odd_eq (lhs rhs : ASTNode) :
    ∀ (c : ASTVec) (r : MonomChoice), CacheValid r.st.TermsAlreadySeenMap →
      ∃ m, CacheValid m ∧
        ChooseMonom_odd lhs rhs c r =
          { st := r.st.withSeen m
            o := (pickFirst (tier2Accepted r.st lhs rhs) c (r.o, r.outmonom, r.chosen)).1
            outmonom := (pickFirst (tier2Accepted r.st lhs rhs) c (r.o, r.outmonom, r.chosen)).2.1
            chosen := (pickFirst (tier2Accepted r.st lhs rhs) c (r.o, r.outmonom, r.chosen)).2.2 }
  | [], r, h => ⟨_, h, by simp [ChooseMonom_odd, pickFirst]⟩
  | monom :: rest, r, h => by
    rw [ChooseMonom_odd]
    generalize hvar : (if BVMULT = monom.GetKind then monom.child 1 else ASTUndefined) = var
    generalize hg : (decide (BVMULT = monom.GetKind) && decide (BVCONST = (monom.child 0).GetKind)
      && BVConstIsOdd (monom.child 0) && !r.chosen && !DoNotSolveThis r.st var) = g
    generalize ha : (decide (SYMBOL = var.GetKind) && CountOfSymbols.single lhs var) = a
    obtain ⟨m1, hm1, e1⟩ := andNotSeen_spec
      (g && !a && BVEXTRACT = var.GetKind && SYMBOL = (var.child 0).GetKind
        && BVCONST = (var.child 1).GetKind && CreateZeroConst 32 = var.child 2
        && !DoNotSolveThis r.st (var.child 0)) r.st (var.child 0) rhs h
    simp only [e1]
    obtain ⟨m2, hm2, e2⟩ := andNotSeen_spec
      (g && (a || (g && !a && BVEXTRACT = var.GetKind && SYMBOL = (var.child 0).GetKind
        && BVCONST = (var.child 1).GetKind && CreateZeroConst 32 = var.child 2
        && !DoNotSolveThis r.st (var.child 0) && !occursIn (var.child 0) rhs)))
      (r.st.withSeen m1) var rhs hm1
    simp only [e2]
    have key : (g && (a || (g && !a && BVEXTRACT = var.GetKind && SYMBOL = (var.child 0).GetKind
        && BVCONST = (var.child 1).GetKind && CreateZeroConst 32 = var.child 2
        && !DoNotSolveThis r.st (var.child 0) && !occursIn (var.child 0) rhs))
        && !occursIn var rhs) = (!r.chosen && tier2Accepted r.st lhs rhs monom) := by
      subst hg ha
      by_cases hk : BVMULT = monom.GetKind
      · simp only [hk, if_true] at hvar
        subst hvar
        simp only [tier2Accepted, hk, decide_True, Bool.true_and]
        generalize decide (BVCONST = (monom.child 0).GetKind) = b1
        generalize BVConstIsOdd (monom.child 0) = b2
        generalize r.chosen = b3
        generalize DoNotSolveThis r.st (monom.child 1) = b4
        generalize decide (SYMBOL = (monom.child 1).GetKind) = b5
        generalize CountOfSymbols.single lhs (monom.child 1) = b6
        generalize decide (BVEXTRACT = (monom.child 1).GetKind) = b7
        generalize (decide (SYMBOL = ((monom.child 1).child 0).GetKind)
          && decide (BVCONST = ((monom.child 1).child 1).GetKind)) = b8
        generalize decide (CreateZeroConst 32 = (monom.child 1).child 2) = b9
        generalize DoNotSolveThis r.st ((monom.child 1).child 0) = b10
        generalize occursIn ((monom.child 1).child 0) rhs = b11
        generalize occursIn (monom.child 1) rhs = b12
        cases b1 <;> cases b2 <;> cases b3 <;> cases b4 <;> simp <;>
          cases b5 <;> cases b6 <;> simp
      · simp [tier2Accepted, hk]
    rw [key]
    by_cases hp : (!r.chosen && tier2Accepted r.st lhs rhs monom) = true
    · rw [if_pos hp]
      obtain ⟨m3, hm3, e3⟩ := ChooseMonom_odd_eq lhs rhs rest
        { st := (r.st.withSeen m1).withSeen m2, o := r.o, outmonom := monom, chosen := true } hm2
      refine ⟨m3, hm3, ?_⟩
      rw [e3]
      simp only [pickFirst, hp, if_true, withSeen_withSeen]
      rfl
    · rw [if_neg hp]
      obtain ⟨m3, hm3, e3⟩ := ChooseMonom_odd_eq lhs rhs rest
        { st := (r.st.withSeen m1).withSeen m2, o := r.o ++ [monom], outmonom := r.outmonom,
          chosen := r.chosen } hm2
      refine ⟨m3, hm3, ?_⟩
      rw [e3]
      simp only [pickFirst, hp, if_false, withSeen_withSeen]
      rfl

theorem pickFirst_chosen (p : ASTNode → Bool) :
    ∀ (c o : ASTVec) (out : ASTNode), pickFirst p c (o, out, true) = (o ++ c, out, true)
  | [], o, out => by simp [pickFirst]
  | m :: rest, o, out => by
    simp [pickFirst, pickFirst_chosen p rest]

theorem pickFirst_none (p : ASTNode → Bool) :
    ∀ (c o : ASTVec) (out : ASTNode), (∀ x ∈ c, p x = false) →
      pickFirst p c (o, out, false) = (o ++ c, out, false)
  | [], o, out, _ => by simp [pickFirst]
  | m :: rest, o, out, h => by
    have h1 : p m = false := h m (by simp)
    have h2 : ∀ x ∈ rest, p x = false := fun x hx => h x (by simp [hx])
    simp [pickFirst, h1, pickFirst_none p rest _ _ h2]

theorem pickFirst_split (p : ASTNode → Bool) :
    ∀ (pre post o : ASTVec) (m out : ASTNode), (∀ x ∈ pre, p x = false) → p m = true →
      pickFirst p (pre ++ m :: post) (o, out, false) = (o ++ pre ++ post, m, true)
  | [], post, o, m, out, _, hm => by
    simp [pickFirst, hm, pickFirst_chosen]
  | a :: pre, post, o, m, out, h, hm => by
    have h1 : p a = false := h a (by simp)
    have h2 : ∀ x ∈ pre, p x = false := fun x hx => h x (by simp [hx])
    simp [pickFirst, h1, pickFirst_split p pre post _ m out h2 hm]

theorem first_accepted (p : ASTNode → Bool) :
    ∀ c : ASTVec, (∀ x ∈ c, p x = false) ∨
      ∃ pre m post, c = pre ++ m :: post ∧ (∀ x ∈ pre, p x = false) ∧ p m = true
  | [] => Or.inl (by simp)
  | a :: rest => by
    by_cases ha : p a = true
    · exact Or.inr ⟨[], a, rest, by simp, by simp, ha⟩
    · rcases first_accepted p rest with h | ⟨pre, m, post, e, h1, h2⟩
      · left
        intro x hx
        rcases List.mem_cons.1 hx with rfl | hx
        · simpa using ha
        · exact h x hx
      · right
        refine ⟨a :: pre, m, post, by simp [e], ?_, h2⟩
        intro x hx
        rcases List.mem_cons.1 hx with rfl | hx
        · simpa using ha
        · exact h1 x hx

/-- What the two loops of `ChooseMonom` compute, on a valid occurrence memo:
the leftmost addend the first loop accepts, failing that the leftmost addend
the second loop accepts, and in `o` the other addends in their order. -/
theorem ChooseMonom_loops_spec (st : BVSolver) (eq : ASTNode)
    (h : CacheValid st.TermsAlreadySeenMap) :
    ∃ m, CacheValid m ∧ (ChooseMonom_loops st eq).st = st.withSeen m ∧
      ((∃ pre x post, (eq.child 0).GetChildren = pre ++ x :: post ∧
          (∀ y ∈ pre, tier1Eligible st (eq.child 0) (eq.child 1) y = false) ∧
          tier1Eligible st (eq.child 0) (eq.child 1) x = true ∧
          (ChooseMonom_loops st eq).o = pre ++ post ∧
          (ChooseMonom_loops st eq).outmonom = x)
      ∨ ((∀ y ∈ (eq.child 0).GetChildren,
            tier1Eligible st (eq.child 0) (eq.child 1) y = false) ∧
          ∃ pre x post, (eq.child 0).GetChildren = pre ++ x :: post ∧
          (∀ y ∈ pre, tier2Accepted st (eq.child 0) (eq.child 1) y = false) ∧
          tier2Accepted st (eq.child 0) (eq.child 1) x = true ∧
          (ChooseMonom_loops st eq).o = pre ++ post ∧
          (ChooseMonom_loops st eq).outmonom = x)
      ∨ ((∀ y ∈ (eq.child 0).GetChildren,
            tier1Eligible st (eq.child 0) (eq.child 1) y = false) ∧
          (∀ y ∈ (eq.child 0).GetChildren,
            tier2Accepted st (eq.child 0) (eq.child 1) y = false) ∧
          (ChooseMonom_loops st eq).o = (eq.child 0).GetChildren ∧
          (ChooseMonom_loops st eq).outmonom = ASTUndefined)) := by
  obtain ⟨m1, hm1, e1⟩ := ChooseMonom_symbols_eq (eq.child 0) (eq.child 1)
    (eq.child 0).GetChildren { st := st, o := [], outmonom := ASTUndefined, chosen := false } h
  simp only [ChooseMonom_loops]
  rw [e1]
  rcases first_accepted (tier1Eligible st (eq.child 0) (eq.child 1)) (eq.child 0).GetChildren
    with hn | ⟨pre, x, post, hc, hpre, hx⟩
  · rw [pickFirst_none _ _ _ _ hn]
    simp only [Bool.not_false, if_true, List.nil_append]
    obtain ⟨m2, hm2, e2⟩ := ChooseMonom_odd_eq (eq.child 0) (eq.child 1)
      (eq.child 0).GetChildren
      { st := st.withSeen m1, o := [], outmonom := ASTUndefined, chosen := false } hm1
    rw [e2]
    refine ⟨m2, hm2, rfl, Or.inr ?_⟩
    have ht : tier2Accepted (st.withSeen m1) (eq.child 0) (eq.child 1)
        = tier2Accepted st (eq.child 0) (eq.child 1) := rfl
    simp only [ht]
    rcases first_accepted (tier2Accepted st (eq.child 0) (eq.child 1)) (eq.child 0).GetChildren
      with hn2 | ⟨pre, x, post, hc, hpre, hx⟩
    · rw [pickFirst_none _ _ _ _ hn2]
      exact Or.inr ⟨hn, hn2, by simp, rfl⟩
    · refine Or.inl ⟨hn, pre, x, post, hc, hpre, hx, ?_, ?_⟩
      · rw [hc, pickFirst_split _ _ _ _ _ _ hpre hx]; simp
      · rw [hc, pickFirst_split _ _ _ _ _ _ hpre hx]
  · rw [hc, pickFirst_split _ _ _ _ _ _ hpre hx]
    simp only [Bool.not_true, List.nil_append]
    exact ⟨m1, hm1, rfl, Or.inl ⟨pre, x, post, rfl, hpre, hx, rfl, rfl⟩⟩

/-! ### What each operation leaves unchanged -/

@[simp] theorem VarSeenInTerm_SolverMap (st : BVSolver) (v t : ASTNode) :
    (VarSeenInTerm st v t).2.SolverMap = st.SolverMap := rfl
@[simp] theorem VarSeenInTerm_forbidden (st : BVSolver) (v t : ASTNode) :
    (VarSeenInTerm st v t).2.DoNotSolve_TheseVars = st.DoNotSolve_TheseVars := rfl
@[simp] theorem VarSeenInTerm_memo (st : BVSolver) (v t : ASTNode) :
    (VarSeenInTerm st v t).2.FormulasAlreadySolvedMap = st.FormulasAlreadySolvedMap := rfl
@[simp] theorem VarSeenInTerm_count (st : BVSolver) (v t : ASTNode) :
    (VarSeenInTerm st v t).2.symbol_count = st.symbol_count := rfl

theorem andNotSeen_withSeen (g : Bool) (st : BVSolver) (v t : ASTNode) :
    (andNotSeen g st v t).2 = st.withSeen (andNotSeen g st v t).2.TermsAlreadySeenMap := by
  cases g <;> rfl

@[simp] theorem andNotSeen_SolverMap (g : Bool) (st : BVSolver) (v t : ASTNode) :
    (andNotSeen g st v t).2.SolverMap = st.SolverMap := by cases g <;> rfl
@[simp] theorem andNotSeen_forbidden (g : Bool) (st : BVSolver) (v t : ASTNode) :
    (andNotSeen g st v t).2.DoNotSolve_TheseVars = st.DoNotSolve_TheseVars := by cases g <;> rfl
@[simp] theorem andNotSeen_memo (g : Bool) (st : BVSolver) (v t : ASTNode) :
    (andNotSeen g st v t).2.FormulasAlreadySolvedMap = st.FormulasAlreadySolvedMap := by
  cases g <;> rfl
@[simp] theorem andNotSeen_count (g : Bool) (st : BVSolver) (v t : ASTNode) :
    (andNotSeen g st v t).2.symbol_count = st.symbol_count := by cases g <;> rfl

@[simp] theorem forbid_SolverMap (st : BVSolver) (v : ASTNode) :
    (st.forbid v).SolverMap = st.SolverMap := rfl
@[simp] theorem forbid_memo (st : BVSolver) (v : ASTNode) :
    (st.forbid v).FormulasAlreadySolvedMap = st.FormulasAlreadySolvedMap := rfl
@[simp] theorem NewVar_SolverMap (st : BVSolver) (w : Nat) :
    (NewVar st w).2.SolverMap = st.SolverMap := rfl
@[simp] theorem NewVar_memo (st : BVSolver) (w : Nat) :
    (NewVar st w).2.FormulasAlreadySolvedMap = st.FormulasAlreadySolvedMap := rfl
@[simp] theorem UpdateAlreadySolvedMap_SolverMap (st : BVSolver) (k v : ASTNode) :
    (UpdateAlreadySolvedMap st k v).SolverMap = st.SolverMap := rfl

theorem UpdateSolverMap_SolverMap (st : BVSolver) (k v : ASTNode) :
    (UpdateSolverMap st k v).2.SolverMap = bindIfFree st.SolverMap k v := by
  unfold UpdateSolverMap bindIfFree
  cases h : st.SolverMap k <;> rfl

theorem UpdateSolverMap_fst (st : BVSolver) (k v : ASTNode) :
    (UpdateSolverMap st k v).1 = (st.SolverMap k).isNone := by
  unfold UpdateSolverMap
  cases h : st.SolverMap k <;> rfl

theorem UpdateSolverMap_fail (st : BVSolver) (k v : ASTNode)
    (h : (UpdateSolverMap st k v).1 = false) : (UpdateSolverMap st k v).2 = st := by
  unfold UpdateSolverMap at h ⊢
  cases h2 : st.SolverMap k <;> simp_all

theorem mapExtends_refl (m : ASTNodeMap) : MapExtends m m := fun _ _ h => h
theorem mapExtends_trans {a b c : ASTNodeMap} (h1 : MapExtends a b) (h2 : MapExtends b c) :
    MapExtends a c := fun k v h => h1 k v (h2 k v h)
theorem bindIfFree_extends (m : ASTNodeMap) (k v : ASTNode) : MapExtends (bindIfFree m k v) m := by
  intro k2 v2 h
  unfold bindIfFree
  cases hk : m k with
  | some x => exact h
  | none =>
    simp only [ASTNodeMap.set]
    split
    · rename_i e; rw [e, hk] at h; cases h
    · exact h

theorem bindIfFree_free (m : ASTNodeMap) (k v : ASTNode) (h : m k = none) :
    bindIfFree m k v k = some v := by
  simp [bindIfFree, h, ASTNodeMap.set]

theorem UpdateSolverMap_eq (st : BVSolver) (k v : ASTNode) :
    UpdateSolverMap st k v =
      if st.SolverMap k = none then (true, { st with SolverMap := st.SolverMap.set k v })
      else (false, st) := by
  unfold UpdateSolverMap
  cases h : st.SolverMap k <;> simp

theorem set_self (m : ASTNodeMap) (k v : ASTNode) : m.set k v k = some v := by
  simp [ASTNodeMap.set]

theorem newlyBound_set (m : ASTNodeMap) (k v : ASTNode) (h : m k = none) :
    NewlyBound (m.set k v) m := ⟨k, h, by simp [set_self]⟩

theorem BVSolve_Odd_symbol_map (st : BVSolver) (lhs rhs : ASTNode) (single : Bool) :
    ((BVSolve_Odd_symbol st lhs rhs single).1 = SwitchExit.breakWith ASTTrue ∧
      st.SolverMap lhs = none ∧
      (BVSolve_Odd_symbol st lhs rhs single).2.SolverMap = st.SolverMap.set lhs rhs)
    ∨ ((BVSolve_Odd_symbol st lhs rhs single).1 = SwitchExit.returnEq ∧
      (BVSolve_Odd_symbol st lhs rhs single).2.SolverMap = st.SolverMap) := by
  unfold BVSolve_Odd_symbol
  simp only [UpdateSolverMap_eq]
  split_ifs <;> simp_all

/-! ## The odd-coefficient solver: which bindings it makes -/

theorem mem_occurs (x t c : ASTNode) (hc : c ∈ t.GetChildren) (ht : t.isConstant = false)
    (h : occursIn x c = true) : occursIn x t = true := by
  rw [occursIn_eq, ht]
  simp only [Bool.not_false, Bool.true_and, Bool.or_eq_true, decide_eq_true_eq]
  exact Or.inr ((occursInAny_iff _ _).2 ⟨c, hc, h⟩)

theorem child_mem (t : ASTNode) (i : Nat) (h : (t.child i).GetKind ≠ UNDEFINED) :
    t.child i ∈ t.GetChildren := by
  unfold ASTNode.child at h ⊢
  by_cases hi : i < t.GetChildren.length
  · rw [List.getD_eq_getElem _ _ hi]
    exact List.getElem_mem _
  · rw [List.getD_eq_default _ _ (by omega)] at h
    exact absurd rfl h

theorem child_occurs (x t : ASTNode) (i : Nat) (hk : (t.child i).GetKind ≠ UNDEFINED)
    (ht : t.isConstant = false) (h : occursIn x (t.child i) = true) : occursIn x t = true :=
  mem_occurs x t _ (child_mem t i hk) ht h

theorem isConstant_of_kind (t : ASTNode) (h : t.GetKind ≠ BVCONST) (h2 : t.GetKind ≠ TRUE)
    (h3 : t.GetKind ≠ FALSE) : t.isConstant = false := by
  simp [ASTNode.isConstant, h, h2, h3]

mutual
theorem countIn_eq_zero (v : ASTNode) : ∀ t : ASTNode, countIn v t = 0 ↔ occursIn v t = false
  | ASTNode.mk k w x c => by
    have ih := countInAll_eq_zero v c
    rw [countIn, occursIn]
    split_ifs <;> simp_all
theorem countInAll_eq_zero (v : ASTNode) :
    ∀ c : ASTVec, countInAll v c = 0 ↔ occursInAny v c = false
  | [] => by simp [countInAll, occursInAny]
  | t :: ts => by
    have ih1 := countIn_eq_zero v t
    have ih2 := countInAll_eq_zero v ts
    simp [countInAll, occursInAny, ih1, ih2]
end

theorem countInAll_append (v : ASTNode) (a b : ASTVec) :
    countInAll v (a ++ b) = countInAll v a + countInAll v b := by
  induction a with
  | nil => simp [countInAll]
  | cons t ts ih => simp [countInAll, ih, Nat.add_assoc]

theorem countIn_node (v t : ASTNode) (hv : v ≠ t) (ht : t.isConstant = false) :
    countIn v t = countInAll v t.GetChildren := by
  cases t with
  | mk k w x c => rw [countIn]; simp [hv, ht, ASTNode.GetChildren]

/-- When `v` occurs once in a sum and one addend contains it, the other
addends do not. -/
theorem others_free (v lhs x : ASTNode) (pre post : ASTVec)
    (hv : v ≠ lhs) (hl : lhs.isConstant = false)
    (hc : lhs.GetChildren = pre ++ x :: post)
    (hs : CountOfSymbols.single lhs v = true) (hx : occursIn v x = true) :
    occursInAny v (pre ++ post) = false := by
  have h1 : countIn v lhs = 1 := by simpa [CountOfSymbols.single] using hs
  rw [countIn_node v lhs hv hl, hc, countInAll_append] at h1
  simp only [countInAll] at h1
  have h2 : countIn v x ≠ 0 := by
    intro h0
    rw [(countIn_eq_zero v x).1 h0] at hx
    cases hx
  rw [← countInAll_eq_zero, countInAll_append]
  omega

theorem newVar_ne (st : BVSolver) (t v : ASTNode) (w : Nat) (hf : NewVarAbsent st t)
    (hv : occursIn v t = true) : (NewVar st w).1 ≠ v := by
  intro h
  have := hf w
  rw [h, hv] at this
  cases this

theorem occursIn_newVar (st : BVSolver) (w : Nat) (v : ASTNode) :
    occursIn v (NewVar st w).1 = decide (v = (NewVar st w).1) := by
  simp [NewVar, occursIn, occursInAny, ASTNode.isConstant, ASTNode.GetKind]

theorem occursIn_concat (v a b : ASTNode) (w : Nat) (hv : v.GetKind = SYMBOL) :
    occursIn v (CreateTerm BVCONCAT w [a, b]) = (occursIn v a || occursIn v b) := by
  have : v ≠ ASTNode.mk BVCONCAT w 0 [a, b] := by
    intro h; rw [h] at hv; simp [ASTNode.GetKind] at hv
  simp [CreateTerm, occursIn, occursInAny, ASTNode.isConstant, ASTNode.GetKind, this]

theorem BVSolve_Odd_symbol_sound (st : BVSolver) (lhs rhs : ASTNode) (single : Bool)
    (hv : CacheValid st.TermsAlreadySeenMap) (hk : lhs.GetKind = SYMBOL)
    (hs : single = true → occursIn lhs rhs = false) :
    NewBindingsSound st (BVSolve_Odd_symbol st lhs rhs single).2 := by
  obtain ⟨m, _, e⟩ := VarSeenInTerm_spec (st.forbid lhs) lhs rhs hv
  unfold BVSolve_Odd_symbol
  simp only [e, UpdateSolverMap_eq]
  intro key t h1 h2
  have hb : boundVariable lhs = lhs := by simp [boundVariable, hk]
  split_ifs at h2 <;> simp_all [ASTNodeMap.set, BVSolver.withSeen, BVSolver.forbid]

theorem BVSolve_Odd_extract_map (st : BVSolver) (lhs rhs : ASTNode) :
    ((BVSolve_Odd_extract st lhs rhs).1 = SwitchExit.breakWith ASTTrue ∧
      (andNotSeen (SYMBOL = (lhs.child 0).GetKind && BVCONST = (lhs.child 1).GetKind
        && CreateZeroConst 32 = lhs.child 2) st (lhs.child 0) rhs).1 = true ∧
      DoNotSolveThis st (lhs.child 0) = false ∧
      st.SolverMap lhs = none ∧
      ∃ t, (t = rhs ∨ ∃ w, t = CreateTerm BVCONCAT (lhs.child 0).GetValueWidth [(NewVar st w).1, rhs]) ∧
        (BVSolve_Odd_extract st lhs rhs).2.SolverMap
          = bindIfFree (st.SolverMap.set lhs rhs) (lhs.child 0) t)
    ∨ ((BVSolve_Odd_extract st lhs rhs).1 = SwitchExit.returnEq ∧
      (BVSolve_Odd_extract st lhs rhs).2.SolverMap = st.SolverMap) := by
  unfold BVSolve_Odd_extract
  obtain ⟨t, ht⟩ : ∃ t, t = andNotSeen (SYMBOL = (lhs.child 0).GetKind
    && BVCONST = (lhs.child 1).GetKind && CreateZeroConst 32 = lhs.child 2) st (lhs.child 0) rhs :=
    ⟨_, rfl⟩
  have h1 : t.2.SolverMap = st.SolverMap := by rw [ht]; simp
  have h2 : ∀ v, DoNotSolveThis t.2 v = DoNotSolveThis st v := by
    intro v; rw [ht]; simp [DoNotSolveThis]
  simp only [← ht]
  by_cases c1 : (!(t.1 && !DoNotSolveThis t.2 (lhs.child 0))) = true
  · rw [if_pos c1]; exact Or.inr ⟨rfl, h1⟩
  · rw [if_neg c1]
    simp only [Bool.not_eq_true', Bool.and_eq_false_imp, Bool.not_eq_false', not_forall,
      Bool.not_eq_true, exists_prop, h2] at c1
    have h3 : t.2.symbol_count = st.symbol_count := by rw [ht]; simp
    obtain ⟨s, hs, hs2, e3⟩ : ∃ s, s.SolverMap = st.SolverMap ∧
        s.symbol_count = st.symbol_count ∧ s = (VarSeenInTerm t.2 (lhs.child 0) rhs).2 :=
      ⟨_, by simp [h1], by simp [h3], rfl⟩
    simp only [← e3]
    by_cases c2 : (VarSeenInTerm t.2 (lhs.child 0) rhs).1 = true
    · rw [if_pos c2]; exact Or.inr ⟨rfl, by simp [hs]⟩
    · rw [if_neg c2]
      rw [UpdateSolverMap_eq]
      simp only [forbid_SolverMap, hs]
      by_cases c3 : st.SolverMap lhs = none
      · simp only [c3, if_true, Bool.not_true, Bool.false_eq_true, if_false]
        left
        refine ⟨by split_ifs <;> rfl, c1.1, c1.2, trivial, ?_⟩
        split_ifs
        · refine ⟨_, Or.inr ⟨usub (lhs.child 0).GetValueWidth lhs.GetValueWidth, rfl⟩, ?_⟩
          rw [UpdateSolverMap_SolverMap]
          simp [NewVar, hs, BVSolver.forbid, hs2]
        · exact ⟨_, Or.inl rfl, by rw [UpdateSolverMap_SolverMap]⟩
      · simp only [c3, if_false, Bool.not_false, if_true]
        exact Or.inr ⟨trivial, by simp [hs]⟩

theorem BVSolve_Odd_mult_map (S : Simplifier) (st : BVSolver) (lhs rhs : ASTNode) :
    ((BVSolve_Odd_mult S st lhs rhs).1 = SwitchExit.breakWith ASTTrue ∧
      (lhs.child 0).GetKind = BVCONST ∧ BVConstIsOdd (lhs.child 0) = true ∧
      ((lhs.child 1).GetKind = SYMBOL ∨
        ((lhs.child 1).GetKind = BVEXTRACT ∧ ((lhs.child 1).child 0).GetKind = SYMBOL)) ∧
      (VarSeenInTerm st (boundVariable (lhs.child 1))
        (S.SimplifyTerm st.SolverMap (CreateTerm BVMULT rhs.GetValueWidth
          [S.MultiplicativeInverse (lhs.child 0), rhs]))).1 = false ∧
      st.SolverMap (lhs.child 1) = none ∧
      (((lhs.child 1).GetKind ≠ BVEXTRACT ∧
        (BVSolve_Odd_mult S st lhs rhs).2.SolverMap = st.SolverMap.set (lhs.child 1)
          (S.SimplifyTerm st.SolverMap (CreateTerm BVMULT rhs.GetValueWidth
            [S.MultiplicativeInverse (lhs.child 0), rhs])))
      ∨ ((lhs.child 1).GetKind = BVEXTRACT ∧ ∃ w,
        (BVSolve_Odd_mult S st lhs rhs).2.SolverMap =
          bindIfFree (st.SolverMap.set (lhs.child 1)
            (S.SimplifyTerm st.SolverMap (CreateTerm BVMULT rhs.GetValueWidth
              [S.MultiplicativeInverse (lhs.child 0), rhs])))
            ((lhs.child 1).child 0)
            (CreateTerm BVCONCAT ((lhs.child 1).child 0).GetValueWidth
              [(NewVar st w).1, S.SimplifyTerm st.SolverMap (CreateTerm BVMULT rhs.GetValueWidth
                [S.MultiplicativeInverse (lhs.child 0), rhs])]))))
    ∨ ((BVSolve_Odd_mult S st lhs rhs).1 = SwitchExit.returnEq ∧
      (BVSolve_Odd_mult S st lhs rhs).2.SolverMap = st.SolverMap) := by
  unfold BVSolve_Odd_mult
  by_cases c1 : BVCONST ≠ (lhs.child 0).GetKind
  · rw [if_pos c1]; exact Or.inr ⟨rfl, rfl⟩
  · rw [if_neg c1]
    by_cases c2 : (!(decide (SYMBOL = (lhs.child 1).GetKind)
        || (decide (BVEXTRACT = (lhs.child 1).GetKind)
          && decide (SYMBOL = ((lhs.child 1).child 0).GetKind)))) = true
    · rw [if_pos c2]; exact Or.inr ⟨rfl, rfl⟩
    · rw [if_neg c2]
      simp only []
      by_cases c3 : (!BVConstIsOdd (lhs.child 0)) = true
      · rw [if_pos c3]; exact Or.inr ⟨rfl, rfl⟩
      · rw [if_neg c3]
        have hbv : (if decide (BVEXTRACT = (lhs.child 1).GetKind) = true
            then (lhs.child 1).child 0 else lhs.child 1) = boundVariable (lhs.child 1) := by
          unfold boundVariable
          by_cases hx : (lhs.child 1).GetKind = BVEXTRACT
          · rw [if_pos hx, if_pos (by rw [hx]; rfl)]
          · rw [if_neg hx, if_neg (by simpa [eq_comm] using hx)]
        rw [hbv]
        generalize hval : S.SimplifyTerm st.SolverMap (CreateTerm BVMULT rhs.GetValueWidth
          [S.MultiplicativeInverse (lhs.child 0), rhs]) = value
        obtain ⟨s, hs, hs2, e3⟩ : ∃ s, s.SolverMap = st.SolverMap ∧
            s.symbol_count = st.symbol_count ∧
            s = (VarSeenInTerm st (boundVariable (lhs.child 1)) value).2 :=
          ⟨_, by simp, by simp, rfl⟩
        simp only [← e3]
        by_cases c4 : (VarSeenInTerm st (boundVariable (lhs.child 1)) value).1 = true
        · rw [if_pos c4]; exact Or.inr ⟨rfl, by simp [hs]⟩
        · rw [if_neg c4]
          rw [UpdateSolverMap_eq]
          simp only [forbid_SolverMap, hs]
          by_cases c5 : st.SolverMap (lhs.child 1) = none
          · simp only [c5, if_true, Bool.not_true, Bool.false_eq_true, if_false]
            left
            simp only [Bool.not_eq_true', Bool.or_eq_false_iff, Bool.and_eq_false_imp,
              decide_eq_false_iff_not, decide_eq_true_eq, not_and, Bool.not_eq_false',
              not_not, Bool.not_eq_true, not_forall, Classical.not_imp] at c1 c2 c3 c4
            refine ⟨by split_ifs <;> rfl, c1.symm, by simpa using c3, ?_, c4, trivial, ?_⟩
            · by_cases hsym : SYMBOL = (lhs.child 1).GetKind
              · exact Or.inl hsym.symm
              · have := c2 hsym
                exact Or.inr ⟨this.1.symm, this.2.symm⟩
            · by_cases hx : BVEXTRACT = (lhs.child 1).GetKind
              · right
                refine ⟨hx.symm, usub ((lhs.child 1).child 0).GetValueWidth
                  (lhs.child 1).GetValueWidth, ?_⟩
                simp only [hx, decide_True, if_true]
                rw [UpdateSolverMap_SolverMap]
                simp [NewVar, hs, BVSolver.forbid, hs2]
              · left
                refine ⟨fun h => hx h.symm, ?_⟩
                simp only [hx, decide_False, Bool.false_eq_true, if_false]
          · simp only [c5, if_false, Bool.not_false, if_true]
            exact Or.inr ⟨trivial, by simp [hs]⟩

theorem set_cases (m : ASTNodeMap) (k v key x : ASTNode) (h : m.set k v key = some x) :
    (key = k ∧ x = v) ∨ m key = some x := by
  simp only [ASTNodeMap.set] at h
  split at h
  · rename_i e; left; exact ⟨e, by cases h; rfl⟩
  · exact Or.inr h

theorem bindIfFree_cases (m : ASTNodeMap) (k v key x : ASTNode)
    (h : bindIfFree m k v key = some x) : (key = k ∧ x = v) ∨ m key = some x := by
  unfold bindIfFree at h
  cases hk : m k with
  | some y => rw [hk] at h; exact Or.inr h
  | none => rw [hk] at h; exact set_cases m k v key x h

theorem sound_same (st st2 : BVSolver) (h : st2.SolverMap = st.SolverMap) :
    NewBindingsSound st st2 := by
  intro key t h1 h2
  rw [h, h1] at h2
  cases h2

theorem sound_set (st st2 : BVSolver) (k v : ASTNode)
    (h : st2.SolverMap = st.SolverMap.set k v) (ho : occursIn (boundVariable k) v = false) :
    NewBindingsSound st st2 := by
  intro key t h1 h2
  rw [h] at h2
  rcases set_cases _ _ _ _ _ h2 with ⟨rfl, rfl⟩ | h3
  · exact ho
  · rw [h1] at h3; cases h3

theorem sound_bind (st st2 : BVSolver) (k v k2 v2 : ASTNode)
    (h : st2.SolverMap = bindIfFree (st.SolverMap.set k v) k2 v2)
    (ho : occursIn (boundVariable k) v = false)
    (ho2 : occursIn (boundVariable k2) v2 = false) :
    NewBindingsSound st st2 := by
  intro key t h1 h2
  rw [h] at h2
  rcases bindIfFree_cases _ _ _ _ _ h2 with ⟨rfl, rfl⟩ | h3
  · exact ho2
  · rcases set_cases _ _ _ _ _ h3 with ⟨rfl, rfl⟩ | h4
    · exact ho
    · rw [h1] at h4; cases h4

theorem BVSolve_Odd_extract_sound (st : BVSolver) (lhs rhs : ASTNode)
    (hv : CacheValid st.TermsAlreadySeenMap) (hk : lhs.GetKind = BVEXTRACT)
    (hf : NewVarAbsent st lhs) :
    NewBindingsSound st (BVSolve_Odd_extract st lhs rhs).2 := by
  rcases BVSolve_Odd_extract_map st lhs rhs with ⟨_, h2, _, _, t, ht, hm⟩ | ⟨_, hm⟩
  · obtain ⟨m1, _, e1⟩ := andNotSeen_spec
      (SYMBOL = (lhs.child 0).GetKind && BVCONST = (lhs.child 1).GetKind
        && CreateZeroConst 32 = lhs.child 2) st (lhs.child 0) rhs hv
    rw [e1] at h2
    simp only [Bool.and_eq_true, decide_eq_true_eq, Bool.not_eq_true'] at h2
    obtain ⟨⟨⟨hsym, _⟩, _⟩, hocc⟩ := h2
    have hb : boundVariable lhs = lhs.child 0 := by simp [boundVariable, hk]
    have hb2 : boundVariable (lhs.child 0) = lhs.child 0 := by simp [boundVariable, ← hsym]
    have hl : lhs.isConstant = false := by simp [ASTNode.isConstant, hk]
    refine sound_bind st _ _ _ _ _ hm (by rw [hb]; exact hocc) ?_
    rw [hb2]
    rcases ht with rfl | ⟨w, rfl⟩
    · exact hocc
    · rw [occursIn_concat _ _ _ _ hsym.symm, hocc, occursIn_newVar]
      have : lhs.child 0 ≠ (NewVar st w).1 := fun h =>
        newVar_ne st lhs _ w hf (child_occurs _ _ 0 (by rw [← hsym]; decide) hl
          (occursIn_self _)) h.symm
      simp [this]
  · exact sound_same _ _ hm

theorem BVSolve_Odd_mult_sound (S : Simplifier) (st : BVSolver) (lhs rhs : ASTNode)
    (hv : CacheValid st.TermsAlreadySeenMap) (hk : lhs.GetKind = BVMULT)
    (hf : NewVarAbsent st lhs) :
    NewBindingsSound st (BVSolve_Odd_mult S st lhs rhs).2 := by
  rcases BVSolve_Odd_mult_map S st lhs rhs with ⟨_, _, _, hshape, hseen, _, hm⟩ | ⟨_, hm⟩
  · obtain ⟨m1, _, e1⟩ := VarSeenInTerm_spec st (boundVariable (lhs.child 1))
      (S.SimplifyTerm st.SolverMap (CreateTerm BVMULT rhs.GetValueWidth
          [S.MultiplicativeInverse (lhs.child 0), rhs])) hv
    rw [e1] at hseen
    simp only at hseen
    rcases hm with ⟨_, hm⟩ | ⟨hx, w, hm⟩
    · exact sound_set st _ _ _ hm hseen
    · have hsym : ((lhs.child 1).child 0).GetKind = SYMBOL := by
        rcases hshape with h | h
        · rw [hx] at h; cases h
        · exact h.2
      have hb : boundVariable (lhs.child 1) = (lhs.child 1).child 0 := by
        simp [boundVariable, hx]
      have hb2 : boundVariable ((lhs.child 1).child 0) = (lhs.child 1).child 0 := by
        simp [boundVariable, hsym]
      have hl : lhs.isConstant = false := by simp [ASTNode.isConstant, hk]
      have hl1 : (lhs.child 1).isConstant = false := by simp [ASTNode.isConstant, hx]
      refine sound_bind st _ _ _ _ _ hm hseen ?_
      rw [hb2, occursIn_concat _ _ _ _ hsym, occursIn_newVar]
      rw [hb] at hseen
      rw [hseen]
      have : (lhs.child 1).child 0 ≠ (NewVar st w).1 := fun h =>
        newVar_ne st lhs _ w hf
          (child_occurs _ _ 1 (by rw [hx]; decide) hl
            (child_occurs _ _ 0 (by rw [hsym]; decide) hl1 (occursIn_self _))) h.symm
      simp [this]
  · exact sound_same _ _ hm

/-- What `ChooseMonom` returns, on a valid occurrence memo. -/
theorem ChooseMonom_spec (st : BVSolver) (eq m leftover : ASTNode) (st1 : BVSolver)
    (hv : CacheValid st.TermsAlreadySeenMap)
    (h : ChooseMonom st eq = some (m, leftover, st1)) :
    (∃ mm, CacheValid mm ∧ st1 = st.withSeen mm) ∧
    eq.GetKind = EQ ∧ (eq.child 0).GetKind = BVPLUS ∧
    ∃ o, o ≠ [] ∧ leftover = leftoverOf (eq.child 0).GetValueWidth o ∧
      ((∃ pre post, (eq.child 0).GetChildren = pre ++ m :: post ∧
          (∀ y ∈ pre, tier1Eligible st (eq.child 0) (eq.child 1) y = false) ∧
          tier1Eligible st (eq.child 0) (eq.child 1) m = true ∧ o = pre ++ post)
      ∨ ((∀ y ∈ (eq.child 0).GetChildren,
            tier1Eligible st (eq.child 0) (eq.child 1) y = false) ∧
          ∃ pre post, (eq.child 0).GetChildren = pre ++ m :: post ∧
          (∀ y ∈ pre, tier2Accepted st (eq.child 0) (eq.child 1) y = false) ∧
          tier2Accepted st (eq.child 0) (eq.child 1) m = true ∧ o = pre ++ post)
      ∨ ((∀ y ∈ (eq.child 0).GetChildren,
            tier1Eligible st (eq.child 0) (eq.child 1) y = false) ∧
          (∀ y ∈ (eq.child 0).GetChildren,
            tier2Accepted st (eq.child 0) (eq.child 1) y = false) ∧
          o = (eq.child 0).GetChildren ∧ m = ASTUndefined)) := by
  unfold ChooseMonom at h
  split_ifs at h with hshape
  simp only [Bool.not_eq_true', Bool.and_eq_false_imp, decide_eq_true_eq, decide_eq_false_iff_not,
    not_forall, not_not, exists_prop] at hshape
  obtain ⟨mm, hmm, hst, hcases⟩ := ChooseMonom_loops_spec st eq hv
  simp only [] at h
  have key : ∀ o, (ChooseMonom_loops st eq).o = o → o ≠ [] ∧
      leftover = leftoverOf (eq.child 0).GetValueWidth o ∧ m = (ChooseMonom_loops st eq).outmonom ∧
      st1 = (ChooseMonom_loops st eq).st := by
    intro o ho
    rw [ho] at h
    match o, h with
    | [x], h =>
      simp only [Option.some.injEq, Prod.mk.injEq] at h
      exact ⟨by simp, by simp [leftoverOf, h.2.1], h.1.symm, h.2.2.symm⟩
    | x :: y :: r, h =>
      simp only [Option.some.injEq, Prod.mk.injEq] at h
      exact ⟨by simp, by simp [leftoverOf, h.2.1], h.1.symm, h.2.2.symm⟩
  obtain ⟨hne, hl, hm, hs⟩ := key _ rfl
  refine ⟨⟨mm, hmm, by rw [hs, hst]⟩, hshape.1.symm, hshape.2.symm, _, hne, hl, ?_⟩
  rcases hcases with ⟨pre, x, post, h1, h2, h3, h4, h5⟩ | ⟨h0, pre, x, post, h1, h2, h3, h4, h5⟩ |
    ⟨h0, h1, h2, h3⟩
  · rw [h5] at hm; subst hm
    exact Or.inl ⟨pre, post, h1, h2, h3, h4⟩
  · rw [h5] at hm; subst hm
    exact Or.inr (Or.inl ⟨h0, pre, post, h1, h2, h3, h4⟩)
  · rw [h3] at hm
    exact Or.inr (Or.inr ⟨h0, h1, h2, hm⟩)

theorem occursIn_term (v : ASTNode) (k : Kind) (w : Nat) (c : ASTVec)
    (hv : v.GetKind = SYMBOL) (hk : k ≠ SYMBOL) (h1 : k ≠ BVCONST) (h2 : k ≠ TRUE)
    (h3 : k ≠ FALSE) : occursIn v (CreateTerm k w c) = occursInAny v c := by
  have : v ≠ ASTNode.mk k w 0 c := by
    intro h; rw [h] at hv; exact hk hv
  simp [CreateTerm, occursIn, ASTNode.isConstant, ASTNode.GetKind, this, h1, h2, h3]

theorem occursIn_leftoverOf (v : ASTNode) (w : Nat) (o : ASTVec) (hv : v.GetKind = SYMBOL)
    (h : occursInAny v o = false) : occursIn v (leftoverOf w o) = false := by
  unfold leftoverOf
  split
  · simpa [occursInAny] using h
  · rw [occursIn_term v BVPLUS w o hv (by decide) (by decide) (by decide) (by decide)]
    exact h

/-- The monomial that `ChooseMonom` takes in its first loop has its variable
neither in the rhs nor in the rest of the lhs. -/
theorem tier1_variable_free (st : BVSolver) (lhs rhs m v : ASTNode) (pre post : ASTVec)
    (hl : lhs.GetKind = BVPLUS) (hc : lhs.GetChildren = pre ++ m :: post)
    (ht : tier1Eligible st lhs rhs m = true) (hv : v.GetKind = SYMBOL)
    (hm : m = v ∨ (m.GetKind = BVUMINUS ∧ m.child 0 = v)) :
    occursIn v rhs = false ∧ occursInAny v (pre ++ post) = false := by
  have hne : v ≠ lhs := by intro h; rw [h, hl] at hv; cases hv
  have hlc : lhs.isConstant = false := by simp [ASTNode.isConstant, hl]
  simp only [tier1Eligible, Bool.or_eq_true, Bool.and_eq_true, decide_eq_true_eq,
    Bool.not_eq_true'] at ht
  rcases hm with rfl | ⟨hk, rfl⟩
  · rcases ht with ⟨⟨⟨_, _⟩, hs⟩, ho⟩ | ⟨⟨⟨⟨hk, _⟩, _⟩, _⟩, _⟩
    · exact ⟨ho, others_free _ lhs _ pre post hne hlc hc hs (occursIn_self _)⟩
    · rw [hv] at hk; cases hk
  · rcases ht with ⟨⟨⟨hk2, _⟩, _⟩, _⟩ | ⟨⟨⟨⟨_, _⟩, _⟩, hs⟩, ho⟩
    · rw [hk] at hk2; cases hk2
    · refine ⟨ho, others_free _ lhs m pre post hne hlc hc hs ?_⟩
      exact child_occurs _ _ 0 (by rw [hv]; decide) (by simp [ASTNode.isConstant, hk])
        (occursIn_self _)

theorem tier2_kind (st : BVSolver) (lhs rhs m : ASTNode)
    (ht : tier2Accepted st lhs rhs m = true) : m.GetKind = BVMULT := by
  simp only [tier2Accepted, Bool.and_eq_true, decide_eq_true_eq] at ht
  exact ht.1.1.1.1.1.symm

/-- The block of `BVSolve_Odd` for a sum, on a valid occurrence memo and with a
simplifier that brings in no symbol: a bare variable it isolates does not
occur in the new rhs. -/
theorem BVSolve_Odd_sum_spec (S : Simplifier) (st : BVSolver) (eq : ASTNode)
    (res : Option (ASTNode × ASTNode × Bool)) (st1 : BVSolver)
    (hv : CacheValid st.TermsAlreadySeenMap) (hS : NoNewSymbols S)
    (h : BVSolve_Odd_sum S st eq (eq.child 0) (eq.child 1) = some (res, st1)) :
    (∃ mm, CacheValid mm ∧ st1 = st.withSeen mm) ∧
    ∀ lhs1 rhs1 single, res = some (lhs1, rhs1, single) →
      ((single = false ∧ lhs1 = eq.child 0 ∧ rhs1 = eq.child 1)
        ∨ (single = true ∧ (eq.child 0).GetKind = BVPLUS ∧ lhs1 ∈ (eq.child 0).GetChildren ∧
          ∀ v, v.GetKind = SYMBOL → (lhs1 = v ∨ (lhs1.GetKind = BVUMINUS ∧ lhs1.child 0 = v)) →
            occursIn v rhs1 = false)) := by
  unfold BVSolve_Odd_sum at h
  by_cases hk : BVPLUS = (eq.child 0).GetKind
  · rw [if_pos hk] at h
    cases hcm : ChooseMonom st eq with
    | none => rw [hcm] at h; cases h
    | some r =>
      obtain ⟨m, leftover, st2⟩ := r
      rw [hcm] at h
      simp only [] at h
      obtain ⟨hst, _, _, o, _, hlo, hcases⟩ := ChooseMonom_spec st eq m leftover st2 hv hcm
      by_cases hu : m = ASTUndefined
      · rw [if_pos hu] at h
        simp only [Option.some.injEq, Prod.mk.injEq] at h
        refine ⟨by rw [← h.2]; exact hst, ?_⟩
        intro lhs1 rhs1 single hres
        rw [← h.1] at hres; cases hres
      · rw [if_neg hu] at h
        simp only [Option.some.injEq, Prod.mk.injEq] at h
        refine ⟨by rw [← h.2]; exact hst, ?_⟩
        intro lhs1 rhs1 single hres
        rw [← h.1] at hres
        simp only [Option.some.injEq, Prod.mk.injEq] at hres
        obtain ⟨rfl, hr, rfl⟩ := hres
        right
        have hmem : m ∈ (eq.child 0).GetChildren := by
          rcases hcases with ⟨pre, post, h1, _⟩ | ⟨_, pre, post, h1, _⟩ | ⟨_, _, _, h4⟩
          · rw [h1]; simp
          · rw [h1]; simp
          · exact absurd h4 hu
        refine ⟨rfl, hk.symm, hmem, ?_⟩
        intro v hvs hm
        rcases hcases with ⟨pre, post, h1, _, h3, h4⟩ | ⟨_, pre, post, _, _, h3, _⟩ | ⟨_, _, _, h4⟩
        · obtain ⟨f1, f2⟩ := tier1_variable_free st _ _ m v pre post hk.symm h1 h3 hvs hm
          rw [← h4] at f2
          have f3 := occursIn_leftoverOf v (eq.child 0).GetValueWidth o hvs f2
          rw [← hlo] at f3
          rw [← hr]
          by_contra hcon
          have hcon : occursIn v (S.SimplifyTerm st2.SolverMap
              (CreateTerm BVPLUS (eq.child 0).GetValueWidth
                [eq.child 1, S.SimplifyTerm_TopLevel st2.SolverMap
                  (CreateTerm BVUMINUS (eq.child 0).GetValueWidth [leftover])])) = true := by
            simpa using hcon
          have c1 := (hS _ _ v hvs).1 hcon
          rw [occursIn_term v BVPLUS _ _ hvs (by decide) (by decide) (by decide) (by decide)] at c1
          simp only [occursInAny, f1, Bool.false_or, Bool.or_false] at c1
          have c2 := (hS _ _ v hvs).2 c1
          rw [occursIn_term v BVUMINUS _ _ hvs (by decide) (by decide) (by decide) (by decide)]
            at c2
          simp only [occursInAny, f3, Bool.or_false] at c2
          cases c2
        · have := tier2_kind _ _ _ _ h3
          rcases hm with rfl | ⟨hk2, _⟩
          · rw [hvs] at this; cases this
          · rw [hk2] at this; cases this
        · exact absurd h4 hu
  · rw [if_neg hk] at h
    simp only [Option.some.injEq, Prod.mk.injEq] at h
    refine ⟨⟨_, hv, by rw [← h.2]; rfl⟩, ?_⟩
    intro lhs1 rhs1 single hres
    rw [← h.1] at hres
    simp only [Option.some.injEq, Prod.mk.injEq] at hres
    exact Or.inl ⟨hres.2.2.symm, hres.1.symm, hres.2.1.symm⟩

mutual
theorem occursIn_trans (a b : ASTNode) (hab : occursIn a b = true) :
    ∀ c : ASTNode, occursIn b c = true → occursIn a c = true
  | ASTNode.mk k w x cs, h => by
    have ih := occursInAny_trans a b hab cs
    rw [occursIn] at h
    split_ifs at h with h1 h2
    · rw [← h1]; exact hab
    · have := ih h
      rw [occursIn]
      split_ifs <;> simp_all
theorem occursInAny_trans (a b : ASTNode) (hab : occursIn a b = true) :
    ∀ cs : ASTVec, occursInAny b cs = true → occursInAny a cs = true
  | [], h => by simp [occursInAny] at h
  | t :: ts, h => by
    simp only [occursInAny, Bool.or_eq_true] at h ⊢
    rcases h with h | h
    · exact Or.inl (occursIn_trans a b hab t h)
    · exact Or.inr (occursInAny_trans a b hab ts h)
end

theorem BVSolve_Odd_eq_child0 (input : ASTNode) :
    (BVSolve_Odd_eq input).child 0
      = if BVSolve_Odd_swaps input then input.child 1 else input.child 0 := by
  unfold BVSolve_Odd_eq
  split_ifs <;> simp [CreateNode, ASTNode.child, ASTNode.GetChildren]

theorem BVSolve_Odd_eq_child1 (input : ASTNode) :
    (BVSolve_Odd_eq input).child 1
      = if BVSolve_Odd_swaps input then input.child 0 else input.child 1 := by
  unfold BVSolve_Odd_eq
  split_ifs <;> simp [CreateNode, ASTNode.child, ASTNode.GetChildren]

theorem BVSolve_Odd_eq_kind (input : ASTNode) (h : input.GetKind = EQ) :
    (BVSolve_Odd_eq input).GetKind = EQ := by
  unfold BVSolve_Odd_eq
  split_ifs
  · rfl
  · exact h

/-- A term occurs in the equation `BVSolve_Odd` works on only if it occurs in the input. -/
theorem occurs_eq_input (x input : ASTNode) (hk : input.GetKind = EQ) (i : Nat)
    (hu : ((BVSolve_Odd_eq input).child i).GetKind ≠ UNDEFINED)
    (h : occursIn x ((BVSolve_Odd_eq input).child i) = true) : occursIn x input = true := by
  have hc : input.isConstant = false := by simp [ASTNode.isConstant, hk]
  unfold BVSolve_Odd_eq at h hu
  split_ifs at h hu
  · match i, h, hu with
    | 0, h, hu => exact child_occurs x input 1 hu hc h
    | 1, h, hu => exact child_occurs x input 0 hu hc h
    | n + 2, h, hu => simp [CreateNode, ASTNode.child, ASTNode.GetChildren, ASTUndefined, ASTNode.GetKind] at hu
  · exact child_occurs x input i hu hc h

theorem freshFor_withSeen (st : BVSolver) (m : ASTNodeMap) (t : ASTNode)
    (h : NewVarAbsent st t) : NewVarAbsent (st.withSeen m) t := h

theorem freshFor_sub (st : BVSolver) (a b : ASTNode) (h : NewVarAbsent st b)
    (hab : occursIn a b = true) : NewVarAbsent st a := by
  intro w
  by_contra hc
  have hc : occursIn (NewVar st w).1 a = true := by simpa using hc
  have := occursIn_trans _ _ hc b hab
  rw [h w] at this
  cases this

theorem sound_of_frame (st st1 st2 : BVSolver) (h : st1.SolverMap = st.SolverMap)
    (hs : NewBindingsSound st1 st2) : NewBindingsSound st st2 := by
  intro key t h1 h2
  exact hs key t (by rw [h]; exact h1) h2

theorem BVSolve_Odd_switch_sound (S : Simplifier) (st : BVSolver) (eq lhs rhs : ASTNode)
    (single : Bool) (hv : CacheValid st.TermsAlreadySeenMap)
    (hf : lhs.GetKind ≠ UNDEFINED → NewVarAbsent st lhs)
    (hs : single = true → lhs.GetKind = SYMBOL → occursIn lhs rhs = false) :
    NewBindingsSound st (BVSolve_Odd_switch S st eq lhs rhs single).2 := by
  unfold BVSolve_Odd_switch
  split
  · rename_i hk
    exact BVSolve_Odd_symbol_sound st lhs rhs single hv hk (fun h => hs h hk)
  · rename_i hk
    exact BVSolve_Odd_extract_sound st lhs rhs hv hk (hf (by rw [hk]; decide))
  · rename_i hk
    exact BVSolve_Odd_mult_sound S st lhs rhs hv hk (hf (by rw [hk]; decide))
  · exact sound_same _ _ rfl

theorem occursIn_uminus_simp (S : Simplifier) (sm : ASTNodeMap) (v rhs : ASTNode) (w : Nat)
    (hS : NoNewSymbols S) (hv : v.GetKind = SYMBOL) (h : occursIn v rhs = false) :
    occursIn v (S.SimplifyTerm sm (CreateTerm BVUMINUS w [rhs])) = false := by
  by_contra hc
  have hc : occursIn v (S.SimplifyTerm sm (CreateTerm BVUMINUS w [rhs])) = true := by
    simpa using hc
  have c1 := (hS _ _ v hv).1 hc
  rw [occursIn_term v BVUMINUS _ _ hv (by decide) (by decide) (by decide) (by decide)] at c1
  simp [occursInAny, h] at c1

/-- Occurs-check soundness of `BVSolve_Odd`, for a valid occurrence memo, a simplifier that
brings in no symbol and an input without the next name of `NewVar`. -/
theorem BVSolve_Odd_sound (S : Simplifier) (st : BVSolver) (input : ASTNode)
    (r : ASTNode × BVSolver) (hv : CacheValid st.TermsAlreadySeenMap) (hS : NoNewSymbols S)
    (hf : NewVarAbsent st input) (h : BVSolve_Odd S st input = some r) :
    NewBindingsSound st r.2 := by
  unfold BVSolve_Odd at h
  by_cases hk : EQ ≠ input.GetKind
  · rw [if_pos hk] at h
    cases h
    exact sound_same _ _ rfl
  · rw [if_neg hk] at h
    have hk : input.GetKind = EQ := by simpa [eq_comm] using hk
    simp only [] at h
    rw [← BVSolve_Odd_eq_child0, ← BVSolve_Odd_eq_child1] at h
    cases hmemo : CheckAlreadySolvedMap st (BVSolve_Odd_eq input) with
    | some out =>
      rw [hmemo] at h
      cases h
      exact sound_same _ _ rfl
    | none =>
      rw [hmemo] at h
      simp only [] at h
      cases hsum : BVSolve_Odd_sum S st (BVSolve_Odd_eq input) ((BVSolve_Odd_eq input).child 0)
          ((BVSolve_Odd_eq input).child 1) with
      | none => rw [hsum] at h; cases h
      | some p =>
        obtain ⟨res, st1⟩ := p
        obtain ⟨⟨mm, hmm, hst1⟩, hres⟩ := BVSolve_Odd_sum_spec S st _ res st1 hv hS hsum
        rw [hsum] at h
        cases res with
        | none =>
          simp only [Option.some.injEq] at h
          rw [← h, hst1]
          exact sound_same _ _ rfl
        | some q =>
          obtain ⟨lhs1, rhs1, single⟩ := q
          simp only [] at h
          have hq := hres lhs1 rhs1 single rfl
          -- the variable isolated from a sum stays out of the rhs
          have hsafe : single = true →
              (BVSolve_Odd_uminus S st1 lhs1 rhs1).1.GetKind = SYMBOL →
              occursIn (BVSolve_Odd_uminus S st1 lhs1 rhs1).1
                (BVSolve_Odd_uminus S st1 lhs1 rhs1).2 = false := by
            intro hsingle hsym
            rcases hq with ⟨hq, _⟩ | ⟨_, _, _, hq⟩
            · rw [hsingle] at hq; cases hq
            · unfold BVSolve_Odd_uminus at hsym ⊢
              split_ifs at hsym ⊢ with hu
              · exact occursIn_uminus_simp S _ _ _ _ hS hsym
                  (hq _ hsym (Or.inr ⟨hu.symm, rfl⟩))
              · exact hq _ hsym (Or.inl rfl)
          -- the lhs the switch sees is a subterm of the input
          have hsub : (BVSolve_Odd_uminus S st1 lhs1 rhs1).1.GetKind ≠ UNDEFINED →
              occursIn (BVSolve_Odd_uminus S st1 lhs1 rhs1).1 input = true := by
            intro hu
            have h1 : lhs1.GetKind ≠ UNDEFINED →
                occursIn lhs1 input = true := by
              intro hl1
              rcases hq with ⟨_, rfl, _⟩ | ⟨_, hplus, hmem, _⟩
              · exact occurs_eq_input _ input hk 0 hl1 (occursIn_self _)
              · exact occurs_eq_input _ input hk 0 (by rw [hplus]; decide)
                  (mem_occurs _ _ _ hmem (by simp [ASTNode.isConstant, hplus]) (occursIn_self _))
            unfold BVSolve_Odd_uminus at hu ⊢
            split_ifs at hu ⊢ with hum
            · exact occursIn_trans _ _ (child_occurs _ _ 0 hu
                (by simp [ASTNode.isConstant, ← hum]) (occursIn_self _)) _
                (h1 (by rw [← hum]; decide))
            · exact h1 hu
          have hfresh : (BVSolve_Odd_uminus S st1 lhs1 rhs1).1.GetKind ≠ UNDEFINED →
              NewVarAbsent st1 (BVSolve_Odd_uminus S st1 lhs1 rhs1).1 := by
            intro hu
            have := freshFor_sub st _ _ hf (hsub hu)
            rw [hst1] at this ⊢
            exact freshFor_withSeen st mm _ this
          have hsw := BVSolve_Odd_switch_sound S st1 (BVSolve_Odd_eq input) _ _ single
            (by rw [hst1]; exact hmm) hfresh hsafe
          have hsw := sound_of_frame st st1 _ (by rw [hst1]; rfl) hsw
          cases hx : BVSolve_Odd_switch S st1 (BVSolve_Odd_eq input)
              (BVSolve_Odd_uminus S st1 lhs1 rhs1).1 (BVSolve_Odd_uminus S st1 lhs1 rhs1).2
              single with
          | mk exit st2 =>
            rw [hx] at h hsw
            cases exit with
            | returnEq =>
              simp only [Option.some.injEq] at h
              rw [← h]; exact hsw
            | breakWith out =>
              simp only [Option.some.injEq] at h
              rw [← h]; exact hsw

/-! ## Claims on the odd-coefficient solver -/

theorem cacheValid_empty : CacheValid ASTNodeMap.empty := by
  intro t v h
  cases h

theorem noNewSymbols_id : NoNewSymbols idSimplifier := by
  intro sm t v _
  exact ⟨id, id⟩

mutual
theorem usesName_of_occurs (n w : Nat) :
    ∀ t : ASTNode, occursIn (ASTNode.mk SYMBOL w n []) t = true → usesName n t = true
  | ASTNode.mk k w2 x c, h => by
    have ih := usesNameAny_of_occurs n w c
    rw [occursIn] at h
    rw [usesName]
    split_ifs at h with h1 h2
    · injection h1 with e1 e2 e3 e4
      simp [← e1, ← e3]
    · simp [ih h]
theorem usesNameAny_of_occurs (n w : Nat) :
    ∀ c : ASTVec, occursInAny (ASTNode.mk SYMBOL w n []) c = true → usesNameAny n c = true
  | [], h => by simp [occursInAny] at h
  | t :: ts, h => by
    simp only [occursInAny, usesNameAny, Bool.or_eq_true] at h ⊢
    rcases h with h | h
    · exact Or.inl (usesName_of_occurs n w t h)
    · exact Or.inr (usesNameAny_of_occurs n w ts h)
end

theorem newVarAbsent_of_fresh (st : BVSolver) (t : ASTNode) (h : FreshFor st t) :
    NewVarAbsent st t := by
  intro w
  by_contra hc
  have hc : occursIn (ASTNode.mk SYMBOL w st.symbol_count []) t = true := by
    simpa [NewVar] using hc
  have := usesName_of_occurs _ _ _ hc
  rw [h] at this
  cases this

/-! ## The odd-coefficient solver: its two outcomes -/

theorem sameButSeen_refl (st : BVSolver) : SameButSeen st st := ⟨_, rfl⟩
theorem sameButSeen_trans {a b c : BVSolver} (h1 : SameButSeen a b) (h2 : SameButSeen b c) :
    SameButSeen a c := by
  obtain ⟨m1, rfl⟩ := h1
  obtain ⟨m2, rfl⟩ := h2
  exact ⟨m2, rfl⟩
theorem andNotSeen_same (g : Bool) (st : BVSolver) (v t : ASTNode) :
    SameButSeen st (andNotSeen g st v t).2 := ⟨_, andNotSeen_withSeen g st v t⟩
theorem VarSeenInTerm_same (st : BVSolver) (v t : ASTNode) :
    SameButSeen st (VarSeenInTerm st v t).2 := ⟨_, rfl⟩

theorem ChooseMonom_symbols_frame (lhs rhs : ASTNode) :
    ∀ (c : ASTVec) (r : MonomChoice), SameButSeen r.st (ChooseMonom_symbols lhs rhs c r).st
  | [], r => sameButSeen_refl _
  | monom :: rest, r => by
    rw [ChooseMonom_symbols]
    simp only []
    split_ifs
    · exact sameButSeen_trans (andNotSeen_same _ _ _ _) (ChooseMonom_symbols_frame lhs rhs rest _)
    · exact sameButSeen_trans (sameButSeen_trans (andNotSeen_same _ _ _ _)
        (andNotSeen_same _ _ _ _)) (ChooseMonom_symbols_frame lhs rhs rest _)
    · exact sameButSeen_trans (sameButSeen_trans (andNotSeen_same _ _ _ _)
        (andNotSeen_same _ _ _ _)) (ChooseMonom_symbols_frame lhs rhs rest _)

theorem ChooseMonom_odd_frame (lhs rhs : ASTNode) :
    ∀ (c : ASTVec) (r : MonomChoice), SameButSeen r.st (ChooseMonom_odd lhs rhs c r).st
  | [], r => sameButSeen_refl _
  | monom :: rest, r => by
    rw [ChooseMonom_odd]
    split_ifs <;>
      exact sameButSeen_trans (sameButSeen_trans (andNotSeen_same _ _ _ _)
        (andNotSeen_same _ _ _ _)) (ChooseMonom_odd_frame lhs rhs rest _)

theorem ChooseMonom_frame (st : BVSolver) (eq m l : ASTNode) (st1 : BVSolver)
    (h : ChooseMonom st eq = some (m, l, st1)) : SameButSeen st st1 := by
  have key : SameButSeen st (ChooseMonom_loops st eq).st := by
    unfold ChooseMonom_loops
    simp only []
    split_ifs
    · exact sameButSeen_trans (ChooseMonom_symbols_frame _ _ _ _) (ChooseMonom_odd_frame _ _ _ _)
    · exact ChooseMonom_symbols_frame _ _ _ _
  unfold ChooseMonom at h
  split_ifs at h
  simp only [] at h
  split at h
  · cases h
  · simp only [Option.some.injEq, Prod.mk.injEq] at h; rw [← h.2.2]; exact key
  · simp only [Option.some.injEq, Prod.mk.injEq] at h; rw [← h.2.2]; exact key

theorem BVSolve_Odd_sum_frame (S : Simplifier) (st : BVSolver) (eq lhs rhs : ASTNode)
    (res : Option (ASTNode × ASTNode × Bool)) (st1 : BVSolver)
    (h : BVSolve_Odd_sum S st eq lhs rhs = some (res, st1)) : SameButSeen st st1 := by
  unfold BVSolve_Odd_sum at h
  split_ifs at h
  · cases hcm : ChooseMonom st eq with
    | none => rw [hcm] at h; cases h
    | some r =>
      obtain ⟨m, l, st2⟩ := r
      rw [hcm] at h
      simp only [] at h
      have := ChooseMonom_frame st eq m l st2 hcm
      split_ifs at h <;>
      · simp only [Option.some.injEq, Prod.mk.injEq] at h
        rw [← h.2]; exact this
  · simp only [Option.some.injEq, Prod.mk.injEq] at h
    rw [← h.2]; exact sameButSeen_refl _

theorem newlyBound_bind (m : ASTNodeMap) (k v k2 v2 : ASTNode) (h : m k = none) :
    NewlyBound (bindIfFree (m.set k v) k2 v2) m := by
  refine ⟨k, h, ?_⟩
  rw [bindIfFree_extends (m.set k v) k2 v2 k v (set_self _ _ _)]
  rfl

theorem extends_set (m : ASTNodeMap) (k v : ASTNode) (h : m k = none) :
    MapExtends (m.set k v) m := by
  have := bindIfFree_extends m k v
  simpa [bindIfFree, h] using this

/-- What the `switch` of `BVSolve_Odd` does to the substitution map: it leaves
with `output` true after binding a free key, or it leaves the map as it is. -/
theorem BVSolve_Odd_switch_map (S : Simplifier) (st : BVSolver) (eq lhs rhs : ASTNode)
    (single : Bool) :
    ((BVSolve_Odd_switch S st eq lhs rhs single).1 = SwitchExit.breakWith ASTTrue ∧
      NewlyBound (BVSolve_Odd_switch S st eq lhs rhs single).2.SolverMap st.SolverMap ∧
      MapExtends (BVSolve_Odd_switch S st eq lhs rhs single).2.SolverMap st.SolverMap)
    ∨ (((BVSolve_Odd_switch S st eq lhs rhs single).1 = SwitchExit.returnEq ∨
        (BVSolve_Odd_switch S st eq lhs rhs single).1 = SwitchExit.breakWith eq) ∧
      (BVSolve_Odd_switch S st eq lhs rhs single).2.SolverMap = st.SolverMap) := by
  unfold BVSolve_Odd_switch
  split
  · rcases BVSolve_Odd_symbol_map st lhs rhs single with ⟨h1, h2, h3⟩ | ⟨h1, h2⟩
    · left
      refine ⟨h1, ?_, ?_⟩
      · rw [h3]; exact newlyBound_set _ _ _ h2
      · rw [h3]; exact extends_set _ _ _ h2
    · exact Or.inr ⟨Or.inl h1, h2⟩
  · rcases BVSolve_Odd_extract_map st lhs rhs with ⟨h1, _, _, h2, t, _, h3⟩ | ⟨h1, h2⟩
    · left
      refine ⟨h1, ?_, ?_⟩
      · rw [h3]; exact newlyBound_bind _ _ _ _ _ h2
      · rw [h3]
        exact mapExtends_trans (bindIfFree_extends _ _ _) (extends_set _ _ _ h2)
    · exact Or.inr ⟨Or.inl h1, h2⟩
  · rcases BVSolve_Odd_mult_map S st lhs rhs with ⟨h1, _, _, _, _, h2, h3⟩ | ⟨h1, h2⟩
    · left
      rcases h3 with ⟨_, h3⟩ | ⟨_, w, h3⟩
      · refine ⟨h1, ?_, ?_⟩
        · rw [h3]; exact newlyBound_set _ _ _ h2
        · rw [h3]; exact extends_set _ _ _ h2
      · refine ⟨h1, ?_, ?_⟩
        · rw [h3]; exact newlyBound_bind _ _ _ _ _ h2
        · rw [h3]
          exact mapExtends_trans (bindIfFree_extends _ _ _) (extends_set _ _ _ h2)
    · exact Or.inr ⟨Or.inl h1, h2⟩
  · exact Or.inr ⟨Or.inr rfl, rfl⟩

/-- The two outcomes of `BVSolve_Odd` on an equality whose normal form is not
in the memo: the constant true after a key was bound, or the normalised
equation with the substitution map unchanged. -/
theorem BVSolve_Odd_outcome (S : Simplifier) (st : BVSolver) (input : ASTNode)
    (r : ASTNode × BVSolver) (hk : input.GetKind = EQ)
    (hmemo : CheckAlreadySolvedMap st (BVSolve_Odd_eq input) = none)
    (h : BVSolve_Odd S st input = some r) :
    (r.1 = ASTTrue ∧ NewlyBound r.2.SolverMap st.SolverMap ∧
      MapExtends r.2.SolverMap st.SolverMap)
    ∨ (r.1 = BVSolve_Odd_eq input ∧ r.2.SolverMap = st.SolverMap) := by
  unfold BVSolve_Odd at h
  rw [if_neg (by simp [hk])] at h
  simp only [hmemo] at h
  cases hsum : BVSolve_Odd_sum S st (BVSolve_Odd_eq input)
      (if BVSolve_Odd_swaps input = true then input.child 1 else input.child 0)
      (if BVSolve_Odd_swaps input = true then input.child 0 else input.child 1) with
  | none => rw [hsum] at h; cases h
  | some p =>
    obtain ⟨res, st1⟩ := p
    obtain ⟨mm, hst1⟩ := BVSolve_Odd_sum_frame S st _ _ _ res st1 hsum
    rw [hsum] at h
    cases res with
    | none =>
      simp only [Option.some.injEq] at h
      rw [← h, hst1]
      exact Or.inr ⟨rfl, rfl⟩
    | some q =>
      obtain ⟨lhs1, rhs1, single⟩ := q
      simp only [] at h
      have hsw := BVSolve_Odd_switch_map S st1 (BVSolve_Odd_eq input)
        (BVSolve_Odd_uminus S st1 lhs1 rhs1).1 (BVSolve_Odd_uminus S st1 lhs1 rhs1).2 single
      have hsm : st1.SolverMap = st.SolverMap := by rw [hst1]; rfl
      rw [hsm] at hsw
      cases hx : BVSolve_Odd_switch S st1 (BVSolve_Odd_eq input)
          (BVSolve_Odd_uminus S st1 lhs1 rhs1).1 (BVSolve_Odd_uminus S st1 lhs1 rhs1).2
          single with
      | mk exit st2 =>
        rw [hx] at h hsw
        cases exit with
        | returnEq =>
          simp only [Option.some.injEq] at h
          rw [← h]
          rcases hsw with ⟨h1, _⟩ | ⟨_, h2⟩
          · cases h1
          · exact Or.inr ⟨rfl, h2⟩
        | breakWith out =>
          simp only [Option.some.injEq] at h
          rw [← h]
          rcases hsw with ⟨h1, h2, h3⟩ | ⟨h1, h2⟩
          · simp only [SwitchExit.breakWith.injEq] at h1
            exact Or.inl ⟨h1, h2, h3⟩
          · rcases h1 with h1 | h1
            · cases h1
            · simp only [SwitchExit.breakWith.injEq] at h1
              exact Or.inr ⟨h1, h2⟩

/-- Claim C2, forbidden-variable monotonicity, evaluated where the code breaks
it.  `BVSolve_Odd` declines `x = x + 1` by the occurs check and leaves `x`
forbidden and unbound; called next on `x = 5` it binds `x := 5` and returns
true, because `case SYMBOL` never asks `DoNotSolveThis`. -/
theorem C2_forbidden_variable_bound :
    DoNotSolveThis (solverAfter idSimplifier BVSolver.init eqXisXplus1) varX = true ∧
    (solverAfter idSimplifier BVSolver.init eqXisXplus1).SolverMap varX = none ∧
    (BVSolve_Odd idSimplifier (solverAfter idSimplifier BVSolver.init eqXisXplus1) eqXis5).map
        (fun r => (r.1, r.2.SolverMap varX))
      = some (ASTTrue, some (CreateBVConst 8 5)) := by
  decide

/-- Claim C3 as stated fails: in a new solver `BVSolve_Odd` declines
`5 = x + x` and returns `x + x = 5`, which is neither the constant true nor the
input node. -/
theorem C3_counterexample :
    (BVSolve_Odd idSimplifier BVSolver.init eq5isXplusX).map Prod.fst
      = some (mkEq (CreateTerm BVPLUS 8 [varX, varX]) (CreateBVConst 8 5)) ∧
    mkEq (CreateTerm BVPLUS 8 [varX, varX]) (CreateBVConst 8 5) ≠ ASTTrue ∧
    mkEq (CreateTerm BVPLUS 8 [varX, varX]) (CreateBVConst 8 5) ≠ eq5isXplusX := by
  decide

/-- Claim C3 as amended, round trip on declines.  When the memo has no entry
for the normalised equation and `BVSolve_Odd` returns a node other than the
constant true, that node is the input equality itself, or, when only its
left-hand side is a constant, the equality with its two sides exchanged. -/
theorem C3_decline_returns_normalised_equation (S : Simplifier) (st : BVSolver)
    (input : ASTNode) (r : ASTNode × BVSolver) (hk : input.GetKind = EQ)
    (hmemo : CheckAlreadySolvedMap st (BVSolve_Odd_eq input) = none)
    (h : BVSolve_Odd S st input = some r) (hd : r.1 ≠ ASTTrue) :
    r.1 = (if BVSolve_Odd_swaps input then CreateNode EQ [input.child 1, input.child 0]
      else input) := by
  rcases BVSolve_Odd_outcome S st input r hk hmemo h with ⟨h1, _⟩ | ⟨h1, _⟩
  · exact absurd h1 hd
  · exact h1

/-- The hypotheses of claim C3 as amended hold for `5 = x + x` in a new solver. -/
theorem C3_decline_returns_normalised_equation_witness :
    eq5isXplusX.GetKind = EQ ∧
    CheckAlreadySolvedMap BVSolver.init (BVSolve_Odd_eq eq5isXplusX) = none ∧
    (BVSolve_Odd idSimplifier BVSolver.init eq5isXplusX).isSome = true ∧
    ∀ r, BVSolve_Odd idSimplifier BVSolver.init eq5isXplusX = some r → r.1 ≠ ASTTrue →
      r.1 = (if BVSolve_Odd_swaps eq5isXplusX
        then CreateNode EQ [eq5isXplusX.child 1, eq5isXplusX.child 0] else eq5isXplusX) :=
  ⟨by decide, by decide, by decide, fun r hr hd =>
    C3_decline_returns_normalised_equation idSimplifier BVSolver.init eq5isXplusX r
      (by decide) (by decide) hr hd⟩

/-- Claim C4 as stated fails: after `x = 5` was solved, the memo has no entry
for `5 = x`, yet `BVSolve_Odd` returns true for it from the entry of `x = 5`
and leaves the solver, hence the substitution map, exactly as it was. -/
theorem C4_counterexample :
    CheckAlreadySolvedMap (solverAfter idSimplifier BVSolver.init eqXis5) eq5isX = none ∧
    BVSolve_Odd idSimplifier (solverAfter idSimplifier BVSolver.init eqXis5) eq5isX
      = some (ASTTrue, solverAfter idSimplifier BVSolver.init eqXis5) :=
  ⟨by decide, by rfl⟩

/-- Claim C4 as amended, discharge/decline atomicity.  For an equality whose
normalised form (a lone left-hand constant moved to the right) has no memo
entry, `BVSolve_Odd` returns the constant true if and only if the call binds
a key that was free; when it returns anything else the substitution map is
what it was; and no binding is ever lost or changed. -/
theorem C4_discharge_decline_atomicity (S : Simplifier) (st : BVSolver)
    (input : ASTNode) (r : ASTNode × BVSolver) (hk : input.GetKind = EQ)
    (hmemo : CheckAlreadySolvedMap st (BVSolve_Odd_eq input) = none)
    (h : BVSolve_Odd S st input = some r) :
    (r.1 = ASTTrue ↔ ∃ key, st.SolverMap key = none ∧ (r.2.SolverMap key).isSome = true) ∧
    (r.1 ≠ ASTTrue → r.2.SolverMap = st.SolverMap) ∧
    (∀ key t, st.SolverMap key = some t → r.2.SolverMap key = some t) := by
  rcases BVSolve_Odd_outcome S st input r hk hmemo h with ⟨h1, h2, h3⟩ | ⟨h1, h2⟩
  · exact ⟨⟨fun _ => h2, fun _ => h1⟩, fun hn => absurd h1 hn, h3⟩
  · have hne : r.1 ≠ ASTTrue := by
      rw [h1]
      intro hc
      have := BVSolve_Odd_eq_kind input hk
      rw [hc] at this
      cases this
    refine ⟨⟨fun ht => absurd ht hne, ?_⟩, fun _ => h2, ?_⟩
    · rintro ⟨key, hk1, hk2⟩
      rw [h2, hk1] at hk2
      cases hk2
    · intro key t ht
      rw [h2]; exact ht

/-- The hypotheses of claim C4 as amended hold for `x + y = 5` in a new solver. -/
theorem C4_discharge_decline_atomicity_witness :
    scenario1.GetKind = EQ ∧
    CheckAlreadySolvedMap BVSolver.init (BVSolve_Odd_eq scenario1) = none ∧
    (BVSolve_Odd idSimplifier BVSolver.init scenario1).isSome = true ∧
    ∀ r, BVSolve_Odd idSimplifier BVSolver.init scenario1 = some r →
      ((r.1 = ASTTrue ↔
        ∃ key, BVSolver.init.SolverMap key = none ∧ (r.2.SolverMap key).isSome = true) ∧
      (r.1 ≠ ASTTrue → r.2.SolverMap = BVSolver.init.SolverMap) ∧
      (∀ key t, BVSolver.init.SolverMap key = some t → r.2.SolverMap key = some t)) :=
  ⟨by decide, by decide, by decide, fun r hr =>
    C4_discharge_decline_atomicity idSimplifier BVSolver.init scenario1 r
      (by decide) (by decide) hr⟩

/-! ## Claims on the driver: idempotence -/

theorem BVSolve_Odd_not_eq (S : Simplifier) (st : BVSolver) (n : ASTNode)
    (h : n.GetKind ≠ EQ) : BVSolve_Odd S st n = some (n, st) := by
  unfold BVSolve_Odd
  rw [if_pos (by simpa [eq_comm] using h)]

theorem CheckEvenEqn_not_eq (n : ASTNode) (h : n.GetKind ≠ EQ) : CheckEvenEqn n = (n, false) := by
  unfold CheckEvenEqn
  rw [if_pos (by simpa [eq_comm] using h)]

/-- The loop of the driver over an output `AND(O, true)` whose open part `O` is
left as it is: `O` stays open, unless it is the constant true, and nothing is
collected as even. -/
theorem TopLevelBVSolve_loop_fixed (S : Simplifier) (st st1 : BVSolver) (O : ASTNode)
    (hodd : BVSolve_Odd S st O = some (O, st1)) (heven : CheckEvenEqn O = (O, false)) :
    TopLevelBVSolve_loop S [O, ASTTrue] { st := st, o := [], eveneqns := [], any_solved := false }
      = some { st := st1, o := if ASTTrue ≠ O then [O] else [], eveneqns := [],
               any_solved := true } := by
  have h2 : ∀ s, BVSolve_Odd S s ASTTrue = some (ASTTrue, s) :=
    fun s => BVSolve_Odd_not_eq S s ASTTrue (by decide)
  have h3 : CheckEvenEqn ASTTrue = (ASTTrue, false) := CheckEvenEqn_not_eq _ (by decide)
  have h4 : (EQ = ASTTrue.GetKind) = False := by simp [ASTTrue, ASTNode.GetKind]
  simp only [TopLevelBVSolve_loop, Bool.false_and, Bool.false_eq_true, if_false, hodd, heven,
    h2, h3, h4, decide_False, Bool.and_false, ne_eq, not_true_eq_false, if_true,
    List.nil_append]

theorem driverRun_spec (S : Simplifier) (st : BVSolver) (F : ASTNode)
    (h : (TopLevelBVSolve S st F).isSome = true) :
    TopLevelBVSolve S st F = some (driverRun S st F) := by
  unfold driverRun
  cases hr : TopLevelBVSolve S st F with
  | none => rw [hr] at h; cases h
  | some r => rfl

/-! ## Claims on the even-coefficient solver -/

/-! ### Arithmetic modulo a power of two -/

theorem two_pow_split (k len : Nat) (h : k ≤ len) : 2 ^ len = 2 ^ k * 2 ^ (len - k) := by
  rw [← Nat.pow_add]; congr 1; omega

theorem mul_pow_mod_eq_zero (k len T : Nat) (h : k ≤ len) :
    (2 ^ k * T) % 2 ^ len = 0 ↔ T % 2 ^ (len - k) = 0 := by
  rw [two_pow_split k len h, Nat.mul_mod_mul_left]
  constructor
  · intro h0
    rcases Nat.mul_eq_zero.1 h0 with h1 | h1
    · exact absurd h1 (by positivity)
    · exact h1
  · intro h0; rw [h0]; simp

/-! ### The position of the lowest set bit -/

theorem SplitEven_loop_ge (value width : Nat) :
    ∀ remaining n, n ≤ SplitEven_loop value width remaining n
  | 0, n => by simp [SplitEven_loop]
  | r + 1, n => by
    rw [SplitEven_loop]
    split_ifs
    · exact Nat.le_trans (Nat.le_succ n) (SplitEven_loop_ge value width r (n + 1))
    · exact Nat.le_refl n

theorem SplitEven_loop_dvd (value width : Nat) (hv : value < 2 ^ width) :
    ∀ remaining n, remaining + n = width → 2 ^ n ∣ value →
      2 ^ SplitEven_loop value width remaining n ∣ value
  | 0, n, _, hd => by simpa [SplitEven_loop] using hd
  | r + 1, n, hw, hd => by
    rw [SplitEven_loop]
    split_ifs with hc
    · apply SplitEven_loop_dvd value width hv r (n + 1) (by omega)
      simp only [Bool.and_eq_true, decide_eq_true_eq, Bool.not_eq_true', BitVector_bit_test,
        decide_eq_false_iff_not] at hc
      obtain ⟨q, hq⟩ := hd
      rw [hq, Nat.mul_div_cancel_left _ (by positivity)] at hc
      have : q % 2 = 0 := by omega
      obtain ⟨q2, hq2⟩ := Nat.dvd_of_mod_eq_zero this
      exact ⟨q2, by rw [hq, hq2, pow_succ]; ring⟩
    · exact hd

theorem SplitEven_dvd (c : ASTNode) (hv : c.GetBVConst < 2 ^ c.GetValueWidth) :
    2 ^ SplitEven_into_Oddnum_PowerOf2 c ∣ c.GetBVConst :=
  SplitEven_loop_dvd _ _ hv _ 0 (by simp) (by simp)

theorem SplitEven_pos (c : ASTNode) (hw : 0 < c.GetValueWidth) (he : BVConstIsOdd c = false) :
    0 < SplitEven_into_Oddnum_PowerOf2 c := by
  unfold SplitEven_into_Oddnum_PowerOf2
  obtain ⟨w, hw2⟩ : ∃ w, c.GetValueWidth = w + 1 := ⟨c.GetValueWidth - 1, by omega⟩
  rw [hw2, SplitEven_loop]
  have : BitVector_bit_test c.GetBVConst 0 = false := by
    simpa [BitVector_bit_test, BVConstIsOdd] using he
  simp only [this, Nat.zero_lt_succ, decide_True, Bool.not_false, Bool.and_self, if_true]
  exact Nat.lt_of_lt_of_le Nat.zero_lt_one (SplitEven_loop_ge _ _ _ _)

/-! ### The first pass of `BVSolve_Even` -/

theorem BVSolve_Even_lowest_monoms_spec :
    ∀ (ms : ASTVec) (l0 l : Nat), BVSolve_Even_lowest_monoms ms l0 = some l →
      l ≤ l0 ∧ ∀ m ∈ ms, evenMonom m = true ∧ l ≤ SplitEven_into_Oddnum_PowerOf2 (coeffOf m)
  | [], l0, l, h => by
    simp only [BVSolve_Even_lowest_monoms, Option.some.injEq] at h
    subst h
    exact ⟨Nat.le_refl _, by simp⟩
  | m :: rest, l0, l, h => by
    rw [BVSolve_Even_lowest_monoms] at h
    by_cases hs : (!(decide (BVCONST = m.GetKind) && !BVConstIsOdd m)
        && !(decide (BVMULT = m.GetKind) && decide (BVCONST = (m.child 0).GetKind)
          && decide (SYMBOL = (m.child 1).GetKind) && !BVConstIsOdd (m.child 0))) = true
    · rw [if_pos hs] at h; cases h
    · rw [if_neg hs] at h
      have h : BVSolve_Even_lowest_monoms rest
          (if SplitEven_into_Oddnum_PowerOf2 (coeffOf m) < l0
            then SplitEven_into_Oddnum_PowerOf2 (coeffOf m) else l0) = some l := h
      obtain ⟨h1, h2⟩ := BVSolve_Even_lowest_monoms_spec rest _ l h
      have hev : evenMonom m = true := by
        unfold evenMonom
        revert hs
        generalize (decide (BVCONST = m.GetKind) && !BVConstIsOdd m) = a
        generalize (decide (BVMULT = m.GetKind) && decide (BVCONST = (m.child 0).GetKind)
          && decide (SYMBOL = (m.child 1).GetKind) && !BVConstIsOdd (m.child 0)) = b
        cases a <;> cases b <;> simp
      constructor
      · split_ifs at h1 <;> omega
      · intro x hx
        rcases List.mem_cons.1 hx with rfl | hx
        · refine ⟨hev, ?_⟩
          split_ifs at h1 <;> omega
        · exact h2 x hx

theorem BVSolve_Even_lowest_spec :
    ∀ (eqs : ASTVec) (l0 l : Nat), BVSolve_Even_lowest eqs l0 = some l →
      l ≤ l0 ∧ ∀ e ∈ eqs, (e.child 0).GetKind = BVPLUS ∧
        e.child 1 = CreateZeroConst (e.child 1).GetValueWidth ∧
        ∀ m ∈ (e.child 0).GetChildren,
          evenMonom m = true ∧ l ≤ SplitEven_into_Oddnum_PowerOf2 (coeffOf m)
  | [], l0, l, h => by
    simp only [BVSolve_Even_lowest, Option.some.injEq] at h
    subst h
    exact ⟨Nat.le_refl _, by simp⟩
  | e :: rest, l0, l, h => by
    rw [BVSolve_Even_lowest] at h
    by_cases hs : (!(decide (BVPLUS = (e.child 0).GetKind)
        && decide (CreateZeroConst (e.child 1).GetValueWidth = e.child 1))) = true
    · simp only [hs, if_true] at h; cases h
    · simp only [hs, if_false] at h
      cases hm : BVSolve_Even_lowest_monoms (e.child 0).GetChildren l0 with
      | none => rw [hm] at h; cases h
      | some l1 =>
        rw [hm] at h
        simp only [] at h
        obtain ⟨h1, h2⟩ := BVSolve_Even_lowest_monoms_spec _ _ _ hm
        obtain ⟨h3, h4⟩ := BVSolve_Even_lowest_spec rest l1 l h
        simp only [Bool.not_eq_true', Bool.and_eq_false_imp, decide_eq_true_eq,
          decide_eq_false_iff_not, not_forall, not_not, exists_prop] at hs
        refine ⟨Nat.le_trans h3 h1, ?_⟩
        intro x hx
        rcases List.mem_cons.1 hx with rfl | hx
        · refine ⟨hs.1.symm, hs.2.symm, ?_⟩
          intro m hmem
          exact ⟨(h2 m hmem).1, Nat.le_trans h3 (h2 m hmem).2⟩
        · exact h4 x hx

/-! ### Values of the nodes the even solver reads and builds -/

theorem usub_eq (a b : Nat) (hb : b ≤ a) (ha : a < 2 ^ 32) : usub a b = a - b := by
  unfold usub
  have h32 : (2 : Nat) ^ 32 = 4294967296 := by norm_num
  rw [h32] at ha ⊢
  omega

theorem evalAll_eq_map (env : Assignment) (c : ASTVec) : evalAll env c = c.map (eval env) := by
  induction c with
  | nil => rfl
  | cons t ts ih => simp [evalAll, ih]

theorem eval_const (env : Assignment) (w v : Nat) : eval env (CreateBVConst w v) = v % 2 ^ w := by
  simp [CreateBVConst, eval, evalNode]

theorem eval_of_const (env : Assignment) (m : ASTNode) (h : m.GetKind = BVCONST) :
    eval env m = m.GetBVConst % 2 ^ m.GetValueWidth := by
  cases m with
  | mk k w v c =>
    simp only [ASTNode.GetKind] at h
    subst h
    simp [eval, evalNode, ASTNode.GetBVConst, ASTNode.GetValueWidth]

theorem eval_of_symbol (env : Assignment) (x : ASTNode) (h : x.GetKind = SYMBOL) :
    eval env x = env x % 2 ^ x.GetValueWidth := by
  cases x with
  | mk k w v c =>
    simp only [ASTNode.GetKind] at h
    subst h
    simp [eval, evalNode, ASTNode.GetValueWidth]

theorem children_pair (m : ASTNode) (h : m.GetChildren.length = 2) :
    m.GetChildren = [m.child 0, m.child 1] := by
  unfold ASTNode.child
  match hc : m.GetChildren, h with
  | [a, b], _ => simp

theorem eval_of_mult (env : Assignment) (m : ASTNode) (h : m.GetKind = BVMULT)
    (hc : m.GetChildren.length = 2) :
    eval env m = (eval env (m.child 0) * eval env (m.child 1)) % 2 ^ m.GetValueWidth := by
  cases m with
  | mk k w v c =>
    simp only [ASTNode.GetKind] at h
    subst h
    match c, hc with
    | [a, b], _ =>
      simp [eval, evalNode, evalAll, ASTNode.GetValueWidth, ASTNode.child, ASTNode.GetChildren]

theorem eval_mult_term (env : Assignment) (w : Nat) (a b : ASTNode) :
    eval env (CreateTerm BVMULT w [a, b]) = (eval env a * eval env b) % 2 ^ w := by
  simp [CreateTerm, eval, evalNode, evalAll]

theorem eval_plus_term (env : Assignment) (w : Nat) (c : ASTVec) :
    eval env (CreateTerm BVPLUS w c) = (evalAll env c).sum % 2 ^ w := by
  simp [CreateTerm, eval, evalNode]

theorem eval_of_plus (env : Assignment) (m : ASTNode) (h : m.GetKind = BVPLUS) :
    eval env m = (evalAll env m.GetChildren).sum % 2 ^ m.GetValueWidth := by
  cases m with
  | mk k w v c =>
    simp only [ASTNode.GetKind] at h
    subst h
    simp [eval, evalNode, ASTNode.GetValueWidth, ASTNode.GetChildren]

theorem eval_extract_term (env : Assignment) (w : Nat) (x hi lo : ASTNode) :
    eval env (CreateTerm BVEXTRACT w [x, hi, lo])
      = eval env x / 2 ^ eval env lo % 2 ^ (eval env hi + 1 - eval env lo) % 2 ^ w := by
  simp [CreateTerm, eval, evalNode, evalAll]

theorem BVSolve_Even_two_eq (len : Nat) (hlen : 2 < 2 ^ len) :
    ∀ (n v : Nat), v < 2 ^ len →
      BVSolve_Even_two len n (ASTNode.mk BVCONST len v [])
        = some (ASTNode.mk BVCONST len ((2 ^ n * v) % 2 ^ len) [])
  | 0, v, hv => by simp [BVSolve_Even_two, Nat.mod_eq_of_lt hv]
  | n + 1, v, hv => by
    rw [BVSolve_Even_two]
    have h2 : 2 % 2 ^ len = 2 := Nat.mod_eq_of_lt hlen
    have : BVConstEvaluator (CreateTerm BVMULT len [CreateTwoConst len, ASTNode.mk BVCONST len v []])
        = some (ASTNode.mk BVCONST len ((2 * v) % 2 ^ len) []) := by
      simp [BVConstEvaluator, CreateTerm, CreateTwoConst, CreateBVConst, ASTNode.GetKind,
        ASTNode.child, ASTNode.GetChildren, ASTNode.GetBVConst, ASTNode.GetValueWidth, h2]
    rw [this, Option.some_bind, BVSolve_Even_two_eq len hlen n _ (Nat.mod_lt _ (by positivity))]
    congr 2
    rw [Nat.mul_mod, Nat.mod_mod, ← Nat.mul_mod, pow_succ]
    congr 1
    ring

/-- The division by `2^k` and the cut to `len - k` bits that `BVSolve_Even`
applies to a coefficient. -/
theorem reduce_coefficient (len k : Nat) (a : ASTNode) (h2 : k < len) (_h3 : len < 2 ^ 32)
    (ha : a.GetBVConst < 2 ^ len) :
    ((BVConstEvaluator (CreateTerm BVDIV len [a, ASTNode.mk BVCONST len (2 ^ k) []])).bind
      fun q => BVConstEvaluator (CreateTerm BVEXTRACT (len - k)
        [q, ASTNode.mk BVCONST 32 (len - k - 1) [], CreateZeroConst 32]))
      = some (CreateBVConst (len - k) (a.GetBVConst / 2 ^ k)) := by
  have hpos : (2 : Nat) ^ k ≠ 0 := by positivity
  have hlk : len - k - 1 + 1 = len - k := by omega
  have hq : a.GetBVConst / 2 ^ k < 2 ^ len :=
    Nat.lt_of_le_of_lt (Nat.div_le_self _ _) ha
  simp only [BVConstEvaluator, CreateTerm, ASTNode.GetKind, ASTNode.child,
    ASTNode.GetChildren, ASTNode.GetBVConst, List.getD_cons_succ, List.getD_cons_zero,
    hpos, if_false, Option.some_bind, ASTNode.GetValueWidth, CreateBVConst, CreateZeroConst,
    Nat.zero_mod, pow_zero, Nat.div_one, Nat.sub_zero, hlk, Nat.mod_mod]
  have hq2 : a.GetBVConst / 2 ^ k % 2 ^ len = a.GetBVConst / 2 ^ k := Nat.mod_eq_of_lt hq
  simp only [ASTNode.GetBVConst] at hq2
  rw [hq2]

/-- One monomial of an even equation and its reduction: the monomial is `2^k`
times a value `t` modulo `2^len`, and the reduced monomial is `t` modulo
`2^(len-k)`. -/
theorem BVSolve_Even_monom_spec (S : Simplifier) (sm : ASTNodeMap)
    (len k : Nat) (h2 : k < len) (h3 : len < 2 ^ 32)
    (m : ASTNode) (hev : evenMonom m = true)
    (hty : monomTyped len m = true) (hdvd : 2 ^ k ∣ (coeffOf m).GetBVConst) :
    ∃ m2, BVSolve_Even_monom S sm len (len - k) (ASTNode.mk BVCONST len (2 ^ k) [])
        (ASTNode.mk BVCONST 32 (len - k - 1) []) (CreateZeroConst 32) m = some m2 ∧
      ∀ env, SimplifierSound S sm env →
        ∃ t, eval env m = (2 ^ k * t) % 2 ^ len ∧ eval env m2 = t % 2 ^ (len - k) := by
  have hlk : len - k - 1 + 1 = len - k := by omega
  have h32 : len - k - 1 < 2 ^ 32 := by omega
  unfold BVSolve_Even_monom
  unfold monomTyped at hty
  unfold coeffOf at hdvd
  by_cases hc : BVCONST = m.GetKind
  · rw [if_pos hc]
    rw [if_pos hc] at hdvd
    simp only [hc.symm, if_true, Bool.and_eq_true, decide_eq_true_eq] at hty
    obtain ⟨q, hq⟩ := hdvd
    refine ⟨_, reduce_coefficient len k m h2 h3 hty.2, fun env _ => ⟨q, ?_, ?_⟩⟩
    · rw [eval_of_const env m hc.symm, hty.1, hq]
    · rw [eval_const, hq, Nat.mul_div_cancel_left _ (by positivity)]
  · rw [if_neg hc]
    rw [if_neg hc] at hdvd
    have hc2 : ¬ m.GetKind = BVCONST := fun h => hc h.symm
    simp only [hc2, if_false, Bool.and_eq_true, decide_eq_true_eq] at hty
    obtain ⟨hw, ⟨⟨hl, hw0⟩, hv0⟩, hw1⟩ := hty
    simp only [evenMonom, hc, decide_False, Bool.false_and, Bool.false_or, Bool.and_eq_true,
      decide_eq_true_eq, Bool.not_eq_true'] at hev
    obtain ⟨⟨⟨hk, hk0⟩, hk1⟩, _⟩ := hev
    obtain ⟨q, hq⟩ := hdvd
    have hred := reduce_coefficient len k (m.child 0) h2 h3 hv0
    rw [Option.bind_eq_some] at hred
    obtain ⟨q1, hq1, hq2⟩ := hred
    refine ⟨CreateTerm BVMULT (len - k) [CreateBVConst (len - k) ((m.child 0).GetBVConst / 2 ^ k),
      S.SimplifyTerm sm (CreateTerm BVEXTRACT (len - k)
        [m.child 1, ASTNode.mk BVCONST 32 (len - k - 1) [], CreateZeroConst 32])], ?_,
      fun env hS => ⟨q * (env (m.child 1) % 2 ^ len), ?_, ?_⟩⟩
    · rw [hq1, Option.some_bind, hq2, Option.some_bind]
    · rw [eval_of_mult env m hk.symm hl, eval_of_const env _ hk0.symm,
        eval_of_symbol env _ hk1.symm, hw, hw0, hw1, Nat.mod_eq_of_lt hv0, hq, Nat.mul_assoc]
    · rw [eval_mult_term, eval_const, hS.1, eval_extract_term, eval_of_symbol env _ hk1.symm,
        hw1, hq, Nat.mul_div_cancel_left _ (by positivity)]
      have e0 : eval env (CreateZeroConst 32) = 0 := by simp [CreateZeroConst, eval_const]
      have e1 : eval env (ASTNode.mk BVCONST 32 (len - k - 1) []) = len - k - 1 := by
        simp only [eval, evalNode]
        exact Nat.mod_eq_of_lt h32
      rw [e0, e1]
      simp only [pow_zero, Nat.div_one, Nat.sub_zero, hlk, Nat.mod_mod]
      rw [← Nat.mul_mod]

theorem BVSolve_Even_monoms_spec (S : Simplifier) (sm : ASTNodeMap)
    (len k : Nat) (h2 : k < len) (h3 : len < 2 ^ 32) :
    ∀ ms : ASTVec, (∀ m ∈ ms, evenMonom m = true ∧ monomTyped len m = true ∧
        2 ^ k ∣ (coeffOf m).GetBVConst) →
      ∃ ms2, BVSolve_Even_monoms S sm len (len - k) (ASTNode.mk BVCONST len (2 ^ k) [])
          (ASTNode.mk BVCONST 32 (len - k - 1) []) (CreateZeroConst 32) ms = some ms2 ∧
        ∀ env, SimplifierSound S sm env →
          ∃ T, (evalAll env ms).sum % 2 ^ len = (2 ^ k * T) % 2 ^ len ∧
            (evalAll env ms2).sum % 2 ^ (len - k) = T % 2 ^ (len - k)
  | [], _ => ⟨[], rfl, fun _ _ => ⟨0, by simp [evalAll], by simp [evalAll]⟩⟩
  | m :: rest, h => by
    obtain ⟨hev, hty, hd⟩ := h m (by simp)
    obtain ⟨m2, e1, p1⟩ := BVSolve_Even_monom_spec S sm len k h2 h3 m hev hty hd
    obtain ⟨ms2, e2, p2⟩ := BVSolve_Even_monoms_spec S sm len k h2 h3 rest
      (fun x hx => h x (by simp [hx]))
    refine ⟨m2 :: ms2, by rw [BVSolve_Even_monoms, e1, Option.some_bind, e2, Option.some_bind],
      fun env hS => ?_⟩
    obtain ⟨t, a1, a2⟩ := p1 env hS
    obtain ⟨T, b1, b2⟩ := p2 env hS
    refine ⟨t + T, ?_, ?_⟩
    · simp only [evalAll, List.sum_cons]
      rw [Nat.add_mod, a1, b1, Nat.mod_mod, ← Nat.add_mod, Nat.mul_add]
    · simp only [evalAll, List.sum_cons]
      rw [Nat.add_mod, a2, b2, Nat.mod_mod, ← Nat.add_mod]

theorem holds_of_eq (env : Assignment) (e : ASTNode) (h : e.GetKind = EQ) :
    holds env e = decide (eval env (e.child 0) = eval env (e.child 1)) := by
  cases e with
  | mk k w v c =>
    simp only [ASTNode.GetKind] at h
    subst h
    simp [holds, ASTNode.child, ASTNode.GetChildren]

/-- One equation of an even system and the equation `BVSolve_Even` builds from
it hold under the same assignments. -/
theorem BVSolve_Even_equation_spec (S : Simplifier) (sm : ASTNodeMap) (k : Nat) (e : ASTNode)
    (hk0 : 0 < k) (hk : k < (e.child 0).GetValueWidth) (hty : evenEquationTyped e = true)
    (hplus : (e.child 0).GetKind = BVPLUS)
    (hzero : e.child 1 = CreateZeroConst (e.child 1).GetValueWidth)
    (hms : ∀ m ∈ (e.child 0).GetChildren,
      evenMonom m = true ∧ 2 ^ k ∣ (coeffOf m).GetBVConst) :
    ∃ f, BVSolve_Even_equation S sm k e = some f ∧
      ∀ env, SimplifierSound S sm env → holds env f = holds env e := by
  simp only [evenEquationTyped, Bool.and_eq_true, decide_eq_true_eq, List.all_eq_true] at hty
  obtain ⟨⟨hkind, h3⟩, htm⟩ := hty
  have hlen2 : 2 < 2 ^ (e.child 0).GetValueWidth := by
    have : 2 ≤ (e.child 0).GetValueWidth := by omega
    calc 2 < 2 ^ 2 := by norm_num
      _ ≤ 2 ^ (e.child 0).GetValueWidth := Nat.pow_le_pow_right (by norm_num) this
  have h32 : (2 : Nat) ^ 32 = 4294967296 := by norm_num
  have hk32 : k < 2 ^ 32 := by omega
  have hu1 : usub (e.child 0).GetValueWidth k = (e.child 0).GetValueWidth - k :=
    usub_eq _ _ (by omega) h3
  have hu2 : usub ((e.child 0).GetValueWidth - k) 1 = (e.child 0).GetValueWidth - k - 1 :=
    usub_eq _ _ (by omega) (by omega)
  have hu3 : usub k 1 = k - 1 := usub_eq _ _ (by omega) hk32
  have htwo : BVSolve_Even_two (e.child 0).GetValueWidth (k - 1)
      (CreateTwoConst (e.child 0).GetValueWidth)
      = some (ASTNode.mk BVCONST (e.child 0).GetValueWidth (2 ^ k) []) := by
    have := BVSolve_Even_two_eq (e.child 0).GetValueWidth hlen2 (k - 1) 2 hlen2
    simp only [CreateTwoConst, CreateBVConst, Nat.mod_eq_of_lt hlen2]
    rw [this]
    have hp : 2 ^ (k - 1) * 2 = 2 ^ k := by
      rw [← pow_succ, Nat.sub_add_cancel hk0]
    rw [hp, Nat.mod_eq_of_lt (Nat.pow_lt_pow_right (by norm_num) hk)]
  obtain ⟨ms2, e2, p2⟩ := BVSolve_Even_monoms_spec S sm (e.child 0).GetValueWidth k hk h3
    (e.child 0).GetChildren (fun m hm => ⟨(hms m hm).1, htm m hm, (hms m hm).2⟩)
  have hlow : CreateBVConst 32 ((e.child 0).GetValueWidth - k - 1)
      = ASTNode.mk BVCONST 32 ((e.child 0).GetValueWidth - k - 1) [] := by
    have hb : (e.child 0).GetValueWidth - k - 1 < 2 ^ 32 := by omega
    exact congrArg (fun v => ASTNode.mk BVCONST 32 v []) (Nat.mod_eq_of_lt hb)
  refine ⟨S.CreateSimplifiedEQ sm (CreateTerm BVPLUS ((e.child 0).GetValueWidth - k) ms2)
      (CreateZeroConst ((e.child 0).GetValueWidth - k)), by
    unfold BVSolve_Even_equation
    simp only [hu1, hu2, hu3, htwo, Option.some_bind, hlow, e2], fun env hS => ?_⟩
  obtain ⟨T, b1, b2⟩ := p2 env hS
  rw [hS.2.2.2, holds_of_eq env e hkind, eval_plus_term, eval_of_plus env _ hplus, hzero]
  simp only [CreateZeroConst, eval_const, Nat.zero_mod]
  rw [b1, b2]
  have := mul_pow_mod_eq_zero k (e.child 0).GetValueWidth T (by omega)
  simp only [decide_eq_decide]
  exact this.symm

theorem BVSolve_Even_lowest_monoms_pos :
    ∀ (ms : ASTVec) (l0 l : Nat), BVSolve_Even_lowest_monoms ms l0 = some l → 0 < l0 →
      (∀ m ∈ ms, 0 < SplitEven_into_Oddnum_PowerOf2 (coeffOf m)) → 0 < l
  | [], l0, l, h, h0, _ => by
    simp only [BVSolve_Even_lowest_monoms, Option.some.injEq] at h
    omega
  | m :: rest, l0, l, h, h0, hp => by
    rw [BVSolve_Even_lowest_monoms] at h
    by_cases hs : (!(decide (BVCONST = m.GetKind) && !BVConstIsOdd m)
        && !(decide (BVMULT = m.GetKind) && decide (BVCONST = (m.child 0).GetKind)
          && decide (SYMBOL = (m.child 1).GetKind) && !BVConstIsOdd (m.child 0))) = true
    · rw [if_pos hs] at h; cases h
    · rw [if_neg hs] at h
      have h : BVSolve_Even_lowest_monoms rest
          (if SplitEven_into_Oddnum_PowerOf2 (coeffOf m) < l0
            then SplitEven_into_Oddnum_PowerOf2 (coeffOf m) else l0) = some l := h
      have hm := hp m (by simp)
      exact BVSolve_Even_lowest_monoms_pos rest _ l h (by split_ifs <;> omega)
        (fun x hx => hp x (by simp [hx]))

theorem BVSolve_Even_lowest_pos :
    ∀ (eqs : ASTVec) (l0 l : Nat), BVSolve_Even_lowest eqs l0 = some l → 0 < l0 →
      (∀ e ∈ eqs, ∀ m ∈ (e.child 0).GetChildren,
        0 < SplitEven_into_Oddnum_PowerOf2 (coeffOf m)) → 0 < l
  | [], l0, l, h, h0, _ => by
    simp only [BVSolve_Even_lowest, Option.some.injEq] at h
    omega
  | e :: rest, l0, l, h, h0, hp => by
    rw [BVSolve_Even_lowest] at h
    by_cases hs : (!(decide (BVPLUS = (e.child 0).GetKind)
        && decide (CreateZeroConst (e.child 1).GetValueWidth = e.child 1))) = true
    · simp only [hs, if_true] at h; cases h
    · simp only [hs, if_false] at h
      cases hm : BVSolve_Even_lowest_monoms (e.child 0).GetChildren l0 with
      | none => rw [hm] at h; cases h
      | some l1 =>
        rw [hm] at h
        simp only [] at h
        have h1 := BVSolve_Even_lowest_monoms_pos _ _ _ hm h0 (hp e (by simp))
        exact BVSolve_Even_lowest_pos rest l1 l h h1 (fun x hx => hp x (by simp [hx]))

theorem coeffOf_typed (len : Nat) (m : ASTNode) (hev : evenMonom m = true)
    (hty : monomTyped len m = true) :
    (coeffOf m).GetValueWidth = len ∧ (coeffOf m).GetBVConst < 2 ^ len ∧
      BVConstIsOdd (coeffOf m) = false := by
  unfold coeffOf
  unfold monomTyped at hty
  unfold evenMonom at hev
  by_cases hc : BVCONST = m.GetKind
  · rw [if_pos hc]
    simp only [hc.symm, if_true, Bool.and_eq_true, decide_eq_true_eq] at hty
    simp only [hc, decide_True, Bool.true_and, Bool.or_eq_true, Bool.not_eq_true',
      Bool.and_eq_true, decide_eq_true_eq] at hev
    rcases hev with h | h
    · exact ⟨hty.1, hty.2, h⟩
    · rw [← hc] at h; exact absurd h.1.1.1 (by decide)
  · rw [if_neg hc]
    have hc2 : ¬ m.GetKind = BVCONST := fun h => hc h.symm
    simp only [hc2, if_false, Bool.and_eq_true, decide_eq_true_eq] at hty
    simp only [hc, decide_False, Bool.false_and, Bool.false_or, Bool.and_eq_true,
      decide_eq_true_eq, Bool.not_eq_true'] at hev
    exact ⟨hty.2.1.1.2, hty.2.1.2, hev.2⟩

theorem BVSolve_Even_reduce_spec (S : Simplifier) (sm : ASTNodeMap) (k : Nat) (hk0 : 0 < k) :
    ∀ eqs : ASTVec,
      (∀ e ∈ eqs, k < (e.child 0).GetValueWidth ∧ evenEquationTyped e = true ∧
        (e.child 0).GetKind = BVPLUS ∧ e.child 1 = CreateZeroConst (e.child 1).GetValueWidth ∧
        ∀ m ∈ (e.child 0).GetChildren,
          evenMonom m = true ∧ 2 ^ k ∣ (coeffOf m).GetBVConst) →
      ∃ fs, BVSolve_Even_reduce S sm k eqs = some (some fs) ∧
        ∀ env, SimplifierSound S sm env → holdsAll env fs = holdsAll env eqs
  | [], _ => ⟨[], rfl, fun _ _ => rfl⟩
  | e :: rest, h => by
    obtain ⟨h1, h2, h3, h4, h5⟩ := h e (by simp)
    obtain ⟨f, ef, pf⟩ := BVSolve_Even_equation_spec S sm k e hk0 h1 h2 h3 h4 h5
    obtain ⟨fs, efs, pfs⟩ := BVSolve_Even_reduce_spec S sm k hk0 rest
      (fun x hx => h x (by simp [hx]))
    refine ⟨f :: fs, ?_, fun env hS => ?_⟩
    · have hs : (!(decide (BVPLUS = (e.child 0).GetKind)
          && decide (CreateZeroConst (e.child 1).GetValueWidth = e.child 1))) = false := by
        have a1 : decide (BVPLUS = (e.child 0).GetKind) = true := decide_eq_true h3.symm
        have a2 : decide (CreateZeroConst (e.child 1).GetValueWidth = e.child 1) = true :=
          decide_eq_true h4.symm
        simp only [a1, a2, Bool.and_self, Bool.not_true]
      simp only [BVSolve_Even_reduce, hs, Bool.false_eq_true, if_false, ef, efs,
        Option.some_bind, Option.map_some']
    · simp only [holdsAll, pf env hS, pfs env hS]

theorem holds_conj (env : Assignment) (fs : ASTVec) :
    holds env (conjunctionOf fs) = holdsAll env fs := by
  match fs with
  | [] => simp [conjunctionOf, ASTTrue, holds, holdsAll]
  | [f] => simp [conjunctionOf, holdsAll]
  | f :: f2 :: r => simp [conjunctionOf, CreateNode, holds]

theorem holds_of_and (env : Assignment) (n : ASTNode) (h : n.GetKind = AND) :
    holds env n = holdsAll env n.GetChildren := by
  cases n with
  | mk k w v c =>
    simp only [ASTNode.GetKind] at h
    subst h
    simp [holds, ASTNode.GetChildren]

theorem idSimplifier_sound (sm : ASTNodeMap) (env : Assignment) :
    SimplifierSound idSimplifier sm env :=
  ⟨fun _ => rfl, fun _ => rfl, fun _ => rfl, fun a b => by
    simp [idSimplifier, CreateNode, holds]⟩

/-! ## Claims on the even-shape check -/

theorem mod_pow_mod_two (n w : Nat) (hw : 0 < w) : n % 2 ^ w % 2 = n % 2 :=
  Nat.mod_mod_of_dvd n (dvd_pow_self 2 (Nat.pos_iff_ne_zero.1 hw))

theorem even_mod_pow (n w : Nat) (h : n % 2 = 0) : n % 2 ^ w % 2 = 0 := by
  rcases Nat.eq_zero_or_pos w with h0 | h0
  · subst h0; simp [Nat.mod_one]
  · rw [mod_pow_mod_two n w h0, h]

/-- A monomial `a*x` with `a` an even constant has an even value. -/
theorem eval_even_monom (env : Assignment) (m : ASTNode) (hk : BVMULT = m.GetKind)
    (hc : BVCONST = (m.child 0).GetKind) (he : BVConstIsOdd (m.child 0) = false) :
    eval env m % 2 = 0 := by
  cases m with
  | mk k w v c =>
    simp only [ASTNode.GetKind] at hk
    subst hk
    cases c with
    | nil => simp [ASTNode.child, ASTNode.GetChildren, ASTUndefined, ASTNode.GetKind] at hc
    | cons a rest =>
      simp only [ASTNode.child, ASTNode.GetChildren, List.getD_cons_zero] at hc he
      simp only [eval, evalNode, evalAll, List.prod_cons]
      apply even_mod_pow
      rw [Nat.mul_mod, eval_of_const env a hc.symm]
      have hev : a.GetBVConst % 2 ^ a.GetValueWidth % 2 = 0 := by
        apply even_mod_pow
        simp only [BVConstIsOdd, decide_eq_false_iff_not] at he
        omega
      rw [hev]; simp

/-- The loop of `CheckEvenEqn` on an lhs with at most one bare constant: the
parity of the sum is that of the constant kept, and the sum is even when there
is no constant. -/
theorem CheckEvenEqn_loop_parity (env : Assignment) :
    ∀ (ms : ASTVec) (s s2 : ASTNode), CheckEvenEqn_loop ms s = some s2 →
      (∀ m ∈ ms, BVCONST = m.GetKind → m.GetBVConst < 2 ^ m.GetValueWidth) →
      (constantAddends ms).length ≤ 1 →
      (constantAddends ms = [] ∧ s2 = s ∧ (evalAll env ms).sum % 2 = 0) ∨
      (constantAddends ms ≠ [] ∧ (evalAll env ms).sum % 2 = s2.GetBVConst % 2)
  | [], s, s2, h, _, _ => by
    simp only [CheckEvenEqn_loop, Option.some.injEq] at h
    exact Or.inl ⟨rfl, h.symm, rfl⟩
  | aaa :: rest, s, s2, h, hfit, hone => by
    rw [CheckEvenEqn_loop] at h
    by_cases hk : BVCONST = aaa.GetKind
    · rw [if_pos hk] at h
      have hf : constantAddends (aaa :: rest) = aaa :: constantAddends rest := by
        simp [constantAddends, List.filter_cons, hk]
      rw [hf] at hone
      have hnil : constantAddends rest = [] := by
        apply List.eq_nil_of_length_eq_zero
        simp only [List.length_cons] at hone
        omega
      rcases CheckEvenEqn_loop_parity env rest aaa s2 h
        (fun m hm => hfit m (List.mem_cons_of_mem _ hm)) (by rw [hnil]; simp) with h1 | h1
      · right
        refine ⟨by rw [hf]; simp, ?_⟩
        obtain ⟨_, hs, hsum⟩ := h1
        subst hs
        have hv := hfit s2 (List.mem_cons_self _ _) hk
        simp only [evalAll, List.sum_cons]
        rw [eval_of_const env s2 hk.symm, Nat.mod_eq_of_lt hv]
        omega
      · exact absurd hnil h1.1
    · rw [if_neg hk] at h
      by_cases hm : (!(BVMULT = aaa.GetKind && BVCONST = (aaa.child 0).GetKind
          && SYMBOL = (aaa.child 1).GetKind && !BVConstIsOdd (aaa.child 0))) = true
      · rw [if_pos hm] at h; cases h
      · rw [if_neg hm] at h
        simp only [Bool.not_eq_true', Bool.not_eq_false, Bool.and_eq_true, decide_eq_true_eq,
          Bool.not_eq_true'] at hm
        obtain ⟨⟨⟨h1, h2⟩, _⟩, h4⟩ := hm
        have hev := eval_even_monom env aaa h1 h2 h4
        have hf : constantAddends (aaa :: rest) = constantAddends rest := by
          simp [constantAddends, List.filter_cons, hk]
        rw [hf] at hone ⊢
        simp only [evalAll, List.sum_cons]
        rcases CheckEvenEqn_loop_parity env rest s s2 h
          (fun m hm => hfit m (List.mem_cons_of_mem _ hm)) hone with h5 | h5
        · exact Or.inl ⟨h5.1, h5.2.1, by omega⟩
        · exact Or.inr ⟨h5.1, by omega⟩

/-- Claim C7 as stated fails when the lhs has two bare constants.  On
`1 + 2*x + 1 = 0` at 8 bits `CheckEvenEqn` looks at the last constant only and
returns the constant false, yet the assignment `x = 127` satisfies the
equation. -/
theorem C7_counterexample :
    CheckEvenEqn twoConstants = (ASTFalse, false) ∧
    holds (fun _ => 127) twoConstants = true := by
  decide

/-- Claim C7, amended: contradiction soundness for an lhs with at most one
bare constant.  For every equation whose lhs has a nonzero width and at most
one bare-constant addend, the value of a constant addend fitting its width, if
`CheckEvenEqn` returns the boolean constant false then no assignment satisfies
the equation. -/
theorem C7_contradiction_soundness (input : ASTNode)
    (hw : 0 < (input.child 0).GetValueWidth)
    (hfit : ∀ m ∈ (input.child 0).GetChildren, BVCONST = m.GetKind →
      m.GetBVConst < 2 ^ m.GetValueWidth)
    (hone : (constantAddends (input.child 0).GetChildren).length ≤ 1)
    (hfalse : (CheckEvenEqn input).1 = ASTFalse) :
    ∀ env, holds env input = false := by
  intro env
  unfold CheckEvenEqn at hfalse
  by_cases hk : EQ ≠ input.GetKind
  · rw [if_pos hk] at hfalse
    simp only at hfalse
    rw [hfalse]
    simp [ASTFalse, holds]
  · rw [if_neg hk] at hfalse
    have hkind : input.GetKind = EQ := by
      by_contra h; exact hk (fun h2 => h h2.symm)
    have hne : input ≠ ASTFalse := by
      intro h; rw [h] at hkind; simp [ASTFalse, ASTNode.GetKind] at hkind
    simp only at hfalse
    by_cases hs : (!(decide (BVPLUS = (input.child 0).GetKind)
        && decide (CreateZeroConst (input.child 1).GetValueWidth = input.child 1))) = true
    · rw [if_pos hs] at hfalse; exact absurd hfalse hne
    · rw [if_neg hs] at hfalse
      simp only [Bool.not_eq_true', Bool.not_eq_false, Bool.and_eq_true, decide_eq_true_eq,
        Bool.not_eq_true'] at hs
      obtain ⟨hplus, hzero⟩ := hs
      cases hl : CheckEvenEqn_loop (input.child 0).GetChildren (input.child 1) with
      | none => rw [hl] at hfalse; exact absurd hfalse hne
      | some s2 =>
        rw [hl] at hfalse
        simp only at hfalse
        by_cases hodd : BVConstIsOdd s2 = true
        · have hrhs : eval env (input.child 1) = 0 := by
            rw [← hzero]; simp [CreateZeroConst, eval_const]
          have hrv : (input.child 1).GetBVConst = 0 := by
            rw [← hzero]; simp [CreateZeroConst, CreateBVConst, ASTNode.GetBVConst]
          have hsum : (evalAll env (input.child 0).GetChildren).sum % 2 = 1 := by
            simp only [BVConstIsOdd, decide_eq_true_eq] at hodd
            rcases CheckEvenEqn_loop_parity env _ _ _ hl hfit hone with h1 | h1
            · rw [h1.2.1, hrv] at hodd; simp at hodd
            · rw [h1.2, hodd]
          rw [holds_of_eq env input hkind, hrhs, eval_of_plus env _ hplus.symm]
          simp only [decide_eq_false_iff_not]
          intro h0
          have := mod_pow_mod_two (evalAll env (input.child 0).GetChildren).sum _ hw
          rw [h0, hsum] at this
          simp at this
        · rw [if_neg hodd] at hfalse; exact absurd hfalse hne

/-- The hypotheses of claim C7 as amended hold for `2*x + 1 = 0` at 8 bits, on
which `CheckEvenEqn` returns the constant false. -/
theorem C7_contradiction_soundness_witness :
    0 < (oddConstant.child 0).GetValueWidth ∧
    (constantAddends (oddConstant.child 0).GetChildren).length ≤ 1 ∧
    (CheckEvenEqn oddConstant).1 = ASTFalse ∧
    ∀ env, holds env oddConstant = false :=
  ⟨by decide, by decide, by decide,
    C7_contradiction_soundness oddConstant (by decide) (by decide) (by decide) (by decide)⟩

/-! ## Claims on solving an odd coefficient -/

mutual
theorem VarSeenInTermMemo_absent (var : ASTNode) :
    ∀ (t : ASTNode) (seen : ASTNodeMap), occursIn var t = false →
      (VarSeenInTermMemo var t seen).1 = false
  | ASTNode.mk k w v c, seen, h => by
    rw [VarSeenInTermMemo]
    rw [occursIn] at h
    by_cases h1 : seen (ASTNode.mk k w v c) = some var
    · rw [if_pos h1]
    · rw [if_neg h1]
      by_cases h2 : var = ASTNode.mk k w v c
      · rw [if_pos h2] at h; cases h
      · rw [if_neg h2] at h ⊢
        by_cases h3 : (ASTNode.mk k w v c).isConstant = true
        · rw [if_pos h3]
        · rw [if_neg h3] at h ⊢
          have ih := VarSeenInTermsMemo_absent var c seen h
          cases hr : VarSeenInTermsMemo var c seen with
          | mk b s =>
            rw [hr] at ih
            simp only at ih
            subst ih
            rfl
theorem VarSeenInTermsMemo_absent (var : ASTNode) :
    ∀ (c : ASTVec) (seen : ASTNodeMap), occursInAny var c = false →
      (VarSeenInTermsMemo var c seen).1 = false
  | [], seen, _ => by simp [VarSeenInTermsMemo]
  | t :: ts, seen, h => by
    rw [VarSeenInTermsMemo]
    simp only [occursInAny, Bool.or_eq_false_iff] at h
    have ih := VarSeenInTermMemo_absent var t seen h.1
    cases hr : VarSeenInTermMemo var t seen with
    | mk b s =>
      rw [hr] at ih
      simp only at ih
      subst ih
      exact VarSeenInTermsMemo_absent var ts s h.2
end

theorem VarSeenInTerm_absent (st : BVSolver) (var t : ASTNode) (h : occursIn var t = false) :
    (VarSeenInTerm st var t).1 = false :=
  VarSeenInTermMemo_absent var t _ h

theorem eval_lt (env : Assignment) (t : ASTNode) : eval env t < 2 ^ t.GetValueWidth := by
  cases t with
  | mk k w v c =>
    simp only [eval, evalNode, ASTNode.GetValueWidth]
    split <;> exact Nat.mod_lt _ (by positivity)

/-- Solving `a*x = t` modulo `2^w` with an inverse `i` of `a`. -/
theorem inverse_solves (w a i x t : Nat) (hinv : a * i % 2 ^ w = 1 % 2 ^ w)
    (hx : x < 2 ^ w) (ht : t < 2 ^ w) :
    a * x % 2 ^ w = t ↔ x = i * t % 2 ^ w := by
  have h1 : a * i ≡ 1 [MOD 2 ^ w] := hinv
  constructor
  · intro h
    have h2 : a * x ≡ t [MOD 2 ^ w] := by
      unfold Nat.ModEq; rw [h, Nat.mod_eq_of_lt ht]
    have h3 : i * (a * x) ≡ i * t [MOD 2 ^ w] := Nat.ModEq.mul_left i h2
    have h4 : i * (a * x) ≡ x [MOD 2 ^ w] := by
      have := Nat.ModEq.mul_right x h1
      rw [one_mul] at this
      have e : i * (a * x) = a * i * x := by ring
      rw [e]; exact this
    have h5 : x ≡ i * t [MOD 2 ^ w] := h4.symm.trans h3
    unfold Nat.ModEq at h5
    rw [Nat.mod_eq_of_lt hx] at h5
    exact h5
  · intro h
    have h3 : a * (i * t) ≡ t [MOD 2 ^ w] := by
      have := Nat.ModEq.mul_right t h1
      rw [one_mul] at this
      have e : a * (i * t) = a * i * t := by ring
      rw [e]; exact this
    rw [h, Nat.mul_mod, Nat.mod_mod, ← Nat.mul_mod]
    have : a * (i * t) % 2 ^ w = t % 2 ^ w := h3
    rw [this, Nat.mod_eq_of_lt ht]

/-- The `case BVMULT` on `a*x = t` with `a` odd, `x` a free variable that does
not occur in the value computed for it. -/
theorem BVSolve_Odd_mult_solves (S : Simplifier) (st : BVSolver) (w : Nat) (a x t : ASTNode)
    (ha : a.GetKind = BVCONST) (hodd : BVConstIsOdd a = true) (hx : x.GetKind = SYMBOL)
    (hfree : st.SolverMap x = none)
    (hocc : occursIn x (S.SimplifyTerm st.SolverMap
      (CreateTerm BVMULT t.GetValueWidth [S.MultiplicativeInverse a, t])) = false) :
    ∃ st2, BVSolve_Odd_mult S st (CreateTerm BVMULT w [a, x]) t
        = (SwitchExit.breakWith ASTTrue, st2) ∧
      st2.SolverMap x = some (S.SimplifyTerm st.SolverMap
        (CreateTerm BVMULT t.GetValueWidth [S.MultiplicativeInverse a, t])) := by
  have c0 : (CreateTerm BVMULT w [a, x]).child 0 = a := rfl
  have c1 : (CreateTerm BVMULT w [a, x]).child 1 = x := rfl
  have hseen := VarSeenInTerm_absent st x _ hocc
  unfold BVSolve_Odd_mult
  simp only [c0, c1, ha, hx, hodd, ne_eq, not_true_eq_false, if_false, decide_True, Bool.true_or,
    Bool.not_true, Bool.false_eq_true, reduceCtorEq, decide_False, hseen, UpdateSolverMap_fst,
    forbid_SolverMap, VarSeenInTerm_SolverMap, hfree, Option.isNone_none, Bool.not_false]
  refine ⟨_, rfl, ?_⟩
  rw [UpdateSolverMap_SolverMap]
  simp [bindIfFree, hfree, set_self]

theorem occursIn_const (v c : ASTNode) (hv : v.GetKind = SYMBOL) (hc : c.GetKind = BVCONST) :
    occursIn v c = false := by
  cases c with
  | mk k w x ch =>
    simp only [ASTNode.GetKind] at hc
    subst hc
    have : v ≠ ASTNode.mk BVCONST w x ch := by
      intro h; rw [h] at hv; simp [ASTNode.GetKind] at hv
    simp [occursIn, this, ASTNode.isConstant, ASTNode.GetKind]

/-- Claim C8, solving an odd coefficient.  Let `a` be an odd constant, `x` a
variable without a binding and `t` a term that does not contain `x`, all of
width `w`, the equation `a*x = t` not memoized, the simplifier bringing no
symbol into a term and `MultiplicativeInverse(a)` being an inverse of `a`
modulo `2^w`.  Then `BVSolve_Odd` returns the constant true and binds `x` to
the simplified product `a^-1 * t`; under every assignment for which the
simplifier keeps meanings that term `v` has the value `a^-1 * t mod 2^w`,
satisfies `a * v = t mod 2^w`, and the equation holds exactly when the value
of `x` is the value of `v`. -/
theorem C8_odd_coefficient_solving (S : Simplifier) (st : BVSolver) (w : Nat) (a x t : ASTNode)
    (ha : a.GetKind = BVCONST) (hodd : BVConstIsOdd a = true) (haw : a.GetValueWidth = w)
    (hx : x.GetKind = SYMBOL) (hxw : x.GetValueWidth = w) (htw : t.GetValueWidth = w)
    (hocc : occursIn x t = false)
    (hmemo : CheckAlreadySolvedMap st (mkEq (CreateTerm BVMULT w [a, x]) t) = none)
    (hfree : st.SolverMap x = none)
    (hS : NoNewSymbols S)
    (hinv : IsInverseOf w a (S.MultiplicativeInverse a)) :
    ∃ st2 v, BVSolve_Odd S st (mkEq (CreateTerm BVMULT w [a, x]) t) = some (ASTTrue, st2) ∧
      st2.SolverMap x = some v ∧
      ∀ env, SimplifierSound S st.SolverMap env →
        eval env v = (S.MultiplicativeInverse a).GetBVConst * eval env t % 2 ^ w ∧
        eval env a * eval env v % 2 ^ w = eval env t ∧
        holds env (mkEq (CreateTerm BVMULT w [a, x]) t) = decide (eval env x = eval env v) := by
  obtain ⟨hik, hiw, hmul⟩ := hinv
  have hoccv : occursIn x (S.SimplifyTerm st.SolverMap
      (CreateTerm BVMULT t.GetValueWidth [S.MultiplicativeInverse a, t])) = false := by
    cases hb : occursIn x (S.SimplifyTerm st.SolverMap
      (CreateTerm BVMULT t.GetValueWidth [S.MultiplicativeInverse a, t])) with
    | false => rfl
    | true =>
      have h1 := (hS st.SolverMap _ x hx).1 hb
      rw [occursIn_term x BVMULT _ _ hx (by decide) (by decide) (by decide) (by decide)] at h1
      simp [occursInAny, occursIn_const x _ hx hik, hocc] at h1
  obtain ⟨st2, hrun, hmap⟩ := BVSolve_Odd_mult_solves S st w a x t ha hodd hx hfree hoccv
  refine ⟨UpdateAlreadySolvedMap st2 (mkEq (CreateTerm BVMULT w [a, x]) t) ASTTrue,
    S.SimplifyTerm st.SolverMap
      (CreateTerm BVMULT t.GetValueWidth [S.MultiplicativeInverse a, t]), ?_, ?_, ?_⟩
  · have k0 : (mkEq (CreateTerm BVMULT w [a, x]) t).GetKind = EQ := rfl
    have c0 : (mkEq (CreateTerm BVMULT w [a, x]) t).child 0 = CreateTerm BVMULT w [a, x] := rfl
    have c1 : (mkEq (CreateTerm BVMULT w [a, x]) t).child 1 = t := rfl
    have km : (CreateTerm BVMULT w [a, x]).GetKind = BVMULT := rfl
    have hsw : BVSolve_Odd_swaps (mkEq (CreateTerm BVMULT w [a, x]) t) = false := by
      simp [BVSolve_Odd_swaps, c0, km]
    unfold BVSolve_Odd
    simp only [k0, ne_eq, not_true_eq_false, if_false, hsw, BVSolve_Odd_eq, Bool.false_eq_true,
      hmemo, c0, c1, BVSolve_Odd_sum, km, reduceCtorEq, BVSolve_Odd_uminus, BVSolve_Odd_switch,
      hrun]
  · simpa using hmap
  · intro env hsound
    have hv : eval env (S.SimplifyTerm st.SolverMap
        (CreateTerm BVMULT t.GetValueWidth [S.MultiplicativeInverse a, t]))
        = (S.MultiplicativeInverse a).GetBVConst * eval env t % 2 ^ w := by
      rw [hsound.1, eval_mult_term, htw, eval_of_const env _ hik, hiw, Nat.mul_mod, Nat.mod_mod,
        ← Nat.mul_mod]
    have hxl : eval env x < 2 ^ w := by rw [← hxw]; exact eval_lt env x
    have htl : eval env t < 2 ^ w := by rw [← htw]; exact eval_lt env t
    have hmul2 : eval env a * (S.MultiplicativeInverse a).GetBVConst % 2 ^ w = 1 % 2 ^ w := by
      rw [eval_of_const env a ha, haw, Nat.mul_mod, Nat.mod_mod, ← Nat.mul_mod]
      exact hmul
    have key := inverse_solves w (eval env a) (S.MultiplicativeInverse a).GetBVConst
    refine ⟨hv, ?_, ?_⟩
    · rw [hv]
      exact (key _ (eval env t) hmul2 (Nat.mod_lt _ (by positivity)) htl).2 rfl
    · rw [holds_of_eq env (mkEq (CreateTerm BVMULT w [a, x]) t) rfl]
      have c0 : (mkEq (CreateTerm BVMULT w [a, x]) t).child 0 = CreateTerm BVMULT w [a, x] := rfl
      have c1 : (mkEq (CreateTerm BVMULT w [a, x]) t).child 1 = t := rfl
      rw [c0, c1, eval_mult_term, hv]
      exact decide_eq_decide.2 (key _ (eval env t) hmul2 hxl htl)

/-- Scenario 2 of the specification, `3*x = 9` at 8 bits in a new solver: the
hypotheses of claim C8 hold, and `x` is bound to `171 * 9`, whose value is 3. -/
theorem C8_odd_coefficient_solving_witness :
    CheckAlreadySolvedMap BVSolver.init scenario2 = none ∧
    IsInverseOf 8 (CreateBVConst 8 3) (idSimplifier.MultiplicativeInverse (CreateBVConst 8 3)) ∧
    NoNewSymbols idSimplifier ∧
    (BVSolve_Odd idSimplifier BVSolver.init scenario2).map
        (fun r => (r.1, r.2.SolverMap varX))
      = some (ASTTrue, some (CreateTerm BVMULT 8 [CreateBVConst 8 171, CreateBVConst 8 9])) ∧
    (∀ env, eval env (CreateTerm BVMULT 8 [CreateBVConst 8 171, CreateBVConst 8 9]) = 3) ∧
    ∃ st2 v, BVSolve_Odd idSimplifier BVSolver.init scenario2 = some (ASTTrue, st2) ∧
      st2.SolverMap varX = some v ∧
      ∀ env, SimplifierSound idSimplifier BVSolver.init.SolverMap env →
        eval env v
          = (idSimplifier.MultiplicativeInverse (CreateBVConst 8 3)).GetBVConst
            * eval env (CreateBVConst 8 9) % 2 ^ 8 ∧
        eval env (CreateBVConst 8 3) * eval env v % 2 ^ 8 = eval env (CreateBVConst 8 9) ∧
        holds env scenario2 = decide (eval env varX = eval env v) :=
  ⟨by decide, by decide, noNewSymbols_id, by decide,
    fun env => by simp [eval_mult_term, eval_const],
    C8_odd_coefficient_solving idSimplifier BVSolver.init 8 (CreateBVConst 8 3) varX
      (CreateBVConst 8 9) (by decide) (by decide) (by decide) (by decide) (by decide)
      (by decide) (by decide) (by decide) (by decide) noNewSymbols_id (by decide)⟩

/-! ## Claims on isolating a variable from a sum -/

/-- The first loop of `ChooseMonom` takes the first addend it accepts. -/
theorem ChooseMonom_first (st : BVSolver) (eq x : ASTNode) (pre post : ASTVec)
    (hv : CacheValid st.TermsAlreadySeenMap) (hk : eq.GetKind = EQ)
    (hp : (eq.child 0).GetKind = BVPLUS)
    (hc : (eq.child 0).GetChildren = pre ++ x :: post)
    (hpre : ∀ y ∈ pre, tier1Eligible st (eq.child 0) (eq.child 1) y = false)
    (hx : tier1Eligible st (eq.child 0) (eq.child 1) x = true)
    (hne : pre ++ post ≠ []) :
    ∃ mm, CacheValid mm ∧ ChooseMonom st eq
      = some (x, leftoverOf (eq.child 0).GetValueWidth (pre ++ post), st.withSeen mm) := by
  obtain ⟨m1, hm1, e1⟩ := ChooseMonom_symbols_eq (eq.child 0) (eq.child 1)
    (eq.child 0).GetChildren { st := st, o := [], outmonom := ASTUndefined, chosen := false } hv
  refine ⟨m1, hm1, ?_⟩
  have hl : ChooseMonom_loops st eq
      = { st := st.withSeen m1, o := pre ++ post, outmonom := x, chosen := true } := by
    unfold ChooseMonom_loops
    simp only [e1]
    simp only [hc, pickFirst_split _ pre post [] x ASTUndefined hpre hx, List.nil_append,
      Bool.not_true, Bool.false_eq_true, if_false]
  unfold ChooseMonom
  simp only [hk, hp, decide_True, Bool.and_self, Bool.not_true, Bool.false_eq_true, if_false, hl]
  generalize pre ++ post = o at hne
  match o, hne with
  | [m], _ => rfl
  | m :: m2 :: ms, _ => rfl

theorem add_sub_mod (w r s : Nat) :
    ((r + (2 ^ w - s % 2 ^ w) % 2 ^ w) % 2 ^ w + s) % 2 ^ w = r % 2 ^ w := by
  have hp : 0 < 2 ^ w := by positivity
  have hs : s % 2 ^ w < 2 ^ w := Nat.mod_lt _ hp
  have h1 : (2 ^ w - s % 2 ^ w + s % 2 ^ w) = 2 ^ w := Nat.sub_add_cancel (Nat.le_of_lt hs)
  have e1 : (r + (2 ^ w - s % 2 ^ w) % 2 ^ w) % 2 ^ w ≡ r + (2 ^ w - s % 2 ^ w) [MOD 2 ^ w] :=
    (Nat.mod_modEq _ _).trans (Nat.ModEq.add_left r (Nat.mod_modEq _ _))
  have e2 : s ≡ s % 2 ^ w [MOD 2 ^ w] := (Nat.mod_modEq s _).symm
  have e3 := e1.add e2
  rw [Nat.add_assoc r, h1] at e3
  exact e3.trans (by unfold Nat.ModEq; exact Nat.add_mod_right r _)

theorem eval_leftoverOf (env : Assignment) (w : Nat) (o : ASTVec) :
    eval env (leftoverOf w o) % 2 ^ w = (evalAll env o).sum % 2 ^ w := by
  unfold leftoverOf
  split
  · simp [evalAll]
  · rw [eval_plus_term, Nat.mod_mod]

theorem eval_uminus_term (env : Assignment) (w : Nat) (t : ASTNode) :
    eval env (CreateTerm BVUMINUS w [t]) = (2 ^ w - eval env t % 2 ^ w) % 2 ^ w := by
  simp [CreateTerm, eval, evalNode, evalAll]

/-- Claim C9, isolating a bare variable from a sum.  Let the equation be
`r_1 + ... + x + ... + r_n = rhs` with lhs of width `w`, `x` a variable
without a binding that is the first addend the first loop of `ChooseMonom`
accepts (not forbidden, occurring once in the lhs and not in `rhs`), at least
one other addend, the equation not memoized and the occurrence memo valid.
Then `BVSolve_Odd` returns the constant true for the equation,
`TopLevelBVSolve` returns `AND(true, true)`, no conjunct staying open, and `x`
is bound to a term `t` that, under every assignment for which the simplifier
keeps meanings, has a value below `2^w` with `t + r_1 + ... + r_n = rhs`
modulo `2^w`: the value of `rhs - (r_1 + ... + r_n)`. -/
theorem C9_isolating_a_bare_variable (S : Simplifier) (st : BVSolver) (w : Nat)
    (x rhs : ASTNode) (pre post : ASTVec)
    (hcache : CacheValid st.TermsAlreadySeenMap)
    (hx : x.GetKind = SYMBOL)
    (hpre : ∀ y ∈ pre, tier1Eligible st (CreateTerm BVPLUS w (pre ++ x :: post)) rhs y = false)
    (helig : tier1Eligible st (CreateTerm BVPLUS w (pre ++ x :: post)) rhs x = true)
    (hfree : st.SolverMap x = none)
    (hrest : pre ++ post ≠ [])
    (hmemo : CheckAlreadySolvedMap st (mkEq (CreateTerm BVPLUS w (pre ++ x :: post)) rhs) = none) :
    ∃ st2 t,
      (BVSolve_Odd S st (mkEq (CreateTerm BVPLUS w (pre ++ x :: post)) rhs)).map Prod.fst
        = some ASTTrue ∧
      TopLevelBVSolve S st (mkEq (CreateTerm BVPLUS w (pre ++ x :: post)) rhs)
        = some (CreateNode AND [ASTTrue, ASTTrue], st2) ∧
      st2.SolverMap x = some t ∧
      ∀ env, SimplifierSound S st.SolverMap env →
        holds env (CreateNode AND [ASTTrue, ASTTrue]) = true ∧
        eval env t < 2 ^ w ∧
        (eval env t + (evalAll env (pre ++ post)).sum) % 2 ^ w = eval env rhs % 2 ^ w := by
  have k0 : (mkEq (CreateTerm BVPLUS w (pre ++ x :: post)) rhs).GetKind = EQ := rfl
  have c0 : (mkEq (CreateTerm BVPLUS w (pre ++ x :: post)) rhs).child 0
      = CreateTerm BVPLUS w (pre ++ x :: post) := rfl
  have c1 : (mkEq (CreateTerm BVPLUS w (pre ++ x :: post)) rhs).child 1 = rhs := rfl
  have kp : (CreateTerm BVPLUS w (pre ++ x :: post)).GetKind = BVPLUS := rfl
  have wp : (CreateTerm BVPLUS w (pre ++ x :: post)).GetValueWidth = w := rfl
  obtain ⟨mm, _, hcm⟩ := ChooseMonom_first st (mkEq (CreateTerm BVPLUS w (pre ++ x :: post)) rhs)
    x pre post hcache k0 (by rw [c0]; exact kp) (by rw [c0]; rfl) (by rw [c0, c1]; exact hpre)
    (by rw [c0, c1]; exact helig) hrest
  rw [c0, wp] at hcm
  have hxu : x ≠ ASTUndefined := by
    intro h; rw [h] at hx; simp [ASTUndefined, ASTNode.GetKind] at hx
  have hsw : BVSolve_Odd_swaps (mkEq (CreateTerm BVPLUS w (pre ++ x :: post)) rhs) = false := by
    simp [BVSolve_Odd_swaps, c0, kp]
  obtain ⟨t, ht⟩ : ∃ t, t = S.SimplifyTerm st.SolverMap (CreateTerm BVPLUS w
      [rhs, S.SimplifyTerm_TopLevel st.SolverMap
        (CreateTerm BVUMINUS w [leftoverOf w (pre ++ post)])]) := ⟨_, rfl⟩
  have hsym : BVSolve_Odd_symbol (st.withSeen mm) x t true
      = (SwitchExit.breakWith ASTTrue,
          (UpdateSolverMap ((st.withSeen mm).forbid x) x t).2) := by
    unfold BVSolve_Odd_symbol
    simp only [Bool.not_true, Bool.false_eq_true, if_false, UpdateSolverMap_fst, forbid_SolverMap]
    have : (st.withSeen mm).SolverMap x = none := hfree
    simp [this]
  have hodd : BVSolve_Odd S st (mkEq (CreateTerm BVPLUS w (pre ++ x :: post)) rhs)
      = some (ASTTrue, UpdateAlreadySolvedMap
          (UpdateSolverMap ((st.withSeen mm).forbid x) x t).2
          (mkEq (CreateTerm BVPLUS w (pre ++ x :: post)) rhs) ASTTrue) := by
    have hsm : (st.withSeen mm).SolverMap = st.SolverMap := rfl
    unfold BVSolve_Odd
    simp only [k0, ne_eq, not_true_eq_false, if_false, hsw, BVSolve_Odd_eq, Bool.false_eq_true,
      hmemo, c0, c1, BVSolve_Odd_sum, kp, if_true, hcm, hxu, wp, hsm, ← ht, BVSolve_Odd_uminus,
      hx, reduceCtorEq, BVSolve_Odd_switch, hsym]
  have hmap : (UpdateAlreadySolvedMap (UpdateSolverMap ((st.withSeen mm).forbid x) x t).2
      (mkEq (CreateTerm BVPLUS w (pre ++ x :: post)) rhs) ASTTrue).SolverMap x = some t := by
    rw [UpdateAlreadySolvedMap_SolverMap, UpdateSolverMap_SolverMap, forbid_SolverMap]
    have : (st.withSeen mm).SolverMap x = none := hfree
    simp [bindIfFree, this, set_self]
  refine ⟨UpdateAlreadySolvedMap
      (UpdateAlreadySolvedMap (UpdateSolverMap ((st.withSeen mm).forbid x) x t).2
        (mkEq (CreateTerm BVPLUS w (pre ++ x :: post)) rhs) ASTTrue)
      (mkEq (CreateTerm BVPLUS w (pre ++ x :: post)) rhs) (CreateNode AND [ASTTrue, ASTTrue]),
    t, (by rw [hodd]; rfl), ?_, ?_, ?_⟩
  · unfold TopLevelBVSolve
    have he : CheckEvenEqn ASTTrue = (ASTTrue, false) := CheckEvenEqn_not_eq _ (by decide)
    simp only [k0, decide_True, Bool.true_or, Bool.not_true, Bool.false_eq_true, if_false, hmemo,
      if_true, sort_extracts_last, TopLevelBVSolve_loop, Bool.false_and, hodd, he, ne_eq,
      not_true_eq_false, conjunctionOf]
  · simpa using hmap
  · intro env hS
    have hv : eval env t = (eval env rhs + (2 ^ w
        - eval env (leftoverOf w (pre ++ post)) % 2 ^ w) % 2 ^ w) % 2 ^ w := by
      rw [ht, hS.1, eval_plus_term]
      simp only [evalAll, List.sum_cons, List.sum_nil, Nat.add_zero]
      rw [hS.2.1, eval_uminus_term]
    refine ⟨by simp [CreateNode, ASTTrue, holds, holdsAll], ?_, ?_⟩
    · rw [hv]; exact Nat.mod_lt _ (by positivity)
    · rw [hv, eval_leftoverOf]
      exact add_sub_mod w (eval env rhs) (evalAll env (pre ++ post)).sum

/-- Scenario 1 of the specification, `x + y = 5` at 8 bits in a new solver:
the hypotheses of claim C9 hold, the driver returns `AND(true, true)` and binds
`x` to `5 + (-y)`. -/
theorem C9_isolating_a_bare_variable_witness :
    tier1Eligible BVSolver.init (CreateTerm BVPLUS 8 ([] ++ varX :: [varY])) (CreateBVConst 8 5)
      varX = true ∧
    CheckAlreadySolvedMap BVSolver.init scenario1 = none ∧
    (TopLevelBVSolve idSimplifier BVSolver.init scenario1).map
        (fun r => (r.1, r.2.SolverMap varX))
      = some (CreateNode AND [ASTTrue, ASTTrue],
          some (CreateTerm BVPLUS 8 [CreateBVConst 8 5, CreateTerm BVUMINUS 8 [varY]])) ∧
    ∃ st2 t,
      (BVSolve_Odd idSimplifier BVSolver.init scenario1).map Prod.fst = some ASTTrue ∧
      TopLevelBVSolve idSimplifier BVSolver.init scenario1
        = some (CreateNode AND [ASTTrue, ASTTrue], st2) ∧
      st2.SolverMap varX = some t ∧
      ∀ env, SimplifierSound idSimplifier BVSolver.init.SolverMap env →
        holds env (CreateNode AND [ASTTrue, ASTTrue]) = true ∧
        eval env t < 2 ^ 8 ∧
        (eval env t + (evalAll env ([] ++ [varY])).sum) % 2 ^ 8
          = eval env (CreateBVConst 8 5) % 2 ^ 8 :=
  ⟨by decide, by decide, by decide,
    C9_isolating_a_bare_variable idSimplifier BVSolver.init 8 varX (CreateBVConst 8 5) [] [varY]
      cacheValid_empty (by decide) (by decide) (by decide) (by decide) (by decide) (by decide)⟩

/-! ## Claims on an even lhs with an odd constant -/

theorem andNotSeen_false (st : BVSolver) (v t : ASTNode) : andNotSeen false st v t = (false, st) := by
  simp [andNotSeen]

/-- The first loop of `ChooseMonom` takes no constant and no product. -/
theorem ChooseMonom_symbols_skip (lhs rhs : ASTNode) :
    ∀ (c : ASTVec) (r : MonomChoice), (∀ m ∈ c, m.GetKind = BVCONST ∨ m.GetKind = BVMULT) →
      ChooseMonom_symbols lhs rhs c r = { r with o := r.o ++ c }
  | [], r, _ => by simp [ChooseMonom_symbols]
  | m :: rest, r, h => by
    have h1 : (decide (SYMBOL = m.GetKind)) = false := by
      rcases h m (List.mem_cons_self _ _) with e | e <;> simp [e]
    have h2 : (decide (BVUMINUS = m.GetKind)) = false := by
      rcases h m (List.mem_cons_self _ _) with e | e <;> simp [e]
    rw [ChooseMonom_symbols]
    simp only [h1, h2, Bool.false_and, andNotSeen_false, Bool.false_eq_true, if_false]
    rw [ChooseMonom_symbols_skip lhs rhs rest _ (fun x hx => h x (List.mem_cons_of_mem _ hx))]
    simp

/-- The second loop of `ChooseMonom` takes no constant and no product with an
even coefficient. -/
theorem ChooseMonom_odd_skip (lhs rhs : ASTNode) :
    ∀ (c : ASTVec) (r : MonomChoice),
      (∀ m ∈ c, m.GetKind = BVCONST ∨ BVConstIsOdd (m.child 0) = false) →
      ChooseMonom_odd lhs rhs c r = { r with o := r.o ++ c }
  | [], r, _ => by simp [ChooseMonom_odd]
  | m :: rest, r, h => by
    have h1 : (decide (BVMULT = m.GetKind) && decide (BVCONST = (m.child 0).GetKind)
        && BVConstIsOdd (m.child 0)) = false := by
      rcases h m (List.mem_cons_self _ _) with e | e <;> simp [e]
    rw [ChooseMonom_odd]
    simp only [h1, Bool.false_and, andNotSeen_false, Bool.false_eq_true, if_false]
    rw [ChooseMonom_odd_skip lhs rhs rest _ (fun x hx => h x (List.mem_cons_of_mem _ hx))]
    simp

theorem CheckEvenEqn_loop_monoms :
    ∀ (post : ASTVec) (s : ASTNode), (∀ m ∈ post, evenVarMonom m = true) →
      CheckEvenEqn_loop post s = some s
  | [], s, _ => by simp [CheckEvenEqn_loop]
  | m :: rest, s, h => by
    have hm := h m (List.mem_cons_self _ _)
    simp only [evenVarMonom, Bool.and_eq_true, decide_eq_true_eq, Bool.not_eq_true'] at hm
    obtain ⟨⟨⟨h1, h2⟩, h3⟩, h4⟩ := hm
    have hk : ¬ BVCONST = m.GetKind := by rw [← h1]; decide
    rw [CheckEvenEqn_loop, if_neg hk]
    simp only [← h1, ← h2, ← h3, h4, decide_True, Bool.and_self, Bool.not_false, Bool.not_true,
      Bool.false_eq_true, if_false]
    exact CheckEvenEqn_loop_monoms rest s (fun x hx => h x (List.mem_cons_of_mem _ hx))

theorem CheckEvenEqn_loop_constant (c : ASTNode) (hc : c.GetKind = BVCONST) :
    ∀ (pre post : ASTVec) (s : ASTNode), (∀ m ∈ pre, evenVarMonom m = true) →
      (∀ m ∈ post, evenVarMonom m = true) →
      CheckEvenEqn_loop (pre ++ c :: post) s = some c
  | [], post, s, _, h => by
    simp only [List.nil_append]
    rw [CheckEvenEqn_loop, if_pos hc.symm]
    exact CheckEvenEqn_loop_monoms post c h
  | m :: rest, post, s, h, h2 => by
    have hm := h m (List.mem_cons_self _ _)
    simp only [evenVarMonom, Bool.and_eq_true, decide_eq_true_eq, Bool.not_eq_true'] at hm
    obtain ⟨⟨⟨e1, e2⟩, e3⟩, e4⟩ := hm
    have hk : ¬ BVCONST = m.GetKind := by rw [← e1]; decide
    simp only [List.cons_append]
    rw [CheckEvenEqn_loop, if_neg hk]
    simp only [← e1, ← e2, ← e3, e4, decide_True, Bool.and_self, Bool.not_false, Bool.not_true,
      Bool.false_eq_true, if_false]
    exact CheckEvenEqn_loop_constant c hc rest post s
      (fun x hx => h x (List.mem_cons_of_mem _ hx)) h2

/-- Claim C10 as stated fails on its own example.  `CheckEvenEqn` classifies
only equations whose rhs is the zero constant: on `2*x + 4*y = 1` at 8 bits it
returns the equation as it is, not classified even, and `TopLevelBVSolve`
keeps the equation as an open conjunct. -/
theorem C10_counterexample :
    CheckEvenEqn scenario3 = (scenario3, false) ∧
    (TopLevelBVSolve idSimplifier BVSolver.init scenario3).map Prod.fst
      = some (CreateNode AND [scenario3, ASTTrue]) ∧
    scenario3 ≠ ASTFalse := by
  decide

/-- Claim C10, amended: an even lhs with an odd constant among its addends is
a contradiction.  For every equation whose rhs is the zero constant and whose
lhs is a sum of monomials (even constant)*(variable) and of one bare constant,
which is odd, `CheckEvenEqn` returns the boolean constant false, not
classified even; and `TopLevelBVSolve`, when the equation is not memoized,
returns `AND(false, true)`, which no assignment satisfies. -/
theorem C10_even_lhs_odd_constant (S : Simplifier) (st : BVSolver) (w : Nat) (c : ASTNode)
    (pre post : ASTVec)
    (hc : c.GetKind = BVCONST) (hodd : BVConstIsOdd c = true)
    (hpre : ∀ m ∈ pre, evenVarMonom m = true) (hpost : ∀ m ∈ post, evenVarMonom m = true)
    (hmemo : CheckAlreadySolvedMap st
      (mkEq (CreateTerm BVPLUS w (pre ++ c :: post)) (CreateZeroConst w)) = none) :
    CheckEvenEqn (mkEq (CreateTerm BVPLUS w (pre ++ c :: post)) (CreateZeroConst w))
      = (ASTFalse, false) ∧
    (TopLevelBVSolve S st (mkEq (CreateTerm BVPLUS w (pre ++ c :: post)) (CreateZeroConst w))).map
      Prod.fst = some (CreateNode AND [ASTFalse, ASTTrue]) ∧
    ∀ env, holds env (CreateNode AND [ASTFalse, ASTTrue]) = false := by
  have k0 : (mkEq (CreateTerm BVPLUS w (pre ++ c :: post)) (CreateZeroConst w)).GetKind = EQ := rfl
  have c0 : (mkEq (CreateTerm BVPLUS w (pre ++ c :: post)) (CreateZeroConst w)).child 0
      = CreateTerm BVPLUS w (pre ++ c :: post) := rfl
  have c1 : (mkEq (CreateTerm BVPLUS w (pre ++ c :: post)) (CreateZeroConst w)).child 1
      = CreateZeroConst w := rfl
  have kp : (CreateTerm BVPLUS w (pre ++ c :: post)).GetKind = BVPLUS := rfl
  have cp : (CreateTerm BVPLUS w (pre ++ c :: post)).GetChildren = pre ++ c :: post := rfl
  have wz : (CreateZeroConst w).GetValueWidth = w := rfl
  have kz : (CreateZeroConst w).GetKind = BVCONST := rfl
  have hce : CheckEvenEqn (mkEq (CreateTerm BVPLUS w (pre ++ c :: post)) (CreateZeroConst w))
      = (ASTFalse, false) := by
    unfold CheckEvenEqn
    simp only [k0, ne_eq, not_true_eq_false, if_false, c0, c1, kp, wz, decide_True, Bool.and_self,
      Bool.not_true, Bool.false_eq_true, cp, CheckEvenEqn_loop_constant c hc pre post _ hpre hpost,
      hodd, if_true]
  refine ⟨hce, ?_, fun env => by simp [CreateNode, ASTFalse, ASTTrue, holds, holdsAll]⟩
  have hall : ∀ m ∈ pre ++ c :: post, m.GetKind = BVCONST ∨ m.GetKind = BVMULT := by
    intro m hm
    rcases List.mem_append.1 hm with h | h
    · have := hpre m h
      simp only [evenVarMonom, Bool.and_eq_true, decide_eq_true_eq] at this
      exact Or.inr this.1.1.1.symm
    · rcases List.mem_cons.1 h with rfl | h
      · exact Or.inl hc
      · have := hpost m h
        simp only [evenVarMonom, Bool.and_eq_true, decide_eq_true_eq] at this
        exact Or.inr this.1.1.1.symm
  have hall2 : ∀ m ∈ pre ++ c :: post, m.GetKind = BVCONST ∨ BVConstIsOdd (m.child 0) = false := by
    intro m hm
    rcases List.mem_append.1 hm with h | h
    · have := hpre m h
      simp only [evenVarMonom, Bool.and_eq_true, decide_eq_true_eq, Bool.not_eq_true'] at this
      exact Or.inr this.2
    · rcases List.mem_cons.1 h with rfl | h
      · exact Or.inl hc
      · have := hpost m h
        simp only [evenVarMonom, Bool.and_eq_true, decide_eq_true_eq, Bool.not_eq_true'] at this
        exact Or.inr this.2
  have hl : ChooseMonom_loops st (mkEq (CreateTerm BVPLUS w (pre ++ c :: post)) (CreateZeroConst w))
      = { st := st, o := pre ++ c :: post, outmonom := ASTUndefined, chosen := false } := by
    unfold ChooseMonom_loops
    simp only [c0, c1, cp, ChooseMonom_symbols_skip _ _ _ _ hall, ChooseMonom_odd_skip _ _ _ _ hall2,
      List.nil_append, Bool.not_false, if_true]
  have hcm : ∃ lo, ChooseMonom st (mkEq (CreateTerm BVPLUS w (pre ++ c :: post)) (CreateZeroConst w))
      = some (ASTUndefined, lo, st) := by
    unfold ChooseMonom
    simp only [k0, c0, kp, decide_True, Bool.and_self, Bool.not_true, Bool.false_eq_true, if_false,
      hl]
    have hne : pre ++ c :: post ≠ [] := by simp
    generalize pre ++ c :: post = o at hne
    match o, hne with
    | [m], _ => exact ⟨_, rfl⟩
    | m :: m2 :: ms, _ => exact ⟨_, rfl⟩
  obtain ⟨lo, hcm⟩ := hcm
  have hsw : BVSolve_Odd_swaps (mkEq (CreateTerm BVPLUS w (pre ++ c :: post)) (CreateZeroConst w))
      = false := by
    simp [BVSolve_Odd_swaps, c0, kp]
  have hodd2 : BVSolve_Odd S st (mkEq (CreateTerm BVPLUS w (pre ++ c :: post)) (CreateZeroConst w))
      = some (mkEq (CreateTerm BVPLUS w (pre ++ c :: post)) (CreateZeroConst w), st) := by
    unfold BVSolve_Odd
    simp only [k0, ne_eq, not_true_eq_false, if_false, hsw, BVSolve_Odd_eq, Bool.false_eq_true,
      hmemo, c0, c1, BVSolve_Odd_sum, kp, if_true, hcm]
  unfold TopLevelBVSolve
  have hne : ¬ ASTTrue = ASTFalse := by decide
  simp only [k0, decide_True, Bool.true_or, Bool.not_true, Bool.false_eq_true, if_false, hmemo,
    if_true, sort_extracts_last, TopLevelBVSolve_loop, Bool.false_and, hodd2, hce, ne_eq, hne,
    not_false_eq_true, List.nil_append, conjunctionOf, Option.map_some']

/-- The hypotheses of claim C10 as amended hold for `2*x + 4*y + 255 = 0` at
8 bits in a new solver. -/
theorem C10_even_lhs_odd_constant_witness :
    BVConstIsOdd (CreateBVConst 8 255) = true ∧
    (∀ m ∈ [times8 2 varX, times8 4 varY], evenVarMonom m = true) ∧
    CheckAlreadySolvedMap BVSolver.init scenario3Normalised = none ∧
    CheckEvenEqn scenario3Normalised = (ASTFalse, false) ∧
    (TopLevelBVSolve idSimplifier BVSolver.init scenario3Normalised).map Prod.fst
      = some (CreateNode AND [ASTFalse, ASTTrue]) ∧
    ∀ env, holds env (CreateNode AND [ASTFalse, ASTTrue]) = false :=
  ⟨by decide, by decide, by decide,
    C10_even_lhs_odd_constant idSimplifier BVSolver.init 8 (CreateBVConst 8 255)
      [times8 2 varX, times8 4 varY] [] (by decide) (by decide) (by decide) (by decide)
      (by decide)⟩

/-! ## Claims on declines: the occurs check and the driver's reject -/

/-- Claim C11, occurs-check decline.  For every variable `v` and every term
`t` in which `v` occurs (`t = v` included), in every solver whose occurrence
memo is valid and whose memo has no entry for the equation, `BVSolve_Odd` on
`v = t` returns the equation itself; the substitution map and the memo are
what they were, and `v` is forbidden afterwards. -/
theorem C11_occurs_check_decline (S : Simplifier) (st : BVSolver) (v t : ASTNode)
    (hv : v.GetKind = SYMBOL) (hocc : occursIn v t = true)
    (hcache : CacheValid st.TermsAlreadySeenMap)
    (hmemo : CheckAlreadySolvedMap st (mkEq v t) = none) :
    ∃ st2, BVSolve_Odd S st (mkEq v t) = some (mkEq v t, st2) ∧
      st2.SolverMap = st.SolverMap ∧
      st2.FormulasAlreadySolvedMap = st.FormulasAlreadySolvedMap ∧
      DoNotSolveThis st2 v = true := by
  have k0 : (mkEq v t).GetKind = EQ := rfl
  have c0 : (mkEq v t).child 0 = v := rfl
  have c1 : (mkEq v t).child 1 = t := rfl
  have hsw : BVSolve_Odd_swaps (mkEq v t) = false := by
    simp [BVSolve_Odd_swaps, c0, hv]
  obtain ⟨m, _, e⟩ := VarSeenInTerm_spec (st.forbid v) v t hcache
  have hsym : BVSolve_Odd_symbol st v t false
      = (SwitchExit.returnEq, (st.forbid v).withSeen m) := by
    unfold BVSolve_Odd_symbol
    simp only [Bool.not_false, if_true, e, hocc]
  refine ⟨(st.forbid v).withSeen m, ?_, rfl, rfl, ?_⟩
  · unfold BVSolve_Odd
    simp only [k0, ne_eq, not_true_eq_false, if_false, hsw, BVSolve_Odd_eq, Bool.false_eq_true,
      hmemo, c0, c1, BVSolve_Odd_sum, hv, reduceCtorEq, BVSolve_Odd_uminus, BVSolve_Odd_switch,
      hsym]
  · simp [DoNotSolveThis, BVSolver.forbid, BVSolver.withSeen, ASTNodeSet.insert]

/-- Scenario 4 of the specification, `x = x` at 8 bits in a new solver: the
hypotheses of claim C11 hold and the equation is returned. -/
theorem C11_occurs_check_decline_witness :
    occursIn varX varX = true ∧
    CheckAlreadySolvedMap BVSolver.init scenario4 = none ∧
    (BVSolve_Odd idSimplifier BVSolver.init scenario4).map Prod.fst = some scenario4 ∧
    ∃ st2, BVSolve_Odd idSimplifier BVSolver.init scenario4 = some (scenario4, st2) ∧
      st2.SolverMap = BVSolver.init.SolverMap ∧
      st2.FormulasAlreadySolvedMap = BVSolver.init.FormulasAlreadySolvedMap ∧
      DoNotSolveThis st2 varX = true :=
  ⟨by decide, by decide, by decide,
    C11_occurs_check_decline idSimplifier BVSolver.init varX varX (by decide) (by decide)
      cacheValid_empty (by decide)⟩

/-- Claim C13, driver reject.  For every node whose kind is neither `EQ` nor
`AND`, `TopLevelBVSolve` returns the node itself and the solver as it was:
memo, forbidden set, occurrence memo and substitution map are unchanged. -/
theorem C13_driver_reject (S : Simplifier) (st : BVSolver) (F : ASTNode)
    (h1 : F.GetKind ≠ EQ) (h2 : F.GetKind ≠ AND) :
    TopLevelBVSolve S st F = some (F, st) := by
  unfold TopLevelBVSolve
  have e1 : decide (EQ = F.GetKind) = false := decide_eq_false (fun h => h1 h.symm)
  have e2 : decide (AND = F.GetKind) = false := decide_eq_false (fun h => h2 h.symm)
  simp only [e1, e2, Bool.or_self, Bool.not_false, if_true]

/-- The hypotheses of claim C13 hold for the variable `y`, which the driver
returns from a solver that has solved `x + y = 5` before. -/
theorem C13_driver_reject_witness :
    varY.GetKind ≠ EQ ∧ varY.GetKind ≠ AND ∧
    TopLevelBVSolve idSimplifier (solverAfter idSimplifier BVSolver.init scenario1) varY
      = some (varY, solverAfter idSimplifier BVSolver.init scenario1) :=
  ⟨by decide, by decide,
    C13_driver_reject idSimplifier (solverAfter idSimplifier BVSolver.init scenario1) varY
      (by decide) (by decide)⟩

/-! ## Claims on the driver: a contradiction is kept -/

/-- One iteration of the loop of `TopLevelBVSolve`, on the conjunct `it`. -/
theorem TopLevelBVSolve_loop_cons (S : Simplifier) (it : ASTNode) (rest : ASTVec)
    (r : DriverLoop) (aaa1 : ASTNode) (st1 : BVSolver)
    (h : BVSolve_Odd S r.st (if r.any_solved && EQ = it.GetKind
      then S.SimplifyFormula r.st.SolverMap it else it) = some (aaa1, st1)) :
    TopLevelBVSolve_loop S (it :: rest) r = TopLevelBVSolve_loop S rest
      { st := st1
        o := if (CheckEvenEqn aaa1).2 then r.o
          else if ASTTrue ≠ (CheckEvenEqn aaa1).1 then r.o ++ [(CheckEvenEqn aaa1).1] else r.o
        eveneqns := if (CheckEvenEqn aaa1).2 then r.eveneqns ++ [(CheckEvenEqn aaa1).1]
          else r.eveneqns
        any_solved := if ASTTrue = (CheckEvenEqn aaa1).1 then true else r.any_solved } := by
  rw [TopLevelBVSolve_loop]
  simp only [h]

theorem TopLevelBVSolve_loop_append (S : Simplifier) :
    ∀ (pre rest : ASTVec) (r : DriverLoop),
      TopLevelBVSolve_loop S (pre ++ rest) r
        = (TopLevelBVSolve_loop S pre r).bind (TopLevelBVSolve_loop S rest)
  | [], rest, r => by simp [TopLevelBVSolve_loop]
  | a :: pre, rest, r => by
    simp only [List.cons_append]
    cases hb : BVSolve_Odd S r.st (if r.any_solved && EQ = a.GetKind
      then S.SimplifyFormula r.st.SolverMap a else a) with
    | none =>
      rw [TopLevelBVSolve_loop, TopLevelBVSolve_loop]
      simp only [hb]
      rfl
    | some p =>
      obtain ⟨aaa1, st1⟩ := p
      rw [TopLevelBVSolve_loop_cons S a _ r aaa1 st1 hb, TopLevelBVSolve_loop_cons S a _ r aaa1 st1 hb]
      exact TopLevelBVSolve_loop_append S pre rest _

/-- What `CheckEvenEqn` classifies even is the equality it was given. -/
theorem CheckEvenEqn_even (n : ASTNode) (h : (CheckEvenEqn n).2 = true) :
    (CheckEvenEqn n).1 = n ∧ n.GetKind = EQ := by
  unfold CheckEvenEqn at h ⊢
  by_cases hk : EQ ≠ n.GetKind
  · rw [if_pos hk] at h; cases h
  · rw [if_neg hk] at h ⊢
    have hkind : n.GetKind = EQ := by
      by_contra hc; exact hk (fun h2 => hc h2.symm)
    simp only at h ⊢
    by_cases h1 : (!(decide (BVPLUS = (n.child 0).GetKind)
        && decide (CreateZeroConst (n.child 1).GetValueWidth = n.child 1))) = true
    · rw [if_pos h1] at h; cases h
    · rw [if_neg h1] at h ⊢
      cases hl : CheckEvenEqn_loop (n.child 0).GetChildren (n.child 1) with
      | none => rw [hl] at h; cases h
      | some s =>
        rw [hl] at h
        simp only at h ⊢
        by_cases h2 : BVConstIsOdd s = true
        · rw [if_pos h2] at h; cases h
        · rw [if_neg h2]
          exact ⟨rfl, hkind⟩

/-- The loop of `TopLevelBVSolve` keeps every conjunct that is open, and
collects only equalities as even. -/
theorem TopLevelBVSolve_loop_keeps (S : Simplifier) :
    ∀ (c : ASTVec) (r r2 : DriverLoop), TopLevelBVSolve_loop S c r = some r2 →
      (∀ x ∈ r.o, x ∈ r2.o) ∧
      ((∀ e ∈ r.eveneqns, e.GetKind = EQ) → ∀ e ∈ r2.eveneqns, e.GetKind = EQ)
  | [], r, r2, h => by
    simp only [TopLevelBVSolve_loop, Option.some.injEq] at h
    subst h
    exact ⟨fun _ hx => hx, fun he => he⟩
  | a :: rest, r, r2, h => by
    cases hb : BVSolve_Odd S r.st (if r.any_solved && EQ = a.GetKind
      then S.SimplifyFormula r.st.SolverMap a else a) with
    | none =>
      rw [TopLevelBVSolve_loop] at h
      simp only [hb] at h
      cases h
    | some p =>
      obtain ⟨aaa1, st1⟩ := p
      rw [TopLevelBVSolve_loop_cons S a _ r aaa1 st1 hb] at h
      obtain ⟨ih1, ih2⟩ := TopLevelBVSolve_loop_keeps S rest _ r2 h
      refine ⟨fun x hx => ih1 x ?_, fun he => ih2 ?_⟩
      · simp only
        split_ifs
        · exact hx
        · exact List.mem_append_left _ hx
        · exact hx
      · simp only
        intro e hmem
        by_cases hev : (CheckEvenEqn aaa1).2 = true
        · rw [if_pos hev] at hmem
          rcases List.mem_append.1 hmem with h1 | h1
          · exact he e h1
          · rw [List.mem_singleton] at h1
            rw [h1, (CheckEvenEqn_even aaa1 hev).1]
            exact (CheckEvenEqn_even aaa1 hev).2
        · rw [if_neg hev] at hmem
          exact he e hmem

theorem holdsAll_false (env : Assignment) :
    ∀ (fs : ASTVec), ASTFalse ∈ fs → holdsAll env fs = false
  | [], h => by cases h
  | f :: fs, h => by
    rw [holdsAll]
    rcases List.mem_cons.1 h with h1 | h1
    · rw [← h1]; simp [ASTFalse, holds]
    · rw [holdsAll_false env fs h1]; simp

theorem conjunctionOf_false (o : ASTVec) (h : ASTFalse ∈ o) :
    conjunctionOf o = ASTFalse ∨
      ((conjunctionOf o).GetKind = AND ∧ ASTFalse ∈ (conjunctionOf o).GetChildren) := by
  match o, h with
  | [f], h =>
    left
    simp only [List.mem_singleton] at h
    simp [conjunctionOf, h]
  | f :: f2 :: fs, h => exact Or.inr ⟨rfl, h⟩

/-- Claim C12, a contradiction goes through the driver.  Let `F` be an
equality or a conjunction that is not memoized, and let some conjunct `it` of
it, when its turn comes in the loop, be turned by `BVSolve_Odd` into a node
for which `CheckEvenEqn` returns the constant false.  Then in the formula
`AND(open, evens)` that `TopLevelBVSolve` returns the open part is the
constant false or a conjunction that has it as a conjunct; the constant false
is among the open conjuncts of the loop and not in the even system, which
holds equalities only; and the formula is false under every assignment. -/
theorem C12_contradiction_propagates (S : Simplifier) (st : BVSolver) (F : ASTNode)
    (pre post : ASTVec) (it : ASTNode) (r1 : DriverLoop) (aaa1 : ASTNode) (st1 : BVSolver)
    (res : ASTNode × BVSolver)
    (hkind : F.GetKind = EQ ∨ F.GetKind = AND)
    (hmemo : CheckAlreadySolvedMap st F = none)
    (hc : (if EQ = F.GetKind then [F] else F.GetChildren) = pre ++ it :: post)
    (hpre : TopLevelBVSolve_loop S pre { st := st, o := [], eveneqns := [], any_solved := false }
      = some r1)
    (hodd : BVSolve_Odd S r1.st (if r1.any_solved && EQ = it.GetKind
      then S.SimplifyFormula r1.st.SolverMap it else it) = some (aaa1, st1))
    (hce : (CheckEvenEqn aaa1).1 = ASTFalse)
    (hres : TopLevelBVSolve S st F = some res) :
    (∃ r, TopLevelBVSolve_loop S (pre ++ it :: post)
        { st := st, o := [], eveneqns := [], any_solved := false } = some r ∧
      ASTFalse ∈ r.o ∧ ASTFalse ∉ r.eveneqns) ∧
    res.1.GetKind = AND ∧
    (res.1.child 0 = ASTFalse ∨
      ((res.1.child 0).GetKind = AND ∧ ASTFalse ∈ (res.1.child 0).GetChildren)) ∧
    ∀ env, holds env res.1 = false := by
  have hkb : (!(decide (EQ = F.GetKind) || decide (AND = F.GetKind))) = false := by
    rcases hkind with h | h <;> simp [h]
  have hlr := TopLevelBVSolve_loop_append S pre (it :: post)
    { st := st, o := [], eveneqns := [], any_solved := false }
  rw [hpre, Option.some_bind, TopLevelBVSolve_loop_cons S it post r1 aaa1 st1 hodd] at hlr
  have hne : ¬ ASTTrue = ASTFalse := by decide
  have hev : (CheckEvenEqn aaa1).2 = false := by
    cases hb : (CheckEvenEqn aaa1).2 with
    | false => rfl
    | true =>
      have := CheckEvenEqn_even aaa1 hb
      rw [hce] at this
      rw [← this.1] at this
      exact absurd this.2 (by decide)
  simp only [hev, hce, Bool.false_eq_true, if_false, ne_eq, hne, not_false_eq_true, if_true]
    at hlr
  unfold TopLevelBVSolve at hres
  simp only [hkb, Bool.false_eq_true, if_false, hmemo, sort_extracts_last, hc] at hres
  cases hl : TopLevelBVSolve_loop S (pre ++ it :: post)
      { st := st, o := [], eveneqns := [], any_solved := false } with
  | none => rw [hl] at hres; cases hres
  | some r =>
    rw [hl] at hres hlr
    obtain ⟨hk1, hk2⟩ := TopLevelBVSolve_loop_keeps S post _ r hlr.symm
    have hfo : ASTFalse ∈ r.o := hk1 _ (by simp)
    have hpe : ∀ e ∈ r.eveneqns, e.GetKind = EQ := by
      apply hk2
      exact (TopLevelBVSolve_loop_keeps S pre _ r1 hpre).2 (by simp)
    have hfe : ASTFalse ∉ r.eveneqns := fun hm => absurd (hpe _ hm) (by decide)
    refine ⟨⟨r, rfl, hfo, hfe⟩, ?_⟩
    simp only at hres
    split at hres
    · cases hres
    · simp only [Option.some.injEq] at hres
      rw [← hres]
      refine ⟨rfl, conjunctionOf_false r.o hfo, fun env => ?_⟩
      simp only [CreateNode, holds, holdsAll]
      rw [holds_conj, holdsAll_false env r.o hfo]
      rfl

/-- The hypotheses of claim C12 hold for the conjunction of
`2*x + 4*y + 255 = 0` and `x + y = 5` in a new solver: the first conjunct is
classified a contradiction, the second is solved, and the driver returns
`AND(false, true)`. -/
theorem C12_contradiction_propagates_witness :
    CheckAlreadySolvedMap BVSolver.init contradictionAndSum = none ∧
    (CheckEvenEqn scenario3Normalised).1 = ASTFalse ∧
    (TopLevelBVSolve idSimplifier BVSolver.init contradictionAndSum).map Prod.fst
      = some (CreateNode AND [ASTFalse, ASTTrue]) ∧
    (∃ r, TopLevelBVSolve_loop idSimplifier ([] ++ scenario3Normalised :: [scenario1])
        { st := BVSolver.init, o := [], eveneqns := [], any_solved := false } = some r ∧
      ASTFalse ∈ r.o ∧ ASTFalse ∉ r.eveneqns) ∧
    (driverRun idSimplifier BVSolver.init contradictionAndSum).1.GetKind = AND ∧
    ((driverRun idSimplifier BVSolver.init contradictionAndSum).1.child 0 = ASTFalse ∨
      (((driverRun idSimplifier BVSolver.init contradictionAndSum).1.child 0).GetKind = AND ∧
        ASTFalse ∈
          ((driverRun idSimplifier BVSolver.init contradictionAndSum).1.child 0).GetChildren)) ∧
    ∀ env, holds env (driverRun idSimplifier BVSolver.init contradictionAndSum).1 = false :=
  ⟨by decide, by decide, by decide,
    C12_contradiction_propagates idSimplifier BVSolver.init contradictionAndSum
      [] [scenario1] scenario3Normalised
      { st := BVSolver.init, o := [], eveneqns := [], any_solved := false }
      scenario3Normalised BVSolver.init
      (driverRun idSimplifier BVSolver.init contradictionAndSum)
      (Or.inr (by decide)) (by decide) (by decide) (by rfl) (by rfl) (by decide)
      (driverRun_spec _ _ _ (by decide))⟩

/-! ## Claims on the driver's memo -/

/-- Claim C14 as stated fails when another call comes in between.  The first
call of `TopLevelBVSolve` on `5 = a @ b` returns `AND(a @ b = 5, true)`.  A call
on the conjunction of that equation and true then runs `BVSolve_Odd` on the
equation, which looks the memo up under `a @ b = 5`, misses, and stores
`a @ b = 5` under `5 = a @ b`.  The second call on `5 = a @ b` returns that
entry, another node than the first call did. -/
theorem C14_counterexample :
    (driverRun idSimplifier BVSolver.init eq5isConcat).1 = CreateNode AND [eqConcatIs5, ASTTrue] ∧
    (TopLevelBVSolve idSimplifier
        (driverRun idSimplifier (driverRun idSimplifier BVSolver.init eq5isConcat).2
          eq5isConcatAndTrue).2 eq5isConcat).map Prod.fst = some eqConcatIs5 ∧
    eqConcatIs5 ≠ CreateNode AND [eqConcatIs5, ASTTrue] := by
  decide

/-- Claim C14, amended: the driver's memo.  For every equality or conjunction
`F` on which `TopLevelBVSolve` has a result, the memo maps `F` to the node
returned, and a call of `TopLevelBVSolve` on `F` in any solver whose memo maps
`F` to that node, as the solver right after the first call does, returns the
same node and leaves the solver as it is. -/
theorem C14_driver_memo (S : Simplifier) (st : BVSolver) (F : ASTNode)
    (r : ASTNode × BVSolver) (hkind : F.GetKind = EQ ∨ F.GetKind = AND)
    (h : TopLevelBVSolve S st F = some r) :
    CheckAlreadySolvedMap r.2 F = some r.1 ∧
    TopLevelBVSolve S r.2 F = some (r.1, r.2) ∧
    ∀ st2, CheckAlreadySolvedMap st2 F = some r.1 → TopLevelBVSolve S st2 F = some (r.1, st2) := by
  have hkb : (!(decide (EQ = F.GetKind) || decide (AND = F.GetKind))) = false := by
    rcases hkind with h | h <;> simp [h]
  have hhit : ∀ st2, CheckAlreadySolvedMap st2 F = some r.1 →
      TopLevelBVSolve S st2 F = some (r.1, st2) := by
    intro st2 h2
    unfold TopLevelBVSolve
    simp only [hkb, Bool.false_eq_true, if_false, h2]
  have hm : CheckAlreadySolvedMap r.2 F = some r.1 := by
    unfold TopLevelBVSolve at h
    simp only [hkb, Bool.false_eq_true, if_false] at h
    cases hc : CheckAlreadySolvedMap st F with
    | some output =>
      rw [hc] at h
      simp only [Option.some.injEq] at h
      rw [← h]
      exact hc
    | none =>
      rw [hc] at h
      simp only at h
      split at h
      · cases h
      · split at h
        · cases h
        · simp only [Option.some.injEq] at h
          rw [← h]
          simp [CheckAlreadySolvedMap, UpdateAlreadySolvedMap, set_self]
  exact ⟨hm, hhit r.2 hm, hhit⟩

/-- The hypotheses of claim C14 as amended hold for `x + y = 5` in a new
solver. -/
theorem C14_driver_memo_witness :
    (TopLevelBVSolve idSimplifier BVSolver.init scenario1).isSome = true ∧
    CheckAlreadySolvedMap (driverRun idSimplifier BVSolver.init scenario1).2 scenario1
      = some (driverRun idSimplifier BVSolver.init scenario1).1 ∧
    TopLevelBVSolve idSimplifier (driverRun idSimplifier BVSolver.init scenario1).2 scenario1
      = some ((driverRun idSimplifier BVSolver.init scenario1).1,
          (driverRun idSimplifier BVSolver.init scenario1).2) ∧
    ∀ st2, CheckAlreadySolvedMap st2 scenario1
        = some (driverRun idSimplifier BVSolver.init scenario1).1 →
      TopLevelBVSolve idSimplifier st2 scenario1
        = some ((driverRun idSimplifier BVSolver.init scenario1).1, st2) :=
  ⟨by decide,
    C14_driver_memo idSimplifier BVSolver.init scenario1
      (driverRun idSimplifier BVSolver.init scenario1) (Or.inl (by decide))
      (driverRun_spec _ _ _ (by decide))⟩

/-! ## Claims on solving a low-bit extract -/

theorem DoNotSolveThis_forbid (st : BVSolver) (v : ASTNode) :
    DoNotSolveThis (st.forbid v) v = true := by
  simp [DoNotSolveThis, BVSolver.forbid, ASTNodeSet.insert]

theorem eval_concat_term (env : Assignment) (w : Nat) (a b : ASTNode) :
    eval env (CreateTerm BVCONCAT w [a, b])
      = (eval env a * 2 ^ b.GetValueWidth + eval env b) % 2 ^ w := by
  simp [CreateTerm, eval, evalNode, evalAll]

theorem UpdateSolverMap_forbidden (st : BVSolver) (k v : ASTNode) :
    (UpdateSolverMap st k v).2.DoNotSolve_TheseVars = st.DoNotSolve_TheseVars := by
  unfold UpdateSolverMap
  split <;> rfl

theorem UpdateSolverMap_count (st : BVSolver) (k v : ASTNode) :
    (UpdateSolverMap st k v).2.symbol_count = st.symbol_count := by
  unfold UpdateSolverMap
  split <;> rfl

/-- The `case BVEXTRACT` on `v[k-1:0] = t` with `v` a free variable that is not
forbidden and does not occur in `t`, the extract being free too. -/
theorem BVSolve_Odd_extract_solves (st : BVSolver) (k : Nat) (v t : ASTNode)
    (hv : v.GetKind = SYMBOL) (hocc : occursIn v t = false)
    (hforb : DoNotSolveThis st v = false)
    (hfreeE : st.SolverMap (lowBits k v) = none) :
    BVSolve_Odd_extract st (lowBits k v) t =
      (SwitchExit.breakWith ASTTrue,
        if v.GetValueWidth ≠ k then
          (UpdateSolverMap (NewVar (UpdateSolverMap (afterExtractChecks st v t) (lowBits k v) t).2
            (usub v.GetValueWidth k)).2 v
            (CreateTerm BVCONCAT v.GetValueWidth
              [(NewVar (UpdateSolverMap (afterExtractChecks st v t) (lowBits k v) t).2
                (usub v.GetValueWidth k)).1, t])).2
        else (UpdateSolverMap (UpdateSolverMap (afterExtractChecks st v t) (lowBits k v) t).2
          v t).2) := by
  have c0 : (lowBits k v).child 0 = v := rfl
  have c1 : (lowBits k v).child 1 = CreateBVConst 32 (k - 1) := rfl
  have c2 : (lowBits k v).child 2 = CreateZeroConst 32 := rfl
  have wl : (lowBits k v).GetValueWidth = k := rfl
  have kc : (CreateBVConst 32 (k - 1)).GetKind = BVCONST := rfl
  have hs1 := VarSeenInTerm_absent st v t hocc
  have hs2 := VarSeenInTerm_absent (VarSeenInTerm st v t).2 v t hocc
  have hf1 : DoNotSolveThis (VarSeenInTerm st v t).2 v = false := hforb
  unfold BVSolve_Odd_extract
  simp only [c0, c1, c2, wl, kc, hv, decide_True, Bool.and_self, andNotSeen, if_true, hs1,
    Bool.not_false, hf1, Bool.not_true, Bool.false_eq_true, if_false, hs2, UpdateSolverMap_fst,
    forbid_SolverMap, VarSeenInTerm_SolverMap, hfreeE, Option.isNone_none, afterExtractChecks]
  split_ifs <;> rfl

/-- Claim C15, solving a low-bit extract.  Let `v` be a variable of width
`w < 2^32`, not bound and not forbidden, `k ≤ w`, `t` a term that does not
contain `v`, the extract `v[k-1:0]` not bound, the equation `v[k-1:0] = t`
not memoized.  Then `BVSolve_Odd` returns the constant true, `v` is forbidden
afterwards and the extract is bound to `t`.  When `k < w` the variable `v` is
bound to `concat(f, t)` of width `w`, `f` the symbol of width `w - k` that
`NewVar` gives, and for `t` of width `k` the low `k` bits of that term have
the value of `t` under every assignment; when `k = w` the variable is bound
to `t` and `NewVar` is not called. -/
theorem C15_low_bit_extract_solving (S : Simplifier) (st : BVSolver) (w k : Nat)
    (v t : ASTNode)
    (hv : v.GetKind = SYMBOL) (hvw : v.GetValueWidth = w) (hw : w < 2 ^ 32) (hk : k ≤ w)
    (hocc : occursIn v t = false)
    (hforb : DoNotSolveThis st v = false)
    (hfree : st.SolverMap v = none)
    (hfreeE : st.SolverMap (lowBits k v) = none)
    (hmemo : CheckAlreadySolvedMap st (mkEq (lowBits k v) t) = none) :
    ∃ st2, BVSolve_Odd S st (mkEq (lowBits k v) t) = some (ASTTrue, st2) ∧
      DoNotSolveThis st2 v = true ∧
      st2.SolverMap (lowBits k v) = some t ∧
      (k < w →
        st2.SolverMap v = some (CreateTerm BVCONCAT w [(NewVar st (w - k)).1, t]) ∧
        (CreateTerm BVCONCAT w [(NewVar st (w - k)).1, t]).GetValueWidth = w ∧
        (NewVar st (w - k)).1.GetValueWidth = w - k ∧
        st2.symbol_count = st.symbol_count + 1 ∧
        (t.GetValueWidth = k → ∀ env,
          eval env (CreateTerm BVCONCAT w [(NewVar st (w - k)).1, t]) % 2 ^ k = eval env t)) ∧
      (k = w → st2.SolverMap v = some t ∧ st2.symbol_count = st.symbol_count) := by
  have k0 : (mkEq (lowBits k v) t).GetKind = EQ := rfl
  have c0 : (mkEq (lowBits k v) t).child 0 = lowBits k v := rfl
  have c1 : (mkEq (lowBits k v) t).child 1 = t := rfl
  have kl : (lowBits k v).GetKind = BVEXTRACT := rfl
  have hsw : BVSolve_Odd_swaps (mkEq (lowBits k v) t) = false := by
    simp [BVSolve_Odd_swaps, c0, kl]
  have hrun := BVSolve_Odd_extract_solves st k v t hv hocc hforb hfreeE
  have hne : v ≠ lowBits k v := by
    intro h
    have := congrArg ASTNode.GetKind h
    rw [hv, kl] at this
    cases this
  have hm1 : (UpdateSolverMap (afterExtractChecks st v t) (lowBits k v) t).2.SolverMap
      = st.SolverMap.set (lowBits k v) t := by
    rw [UpdateSolverMap_SolverMap]
    have : (afterExtractChecks st v t).SolverMap = st.SolverMap := rfl
    rw [this]
    simp [bindIfFree, hfreeE]
  have hm1v : (st.SolverMap.set (lowBits k v) t) v = none := by
    simp [ASTNodeMap.set, hne, hfree]
  have hf1 : (UpdateSolverMap (afterExtractChecks st v t) (lowBits k v) t).2.DoNotSolve_TheseVars v
      = true := by
    rw [UpdateSolverMap_forbidden]
    exact DoNotSolveThis_forbid _ v
  have hc1 : (UpdateSolverMap (afterExtractChecks st v t) (lowBits k v) t).2.symbol_count
      = st.symbol_count := UpdateSolverMap_count _ _ _
  have hodd : ∀ st2, BVSolve_Odd_extract st (lowBits k v) t = (SwitchExit.breakWith ASTTrue, st2) →
      BVSolve_Odd S st (mkEq (lowBits k v) t)
        = some (ASTTrue, UpdateAlreadySolvedMap st2 (mkEq (lowBits k v) t) ASTTrue) := by
    intro st2 h2
    unfold BVSolve_Odd
    simp only [k0, ne_eq, not_true_eq_false, if_false, hsw, BVSolve_Odd_eq, Bool.false_eq_true,
      hmemo, c0, c1, BVSolve_Odd_sum, kl, reduceCtorEq, BVSolve_Odd_uminus, BVSolve_Odd_switch,
      h2]
  by_cases hkw : v.GetValueWidth ≠ k
  · rw [if_pos hkw] at hrun
    have hlt : k < w := by
      rw [hvw] at hkw
      exact Nat.lt_of_le_of_ne hk (fun h => hkw h.symm)
    have hus : usub v.GetValueWidth k = w - k := by rw [hvw]; exact usub_eq w k hk hw
    rw [hus, hvw] at hrun
    have hnv : (NewVar (UpdateSolverMap (afterExtractChecks st v t) (lowBits k v) t).2 (w - k)).1
        = (NewVar st (w - k)).1 := by
      simp only [NewVar, hc1]
    rw [hnv] at hrun
    have hmap : (UpdateSolverMap (NewVar
        (UpdateSolverMap (afterExtractChecks st v t) (lowBits k v) t).2 (w - k)).2 v
        (CreateTerm BVCONCAT w [(NewVar st (w - k)).1, t])).2.SolverMap
        = (st.SolverMap.set (lowBits k v) t).set v
          (CreateTerm BVCONCAT w [(NewVar st (w - k)).1, t]) := by
      rw [UpdateSolverMap_SolverMap, NewVar_SolverMap, hm1]
      simp [bindIfFree, hm1v]
    refine ⟨_, hodd _ hrun, ?_, ?_, ?_, ?_⟩
    · show (UpdateSolverMap _ _ _).2.DoNotSolve_TheseVars v = true
      rw [UpdateSolverMap_forbidden]
      exact hf1
    · show (UpdateSolverMap _ _ _).2.SolverMap (lowBits k v) = some t
      rw [hmap]
      simp [ASTNodeMap.set, Ne.symm hne]
    · intro _
      refine ⟨?_, rfl, rfl, ?_, ?_⟩
      · show (UpdateSolverMap _ _ _).2.SolverMap v = some _
        rw [hmap]
        exact set_self _ _ _
      · show (UpdateSolverMap _ _ _).2.symbol_count = st.symbol_count + 1
        rw [UpdateSolverMap_count]
        show (UpdateSolverMap _ _ _).2.symbol_count + 1 = st.symbol_count + 1
        rw [hc1]
      · intro htw env
        rw [eval_concat_term, htw, Nat.mod_mod_of_dvd _ (pow_dvd_pow 2 hk), Nat.add_comm,
          Nat.add_mul_mod_self_right]
        have := eval_lt env t
        rw [htw] at this
        exact Nat.mod_eq_of_lt this
    · intro h; omega
  · rw [if_neg hkw] at hrun
    have hkw2 : k = w := by
      rw [hvw] at hkw
      exact (not_not.1 hkw).symm
    have hmap : (UpdateSolverMap (UpdateSolverMap (afterExtractChecks st v t) (lowBits k v) t).2
        v t).2.SolverMap = (st.SolverMap.set (lowBits k v) t).set v t := by
      rw [UpdateSolverMap_SolverMap, hm1]
      simp [bindIfFree, hm1v]
    refine ⟨_, hodd _ hrun, ?_, ?_, ?_, ?_⟩
    · show (UpdateSolverMap _ _ _).2.DoNotSolve_TheseVars v = true
      rw [UpdateSolverMap_forbidden]
      exact hf1
    · show (UpdateSolverMap _ _ _).2.SolverMap (lowBits k v) = some t
      rw [hmap]
      simp [ASTNodeMap.set, Ne.symm hne]
    · intro h; omega
    · intro _
      refine ⟨?_, ?_⟩
      · show (UpdateSolverMap _ _ _).2.SolverMap v = some t
        rw [hmap]
        exact set_self _ _ _
      · show (UpdateSolverMap _ _ _).2.symbol_count = st.symbol_count
        rw [UpdateSolverMap_count, hc1]

/-- The hypotheses of claim C15 hold for `x[3:0] = 9` at 8 bits in a new
solver: `x` is bound to the concatenation of the new symbol and `9`. -/
theorem C15_low_bit_extract_solving_witness :
    DoNotSolveThis BVSolver.init varX = false ∧
    CheckAlreadySolvedMap BVSolver.init extractEquation = none ∧
    (BVSolve_Odd idSimplifier BVSolver.init extractEquation).map
        (fun r => (r.1, r.2.SolverMap varX, r.2.SolverMap (lowBits 4 varX)))
      = some (ASTTrue, some (CreateTerm BVCONCAT 8 [bvVar 4 0, CreateBVConst 4 9]),
          some (CreateBVConst 4 9)) ∧
    (BVSolve_Odd idSimplifier BVSolver.init fullExtractEquation).map
        (fun r => (r.1, r.2.SolverMap varX, r.2.symbol_count))
      = some (ASTTrue, some (CreateBVConst 8 9), 0) ∧
    ∃ st2, BVSolve_Odd idSimplifier BVSolver.init (mkEq (lowBits 4 varX) (CreateBVConst 4 9))
        = some (ASTTrue, st2) ∧
      DoNotSolveThis st2 varX = true ∧
      st2.SolverMap (lowBits 4 varX) = some (CreateBVConst 4 9) ∧
      (4 < 8 →
        st2.SolverMap varX
          = some (CreateTerm BVCONCAT 8 [(NewVar BVSolver.init (8 - 4)).1, CreateBVConst 4 9]) ∧
        (CreateTerm BVCONCAT 8 [(NewVar BVSolver.init (8 - 4)).1,
          CreateBVConst 4 9]).GetValueWidth = 8 ∧
        (NewVar BVSolver.init (8 - 4)).1.GetValueWidth = 8 - 4 ∧
        st2.symbol_count = BVSolver.init.symbol_count + 1 ∧
        ((CreateBVConst 4 9).GetValueWidth = 4 → ∀ env,
          eval env (CreateTerm BVCONCAT 8 [(NewVar BVSolver.init (8 - 4)).1,
            CreateBVConst 4 9]) % 2 ^ 4 = eval env (CreateBVConst 4 9))) ∧
      (4 = 8 → st2.SolverMap varX = some (CreateBVConst 4 9) ∧
        st2.symbol_count = BVSolver.init.symbol_count) :=
  ⟨by decide, by decide, by decide, by decide,
    C15_low_bit_extract_solving idSimplifier BVSolver.init 8 4 varX (CreateBVConst 4 9)
      (by decide) (by decide) (by decide) (by decide) (by decide) (by decide) (by decide)
      (by decide) (by decide)⟩

/-! ## Claims on the monomial selector -/

/-- The result of `ChooseMonom` from the result of its loops, when `o` is not
empty. -/
theorem ChooseMonom_returns (st : BVSolver) (eq : ASTNode) (hk : eq.GetKind = EQ)
    (hp : (eq.child 0).GetKind = BVPLUS) (hne : (ChooseMonom_loops st eq).o ≠ []) :
    ChooseMonom st eq = some ((ChooseMonom_loops st eq).outmonom,
      leftoverOf (eq.child 0).GetValueWidth (ChooseMonom_loops st eq).o,
      (ChooseMonom_loops st eq).st) := by
  unfold ChooseMonom
  simp only [hk, hp, decide_True, Bool.and_self, Bool.not_true, Bool.false_eq_true, if_false]
  generalize (ChooseMonom_loops st eq).o = o at hne
  match o, hne with
  | [m], _ => rfl
  | m :: m2 :: ms, _ => rfl

/-- On a sum of two addends or more `ChooseMonom` has a result. -/
theorem ChooseMonom_total (st : BVSolver) (eq : ASTNode)
    (hv : CacheValid st.TermsAlreadySeenMap) (hk : eq.GetKind = EQ)
    (hp : (eq.child 0).GetKind = BVPLUS) (hn : 2 ≤ (eq.child 0).GetChildren.length) :
    ∃ m leftover st1, ChooseMonom st eq = some (m, leftover, st1) := by
  refine ⟨_, _, _, ChooseMonom_returns st eq hk hp ?_⟩
  obtain ⟨_, _, _, hcases⟩ := ChooseMonom_loops_spec st eq hv
  rcases hcases with ⟨pre, x, post, h1, _, _, h4, _⟩ | ⟨_, pre, x, post, h1, _, _, h4, _⟩ |
    ⟨_, _, h2, _⟩
  · rw [h4]; intro h0
    rw [h1] at hn
    have := congrArg List.length h0
    simp only [List.length_append, List.length_cons, List.length_nil] at hn this
    omega
  · rw [h4]; intro h0
    rw [h1] at hn
    have := congrArg List.length h0
    simp only [List.length_append, List.length_cons, List.length_nil] at hn this
    omega
  · rw [h2]; intro h0
    rw [h0] at hn
    simp at hn

theorem tier1_ne_undefined (st : BVSolver) (lhs rhs m : ASTNode)
    (h : tier1Eligible st lhs rhs m = true) : m ≠ ASTUndefined := by
  intro hm
  subst hm
  simp [tier1Eligible, ASTUndefined, ASTNode.GetKind] at h

theorem tier2_ne_undefined (st : BVSolver) (lhs rhs m : ASTNode)
    (h : tier2Accepted st lhs rhs m = true) : m ≠ ASTUndefined := by
  intro hm
  have := tier2_kind st lhs rhs m h
  rw [hm] at this
  cases this

/-- Claim C16 evaluated where the code departs from it.  On
`3*x[3:0] + x[7:4] = 1` in a new solver `ChooseMonom` returns the monomial
`3*x[3:0]`, an odd constant times a low-bit extract of `x`, although `x` occurs
twice in the lhs: the extract form of the second loop does not ask
`count.single`. -/
theorem C16_extract_form_not_single :
    (ChooseMonom BVSolver.init extractTwice).map (fun r => (r.1, r.2.1))
      = some (CreateTerm BVMULT 4 [CreateBVConst 4 3, lowBits 4 varX],
          CreateTerm BVEXTRACT 4 [varX, CreateBVConst 32 7, CreateBVConst 32 4]) ∧
    countIn varX (extractTwice.child 0) = 2 ∧
    CountOfSymbols.single (extractTwice.child 0) varX = false := by
  decide

/-- The order of the two loops of `ChooseMonom`.  On an equation whose lhs is
a sum of two addends or more, in a solver with a valid occurrence memo,
`ChooseMonom` returns: the leftmost addend the first loop accepts, whatever the
second loop accepts before it; or, when the first loop accepts no addend, the
leftmost addend the second loop accepts; or, when neither loop accepts an
addend, `ASTUndefined`.  It returns `ASTUndefined` exactly in the last case. -/
theorem ChooseMonom_order (st : BVSolver) (eq : ASTNode)
    (hv : CacheValid st.TermsAlreadySeenMap) (hk : eq.GetKind = EQ)
    (hp : (eq.child 0).GetKind = BVPLUS) (hn : 2 ≤ (eq.child 0).GetChildren.length) :
    ∃ m leftover st1, ChooseMonom st eq = some (m, leftover, st1) ∧
      ((∃ pre post, (eq.child 0).GetChildren = pre ++ m :: post ∧
          (∀ y ∈ pre, tier1Eligible st (eq.child 0) (eq.child 1) y = false) ∧
          tier1Eligible st (eq.child 0) (eq.child 1) m = true)
      ∨ ((∀ y ∈ (eq.child 0).GetChildren,
            tier1Eligible st (eq.child 0) (eq.child 1) y = false) ∧
          ∃ pre post, (eq.child 0).GetChildren = pre ++ m :: post ∧
          (∀ y ∈ pre, tier2Accepted st (eq.child 0) (eq.child 1) y = false) ∧
          tier2Accepted st (eq.child 0) (eq.child 1) m = true)
      ∨ ((∀ y ∈ (eq.child 0).GetChildren,
            tier1Eligible st (eq.child 0) (eq.child 1) y = false ∧
            tier2Accepted st (eq.child 0) (eq.child 1) y = false) ∧
          m = ASTUndefined)) ∧
      (m = ASTUndefined ↔ ∀ y ∈ (eq.child 0).GetChildren,
        tier1Eligible st (eq.child 0) (eq.child 1) y = false ∧
        tier2Accepted st (eq.child 0) (eq.child 1) y = false) := by
  obtain ⟨m, leftover, st1, h⟩ := ChooseMonom_total st eq hv hk hp hn
  obtain ⟨_, _, _, o, _, _, hcases⟩ := ChooseMonom_spec st eq m leftover st1 hv h
  refine ⟨m, leftover, st1, h, ?_, ?_⟩
  · rcases hcases with ⟨pre, post, h1, h2, h3, _⟩ | ⟨h0, pre, post, h1, h2, h3, _⟩ |
      ⟨h0, h1, _, h3⟩
    · exact Or.inl ⟨pre, post, h1, h2, h3⟩
    · exact Or.inr (Or.inl ⟨h0, pre, post, h1, h2, h3⟩)
    · exact Or.inr (Or.inr ⟨fun y hy => ⟨h0 y hy, h1 y hy⟩, h3⟩)
  · rcases hcases with ⟨pre, post, h1, h2, h3, _⟩ | ⟨h0, pre, post, h1, h2, h3, _⟩ |
      ⟨h0, h1, _, h3⟩
    · constructor
      · intro hm; exact absurd hm (tier1_ne_undefined _ _ _ _ h3)
      · intro hall
        have := (hall m (by rw [h1]; simp)).1
        rw [h3] at this; cases this
    · constructor
      · intro hm; exact absurd hm (tier2_ne_undefined _ _ _ _ h3)
      · intro hall
        have := (hall m (by rw [h1]; simp)).2
        rw [h3] at this; cases this
    · exact ⟨fun _ y hy => ⟨h0 y hy, h1 y hy⟩, fun _ => h3⟩

/-- Claim C18, the leftover of the selector.  On an equation whose lhs is a
sum of `n ≥ 2` addends, in a solver with a valid occurrence memo, `ChooseMonom`
has a result, so `o[0]` is read within bounds; and when it selects an addend
`m`, the lhs is `pre ++ m :: post` and the leftover is made of the `n - 1`
addends `pre ++ post`, in their order: it is their only element when
`n - 1 = 1` and the sum node over them, at the width of the lhs, when
`n - 1 > 1`. -/
theorem C18_selector_leftover (st : BVSolver) (eq : ASTNode)
    (hv : CacheValid st.TermsAlreadySeenMap) (hk : eq.GetKind = EQ)
    (hp : (eq.child 0).GetKind = BVPLUS) (hn : 2 ≤ (eq.child 0).GetChildren.length) :
    ∃ m leftover st1, ChooseMonom st eq = some (m, leftover, st1) ∧
      (m ≠ ASTUndefined →
        ∃ pre post, (eq.child 0).GetChildren = pre ++ m :: post ∧
          (pre ++ post).length = (eq.child 0).GetChildren.length - 1 ∧
          ((pre ++ post).length = 1 → pre ++ post = [leftover]) ∧
          (1 < (pre ++ post).length →
            leftover = CreateTerm BVPLUS (eq.child 0).GetValueWidth (pre ++ post))) := by
  obtain ⟨m, leftover, st1, h⟩ := ChooseMonom_total st eq hv hk hp hn
  obtain ⟨_, _, _, o, _, hl, hcases⟩ := ChooseMonom_spec st eq m leftover st1 hv h
  refine ⟨m, leftover, st1, h, fun hm => ?_⟩
  have key : ∀ pre post, (eq.child 0).GetChildren = pre ++ m :: post → o = pre ++ post →
      (pre ++ post).length = (eq.child 0).GetChildren.length - 1 ∧
      ((pre ++ post).length = 1 → pre ++ post = [leftover]) ∧
      (1 < (pre ++ post).length →
        leftover = CreateTerm BVPLUS (eq.child 0).GetValueWidth (pre ++ post)) := by
    intro pre post h1 h4
    rw [h4] at hl
    refine ⟨by rw [h1]; simp, ?_, ?_⟩
    · intro h5
      generalize pre ++ post = l at hl h5
      match l, h5 with
      | [a], _ => rw [hl]; rfl
    · intro h5
      generalize pre ++ post = l at hl h5
      match l, h5 with
      | a :: b :: r, _ => rw [hl]; rfl
  rcases hcases with ⟨pre, post, h1, _, _, h4⟩ | ⟨_, pre, post, h1, _, _, h4⟩ | ⟨_, _, _, h3⟩
  · exact ⟨pre, post, h1, key pre post h1 h4⟩
  · exact ⟨pre, post, h1, key pre post h1 h4⟩
  · exact absurd h3 hm

/-- The hypotheses of claim C18 hold for `x + y = 5` in a new solver:
`ChooseMonom` selects `x` and the leftover is `y`. -/
theorem C18_selector_leftover_witness :
    (ChooseMonom BVSolver.init scenario1).map (fun r => (r.1, r.2.1)) = some (varX, varY) ∧
    ∃ m leftover st1, ChooseMonom BVSolver.init scenario1 = some (m, leftover, st1) ∧
      (m ≠ ASTUndefined →
        ∃ pre post, (scenario1.child 0).GetChildren = pre ++ m :: post ∧
          (pre ++ post).length = (scenario1.child 0).GetChildren.length - 1 ∧
          ((pre ++ post).length = 1 → pre ++ post = [leftover]) ∧
          (1 < (pre ++ post).length →
            leftover = CreateTerm BVPLUS (scenario1.child 0).GetValueWidth (pre ++ post))) :=
  ⟨by decide,
    C18_selector_leftover BVSolver.init scenario1 cacheValid_empty (by decide) (by decide)
      (by decide)⟩

/-- Claim C19 as stated fails: `ChooseMonom` writes the occurrence memo.  On
`x + y = z` in a new solver it asks `VarSeenInTerm(x, z)`, which records `x`
for the term `z`, where the memo had no entry. -/
theorem C19_counterexample :
    BVSolver.init.TermsAlreadySeenMap (bvVar 8 102) = none ∧
    (ChooseMonom BVSolver.init sumIsVariable).map
        (fun r => (r.1, r.2.2.TermsAlreadySeenMap (bvVar 8 102)))
      = some (varX, some varX) := by
  decide

/-- Claim C19, amended: the frame of the selector.  A call of `ChooseMonom`
leaves the solved-formula memo, the forbidden set, the substitution map and
the symbol counter as they were; it changes the occurrence memo only, and a
valid occurrence memo stays valid. -/
theorem C19_selector_frame (st : BVSolver) (eq : ASTNode) (r : ASTNode × ASTNode × BVSolver)
    (h : ChooseMonom st eq = some r) :
    r.2.2.FormulasAlreadySolvedMap = st.FormulasAlreadySolvedMap ∧
    r.2.2.DoNotSolve_TheseVars = st.DoNotSolve_TheseVars ∧
    r.2.2.SolverMap = st.SolverMap ∧
    r.2.2.symbol_count = st.symbol_count ∧
    (CacheValid st.TermsAlreadySeenMap → CacheValid r.2.2.TermsAlreadySeenMap) := by
  obtain ⟨m, l, st1⟩ := r
  obtain ⟨mm, hst⟩ := ChooseMonom_frame st eq m l st1 h
  simp only
  subst hst
  refine ⟨rfl, rfl, rfl, rfl, fun hv => ?_⟩
  obtain ⟨⟨m2, hm2, hst2⟩, _⟩ := ChooseMonom_spec st eq m l _ hv h
  rw [hst2]
  exact hm2

/-- The hypothesis of claim C19 as amended holds for `x + y = z` in a new
solver. -/
theorem C19_selector_frame_witness :
    (ChooseMonom BVSolver.init sumIsVariable).isSome = true ∧
    ∀ r, ChooseMonom BVSolver.init sumIsVariable = some r →
      r.2.2.FormulasAlreadySolvedMap = BVSolver.init.FormulasAlreadySolvedMap ∧
      r.2.2.DoNotSolve_TheseVars = BVSolver.init.DoNotSolve_TheseVars ∧
      r.2.2.SolverMap = BVSolver.init.SolverMap ∧
      r.2.2.symbol_count = BVSolver.init.symbol_count ∧
      (CacheValid BVSolver.init.TermsAlreadySeenMap → CacheValid r.2.2.TermsAlreadySeenMap) :=
  ⟨by decide, fun r hr => C19_selector_frame BVSolver.init sumIsVariable r hr⟩

/-! ## Claims on the memo of the odd-coefficient solver -/

theorem UpdateSolverMap_memo (st : BVSolver) (k v : ASTNode) :
    (UpdateSolverMap st k v).2.FormulasAlreadySolvedMap = st.FormulasAlreadySolvedMap := by
  unfold UpdateSolverMap
  split <;> rfl

theorem BVSolve_Odd_symbol_memo (st : BVSolver) (lhs rhs : ASTNode) (single : Bool) :
    (BVSolve_Odd_symbol st lhs rhs single).2.FormulasAlreadySolvedMap
      = st.FormulasAlreadySolvedMap := by
  unfold BVSolve_Odd_symbol
  simp only
  split_ifs <;> simp [UpdateSolverMap_memo]

theorem BVSolve_Odd_extract_memo (st : BVSolver) (lhs rhs : ASTNode) :
    (BVSolve_Odd_extract st lhs rhs).2.FormulasAlreadySolvedMap
      = st.FormulasAlreadySolvedMap := by
  unfold BVSolve_Odd_extract
  simp only
  split_ifs <;> simp [UpdateSolverMap_memo]

theorem BVSolve_Odd_mult_memo (S : Simplifier) (st : BVSolver) (lhs rhs : ASTNode) :
    (BVSolve_Odd_mult S st lhs rhs).2.FormulasAlreadySolvedMap
      = st.FormulasAlreadySolvedMap := by
  unfold BVSolve_Odd_mult
  simp only
  split_ifs <;> simp [UpdateSolverMap_memo]

theorem BVSolve_Odd_switch_memo (S : Simplifier) (st : BVSolver) (eq lhs rhs : ASTNode)
    (single : Bool) :
    (BVSolve_Odd_switch S st eq lhs rhs single).2.FormulasAlreadySolvedMap
      = st.FormulasAlreadySolvedMap := by
  unfold BVSolve_Odd_switch
  split
  · exact BVSolve_Odd_symbol_memo _ _ _ _
  · exact BVSolve_Odd_extract_memo _ _ _
  · exact BVSolve_Odd_mult_memo _ _ _ _
  · rfl

/-- What `BVSolve_Odd` does to the memo on an equality whose normal form is
not in it: it returns the normalised equation and leaves the memo as it is, or
it stores the node it returns under the input. -/
theorem BVSolve_Odd_memo_outcome (S : Simplifier) (st : BVSolver) (input : ASTNode)
    (r : ASTNode × BVSolver) (hk : input.GetKind = EQ)
    (hmemo : CheckAlreadySolvedMap st (BVSolve_Odd_eq input) = none)
    (h : BVSolve_Odd S st input = some r) :
    (r.1 = BVSolve_Odd_eq input ∧
      r.2.FormulasAlreadySolvedMap = st.FormulasAlreadySolvedMap)
    ∨ r.2.FormulasAlreadySolvedMap = st.FormulasAlreadySolvedMap.set input r.1 := by
  unfold BVSolve_Odd at h
  rw [if_neg (by simp [hk])] at h
  simp only [hmemo] at h
  cases hsum : BVSolve_Odd_sum S st (BVSolve_Odd_eq input)
      (if BVSolve_Odd_swaps input = true then input.child 1 else input.child 0)
      (if BVSolve_Odd_swaps input = true then input.child 0 else input.child 1) with
  | none => rw [hsum] at h; cases h
  | some p =>
    obtain ⟨res, st1⟩ := p
    obtain ⟨mm, hst1⟩ := BVSolve_Odd_sum_frame S st _ _ _ res st1 hsum
    rw [hsum] at h
    cases res with
    | none =>
      simp only [Option.some.injEq] at h
      rw [← h, hst1]
      exact Or.inl ⟨rfl, rfl⟩
    | some q =>
      obtain ⟨lhs1, rhs1, single⟩ := q
      simp only [] at h
      have hsw := BVSolve_Odd_switch_memo S st1 (BVSolve_Odd_eq input)
        (BVSolve_Odd_uminus S st1 lhs1 rhs1).1 (BVSolve_Odd_uminus S st1 lhs1 rhs1).2 single
      have hsm : st1.FormulasAlreadySolvedMap = st.FormulasAlreadySolvedMap := by rw [hst1]; rfl
      rw [hsm] at hsw
      cases hx : BVSolve_Odd_switch S st1 (BVSolve_Odd_eq input)
          (BVSolve_Odd_uminus S st1 lhs1 rhs1).1 (BVSolve_Odd_uminus S st1 lhs1 rhs1).2
          single with
      | mk exit st2 =>
        rw [hx] at h hsw
        cases exit with
        | returnEq =>
          simp only [Option.some.injEq] at h
          rw [← h]
          exact Or.inl ⟨rfl, hsw⟩
        | breakWith out =>
          simp only [Option.some.injEq] at h
          rw [← h]
          right
          simp only [UpdateAlreadySolvedMap]
          simp only at hsw
          rw [hsw]

/-- Claim C20 as stated fails on a decline and on a constant on the left.
`BVSolve_Odd` declines `x = x + 1` and leaves the memo without an entry for it.
For `5 = x` it returns true and stores that under `5 = x`; called again it
looks the memo up under `x = 5`, misses, and returns `x = 5`. -/
theorem C20_counterexample :
    (BVSolve_Odd idSimplifier BVSolver.init eqXisXplus1).map Prod.fst = some eqXisXplus1 ∧
    CheckAlreadySolvedMap (solverAfter idSimplifier BVSolver.init eqXisXplus1) eqXisXplus1
      = none ∧
    (BVSolve_Odd idSimplifier BVSolver.init eq5isX).map Prod.fst = some ASTTrue ∧
    CheckAlreadySolvedMap (solverAfter idSimplifier BVSolver.init eq5isX) eq5isX
      = some ASTTrue ∧
    (BVSolve_Odd idSimplifier (solverAfter idSimplifier BVSolver.init eq5isX) eq5isX).map
      Prod.fst = some eqXis5 ∧
    eqXis5 ≠ ASTTrue := by
  decide

/-- Claim C20, amended: what `BVSolve_Odd` memoizes.  For every equality: when
the memo has an entry for the normalised equation, the call returns that entry
and leaves the solver as it is.  When it has none and the call returns the
constant true, the memo maps the input to true afterwards, and, the input
having no lone constant on the left, a call repeated at once returns true and
leaves the solver as it is.  When it has none and the call returns another
node, the memo is what it was or maps the input to the node returned. -/
theorem C20_odd_solver_memo (S : Simplifier) (st : BVSolver) (input : ASTNode)
    (r : ASTNode × BVSolver) (hk : input.GetKind = EQ)
    (h : BVSolve_Odd S st input = some r) :
    (∀ out, CheckAlreadySolvedMap st (BVSolve_Odd_eq input) = some out → r = (out, st)) ∧
    (CheckAlreadySolvedMap st (BVSolve_Odd_eq input) = none → r.1 = ASTTrue →
      CheckAlreadySolvedMap r.2 input = some ASTTrue ∧
      (BVSolve_Odd_swaps input = false → BVSolve_Odd S r.2 input = some (ASTTrue, r.2))) ∧
    (CheckAlreadySolvedMap st (BVSolve_Odd_eq input) = none → r.1 ≠ ASTTrue →
      r.2.FormulasAlreadySolvedMap = st.FormulasAlreadySolvedMap ∨
      CheckAlreadySolvedMap r.2 input = some r.1) := by
  have hset : r.2.FormulasAlreadySolvedMap = st.FormulasAlreadySolvedMap.set input r.1 →
      CheckAlreadySolvedMap r.2 input = some r.1 := by
    intro h2
    unfold CheckAlreadySolvedMap
    rw [h2]
    exact set_self _ _ _
  refine ⟨fun out hout => ?_, fun hmiss ht => ?_, fun hmiss hd => ?_⟩
  · unfold BVSolve_Odd at h
    rw [if_neg (by simp [hk])] at h
    simp only [hout, Option.some.injEq] at h
    exact h.symm
  · have hm : CheckAlreadySolvedMap r.2 input = some ASTTrue := by
      rcases BVSolve_Odd_memo_outcome S st input r hk hmiss h with ⟨h1, _⟩ | h1
      · exfalso
        have := BVSolve_Odd_eq_kind input hk
        rw [← h1, ht] at this
        cases this
      · rw [← ht]; exact hset h1
    refine ⟨hm, fun hsw => ?_⟩
    unfold BVSolve_Odd
    rw [if_neg (by simp [hk])]
    have he : BVSolve_Odd_eq input = input := by simp [BVSolve_Odd_eq, hsw]
    simp only [he, hm]
  · rcases BVSolve_Odd_memo_outcome S st input r hk hmiss h with ⟨_, h1⟩ | h1
    · exact Or.inl h1
    · exact Or.inr (hset h1)

/-- The hypotheses of claim C20 as amended hold for `x + y = 5` in a new
solver, which `BVSolve_Odd` discharges. -/
theorem C20_odd_solver_memo_witness :
    scenario1.GetKind = EQ ∧
    (BVSolve_Odd idSimplifier BVSolver.init scenario1).map Prod.fst = some ASTTrue ∧
    CheckAlreadySolvedMap BVSolver.init (BVSolve_Odd_eq scenario1) = none ∧
    BVSolve_Odd_swaps scenario1 = false ∧
    ∀ r, BVSolve_Odd idSimplifier BVSolver.init scenario1 = some r →
      (∀ out, CheckAlreadySolvedMap BVSolver.init (BVSolve_Odd_eq scenario1) = some out →
        r = (out, BVSolver.init)) ∧
      (CheckAlreadySolvedMap BVSolver.init (BVSolve_Odd_eq scenario1) = none → r.1 = ASTTrue →
        CheckAlreadySolvedMap r.2 scenario1 = some ASTTrue ∧
        (BVSolve_Odd_swaps scenario1 = false →
          BVSolve_Odd idSimplifier r.2 scenario1 = some (ASTTrue, r.2))) ∧
      (CheckAlreadySolvedMap BVSolver.init (BVSolve_Odd_eq scenario1) = none → r.1 ≠ ASTTrue →
        r.2.FormulasAlreadySolvedMap = BVSolver.init.FormulasAlreadySolvedMap ∨
        CheckAlreadySolvedMap r.2 scenario1 = some r.1) :=
  ⟨by decide, by decide, by decide, by decide, fun r hr =>
    C20_odd_solver_memo idSimplifier BVSolver.init scenario1 r (by decide) hr⟩

/-! ## Claims on a scaled extract -/

/-- Claim C21 evaluated where the code departs from it.  `BVSolve_Odd` in a
new solver discharges `3*x[7:4] = 9`, an equation over an extract that is not
zero-based: it returns true, binds `x[7:4] := 11*9` and binds
`x := concat(f, 11*9)`, which puts the value into the low bits of `x`.  The
assignment `x = 3`, `f = 0` satisfies the binding of `x` and not the equation:
`case BVMULT` does not test `zero == lhs[1][2]` as `ChooseMonom` and
`case BVEXTRACT` do. -/
theorem C21_high_extract_discharged :
    (BVSolve_Odd idSimplifier BVSolver.init highExtractEquation).map
        (fun r => (r.1, r.2.SolverMap highBitsX, r.2.SolverMap varX))
      = some (ASTTrue,
          some (CreateTerm BVMULT 4 [CreateBVConst 4 11, CreateBVConst 4 9]),
          some (CreateTerm BVCONCAT 8
            [bvVar 4 0, CreateTerm BVMULT 4 [CreateBVConst 4 11, CreateBVConst 4 9]])) ∧
    eval assignXis3 varX = eval assignXis3 (CreateTerm BVCONCAT 8
      [bvVar 4 0, CreateTerm BVMULT 4 [CreateBVConst 4 11, CreateBVConst 4 9]]) ∧
    holds assignXis3 highExtractEquation = false := by
  decide

/-! ## Claims on the ordering heuristic -/

mutual
theorem containsExtract_spec :
    ∀ (n : ASTNode) (visited : ASTNodeSet), VisitedValid visited →
      (containsExtract n visited).1 = hasExtract n ∧ VisitedValid (containsExtract n visited).2
  | ASTNode.mk k w v c, visited, h => by
    have ih := containsExtractAny_spec c
    rw [containsExtract]
    by_cases h1 : visited (ASTNode.mk k w v c) = true
    · rw [if_pos h1]
      exact ⟨(h _ h1).symm, h⟩
    · rw [if_neg h1]
      by_cases h2 : BVEXTRACT = k
      · rw [if_pos h2]
        exact ⟨by simp [hasExtract, h2], h⟩
      · rw [if_neg h2]
        obtain ⟨e1, e2⟩ := ih visited h
        cases hr : containsExtractAny c visited with
        | mk b s =>
          rw [hr] at e1 e2
          simp only at e1 e2
          cases b with
          | true =>
            simp only
            exact ⟨by simp [hasExtract, ← e1], e2⟩
          | false =>
            simp only
            refine ⟨by simp [hasExtract, h2, ← e1], ?_⟩
            intro n hn
            simp only [ASTNodeSet.insert] at hn
            by_cases hx : n = ASTNode.mk k w v c
            · rw [hx]; simp [hasExtract, h2, ← e1]
            · rw [if_neg hx] at hn
              exact e2 n hn
theorem containsExtractAny_spec :
    ∀ (c : ASTVec) (visited : ASTNodeSet), VisitedValid visited →
      (containsExtractAny c visited).1 = hasExtractAny c ∧
      VisitedValid (containsExtractAny c visited).2
  | [], visited, h => by simp [containsExtractAny, hasExtractAny, h]
  | t :: ts, visited, h => by
    rw [containsExtractAny]
    obtain ⟨e1, e2⟩ := containsExtract_spec t visited h
    cases hr : containsExtract t visited with
    | mk b s =>
      rw [hr] at e1 e2
      simp only at e1 e2
      cases b with
      | true =>
        simp only
        exact ⟨by simp [hasExtractAny, ← e1], e2⟩
      | false =>
        simp only
        obtain ⟨e3, e4⟩ := containsExtractAny_spec ts s e2
        exact ⟨by rw [e3]; simp [hasExtractAny, ← e1], e4⟩
end

theorem visitedValid_empty : VisitedValid ASTNodeSet.empty := by
  intro n h
  cases h

/-- The deque of `specialSort` after its loop: the conjuncts without an
extract in reverse order before the old content, those with one after it. -/
theorem specialSort_loop_eq :
    ∀ (c : ASTVec) (extracts : List ASTNode) (v : ASTNodeSet), VisitedValid v →
      specialSort_loop c extracts v
        = (c.filter fun n => !hasExtract n).reverse ++ extracts ++ c.filter hasExtract
  | [], extracts, v, _ => by simp [specialSort_loop]
  | ci :: rest, extracts, v, h => by
    rw [specialSort_loop]
    obtain ⟨e1, e2⟩ := containsExtract_spec ci v h
    cases hr : containsExtract ci v with
    | mk b s =>
      rw [hr] at e1 e2
      simp only at e1 e2
      cases b with
      | true =>
        simp only
        rw [specialSort_loop_eq rest _ s e2]
        simp [List.filter_cons, ← e1]
      | false =>
        simp only
        rw [specialSort_loop_eq rest _ s e2]
        simp [List.filter_cons, ← e1]

/-- Claim C22 as stated fails: `specialSort` does not keep the order of the
conjuncts that contain no extract.  Of `x + y = 5` and `3*x = 9`, neither with
an extract, it puts the second first, since each is pushed to the front of the
deque. -/
theorem C22_counterexample :
    hasExtract scenario1 = false ∧ hasExtract scenario2 = false ∧
    specialSort [scenario1, scenario2] = [scenario2, scenario1] := by
  decide

/-- Claim C22, amended: what `specialSort` computes.  For every sequence `c`
the result is the conjuncts of `c` that contain no bit-extract, in reverse
order, followed by those that contain one, in their order; it is a
permutation of `c`.  The set `visited`, shared by the calls, does not change
the answers of `containsExtract`. -/
theorem C22_special_sort (c : ASTVec) :
    specialSort c = (c.filter fun n => !hasExtract n).reverse ++ c.filter hasExtract ∧
    (specialSort c).Perm c := by
  have h := specialSort_loop_eq c [] ASTNodeSet.empty visitedValid_empty
  have e : specialSort c
      = (c.filter fun n => !hasExtract n).reverse ++ c.filter hasExtract := by
    unfold specialSort
    rw [h]
    simp
  refine ⟨e, ?_⟩
  rw [e]
  refine List.Perm.trans (List.Perm.append (List.reverse_perm _) (List.Perm.refl _)) ?_
  refine List.Perm.trans List.perm_append_comm ?_
  exact List.filter_append_perm hasExtract c

/-! ## Claims on the occurrence memo -/

mutual
theorem occursIn_eq_isSubterm (var : ASTNode) :
    ∀ t : ASTNode, constantsAreLeaves t = true → occursIn var t = isSubterm var t
  | ASTNode.mk k w v c, h => by
    rw [constantsAreLeaves] at h
    simp only [Bool.and_eq_true, Bool.or_eq_true, Bool.not_eq_true', List.isEmpty_iff] at h
    rw [occursIn, isSubterm]
    by_cases h1 : var = ASTNode.mk k w v c
    · simp [h1]
    · rw [if_neg h1]
      simp only [h1, decide_False, Bool.false_or]
      by_cases h2 : (ASTNode.mk k w v c).isConstant = true
      · rw [if_pos h2]
        rcases h.1 with h3 | h3
        · rw [h3] at h2; cases h2
        · rw [h3]; simp [isSubtermAny]
      · rw [if_neg h2]
        exact occursInAny_eq_isSubtermAny var c h.2
theorem occursInAny_eq_isSubtermAny (var : ASTNode) :
    ∀ c : ASTVec, constantsAreLeavesAll c = true → occursInAny var c = isSubtermAny var c
  | [], _ => by simp [occursInAny, isSubtermAny]
  | t :: ts, h => by
    rw [constantsAreLeavesAll] at h
    simp only [Bool.and_eq_true] at h
    rw [occursInAny, isSubtermAny, occursIn_eq_isSubterm var t h.1,
      occursInAny_eq_isSubtermAny var ts h.2]
end

/-- A memo that calls of `VarSeenInTerm` made of the empty one records only
variables that do not occur in the term. -/
theorem memoReachable_valid (m : ASTNodeMap) (h : MemoReachable m) : CacheValid m := by
  induction h with
  | empty => exact cacheValid_empty
  | call var term m _ ih => exact (VarSeenInTermMemo_spec var term m ih).2

/-- Claim C23, the occurrence memo does not change the answer.  In a solver
whose occurrence memo was made of the empty one by calls of `VarSeenInTerm`,
for every node `var` and every term whose constants are leaves,
`VarSeenInTerm(var, term)` returns true exactly when `var` is the term or a
transitive child of it; and after the call every entry `t -> v` of the memo
has `v` not occurring in `t`, for the check of the code and, when the constants
of `t` are leaves, in the words of the specification. -/
theorem C23_occurrence_memo_transparent (st : BVSolver) (var term : ASTNode)
    (hm : MemoReachable st.TermsAlreadySeenMap)
    (hleaf : constantsAreLeaves term = true) :
    (VarSeenInTerm st var term).1 = isSubterm var term ∧
    MemoReachable (VarSeenInTerm st var term).2.TermsAlreadySeenMap ∧
    ∀ t v, (VarSeenInTerm st var term).2.TermsAlreadySeenMap t = some v →
      occursIn v t = false ∧ (constantsAreLeaves t = true → isSubterm v t = false) := by
  have hv := memoReachable_valid _ hm
  obtain ⟨e1, e2⟩ := VarSeenInTermMemo_spec var term _ hv
  refine ⟨?_, MemoReachable.call var term _ hm, fun t v htv => ?_⟩
  · show (VarSeenInTermMemo var term st.TermsAlreadySeenMap).1 = _
    rw [e1, occursIn_eq_isSubterm var term hleaf]
  · have h1 : occursIn v t = false := e2 t v htv
    exact ⟨h1, fun hl => by rw [← occursIn_eq_isSubterm v t hl]; exact h1⟩

/-- The hypotheses of claim C23 hold for the solver whose memo the call
`VarSeenInTerm(x, z)` made of the empty one, with the entry `z -> x`: asked
there whether `z` occurs in `x + z`, `VarSeenInTerm` answers true. -/
theorem C23_occurrence_memo_transparent_witness :
    (VarSeenInTermMemo varX (bvVar 8 102) ASTNodeMap.empty).2 (bvVar 8 102) = some varX ∧
    constantsAreLeaves (CreateTerm BVPLUS 8 [varX, bvVar 8 102]) = true ∧
    isSubterm (bvVar 8 102) (CreateTerm BVPLUS 8 [varX, bvVar 8 102]) = true ∧
    (VarSeenInTerm
        (BVSolver.init.withSeen (VarSeenInTermMemo varX (bvVar 8 102) ASTNodeMap.empty).2)
        (bvVar 8 102) (CreateTerm BVPLUS 8 [varX, bvVar 8 102])).1
      = isSubterm (bvVar 8 102) (CreateTerm BVPLUS 8 [varX, bvVar 8 102]) ∧
    MemoReachable (VarSeenInTerm
        (BVSolver.init.withSeen (VarSeenInTermMemo varX (bvVar 8 102) ASTNodeMap.empty).2)
        (bvVar 8 102) (CreateTerm BVPLUS 8 [varX, bvVar 8 102])).2.TermsAlreadySeenMap ∧
    ∀ t v, (VarSeenInTerm
        (BVSolver.init.withSeen (VarSeenInTermMemo varX (bvVar 8 102) ASTNodeMap.empty).2)
        (bvVar 8 102) (CreateTerm BVPLUS 8 [varX, bvVar 8 102])).2.TermsAlreadySeenMap t
          = some v →
      occursIn v t = false ∧ (constantsAreLeaves t = true → isSubterm v t = false) :=
  ⟨by decide, by decide, by decide,
    C23_occurrence_memo_transparent
      (BVSolver.init.withSeen (VarSeenInTermMemo varX (bvVar 8 102) ASTNodeMap.empty).2)
      (bvVar 8 102) (CreateTerm BVPLUS 8 [varX, bvVar 8 102])
      (MemoReachable.call varX (bvVar 8 102) ASTNodeMap.empty MemoReachable.empty)
      (by decide)⟩

/-! ## Claims on the position of the lowest set bit -/

/-- The loop of `SplitEven_into_Oddnum_PowerOf2` stops at the lowest set bit of
a value that is not zero. -/
theorem SplitEven_loop_lowest (value width : Nat) (hv : value < 2 ^ width) (h0 : value ≠ 0) :
    ∀ remaining n, remaining + n = width → 2 ^ n ∣ value →
      SplitEven_loop value width remaining n < width ∧
      2 ^ SplitEven_loop value width remaining n ∣ value ∧
      BitVector_bit_test value (SplitEven_loop value width remaining n) = true
  | 0, n, hw, hd => by
    exfalso
    simp only [Nat.zero_add] at hw
    subst hw
    exact h0 (Nat.eq_zero_of_dvd_of_lt hd hv)
  | r + 1, n, hw, hd => by
    rw [SplitEven_loop]
    by_cases hc : (decide (n < width) && !BitVector_bit_test value n) = true
    · rw [if_pos hc]
      apply SplitEven_loop_lowest value width hv h0 r (n + 1) (by omega)
      simp only [Bool.and_eq_true, decide_eq_true_eq, Bool.not_eq_true', BitVector_bit_test,
        decide_eq_false_iff_not] at hc
      obtain ⟨q, hq⟩ := hd
      rw [hq, Nat.mul_div_cancel_left _ (by positivity)] at hc
      have : q % 2 = 0 := by omega
      obtain ⟨q2, hq2⟩ := Nat.dvd_of_mod_eq_zero this
      exact ⟨q2, by rw [hq, hq2, pow_succ]; ring⟩
    · rw [if_neg hc]
      have hn : n < width := by omega
      simp only [Bool.and_eq_true, decide_eq_true_eq, Bool.not_eq_true', not_and,
        Bool.not_eq_false] at hc
      exact ⟨hn, hd, hc hn⟩

/-- What `SplitEven_into_Oddnum_PowerOf2` returns for a constant that is not
zero: the index of its lowest set bit. -/
theorem SplitEven_lowest (c : ASTNode) (hv : c.GetBVConst < 2 ^ c.GetValueWidth)
    (h0 : c.GetBVConst ≠ 0) :
    SplitEven_into_Oddnum_PowerOf2 c < c.GetValueWidth ∧
    2 ^ SplitEven_into_Oddnum_PowerOf2 c ∣ c.GetBVConst ∧
    BitVector_bit_test c.GetBVConst (SplitEven_into_Oddnum_PowerOf2 c) = true :=
  SplitEven_loop_lowest _ _ hv h0 _ 0 (by simp) (by simp)

theorem two_const_value (len : Nat) (hlen : 2 ≤ len) : (CreateTwoConst len).GetBVConst = 2 := by
  have : 2 < 2 ^ len :=
    calc 2 < 2 ^ 2 := by norm_num
      _ ≤ 2 ^ len := Nat.pow_le_pow_right (by norm_num) hlen
  simp [CreateTwoConst, CreateBVConst, ASTNode.GetBVConst, Nat.mod_eq_of_lt this]

theorem eval_div_by_two (len : Nat) (hlen : 2 ≤ len) (d : ASTNode) :
    BVConstEvaluator (CreateTerm BVDIV len [d, CreateTwoConst len])
      = some (CreateBVConst len (d.GetBVConst / 2)) := by
  have h2 := two_const_value len hlen
  have c0 : (CreateTerm BVDIV len [d, CreateTwoConst len]).child 0 = d := rfl
  have c1 : (CreateTerm BVDIV len [d, CreateTwoConst len]).child 1 = CreateTwoConst len := rfl
  have k0 : (CreateTerm BVDIV len [d, CreateTwoConst len]).GetKind = BVDIV := rfl
  have w0 : (CreateTerm BVDIV len [d, CreateTwoConst len]).GetValueWidth = len := rfl
  unfold BVConstEvaluator
  simp only [k0, c0, c1, w0, h2]
  rfl

theorem eval_mod_by_two (len : Nat) (hlen : 2 ≤ len) (d : ASTNode) :
    BVConstEvaluator (CreateTerm BVMOD len [d, CreateTwoConst len])
      = some (CreateBVConst len (d.GetBVConst % 2)) := by
  have h2 := two_const_value len hlen
  have c0 : (CreateTerm BVMOD len [d, CreateTwoConst len]).child 0 = d := rfl
  have c1 : (CreateTerm BVMOD len [d, CreateTwoConst len]).child 1 = CreateTwoConst len := rfl
  have k0 : (CreateTerm BVMOD len [d, CreateTwoConst len]).GetKind = BVMOD := rfl
  have w0 : (CreateTerm BVMOD len [d, CreateTwoConst len]).GetValueWidth = len := rfl
  unfold BVConstEvaluator
  simp only [k0, c0, c1, w0, h2]
  rfl

/-- The loop of the old routine on a value `2^t * q` with `q` odd: it is left
after `t` iterations with the node of `q`. -/
theorem SplitEven_OLD_loop_run (len : Nat) (hlen : 2 ≤ len) :
    ∀ (t fuel : Nat) (d : ASTNode) (n q : Nat), d.GetBVConst = 2 ^ t * q → q % 2 = 1 →
      d.GetBVConst < 2 ^ len → t < fuel →
      SplitEven_OLD_loop len (CreateZeroConst len) (CreateTwoConst len) fuel
          (d, CreateBVConst len (d.GetBVConst % 2), n)
        = some (if t = 0 then d else CreateBVConst len q, n + t)
  | 0, fuel, d, n, q, hd, hq, _, hf => by
    obtain ⟨f, rfl⟩ : ∃ f, fuel = f + 1 := ⟨fuel - 1, by omega⟩
    simp only [pow_zero, Nat.one_mul] at hd
    rw [SplitEven_OLD_loop]
    have h1 : (1 : Nat) < 2 ^ len :=
      calc 1 < 2 ^ 2 := by norm_num
        _ ≤ 2 ^ len := Nat.pow_le_pow_right (by norm_num) hlen
    have hne : CreateBVConst len (d.GetBVConst % 2) ≠ CreateZeroConst len := by
      rw [hd, hq]
      simp [CreateZeroConst, CreateBVConst, Nat.mod_eq_of_lt h1]
    simp only [hne, if_false, if_true, Nat.add_zero]
  | t + 1, fuel, d, n, q, hd, hq, hlt, hf => by
    obtain ⟨f, rfl⟩ : ∃ f, fuel = f + 1 := ⟨fuel - 1, by omega⟩
    rw [SplitEven_OLD_loop]
    have hev : d.GetBVConst % 2 = 0 := by
      rw [hd, pow_succ, Nat.mul_assoc, Nat.mul_comm 2 q, ← Nat.mul_assoc]
      exact Nat.mul_mod_left _ _
    have hhalf : d.GetBVConst / 2 = 2 ^ t * q := by
      rw [hd, pow_succ, Nat.mul_assoc, Nat.mul_comm 2 q, ← Nat.mul_assoc]
      exact Nat.mul_div_cancel _ (by norm_num)
    have hz : CreateBVConst len (d.GetBVConst % 2) = CreateZeroConst len := by
      rw [hev]; rfl
    have hlt2 : d.GetBVConst / 2 < 2 ^ len := Nat.lt_of_le_of_lt (Nat.div_le_self _ _) hlt
    have hval : (CreateBVConst len (d.GetBVConst / 2)).GetBVConst = d.GetBVConst / 2 := by
      show d.GetBVConst / 2 % 2 ^ len = d.GetBVConst / 2
      exact Nat.mod_eq_of_lt hlt2
    simp only [hz, if_true, SplitEven_OLD_body, eval_div_by_two len hlen, Option.some_bind,
      eval_mod_by_two len hlen]
    have ih := SplitEven_OLD_loop_run len hlen t f (CreateBVConst len (d.GetBVConst / 2)) (n + 1) q
      (by rw [hval, hhalf]) hq (by rw [hval]; exact hlt2) (by omega)
    rw [ih]
    by_cases ht : t = 0
    · subst ht
      simp only [pow_zero, Nat.one_mul] at hhalf
      simp [hhalf, Nat.add_comm]
    · simp [ht, Nat.add_comm, Nat.add_left_comm]

theorem SplitEven_OLD_loop_zero (len : Nat) (hlen : 2 ≤ len) :
    ∀ (fuel n : Nat),
      SplitEven_OLD_loop len (CreateZeroConst len) (CreateTwoConst len) fuel
        (CreateZeroConst len, CreateZeroConst len, n) = none
  | 0, _ => rfl
  | fuel + 1, n => by
    rw [SplitEven_OLD_loop]
    have hv : (CreateZeroConst len).GetBVConst = 0 := by
      simp [CreateZeroConst, CreateBVConst, ASTNode.GetBVConst]
    simp only [if_true, SplitEven_OLD_body, eval_div_by_two len hlen, Option.some_bind, hv,
      Nat.zero_div, eval_mod_by_two len hlen]
    have h1 : CreateBVConst len 0 = CreateZeroConst len := rfl
    have h2 : (CreateBVConst len 0).GetBVConst = 0 := hv
    simp only [h2, Nat.zero_mod, h1]
    exact SplitEven_OLD_loop_zero len hlen fuel (n + 1)

/-- The old routine on an even constant that is not zero: given more
iterations than the new routine counts shifts, it leaves its loop with the
same count and the odd number that remains. -/
theorem SplitEven_OLD_agrees (c : ASTNode) (hk : c.GetKind = BVCONST)
    (he : BVConstIsOdd c = false) (h0 : c.GetBVConst ≠ 0)
    (hv : c.GetBVConst < 2 ^ c.GetValueWidth) :
    ∀ fuel, SplitEven_into_Oddnum_PowerOf2 c < fuel →
      SplitEven_into_Oddnum_PowerOf2_OLD fuel c 0
        = some (CreateBVConst c.GetValueWidth
            (c.GetBVConst / 2 ^ SplitEven_into_Oddnum_PowerOf2 c),
          SplitEven_into_Oddnum_PowerOf2 c) := by
  obtain ⟨hlt, hdvd, hbit⟩ := SplitEven_lowest c hv h0
  have hw : 0 < c.GetValueWidth := by omega
  have hpos := SplitEven_pos c hw he
  generalize SplitEven_into_Oddnum_PowerOf2 c = k at hlt hdvd hbit hpos
  have hmul : c.GetBVConst = 2 ^ k * (c.GetBVConst / 2 ^ k) :=
    (Nat.mul_div_cancel' hdvd).symm
  have hodd : c.GetBVConst / 2 ^ k % 2 = 1 := by
    simpa [BitVector_bit_test] using hbit
  have hlen : 2 ≤ c.GetValueWidth := by omega
  intro fuel hf
  unfold SplitEven_into_Oddnum_PowerOf2_OLD
  have hkb : (BVCONST ≠ c.GetKind || BVConstIsOdd c) = false := by
    simp [hk, he]
  simp only [hkb, Bool.false_eq_true, if_false]
  rw [eval_mod_by_two _ hlen, Option.some_bind,
    SplitEven_OLD_loop_run _ hlen k fuel c 0 _ hmul hodd hv hf]
  have hk0 : k ≠ 0 := by omega
  simp [hk0]

/-- Claim C24 as stated fails for the even constant zero.  For the 8-bit zero
the new routine returns the width, 8, where no bit is set; in the old routine
one run of the loop body leaves `div_by_2` and `mod_by_2` zero, so the loop is
never left: for no number of iterations has the routine a result. -/
theorem C24_counterexample :
    (CreateZeroConst 8).GetKind = BVCONST ∧ BVConstIsOdd (CreateZeroConst 8) = false ∧
    SplitEven_into_Oddnum_PowerOf2 (CreateZeroConst 8) = 8 ∧
    BitVector_bit_test (CreateZeroConst 8).GetBVConst 8 = false ∧
    (∀ n, SplitEven_OLD_body 8 (CreateTwoConst 8) (CreateZeroConst 8, CreateZeroConst 8, n)
      = some (CreateZeroConst 8, CreateZeroConst 8, n + 1)) ∧
    ∀ fuel, SplitEven_into_Oddnum_PowerOf2_OLD fuel (CreateZeroConst 8) 0 = none := by
  refine ⟨by decide, by decide, by decide, by decide, fun n => ?_, fun fuel => ?_⟩
  · simp only [SplitEven_OLD_body, eval_div_by_two 8 (by norm_num), Option.some_bind,
      eval_mod_by_two 8 (by norm_num)]
    rfl
  · have h := SplitEven_OLD_loop_zero 8 (by norm_num) fuel 0
    unfold SplitEven_into_Oddnum_PowerOf2_OLD
    have hk : (BVCONST ≠ (CreateZeroConst 8).GetKind || BVConstIsOdd (CreateZeroConst 8))
        = false := by decide
    simp only [hk, Bool.false_eq_true, if_false]
    have hw : (CreateZeroConst 8).GetValueWidth = 8 := rfl
    rw [hw, eval_mod_by_two 8 (by norm_num), Option.some_bind]
    exact h

/-- Claim C24, amended: the new routine and the old one agree on a constant
that is not zero.  For every even constant whose value is not zero and fits
its width, `SplitEven_into_Oddnum_PowerOf2` sets `number_shifts` to the index
`k` of the lowest set bit: `0 < k < width`, bit `k` is set, no bit below it
is, and the value is `2^k` times an odd number.  The old routine, given more
than `k` iterations, leaves its loop and returns that odd number with
`number_shifts = k`. -/
theorem C24_split_even_new_equals_old (c : ASTNode) (hk : c.GetKind = BVCONST)
    (he : BVConstIsOdd c = false) (h0 : c.GetBVConst ≠ 0)
    (hv : c.GetBVConst < 2 ^ c.GetValueWidth) :
    0 < SplitEven_into_Oddnum_PowerOf2 c ∧
    SplitEven_into_Oddnum_PowerOf2 c < c.GetValueWidth ∧
    BitVector_bit_test c.GetBVConst (SplitEven_into_Oddnum_PowerOf2 c) = true ∧
    (∀ j, j < SplitEven_into_Oddnum_PowerOf2 c → BitVector_bit_test c.GetBVConst j = false) ∧
    c.GetBVConst = 2 ^ SplitEven_into_Oddnum_PowerOf2 c
      * (c.GetBVConst / 2 ^ SplitEven_into_Oddnum_PowerOf2 c) ∧
    c.GetBVConst / 2 ^ SplitEven_into_Oddnum_PowerOf2 c % 2 = 1 ∧
    ∀ fuel, SplitEven_into_Oddnum_PowerOf2 c < fuel →
      SplitEven_into_Oddnum_PowerOf2_OLD fuel c 0
        = some (CreateBVConst c.GetValueWidth
            (c.GetBVConst / 2 ^ SplitEven_into_Oddnum_PowerOf2 c),
          SplitEven_into_Oddnum_PowerOf2 c) := by
  have hold := SplitEven_OLD_agrees c hk he h0 hv
  obtain ⟨hlt, hdvd, hbit⟩ := SplitEven_lowest c hv h0
  have hw : 0 < c.GetValueWidth := by omega
  have hpos := SplitEven_pos c hw he
  generalize SplitEven_into_Oddnum_PowerOf2 c = k at hlt hdvd hbit hpos hold
  have hmul : c.GetBVConst = 2 ^ k * (c.GetBVConst / 2 ^ k) :=
    (Nat.mul_div_cancel' hdvd).symm
  have hodd : c.GetBVConst / 2 ^ k % 2 = 1 := by
    simpa [BitVector_bit_test] using hbit
  refine ⟨hpos, hlt, hbit, fun j hj => ?_, hmul, hodd, hold⟩
  obtain ⟨i, rfl⟩ : ∃ i, k = j + (i + 1) := ⟨k - j - 1, by omega⟩
  simp only [BitVector_bit_test, decide_eq_false_iff_not]
  have : c.GetBVConst / 2 ^ j = 2 * (2 ^ i * (c.GetBVConst / 2 ^ (j + (i + 1)))) := by
    conv_lhs => rw [hmul]
    rw [pow_add, Nat.mul_assoc, Nat.mul_div_cancel_left _ (by positivity), pow_succ]
    ring
  rw [this, Nat.mul_mod_right]
  norm_num

/-- The hypotheses of claim C24 as amended hold for the 8-bit constant 12,
whose lowest set bit is bit 2: both routines give 2, the old one with the odd
number 3. -/
theorem C24_split_even_new_equals_old_witness :
    SplitEven_into_Oddnum_PowerOf2 (CreateBVConst 8 12) = 2 ∧
    SplitEven_into_Oddnum_PowerOf2_OLD 3 (CreateBVConst 8 12) 0 = some (CreateBVConst 8 3, 2) ∧
    0 < SplitEven_into_Oddnum_PowerOf2 (CreateBVConst 8 12) ∧
    SplitEven_into_Oddnum_PowerOf2 (CreateBVConst 8 12) < (CreateBVConst 8 12).GetValueWidth ∧
    BitVector_bit_test (CreateBVConst 8 12).GetBVConst
      (SplitEven_into_Oddnum_PowerOf2 (CreateBVConst 8 12)) = true ∧
    (∀ j, j < SplitEven_into_Oddnum_PowerOf2 (CreateBVConst 8 12) →
      BitVector_bit_test (CreateBVConst 8 12).GetBVConst j = false) ∧
    (CreateBVConst 8 12).GetBVConst = 2 ^ SplitEven_into_Oddnum_PowerOf2 (CreateBVConst 8 12)
      * ((CreateBVConst 8 12).GetBVConst
          / 2 ^ SplitEven_into_Oddnum_PowerOf2 (CreateBVConst 8 12)) ∧
    (CreateBVConst 8 12).GetBVConst
      / 2 ^ SplitEven_into_Oddnum_PowerOf2 (CreateBVConst 8 12) % 2 = 1 ∧
    ∀ fuel, SplitEven_into_Oddnum_PowerOf2 (CreateBVConst 8 12) < fuel →
      SplitEven_into_Oddnum_PowerOf2_OLD fuel (CreateBVConst 8 12) 0
        = some (CreateBVConst (CreateBVConst 8 12).GetValueWidth
            ((CreateBVConst 8 12).GetBVConst
              / 2 ^ SplitEven_into_Oddnum_PowerOf2 (CreateBVConst 8 12)),
          SplitEven_into_Oddnum_PowerOf2 (CreateBVConst 8 12)) :=
  ⟨by decide, by decide,
    C24_split_even_new_equals_old (CreateBVConst 8 12) (by decide) (by decide) (by decide)
      (by decide)⟩

/-! ## Claims on the range of the even solver's arithmetic -/

theorem BVSolve_Even_lowest_monoms_total :
    ∀ (ms : ASTVec) (l0 : Nat), (∀ m ∈ ms, evenMonom m = true) →
      ∃ l, BVSolve_Even_lowest_monoms ms l0 = some l
  | [], l0, _ => ⟨l0, rfl⟩
  | m :: rest, l0, h => by
    rw [BVSolve_Even_lowest_monoms]
    have hm := h m (List.mem_cons_self _ _)
    have hs : (!(decide (BVCONST = m.GetKind) && !BVConstIsOdd m)
        && !(decide (BVMULT = m.GetKind) && decide (BVCONST = (m.child 0).GetKind)
          && decide (SYMBOL = (m.child 1).GetKind) && !BVConstIsOdd (m.child 0))) = false := by
      unfold evenMonom at hm
      simp only [Bool.or_eq_true] at hm
      rcases hm with h1 | h1 <;> simp [h1]
    simp only [hs, Bool.false_eq_true, if_false]
    exact BVSolve_Even_lowest_monoms_total rest _ (fun x hx => h x (List.mem_cons_of_mem _ hx))

theorem BVSolve_Even_lowest_total :
    ∀ (eqs : ASTVec) (l0 : Nat), (∀ e ∈ eqs, evenEquationAccepted e = true) →
      ∃ l, BVSolve_Even_lowest eqs l0 = some l
  | [], l0, _ => ⟨l0, rfl⟩
  | e :: rest, l0, h => by
    rw [BVSolve_Even_lowest]
    have he := h e (List.mem_cons_self _ _)
    simp only [evenEquationAccepted, Bool.and_eq_true, decide_eq_true_eq, List.all_eq_true] at he
    obtain ⟨⟨h1, h2⟩, h3⟩ := he
    have hs : (!(decide (BVPLUS = (e.child 0).GetKind)
        && decide (CreateZeroConst (e.child 1).GetValueWidth = e.child 1))) = false := by
      simp [h1, h2]
    simp only [hs, Bool.false_eq_true, if_false]
    obtain ⟨l1, e1⟩ := BVSolve_Even_lowest_monoms_total (e.child 0).GetChildren l0 h3
    rw [e1]
    exact BVSolve_Even_lowest_total rest l1 (fun x hx => h x (List.mem_cons_of_mem _ hx))

theorem BVSolve_Even_lowest_monoms_attained :
    ∀ (ms : ASTVec) (l0 l : Nat), BVSolve_Even_lowest_monoms ms l0 = some l →
      l = l0 ∨ ∃ m ∈ ms, l = SplitEven_into_Oddnum_PowerOf2 (coeffOf m)
  | [], l0, l, h => by
    simp only [BVSolve_Even_lowest_monoms, Option.some.injEq] at h
    exact Or.inl h.symm
  | m :: rest, l0, l, h => by
    rw [BVSolve_Even_lowest_monoms] at h
    by_cases hs : (!(decide (BVCONST = m.GetKind) && !BVConstIsOdd m)
        && !(decide (BVMULT = m.GetKind) && decide (BVCONST = (m.child 0).GetKind)
          && decide (SYMBOL = (m.child 1).GetKind) && !BVConstIsOdd (m.child 0))) = true
    · rw [if_pos hs] at h; cases h
    · rw [if_neg hs] at h
      have h : BVSolve_Even_lowest_monoms rest
          (if SplitEven_into_Oddnum_PowerOf2 (coeffOf m) < l0
            then SplitEven_into_Oddnum_PowerOf2 (coeffOf m) else l0) = some l := h
      rcases BVSolve_Even_lowest_monoms_attained rest _ l h with h1 | ⟨x, hx, h1⟩
      · by_cases hc : SplitEven_into_Oddnum_PowerOf2 (coeffOf m) < l0
        · rw [if_pos hc] at h1
          exact Or.inr ⟨m, List.mem_cons_self _ _, h1⟩
        · rw [if_neg hc] at h1
          exact Or.inl h1
      · exact Or.inr ⟨x, List.mem_cons_of_mem _ hx, h1⟩

theorem BVSolve_Even_lowest_attained :
    ∀ (eqs : ASTVec) (l0 l : Nat), BVSolve_Even_lowest eqs l0 = some l →
      l = l0 ∨ ∃ e ∈ eqs, ∃ m ∈ (e.child 0).GetChildren,
        l = SplitEven_into_Oddnum_PowerOf2 (coeffOf m)
  | [], l0, l, h => by
    simp only [BVSolve_Even_lowest, Option.some.injEq] at h
    exact Or.inl h.symm
  | e :: rest, l0, l, h => by
    rw [BVSolve_Even_lowest] at h
    by_cases hs : (!(decide (BVPLUS = (e.child 0).GetKind)
        && decide (CreateZeroConst (e.child 1).GetValueWidth = e.child 1))) = true
    · simp only [hs, if_true] at h; cases h
    · simp only [hs, if_false] at h
      cases hm : BVSolve_Even_lowest_monoms (e.child 0).GetChildren l0 with
      | none => rw [hm] at h; cases h
      | some l1 =>
        rw [hm] at h
        simp only at h
        rcases BVSolve_Even_lowest_attained rest l1 l h with h1 | ⟨x, hx, m, hm2, h1⟩
        · rcases BVSolve_Even_lowest_monoms_attained _ l0 l1 hm with h2 | ⟨m, hm2, h2⟩
          · exact Or.inl (h1.trans h2)
          · exact Or.inr ⟨e, List.mem_cons_self _ _, m, hm2, h1.trans h2⟩
        · exact Or.inr ⟨x, List.mem_cons_of_mem _ hx, m, hm2, h1⟩

theorem coeffOf_kind (m : ASTNode) (hev : evenMonom m = true) :
    (coeffOf m).GetKind = BVCONST := by
  unfold coeffOf
  unfold evenMonom at hev
  by_cases hc : BVCONST = m.GetKind
  · rw [if_pos hc]; exact hc.symm
  · rw [if_neg hc]
    simp only [hc, decide_False, Bool.false_and, Bool.false_or, Bool.and_eq_true,
      decide_eq_true_eq] at hev
    exact hev.1.1.2.symm

/-- The exponent the first pass of `BVSolve_Even` selects on a typed system
without a zero coefficient and without an empty lhs. -/
theorem even_system_exponent (eqs : ASTVec)
    (hacc : ∀ e ∈ eqs, evenEquationAccepted e = true)
    (htyped : ∀ e ∈ eqs, evenEquationTyped e = true)
    (hnz : ∀ e ∈ eqs, coefficientsNonZero e = true)
    (hne : ∀ e ∈ eqs, (e.child 0).GetChildren ≠ []) :
    ∃ k, BVSolve_Even_lowest eqs (2 ^ 32 - 1) = some k ∧ 0 < k ∧
      (∀ e ∈ eqs, k < (e.child 0).GetValueWidth ∧ (e.child 0).GetValueWidth < 2 ^ 32) ∧
      (∀ e ∈ eqs, ∀ m ∈ (e.child 0).GetChildren,
        evenMonom m = true ∧ monomTyped (e.child 0).GetValueWidth m = true ∧
        (coeffOf m).GetBVConst ≠ 0 ∧
        (coeffOf m).GetValueWidth = (e.child 0).GetValueWidth ∧
        (coeffOf m).GetBVConst < 2 ^ (e.child 0).GetValueWidth ∧
        BVConstIsOdd (coeffOf m) = false ∧
        0 < SplitEven_into_Oddnum_PowerOf2 (coeffOf m) ∧
        SplitEven_into_Oddnum_PowerOf2 (coeffOf m) < (e.child 0).GetValueWidth ∧
        k ≤ SplitEven_into_Oddnum_PowerOf2 (coeffOf m)) ∧
      (eqs ≠ [] → ∃ e ∈ eqs, ∃ m ∈ (e.child 0).GetChildren,
        SplitEven_into_Oddnum_PowerOf2 (coeffOf m) = k) := by
  obtain ⟨k, hlow⟩ := BVSolve_Even_lowest_total eqs (2 ^ 32 - 1) hacc
  obtain ⟨_, hspec⟩ := BVSolve_Even_lowest_spec eqs _ k hlow
  have hmon : ∀ e ∈ eqs, ∀ m ∈ (e.child 0).GetChildren,
      evenMonom m = true ∧ monomTyped (e.child 0).GetValueWidth m = true ∧
      (coeffOf m).GetBVConst ≠ 0 ∧
      (coeffOf m).GetValueWidth = (e.child 0).GetValueWidth ∧
      (coeffOf m).GetBVConst < 2 ^ (e.child 0).GetValueWidth ∧
      BVConstIsOdd (coeffOf m) = false ∧
      0 < SplitEven_into_Oddnum_PowerOf2 (coeffOf m) ∧
      SplitEven_into_Oddnum_PowerOf2 (coeffOf m) < (e.child 0).GetValueWidth ∧
      k ≤ SplitEven_into_Oddnum_PowerOf2 (coeffOf m) := by
    intro e he m hm
    obtain ⟨hev, hle⟩ := (hspec e he).2.2 m hm
    have hty := htyped e he
    simp only [evenEquationTyped, Bool.and_eq_true, decide_eq_true_eq, List.all_eq_true] at hty
    have htm := hty.2 m hm
    have hz := hnz e he
    simp only [coefficientsNonZero, List.all_eq_true, decide_eq_true_eq] at hz
    obtain ⟨hw, hv, hodd⟩ := coeffOf_typed _ m hev htm
    have hlo := SplitEven_lowest (coeffOf m) (by rw [hw]; exact hv) (hz m hm)
    rw [hw] at hlo
    have hpos := SplitEven_pos (coeffOf m) (by rw [hw]; omega) hodd
    exact ⟨hev, htm, hz m hm, hw, hv, hodd, hpos, hlo.1, hle⟩
  have hwid : ∀ e ∈ eqs, k < (e.child 0).GetValueWidth ∧ (e.child 0).GetValueWidth < 2 ^ 32 := by
    intro e he
    have hty := htyped e he
    simp only [evenEquationTyped, Bool.and_eq_true, decide_eq_true_eq, List.all_eq_true] at hty
    obtain ⟨m, hm⟩ := List.exists_mem_of_ne_nil _ (hne e he)
    obtain ⟨_, _, _, _, _, _, _, h8, h9⟩ := hmon e he m hm
    exact ⟨Nat.lt_of_le_of_lt h9 h8, hty.1.2⟩
  have hk0 : 0 < k := BVSolve_Even_lowest_pos eqs _ k hlow (by norm_num)
    (fun e he m hm => (hmon e he m hm).2.2.2.2.2.2.1)
  refine ⟨k, hlow, hk0, hwid, hmon, fun hnil => ?_⟩
  rcases BVSolve_Even_lowest_attained eqs _ k hlow with h1 | ⟨e, he, m, hm, h1⟩
  · exfalso
    obtain ⟨e, he⟩ := List.exists_mem_of_ne_nil _ hnil
    have := hwid e he
    omega
  · exact ⟨e, he, m, hm, h1.symm⟩

/-- The divisor that the loop `while (--count)` of `BVSolve_Even` builds for an
exponent `k` with `0 < k < len`: the constant `2^k`. -/
theorem BVSolve_Even_two_pow (len k : Nat) (hk0 : 0 < k) (hk : k < len) (h32 : len < 2 ^ 32) :
    BVSolve_Even_two len (usub k 1) (CreateTwoConst len)
      = some (ASTNode.mk BVCONST len (2 ^ k) []) := by
  have hlen2 : 2 < 2 ^ len := by
    have : 2 ≤ len := by omega
    calc 2 < 2 ^ 2 := by norm_num
      _ ≤ 2 ^ len := Nat.pow_le_pow_right (by norm_num) this
  have hk32 : k < 2 ^ 32 := Nat.lt_trans hk h32
  rw [usub_eq k 1 hk0 hk32]
  have := BVSolve_Even_two_eq len hlen2 (k - 1) 2 hlen2
  simp only [CreateTwoConst, CreateBVConst, Nat.mod_eq_of_lt hlen2]
  rw [this]
  have hp : 2 ^ (k - 1) * 2 = 2 ^ k := by
    rw [← pow_succ, Nat.sub_add_cancel hk0]
  rw [hp, Nat.mod_eq_of_lt (Nat.pow_lt_pow_right (by norm_num) hk)]

/-- Claim C25, the arithmetic of the even solver stays in range.  Let the
system have the shape the first pass accepts, be typed, every equation with
an addend at least and no coefficient or bare constant zero.  Then the first
pass selects an exponent `k`.  Every call of
`SplitEven_into_Oddnum_PowerOf2` gets an even constant and its assertions
hold: the count is positive and is the count of the old routine.  `k` is at
most every count and, in a system that is not empty, is one of them; `1 ≤ k`;
and for every equation, of width `len`: `k < len`, the unsigned `len - k` is
at least 1, `len - k - 1` does not wrap, and the loop `while (--count)`
leaves the constant `2^k`, which is not zero modulo `2^len`. -/
theorem C25_even_solver_in_range (eqs : ASTVec)
    (hacc : ∀ e ∈ eqs, evenEquationAccepted e = true)
    (htyped : ∀ e ∈ eqs, evenEquationTyped e = true)
    (hnz : ∀ e ∈ eqs, coefficientsNonZero e = true)
    (hne : ∀ e ∈ eqs, (e.child 0).GetChildren ≠ []) :
    ∃ k, BVSolve_Even_lowest eqs (2 ^ 32 - 1) = some k ∧
      (∀ e ∈ eqs, ∀ m ∈ (e.child 0).GetChildren,
        (coeffOf m).GetKind = BVCONST ∧ BVConstIsOdd (coeffOf m) = false ∧
        0 < SplitEven_into_Oddnum_PowerOf2 (coeffOf m) ∧
        (∀ fuel, SplitEven_into_Oddnum_PowerOf2 (coeffOf m) < fuel →
          (SplitEven_into_Oddnum_PowerOf2_OLD fuel (coeffOf m) 0).map Prod.snd
            = some (SplitEven_into_Oddnum_PowerOf2 (coeffOf m))) ∧
        k ≤ SplitEven_into_Oddnum_PowerOf2 (coeffOf m)) ∧
      (eqs ≠ [] → ∃ e ∈ eqs, ∃ m ∈ (e.child 0).GetChildren,
        SplitEven_into_Oddnum_PowerOf2 (coeffOf m) = k) ∧
      1 ≤ k ∧
      ∀ e ∈ eqs,
        k < (e.child 0).GetValueWidth ∧
        usub (e.child 0).GetValueWidth k = (e.child 0).GetValueWidth - k ∧
        1 ≤ (e.child 0).GetValueWidth - k ∧
        usub (usub (e.child 0).GetValueWidth k) 1 = (e.child 0).GetValueWidth - k - 1 ∧
        (e.child 0).GetValueWidth - k - 1 + 1 = (e.child 0).GetValueWidth - k ∧
        BVSolve_Even_two (e.child 0).GetValueWidth (usub k 1)
            (CreateTwoConst (e.child 0).GetValueWidth)
          = some (CreateBVConst (e.child 0).GetValueWidth (2 ^ k)) ∧
        (CreateBVConst (e.child 0).GetValueWidth (2 ^ k)).GetBVConst = 2 ^ k ∧
        2 ^ k % 2 ^ (e.child 0).GetValueWidth ≠ 0 := by
  obtain ⟨k, hlow, hk0, hwid, hmon, hatt⟩ := even_system_exponent eqs hacc htyped hnz hne
  refine ⟨k, hlow, fun e he m hm => ?_, hatt, hk0, fun e he => ?_⟩
  · obtain ⟨hev, _, h0, hw, hv, hodd, hpos, _, hle⟩ := hmon e he m hm
    have hkind := coeffOf_kind m hev
    refine ⟨hkind, hodd, hpos, fun fuel hf => ?_, hle⟩
    rw [SplitEven_OLD_agrees (coeffOf m) hkind hodd h0 (by rw [hw]; exact hv) fuel hf]
    rfl
  · obtain ⟨hk, h32⟩ := hwid e he
    have hlt : 2 ^ k < 2 ^ (e.child 0).GetValueWidth := Nat.pow_lt_pow_right (by norm_num) hk
    have hmod : 2 ^ k % 2 ^ (e.child 0).GetValueWidth = 2 ^ k := Nat.mod_eq_of_lt hlt
    have hc : CreateBVConst (e.child 0).GetValueWidth (2 ^ k)
        = ASTNode.mk BVCONST (e.child 0).GetValueWidth (2 ^ k) [] :=
      congrArg (fun v => ASTNode.mk BVCONST (e.child 0).GetValueWidth v []) hmod
    have hu1 : usub (e.child 0).GetValueWidth k = (e.child 0).GetValueWidth - k :=
      usub_eq _ _ (Nat.le_of_lt hk) h32
    refine ⟨hk, hu1, by omega, ?_, by omega, ?_, ?_, ?_⟩
    · rw [hu1]
      exact usub_eq _ _ (by omega) (Nat.lt_of_le_of_lt (Nat.sub_le _ _) h32)
    · rw [hc]
      exact BVSolve_Even_two_pow _ k hk0 hk h32
    · rw [hc]; rfl
    · rw [hmod]; exact Nat.pos_iff_ne_zero.1 (by positivity)

/-- The hypotheses of claim C25 hold for the system of `2*x + 4*y = 0` and
`4*z + 12*u = 0` at 8 bits, for which the first pass selects the exponent 1. -/
theorem C25_even_solver_in_range_witness :
    BVSolve_Even_lowest evenSystem (2 ^ 32 - 1) = some 1 ∧
    ∃ k, BVSolve_Even_lowest evenSystem (2 ^ 32 - 1) = some k ∧
      (∀ e ∈ evenSystem, ∀ m ∈ (e.child 0).GetChildren,
        (coeffOf m).GetKind = BVCONST ∧ BVConstIsOdd (coeffOf m) = false ∧
        0 < SplitEven_into_Oddnum_PowerOf2 (coeffOf m) ∧
        (∀ fuel, SplitEven_into_Oddnum_PowerOf2 (coeffOf m) < fuel →
          (SplitEven_into_Oddnum_PowerOf2_OLD fuel (coeffOf m) 0).map Prod.snd
            = some (SplitEven_into_Oddnum_PowerOf2 (coeffOf m))) ∧
        k ≤ SplitEven_into_Oddnum_PowerOf2 (coeffOf m)) ∧
      (evenSystem ≠ [] → ∃ e ∈ evenSystem, ∃ m ∈ (e.child 0).GetChildren,
        SplitEven_into_Oddnum_PowerOf2 (coeffOf m) = k) ∧
      1 ≤ k ∧
      ∀ e ∈ evenSystem,
        k < (e.child 0).GetValueWidth ∧
        usub (e.child 0).GetValueWidth k = (e.child 0).GetValueWidth - k ∧
        1 ≤ (e.child 0).GetValueWidth - k ∧
        usub (usub (e.child 0).GetValueWidth k) 1 = (e.child 0).GetValueWidth - k - 1 ∧
        (e.child 0).GetValueWidth - k - 1 + 1 = (e.child 0).GetValueWidth - k ∧
        BVSolve_Even_two (e.child 0).GetValueWidth (usub k 1)
            (CreateTwoConst (e.child 0).GetValueWidth)
          = some (CreateBVConst (e.child 0).GetValueWidth (2 ^ k)) ∧
        (CreateBVConst (e.child 0).GetValueWidth (2 ^ k)).GetBVConst = 2 ^ k ∧
        2 ^ k % 2 ^ (e.child 0).GetValueWidth ≠ 0 :=
  ⟨by decide,
    C25_even_solver_in_range evenSystem (by decide) (by decide) (by decide) (by decide)⟩

/-! ## Claims on the reduction step of the even solver -/

/-- What the second pass of `BVSolve_Even` makes of a monomial: a monomial of
the same kind whose coefficient is the old one divided by `2^k`, at the new
width. -/
theorem BVSolve_Even_monom_form (S : Simplifier) (sm : ASTNodeMap)
    (len k : Nat) (h2 : k < len) (h3 : len < 2 ^ 32)
    (m : ASTNode) (hev : evenMonom m = true) (hty : monomTyped len m = true) :
    ∃ m2, BVSolve_Even_monom S sm len (len - k) (ASTNode.mk BVCONST len (2 ^ k) [])
        (ASTNode.mk BVCONST 32 (len - k - 1) []) (CreateZeroConst 32) m = some m2 ∧
      m2.GetKind = m.GetKind ∧
      coeffOf m2 = CreateBVConst (len - k) ((coeffOf m).GetBVConst / 2 ^ k) := by
  unfold BVSolve_Even_monom
  unfold monomTyped at hty
  by_cases hc : BVCONST = m.GetKind
  · rw [if_pos hc]
    simp only [hc.symm, if_true, Bool.and_eq_true, decide_eq_true_eq] at hty
    refine ⟨_, reduce_coefficient len k m h2 h3 hty.2, ?_, ?_⟩
    · rw [← hc]; rfl
    · have e1 : coeffOf m = m := by unfold coeffOf; rw [if_pos hc]
      rw [e1]
      rfl
  · rw [if_neg hc]
    have hc2 : ¬ m.GetKind = BVCONST := fun h => hc h.symm
    simp only [hc2, if_false, Bool.and_eq_true, decide_eq_true_eq] at hty
    obtain ⟨_, ⟨⟨_, _⟩, hv0⟩, _⟩ := hty
    simp only [evenMonom, hc, decide_False, Bool.false_and, Bool.false_or, Bool.and_eq_true,
      decide_eq_true_eq, Bool.not_eq_true'] at hev
    obtain ⟨⟨⟨hk, _⟩, _⟩, _⟩ := hev
    have hred := reduce_coefficient len k (m.child 0) h2 h3 hv0
    rw [Option.bind_eq_some] at hred
    obtain ⟨q1, hq1, hq2⟩ := hred
    refine ⟨CreateTerm BVMULT (len - k) [CreateBVConst (len - k) ((m.child 0).GetBVConst / 2 ^ k),
      S.SimplifyTerm sm (CreateTerm BVEXTRACT (len - k)
        [m.child 1, ASTNode.mk BVCONST 32 (len - k - 1) [], CreateZeroConst 32])], ?_, ?_, ?_⟩
    · rw [hq1, Option.some_bind, hq2, Option.some_bind]
    · rw [← hk]; rfl
    · have e1 : coeffOf m = m.child 0 := by unfold coeffOf; rw [if_neg hc]
      rw [e1]
      rfl

theorem BVSolve_Even_monoms_form (S : Simplifier) (sm : ASTNodeMap)
    (len k : Nat) (h2 : k < len) (h3 : len < 2 ^ 32) :
    ∀ ms : ASTVec, (∀ m ∈ ms, evenMonom m = true ∧ monomTyped len m = true) →
      ∃ ms2, BVSolve_Even_monoms S sm len (len - k) (ASTNode.mk BVCONST len (2 ^ k) [])
          (ASTNode.mk BVCONST 32 (len - k - 1) []) (CreateZeroConst 32) ms = some ms2 ∧
        List.Forall₂ (fun m m2 => m2.GetKind = m.GetKind ∧
          coeffOf m2 = CreateBVConst (len - k) ((coeffOf m).GetBVConst / 2 ^ k)) ms ms2
  | [], _ => ⟨[], rfl, List.Forall₂.nil⟩
  | m :: rest, h => by
    obtain ⟨hev, hty⟩ := h m (by simp)
    obtain ⟨m2, e1, p1, p2⟩ := BVSolve_Even_monom_form S sm len k h2 h3 m hev hty
    obtain ⟨ms2, e2, p3⟩ := BVSolve_Even_monoms_form S sm len k h2 h3 rest
      (fun x hx => h x (by simp [hx]))
    refine ⟨m2 :: ms2, by rw [BVSolve_Even_monoms, e1, Option.some_bind, e2, Option.some_bind],
      List.Forall₂.cons ⟨p1, p2⟩ p3⟩

theorem forall₂_imp_mem {R Q : ASTNode → ASTNode → Prop} (l1 l2 : ASTVec)
    (h : List.Forall₂ R l1 l2) (himp : ∀ a ∈ l1, ∀ b, R a b → Q a b) :
    List.Forall₂ Q l1 l2 := by
  induction h with
  | nil => exact List.Forall₂.nil
  | cons hab _ ih =>
    exact List.Forall₂.cons (himp _ (List.mem_cons_self _ _) _ hab)
      (ih (fun x hx y hxy => himp x (List.mem_cons_of_mem _ hx) y hxy))

theorem forall₂_exists_right {R : ASTNode → ASTNode → Prop} (l1 l2 : ASTVec)
    (h : List.Forall₂ R l1 l2) : ∀ m ∈ l1, ∃ m2 ∈ l2, R m m2 := by
  induction h with
  | nil => intro m hm; cases hm
  | cons hab _ ih =>
    intro m hm
    rcases List.mem_cons.1 hm with h1 | h1
    · exact ⟨_, List.mem_cons_self _ _, h1 ▸ hab⟩
    · obtain ⟨m2, hm2, hr⟩ := ih m h1
      exact ⟨m2, List.mem_cons_of_mem _ hm2, hr⟩

/-- A coefficient shifted right by `k` bits is odd exactly when `k` is the
index of its lowest set bit. -/
theorem shifted_odd_iff (len k : Nat) (c : ASTNode) (hk : k < len)
    (hv : c.GetBVConst < 2 ^ c.GetValueWidth) (h0 : c.GetBVConst ≠ 0)
    (hle : k ≤ SplitEven_into_Oddnum_PowerOf2 c) :
    BVConstIsOdd (CreateBVConst (len - k) (c.GetBVConst / 2 ^ k)) = true
      ↔ SplitEven_into_Oddnum_PowerOf2 c = k := by
  obtain ⟨_, hdvd, hbit⟩ := SplitEven_lowest c hv h0
  have hpos : 0 < len - k := by omega
  have hval : (CreateBVConst (len - k) (c.GetBVConst / 2 ^ k)).GetBVConst % 2
      = c.GetBVConst / 2 ^ k % 2 := by
    show c.GetBVConst / 2 ^ k % 2 ^ (len - k) % 2 = _
    rw [mod_pow_mod_two _ _ hpos]
  simp only [BVConstIsOdd, decide_eq_true_eq, hval]
  constructor
  · intro hodd
    by_contra hne
    have hlt : k + 1 ≤ SplitEven_into_Oddnum_PowerOf2 c := by omega
    have hd2 : 2 ^ (k + 1) ∣ c.GetBVConst := Nat.dvd_trans (Nat.pow_dvd_pow 2 hlt) hdvd
    obtain ⟨q, hq⟩ := hd2
    rw [hq, pow_succ, Nat.mul_assoc, Nat.mul_div_cancel_left _ (by positivity),
      Nat.mul_mod_right] at hodd
    cases hodd
  · intro he
    rw [he] at hbit
    simpa [BitVector_bit_test] using hbit

theorem BVSolve_Even_equation_of_lhs (S : Simplifier) (sm : ASTNodeMap) (k : Nat)
    (e : ASTNode) (lhs_out : ASTVec) (h : reducedLhs S sm k e = some lhs_out) :
    BVSolve_Even_equation S sm k e = some (S.CreateSimplifiedEQ sm
      (CreateTerm BVPLUS (usub (e.child 0).GetValueWidth k) lhs_out)
      (CreateZeroConst (usub (e.child 0).GetValueWidth k))) := by
  unfold reducedLhs at h
  rw [Option.bind_eq_some] at h
  obtain ⟨two, h1, h2⟩ := h
  unfold BVSolve_Even_equation
  simp only [h1, Option.some_bind, h2]

/-- Claim C26, one reduction step exposes an odd coefficient.  Let the system
have the shape the first pass accepts, be typed, every equation with an addend
at least and no coefficient or bare constant zero.  Then the first pass selects
an exponent `k`, and for every equation the second pass builds its `lhs_out`,
the vector `CreateSimplifiedEQ` is then called on: each monomial of it has the
kind of the one it comes from and that one's coefficient shifted right by `k`
bits, and its coefficient, or the bare constant, is odd exactly when `k` is
the position of the lowest set bit of the original one.  When the system is
not empty, the `lhs_out` of some equation has a monomial whose coefficient,
or a bare constant, that is odd. -/
theorem C26_reduction_exposes_odd (S : Simplifier) (sm : ASTNodeMap) (eqs : ASTVec)
    (hacc : ∀ e ∈ eqs, evenEquationAccepted e = true)
    (htyped : ∀ e ∈ eqs, evenEquationTyped e = true)
    (hnz : ∀ e ∈ eqs, coefficientsNonZero e = true)
    (hne : ∀ e ∈ eqs, (e.child 0).GetChildren ≠ []) :
    ∃ k, BVSolve_Even_lowest eqs (2 ^ 32 - 1) = some k ∧
      (∀ e ∈ eqs, ∃ lhs_out,
        reducedLhs S sm k e = some lhs_out ∧
        BVSolve_Even_equation S sm k e = some (S.CreateSimplifiedEQ sm
          (CreateTerm BVPLUS (usub (e.child 0).GetValueWidth k) lhs_out)
          (CreateZeroConst (usub (e.child 0).GetValueWidth k))) ∧
        List.Forall₂ (ReducedMonom (e.child 0).GetValueWidth k) (e.child 0).GetChildren
          lhs_out ∧
        List.Forall₂ (OddIffLowest k) (e.child 0).GetChildren lhs_out) ∧
      (eqs ≠ [] → ∃ e ∈ eqs, ∃ lhs_out, reducedLhs S sm k e = some lhs_out ∧
        ∃ m2 ∈ lhs_out, BVConstIsOdd (coeffOf m2) = true) := by
  obtain ⟨k, hlow, hk0, hwid, hmon, hatt⟩ := even_system_exponent eqs hacc htyped hnz hne
  have hall : ∀ e ∈ eqs, ∃ lhs_out, reducedLhs S sm k e = some lhs_out ∧
      List.Forall₂ (ReducedMonom (e.child 0).GetValueWidth k) (e.child 0).GetChildren
        lhs_out ∧
      List.Forall₂ (OddIffLowest k) (e.child 0).GetChildren lhs_out := by
    intro e he
    obtain ⟨hk, h32⟩ := hwid e he
    have hu1 : usub (e.child 0).GetValueWidth k = (e.child 0).GetValueWidth - k :=
      usub_eq _ _ (Nat.le_of_lt hk) h32
    have hu2 : usub ((e.child 0).GetValueWidth - k) 1 = (e.child 0).GetValueWidth - k - 1 :=
      usub_eq _ _ (by omega) (Nat.lt_of_le_of_lt (Nat.sub_le _ _) h32)
    have hlo : CreateBVConst 32 ((e.child 0).GetValueWidth - k - 1)
        = ASTNode.mk BVCONST 32 ((e.child 0).GetValueWidth - k - 1) [] := by
      have hb : (e.child 0).GetValueWidth - k - 1 < 2 ^ 32 :=
        Nat.lt_of_le_of_lt (Nat.le_trans (Nat.sub_le _ _) (Nat.sub_le _ _)) h32
      exact congrArg (fun v => ASTNode.mk BVCONST 32 v []) (Nat.mod_eq_of_lt hb)
    obtain ⟨ms2, e2, p2⟩ := BVSolve_Even_monoms_form S sm (e.child 0).GetValueWidth k hk h32
      (e.child 0).GetChildren (fun m hm => ⟨(hmon e he m hm).1, (hmon e he m hm).2.1⟩)
    refine ⟨ms2, ?_, forall₂_imp_mem _ _ p2 (fun a ha b hab => ?_),
      forall₂_imp_mem _ _ p2 (fun a ha b hab => ?_)⟩
    · unfold reducedLhs
      rw [BVSolve_Even_two_pow _ k hk0 hk h32, Option.some_bind, hu1, hu2, hlo]
      exact e2
    · obtain ⟨_, _, _, _, hv, _⟩ := hmon e he a ha
      refine ⟨hab.1, ?_, ?_, ?_⟩
      · rw [hab.2]; rfl
      · rw [hab.2]; rfl
      · rw [hab.2, Nat.shiftRight_eq_div_pow]
        show (coeffOf a).GetBVConst / 2 ^ k % 2 ^ ((e.child 0).GetValueWidth - k) = _
        refine Nat.mod_eq_of_lt ?_
        rw [Nat.div_lt_iff_lt_mul (Nat.two_pow_pos k), ← pow_add,
          Nat.sub_add_cancel (Nat.le_of_lt hk)]
        exact hv
    · obtain ⟨_, _, h0, hw, hv, _, _, _, hle⟩ := hmon e he a ha
      unfold OddIffLowest
      rw [hab.2]
      exact shifted_odd_iff _ k (coeffOf a) hk (by rw [hw]; exact hv) h0 hle
  refine ⟨k, hlow, fun e he => ?_, fun hnil => ?_⟩
  · obtain ⟨lhs_out, h1, h2, h3⟩ := hall e he
    exact ⟨lhs_out, h1, BVSolve_Even_equation_of_lhs S sm k e lhs_out h1, h2, h3⟩
  · obtain ⟨e, he, m, hm, hmk⟩ := hatt hnil
    obtain ⟨lhs_out, h1, _, h3⟩ := hall e he
    obtain ⟨m2, hm2, hr⟩ := forall₂_exists_right _ _ h3 m hm
    exact ⟨e, he, lhs_out, h1, m2, hm2, hr.2 hmk⟩

/-- The hypotheses of claim C26 hold for the system of `2*x + 4*y = 0` and
`4*z + 12*u = 0` at 8 bits: the exponent is 1, and the first equation is
reduced to the monomials `1*x[6:0]` and `2*y[6:0]` at 7 bits, the first of
them with an odd coefficient. -/
theorem C26_reduction_exposes_odd_witness :
    BVSolve_Even_lowest evenSystem (2 ^ 32 - 1) = some 1 ∧
    reducedLhs idSimplifier ASTNodeMap.empty 1 evenEquation
      = some (reducedEquation.child 0).GetChildren ∧
    ∃ k, BVSolve_Even_lowest evenSystem (2 ^ 32 - 1) = some k ∧
      (∀ e ∈ evenSystem, ∃ lhs_out,
        reducedLhs idSimplifier ASTNodeMap.empty k e = some lhs_out ∧
        BVSolve_Even_equation idSimplifier ASTNodeMap.empty k e
          = some (idSimplifier.CreateSimplifiedEQ ASTNodeMap.empty
            (CreateTerm BVPLUS (usub (e.child 0).GetValueWidth k) lhs_out)
            (CreateZeroConst (usub (e.child 0).GetValueWidth k))) ∧
        List.Forall₂ (ReducedMonom (e.child 0).GetValueWidth k) (e.child 0).GetChildren
          lhs_out ∧
        List.Forall₂ (OddIffLowest k) (e.child 0).GetChildren lhs_out) ∧
      (evenSystem ≠ [] → ∃ e ∈ evenSystem, ∃ lhs_out,
        reducedLhs idSimplifier ASTNodeMap.empty k e = some lhs_out ∧
        ∃ m2 ∈ lhs_out, BVConstIsOdd (coeffOf m2) = true) :=
  ⟨by decide, by decide,
    C26_reduction_exposes_odd idSimplifier ASTNodeMap.empty evenSystem
      (by decide) (by decide) (by decide) (by decide)⟩

/-! ## Claims on the selector: eligibility in the words of the specification -/

/-- What the second loop accepts and the spec does not call eligible is the
extract form whose variable does not occur exactly once in the lhs. -/
theorem tier2Accepted_not_eligible (st : BVSolver) (lhs rhs m : ASTNode)
    (ha : tier2Accepted st lhs rhs m = true) (he : tier2Eligible st lhs rhs m = false) :
    (m.child 1).GetKind = BVEXTRACT ∧
      CountOfSymbols.single lhs ((m.child 1).child 0) = false := by
  simp only [tier2Accepted, Bool.and_eq_true, Bool.or_eq_true, decide_eq_true_eq,
    Bool.not_eq_true'] at ha
  obtain ⟨⟨⟨⟨⟨h1, h2⟩, h3⟩, h4⟩, h5⟩, h6⟩ := ha
  rcases h5 with ⟨h7, h8⟩ | ⟨⟨⟨⟨⟨h7, h8⟩, h9⟩, h10⟩, h11⟩, h12⟩
  · exfalso
    have : tier2Eligible st lhs rhs m = true := by
      unfold tier2Eligible
      simp only [decide_eq_true h1, decide_eq_true h2, h3, decide_eq_true h7, h4, h8, h6,
        Bool.not_false, Bool.and_self, Bool.true_or, Bool.true_and]
    rw [this] at he; cases he
  · refine ⟨h7.symm, ?_⟩
    cases hs : CountOfSymbols.single lhs ((m.child 1).child 0) with
    | false => rfl
    | true =>
      exfalso
      have : tier2Eligible st lhs rhs m = true := by
        unfold tier2Eligible
        simp only [decide_eq_true h1, decide_eq_true h2, h3, decide_eq_true h7,
          decide_eq_true h8, decide_eq_true h9, decide_eq_true h10, h11, hs, h12,
          Bool.not_false, Bool.and_self, Bool.or_true, Bool.true_and]
      rw [this] at he; cases he

/-- Claim C17 evaluated where the code departs from it.  On
`3*x[3:0] + x[7:4] = 1` in a new solver no addend is eligible under tier 1 or
under tier 2, as `x` occurs twice in the lhs, and `ChooseMonom` returns the
monomial `3*x[3:0]`, not `ASTUndefined`.  On `3*x[3:0] + x[7:4] + 5*z = 1` no
addend is eligible under tier 1, the leftmost addend eligible under tier 2 is
`5*z`, and `ChooseMonom` returns `3*x[3:0]`. -/
theorem C17_selector_returns_ineligible :
    (∀ m ∈ (extractTwice.child 0).GetChildren,
      tier1Eligible BVSolver.init (extractTwice.child 0) (extractTwice.child 1) m = false ∧
      tier2Eligible BVSolver.init (extractTwice.child 0) (extractTwice.child 1) m = false) ∧
    (ChooseMonom BVSolver.init extractTwice).map (fun r => r.1)
      = some (CreateTerm BVMULT 4 [CreateBVConst 4 3, lowBits 4 varX]) ∧
    CreateTerm BVMULT 4 [CreateBVConst 4 3, lowBits 4 varX] ≠ ASTUndefined ∧
    (∀ m ∈ (extractThenOdd.child 0).GetChildren,
      tier1Eligible BVSolver.init (extractThenOdd.child 0) (extractThenOdd.child 1) m
        = false) ∧
    ((extractThenOdd.child 0).GetChildren.filter
        (tier2Eligible BVSolver.init (extractThenOdd.child 0) (extractThenOdd.child 1)))
      = [CreateTerm BVMULT 4 [CreateBVConst 4 5, varZ4]] ∧
    (ChooseMonom BVSolver.init extractThenOdd).map (fun r => r.1)
      = some (CreateTerm BVMULT 4 [CreateBVConst 4 3, lowBits 4 varX]) := by
  decide

/-! ## Claims on the occurs check: the path that skips it -/

/-- On an even constant that is not zero the assertions of
`SplitEven_into_Oddnum_PowerOf2` hold and the block `#ifndef NDEBUG` passes:
the function compiled with the assertions returns what the loop computes. -/
theorem SplitEven_checked_agrees (c : ASTNode) (hk : c.GetKind = BVCONST)
    (he : BVConstIsOdd c = false) (h0 : c.GetBVConst ≠ 0)
    (hv : c.GetBVConst < 2 ^ c.GetValueWidth) :
    ∀ fuel, SplitEven_into_Oddnum_PowerOf2 c < fuel →
      SplitEven_into_Oddnum_PowerOf2_checked fuel c
        = some (SplitEven_into_Oddnum_PowerOf2 c) := by
  intro fuel hfuel
  obtain ⟨hlt, _, _⟩ := SplitEven_lowest c hv h0
  have hpos := SplitEven_pos c (by omega) he
  unfold SplitEven_into_Oddnum_PowerOf2_checked
  simp only [hk, he, decide_True, Bool.not_false, Bool.and_self, Bool.not_true,
    Bool.false_eq_true, if_false, gt_iff_lt, hpos, SplitEven_OLD_agrees c hk he h0 hv fuel hfuel,
    Option.some_bind, if_true]

/-- On the zero constant of a width of two bits or more the function compiled
with the assertions has no result, whatever the number of iterations: the old
routine does not leave its loop. -/
theorem SplitEven_checked_zero (len : Nat) (hlen : 2 ≤ len) (fuel : Nat) :
    SplitEven_into_Oddnum_PowerOf2_checked fuel (CreateZeroConst len) = none := by
  unfold SplitEven_into_Oddnum_PowerOf2_checked
  have hold : SplitEven_into_Oddnum_PowerOf2_OLD fuel (CreateZeroConst len) 0 = none := by
    unfold SplitEven_into_Oddnum_PowerOf2_OLD
    have hk : (BVCONST ≠ (CreateZeroConst len).GetKind || BVConstIsOdd (CreateZeroConst len))
        = false := by
      simp [CreateZeroConst, CreateBVConst, ASTNode.GetKind, BVConstIsOdd, ASTNode.GetBVConst]
    have hw : (CreateZeroConst len).GetValueWidth = len := rfl
    have hv : (CreateZeroConst len).GetBVConst = 0 := by
      simp [CreateZeroConst, CreateBVConst, ASTNode.GetBVConst]
    simp only [hk, Bool.false_eq_true, if_false, hw, eval_mod_by_two len hlen, Option.some_bind,
      hv, Nat.zero_mod]
    exact SplitEven_OLD_loop_zero len hlen fuel 0
  simp only [hold, Option.none_bind]
  split_ifs <;> rfl

theorem BVSolve_Even_monom_value (S : Simplifier) (sm : ASTNodeMap)
    (len k : Nat) (h2 : k < len) (h3 : len < 2 ^ 32)
    (m : ASTNode) (hty : monomTyped len m = true) (m2 : ASTNode)
    (h : BVSolve_Even_monom S sm len (len - k) (ASTNode.mk BVCONST len (2 ^ k) [])
        (ASTNode.mk BVCONST 32 (len - k - 1) []) (CreateZeroConst 32) m = some m2)
    (env : Assignment) (hS : SimplifierSound S sm env) :
    eval env m2 = reducedAddend env len k m % 2 ^ (len - k) := by
  have hlk : len - k - 1 + 1 = len - k := by omega
  have h32 : len - k - 1 < 2 ^ 32 := by omega
  unfold BVSolve_Even_monom at h
  unfold monomTyped at hty
  unfold reducedAddend
  by_cases hc : BVCONST = m.GetKind
  · rw [if_pos hc] at h
    rw [if_pos hc]
    simp only [hc.symm, if_true, Bool.and_eq_true, decide_eq_true_eq] at hty
    rw [reduce_coefficient len k m h2 h3 hty.2] at h
    cases h
    rw [eval_const]
  · rw [if_neg hc] at h
    rw [if_neg hc]
    have hc2 : ¬ m.GetKind = BVCONST := fun h => hc h.symm
    simp only [hc2, if_false, Bool.and_eq_true, decide_eq_true_eq] at hty
    obtain ⟨_, ⟨⟨_, _⟩, hv0⟩, _⟩ := hty
    have hred := reduce_coefficient len k (m.child 0) h2 h3 hv0
    rw [Option.bind_eq_some] at hred
    obtain ⟨q1, hq1, hq2⟩ := hred
    rw [hq1, Option.some_bind, hq2, Option.some_bind] at h
    cases h
    rw [eval_mult_term, eval_const, hS.1, eval_extract_term]
    have e0 : eval env (CreateZeroConst 32) = 0 := by simp [CreateZeroConst, eval_const]
    have e1 : eval env (ASTNode.mk BVCONST 32 (len - k - 1) []) = len - k - 1 := by
      simp only [eval, evalNode]
      exact Nat.mod_eq_of_lt h32
    rw [e0, e1]
    simp only [pow_zero, Nat.div_one, Nat.sub_zero, hlk, Nat.mod_mod]
    exact Nat.ModEq.mul_right _ (Nat.mod_modEq _ _)

theorem BVSolve_Even_monoms_value (S : Simplifier) (sm : ASTNodeMap)
    (len k : Nat) (h2 : k < len) (h3 : len < 2 ^ 32) (env : Assignment)
    (hS : SimplifierSound S sm env) :
    ∀ (ms ms2 : ASTVec), (∀ m ∈ ms, evenMonom m = true ∧ monomTyped len m = true) →
      BVSolve_Even_monoms S sm len (len - k) (ASTNode.mk BVCONST len (2 ^ k) [])
        (ASTNode.mk BVCONST 32 (len - k - 1) []) (CreateZeroConst 32) ms = some ms2 →
      (evalAll env ms2).sum % 2 ^ (len - k)
        = (ms.map (reducedAddend env len k)).sum % 2 ^ (len - k)
  | [], ms2, _, h => by
    simp only [BVSolve_Even_monoms, Option.some.injEq] at h
    subst h
    rfl
  | m :: rest, ms2, hms, h => by
    rw [BVSolve_Even_monoms, Option.bind_eq_some] at h
    obtain ⟨m2, hm2, h⟩ := h
    rw [Option.bind_eq_some] at h
    obtain ⟨r2, hr2, h⟩ := h
    simp only [Option.some.injEq] at h
    subst h
    have a1 := BVSolve_Even_monom_value S sm len k h2 h3 m (hms m (by simp)).2 m2 hm2 env hS
    have a2 := BVSolve_Even_monoms_value S sm len k h2 h3 env hS rest r2
      (fun x hx => hms x (by simp [hx])) hr2
    simp only [evalAll, List.sum_cons, List.map_cons]
    rw [Nat.add_mod, a1, a2, Nat.mod_mod, ← Nat.add_mod]

theorem reducedLhs_eq (S : Simplifier) (sm : ASTNodeMap) (k : Nat) (e : ASTNode)
    (hk0 : 0 < k) (hk : k < (e.child 0).GetValueWidth)
    (h32 : (e.child 0).GetValueWidth < 2 ^ 32) :
    reducedLhs S sm k e
      = BVSolve_Even_monoms S sm (e.child 0).GetValueWidth ((e.child 0).GetValueWidth - k)
          (ASTNode.mk BVCONST (e.child 0).GetValueWidth (2 ^ k) [])
          (ASTNode.mk BVCONST 32 ((e.child 0).GetValueWidth - k - 1) []) (CreateZeroConst 32)
          (e.child 0).GetChildren := by
  have hu1 : usub (e.child 0).GetValueWidth k = (e.child 0).GetValueWidth - k :=
    usub_eq _ _ (Nat.le_of_lt hk) h32
  have hu2 : usub ((e.child 0).GetValueWidth - k) 1 = (e.child 0).GetValueWidth - k - 1 :=
    usub_eq _ _ (by omega) (Nat.lt_of_le_of_lt (Nat.sub_le _ _) h32)
  have hlo : CreateBVConst 32 ((e.child 0).GetValueWidth - k - 1)
      = ASTNode.mk BVCONST 32 ((e.child 0).GetValueWidth - k - 1) [] := by
    have hb : (e.child 0).GetValueWidth - k - 1 < 2 ^ 32 :=
      Nat.lt_of_le_of_lt (Nat.le_trans (Nat.sub_le _ _) (Nat.sub_le _ _)) h32
    exact congrArg (fun v => ASTNode.mk BVCONST 32 v []) (Nat.mod_eq_of_lt hb)
  unfold reducedLhs
  rw [BVSolve_Even_two_pow _ k hk0 hk h32, Option.some_bind, hu1, hu2, hlo]

/-- One equation of an accepted, typed even system and the exponent of the
system: the second pass builds the reduced equation of the spec from it, and
the two hold under the same assignments. -/
theorem reduced_equation_built (S : Simplifier) (sm : ASTNodeMap) (k : Nat) (e : ASTNode)
    (hk0 : 0 < k) (hk : k < (e.child 0).GetValueWidth)
    (hty : evenEquationTyped e = true) (hacc : evenEquationAccepted e = true)
    (hdvd : ∀ m ∈ (e.child 0).GetChildren, 2 ^ k ∣ (coeffOf m).GetBVConst) :
    ∃ f, BVSolve_Even_equation S sm k e = some f ∧ ReducedEquation S sm k e f ∧
      ∀ env, SimplifierSound S sm env →
        holds env f = holds env e ∧
        (holds env e = true ↔ reducedEquationHolds env k e = true) := by
  have hty0 := hty
  simp only [evenEquationTyped, Bool.and_eq_true, decide_eq_true_eq, List.all_eq_true] at hty0
  obtain ⟨⟨_, h32⟩, htm⟩ := hty0
  simp only [evenEquationAccepted, Bool.and_eq_true, decide_eq_true_eq,
    List.all_eq_true] at hacc
  obtain ⟨⟨hplus, hzero⟩, hev⟩ := hacc
  have hu1 : usub (e.child 0).GetValueWidth k = (e.child 0).GetValueWidth - k :=
    usub_eq _ _ (Nat.le_of_lt hk) h32
  have hform := reducedLhs_eq S sm k e hk0 hk h32
  obtain ⟨lhs_out, e2, p2⟩ := BVSolve_Even_monoms_form S sm (e.child 0).GetValueWidth k hk h32
    (e.child 0).GetChildren (fun m hm => ⟨hev m hm, htm m hm⟩)
  have hlhs : reducedLhs S sm k e = some lhs_out := by rw [hform]; exact e2
  have hbuilt := BVSolve_Even_equation_of_lhs S sm k e lhs_out hlhs
  obtain ⟨f, hf, hsem⟩ := BVSolve_Even_equation_spec S sm k e hk0 hk hty hplus.symm hzero.symm
    (fun m hm => ⟨hev m hm, hdvd m hm⟩)
  have hfeq : f = S.CreateSimplifiedEQ sm
      (CreateTerm BVPLUS (usub (e.child 0).GetValueWidth k) lhs_out)
      (CreateZeroConst (usub (e.child 0).GetValueWidth k)) := by
    rw [hbuilt] at hf
    exact (Option.some.inj hf).symm
  have hval : ∀ env, SimplifierSound S sm env →
      eval env (CreateTerm BVPLUS (usub (e.child 0).GetValueWidth k) lhs_out)
        = reducedSum env k e := by
    intro env hS
    rw [hu1, eval_plus_term]
    exact BVSolve_Even_monoms_value S sm _ k hk h32 env hS _ lhs_out
      (fun m hm => ⟨hev m hm, htm m hm⟩) e2
  have hholds : ∀ env, SimplifierSound S sm env →
      (holds env f = true ↔ reducedEquationHolds env k e = true) := by
    intro env hS
    rw [hfeq, hS.2.2.2, hval env hS]
    simp [reducedEquationHolds, CreateZeroConst, eval_const]
  refine ⟨f, hf, ⟨lhs_out, hlhs, hfeq, by rw [hu1]; rfl, ?_, fun env hS =>
    ⟨hval env hS, hholds env hS⟩⟩, fun env hS => ⟨hsem env hS, ?_⟩⟩
  · refine forall₂_imp_mem _ _ p2 (fun a ha b hab => ?_)
    have hta := htm a ha
    obtain ⟨_, hv, _⟩ := coeffOf_typed _ a (hev a ha) hta
    refine ⟨hab.1, ?_, ?_, ?_⟩
    · rw [hab.2]; rfl
    · rw [hab.2]; rfl
    · rw [hab.2, Nat.shiftRight_eq_div_pow]
      show (coeffOf a).GetBVConst / 2 ^ k % 2 ^ ((e.child 0).GetValueWidth - k) = _
      refine Nat.mod_eq_of_lt ?_
      rw [Nat.div_lt_iff_lt_mul (Nat.two_pow_pos k), ← pow_add,
        Nat.sub_add_cancel (Nat.le_of_lt hk)]
      exact hv
  · rw [← hsem env hS]
    exact hholds env hS

theorem BVSolve_Even_reduce_form (S : Simplifier) (sm : ASTNodeMap) (k : Nat)
    (P : ASTNode → ASTNode → Prop) :
    ∀ eqs : ASTVec,
      (∀ e ∈ eqs, evenEquationAccepted e = true ∧
        ∃ f, BVSolve_Even_equation S sm k e = some f ∧ P e f) →
      ∃ fs, BVSolve_Even_reduce S sm k eqs = some (some fs) ∧ List.Forall₂ P eqs fs
  | [], _ => ⟨[], rfl, List.Forall₂.nil⟩
  | e :: rest, h => by
    obtain ⟨hacc, f, ef, pf⟩ := h e (by simp)
    obtain ⟨fs, efs, pfs⟩ := BVSolve_Even_reduce_form S sm k P rest
      (fun x hx => h x (by simp [hx]))
    simp only [evenEquationAccepted, Bool.and_eq_true, decide_eq_true_eq] at hacc
    obtain ⟨⟨hplus, hzero⟩, _⟩ := hacc
    refine ⟨f :: fs, ?_, List.Forall₂.cons pf pfs⟩
    have hs : (!(decide (BVPLUS = (e.child 0).GetKind)
        && decide (CreateZeroConst (e.child 1).GetValueWidth = e.child 1))) = false := by
      simp only [decide_eq_true hplus, decide_eq_true hzero, Bool.and_self, Bool.not_true]
    simp only [BVSolve_Even_reduce, hs, Bool.false_eq_true, if_false, ef, efs,
      Option.some_bind, Option.map_some']

theorem holdsAll_of_forall₂ (env : Assignment) (eqs fs : ASTVec)
    (h : List.Forall₂ (fun e f => holds env f = holds env e) eqs fs) :
    holdsAll env fs = holdsAll env eqs := by
  induction h with
  | nil => rfl
  | cons hab _ ih => simp only [holdsAll, hab, ih]

theorem forall₂_imp {R Q : ASTNode → ASTNode → Prop} (l1 l2 : ASTVec)
    (h : List.Forall₂ R l1 l2) (himp : ∀ a b, R a b → Q a b) : List.Forall₂ Q l1 l2 :=
  forall₂_imp_mem l1 l2 h (fun a _ b hab => himp a b hab)

/-- Claim C6, even-system correctness.  Let the input be an equality or a
conjunction of equalities, not memoized, of the shape `BVSolve_Even` accepts
(every lhs a sum of even constants and of even constants times variables, every
rhs zero), typed, every lhs with an addend at least and no coefficient or bare
constant zero.  Then the first pass selects an exponent `k`, at most the
position of the lowest set bit of every coefficient and bare constant and
equal to one of them, every call of `SplitEven_into_Oddnum_PowerOf2` passing
its assertions, and `BVSolve_Even` returns the conjunction of the
equations the second pass builds, one for each conjunct `e` of width `w`:
`CreateSimplifiedEQ` of the sum of the monomials with their coefficients
shifted right by `k` bits and of zero, at width `w - k`.  Under every
assignment for which the simplifier keeps meanings, that sum has the value
`sum_i (a_i / 2^k) * (x_i mod 2^(w-k)) + c / 2^k` modulo `2^(w-k)`, `e` holds
modulo `2^w` exactly when this reduced equation holds modulo `2^(w-k)`, and
the formula returned holds exactly when the input does; hence, with a
simplifier that keeps meanings, the reduced system is satisfiable iff the
input is. -/
theorem C6_even_system_correctness (S : Simplifier) (st : BVSolver) (input : ASTNode)
    (hkind : input.GetKind = EQ ∨ input.GetKind = AND)
    (hmemo : CheckAlreadySolvedMap st input = none)
    (hacc : ∀ e ∈ (if EQ = input.GetKind then [input] else input.GetChildren),
      evenEquationAccepted e = true)
    (htyped : ∀ e ∈ (if EQ = input.GetKind then [input] else input.GetChildren),
      evenEquationTyped e = true)
    (hnz : ∀ e ∈ (if EQ = input.GetKind then [input] else input.GetChildren),
      coefficientsNonZero e = true)
    (hne : ∀ e ∈ (if EQ = input.GetKind then [input] else input.GetChildren),
      (e.child 0).GetChildren ≠ []) :
    ∃ k fs,
      BVSolve_Even_lowest (if EQ = input.GetKind then [input] else input.GetChildren)
        (2 ^ 32 - 1) = some k ∧
      (∀ e ∈ (if EQ = input.GetKind then [input] else input.GetChildren),
        ∀ m ∈ (e.child 0).GetChildren, k ≤ SplitEven_into_Oddnum_PowerOf2 (coeffOf m)) ∧
      ((if EQ = input.GetKind then [input] else input.GetChildren) ≠ [] →
        ∃ e ∈ (if EQ = input.GetKind then [input] else input.GetChildren),
          ∃ m ∈ (e.child 0).GetChildren, SplitEven_into_Oddnum_PowerOf2 (coeffOf m) = k) ∧
      (∀ e ∈ (if EQ = input.GetKind then [input] else input.GetChildren),
        ∀ m ∈ (e.child 0).GetChildren, ∀ fuel, (e.child 0).GetValueWidth ≤ fuel →
          SplitEven_into_Oddnum_PowerOf2_checked fuel (coeffOf m)
            = some (SplitEven_into_Oddnum_PowerOf2 (coeffOf m))) ∧
      BVSolve_Even S st input
        = some (conjunctionOf fs, UpdateAlreadySolvedMap st input (conjunctionOf fs)) ∧
      List.Forall₂ (ReducedEquation S st.SolverMap k)
        (if EQ = input.GetKind then [input] else input.GetChildren) fs ∧
      (∀ env, SimplifierSound S st.SolverMap env →
        (∀ e ∈ (if EQ = input.GetKind then [input] else input.GetChildren),
          (holds env e = true ↔ reducedEquationHolds env k e = true)) ∧
        holds env (conjunctionOf fs) = holds env input) ∧
      ((∀ env, SimplifierSound S st.SolverMap env) →
        ((∃ env, holds env (conjunctionOf fs) = true) ↔ (∃ env, holds env input = true))) := by
  obtain ⟨k, hlow, hk0, hwid, hmon, hatt⟩ := even_system_exponent _ hacc htyped hnz hne
  have hper : ∀ e ∈ (if EQ = input.GetKind then [input] else input.GetChildren),
      evenEquationAccepted e = true ∧
      ∃ f, BVSolve_Even_equation S st.SolverMap k e = some f ∧
        (ReducedEquation S st.SolverMap k e f ∧
          ∀ env, SimplifierSound S st.SolverMap env →
            holds env f = holds env e ∧
            (holds env e = true ↔ reducedEquationHolds env k e = true)) := by
    intro e he
    refine ⟨hacc e he, ?_⟩
    obtain ⟨f, h1, h2, h3⟩ := reduced_equation_built S st.SolverMap k e hk0 (hwid e he).1
      (htyped e he) (hacc e he) (fun m hm => by
        obtain ⟨_, _, _, hw, hv, _, _, _, hle⟩ := hmon e he m hm
        exact Nat.dvd_trans (Nat.pow_dvd_pow 2 hle) (SplitEven_dvd _ (by rw [hw]; exact hv)))
    exact ⟨f, h1, h2, h3⟩
  obtain ⟨fs, efs, pfs⟩ := BVSolve_Even_reduce_form S st.SolverMap k _ _ hper
  have hrun : BVSolve_Even S st input = some ((conjunctionOf fs),
      UpdateAlreadySolvedMap st input (conjunctionOf fs)) := by
    unfold BVSolve_Even
    have : (!(decide (EQ = input.GetKind) || decide (AND = input.GetKind))) = false := by
      rcases hkind with h | h <;> simp [h]
    simp only [this, Bool.false_eq_true, if_false, hmemo, hlow, efs]
  have hsem : ∀ env, SimplifierSound S st.SolverMap env →
      holds env (conjunctionOf fs) = holds env input := by
    intro env hS
    rw [holds_conj, holdsAll_of_forall₂ env _ fs
      (forall₂_imp _ _ pfs (fun a b hab => (hab.2 env hS).1))]
    rcases hkind with h | h
    · simp [h, holdsAll]
    · simp [h, holds_of_and env input h]
  have hchk : ∀ e ∈ (if EQ = input.GetKind then [input] else input.GetChildren),
      ∀ m ∈ (e.child 0).GetChildren, ∀ fuel, (e.child 0).GetValueWidth ≤ fuel →
        SplitEven_into_Oddnum_PowerOf2_checked fuel (coeffOf m)
          = some (SplitEven_into_Oddnum_PowerOf2 (coeffOf m)) := by
    intro e he m hm fuel hfuel
    obtain ⟨hev, _, h0, hw, hv, hodd, _, hlt, _⟩ := hmon e he m hm
    exact SplitEven_checked_agrees (coeffOf m) (coeffOf_kind m hev) hodd h0
      (by rw [hw]; exact hv) fuel (Nat.lt_of_lt_of_le hlt hfuel)
  refine ⟨k, fs, hlow, fun e he m hm => (hmon e he m hm).2.2.2.2.2.2.2.2, hatt, hchk, hrun,
    forall₂_imp _ _ pfs (fun a b hab => hab.1), fun env hS =>
      ⟨fun e he => ?_, hsem env hS⟩, fun hall => ?_⟩
  · obtain ⟨_, f, h1, h2, h3⟩ := hper e he
    exact (h3 env hS).2
  · constructor
    · rintro ⟨env, he⟩
      exact ⟨env, by rw [← hsem env (hall env)]; exact he⟩
    · rintro ⟨env, he⟩
      exact ⟨env, by rw [hsem env (hall env)]; exact he⟩

/-- The hypotheses of claim C6 hold for the conjunction of `2*x + 4*y = 0` and
`4*z + 12*u = 0` at 8 bits in a new solver, with the simplifier that rewrites
nothing, which keeps meanings: the exponent is 1 and the first equation is
reduced to `1*x[6:0] + 2*y[6:0] = 0` at 7 bits. -/
theorem C6_even_system_correctness_witness :
    BVSolve_Even_lowest evenSystem (2 ^ 32 - 1) = some 1 ∧
    BVSolve_Even_equation idSimplifier BVSolver.init.SolverMap 1 evenEquation
      = some reducedEquation ∧
    (∀ env, SimplifierSound idSimplifier BVSolver.init.SolverMap env) ∧
    ∃ k fs,
      BVSolve_Even_lowest
        (if EQ = evenConjunction.GetKind then [evenConjunction]
          else evenConjunction.GetChildren) (2 ^ 32 - 1) = some k ∧
      (∀ e ∈ (if EQ = evenConjunction.GetKind then [evenConjunction]
          else evenConjunction.GetChildren),
        ∀ m ∈ (e.child 0).GetChildren, k ≤ SplitEven_into_Oddnum_PowerOf2 (coeffOf m)) ∧
      ((if EQ = evenConjunction.GetKind then [evenConjunction]
          else evenConjunction.GetChildren) ≠ [] →
        ∃ e ∈ (if EQ = evenConjunction.GetKind then [evenConjunction]
            else evenConjunction.GetChildren),
          ∃ m ∈ (e.child 0).GetChildren, SplitEven_into_Oddnum_PowerOf2 (coeffOf m) = k) ∧
      (∀ e ∈ (if EQ = evenConjunction.GetKind then [evenConjunction]
          else evenConjunction.GetChildren),
        ∀ m ∈ (e.child 0).GetChildren, ∀ fuel, (e.child 0).GetValueWidth ≤ fuel →
          SplitEven_into_Oddnum_PowerOf2_checked fuel (coeffOf m)
            = some (SplitEven_into_Oddnum_PowerOf2 (coeffOf m))) ∧
      BVSolve_Even idSimplifier BVSolver.init evenConjunction
        = some (conjunctionOf fs,
            UpdateAlreadySolvedMap BVSolver.init evenConjunction (conjunctionOf fs)) ∧
      List.Forall₂ (ReducedEquation idSimplifier BVSolver.init.SolverMap k)
        (if EQ = evenConjunction.GetKind then [evenConjunction]
          else evenConjunction.GetChildren) fs ∧
      (∀ env, SimplifierSound idSimplifier BVSolver.init.SolverMap env →
        (∀ e ∈ (if EQ = evenConjunction.GetKind then [evenConjunction]
            else evenConjunction.GetChildren),
          (holds env e = true ↔ reducedEquationHolds env k e = true)) ∧
        holds env (conjunctionOf fs) = holds env evenConjunction) ∧
      ((∀ env, SimplifierSound idSimplifier BVSolver.init.SolverMap env) →
        ((∃ env, holds env (conjunctionOf fs) = true)
          ↔ (∃ env, holds env evenConjunction = true))) :=
  ⟨by decide, by decide, idSimplifier_sound _,
    C6_even_system_correctness idSimplifier BVSolver.init evenConjunction
      (Or.inr (by decide)) (by decide) (by decide) (by decide) (by decide) (by decide)⟩

/-! ## Claims on the driver: the second run on an output -/

theorem BVSolve_Odd_memo_frame (S : Simplifier) (st : BVSolver) (input : ASTNode)
    (r : ASTNode × BVSolver) (h : BVSolve_Odd S st input = some r) (key : ASTNode)
    (hkey : key.GetKind ≠ EQ) :
    r.2.FormulasAlreadySolvedMap key = st.FormulasAlreadySolvedMap key := by
  by_cases hk : input.GetKind = EQ
  · cases hmemo : CheckAlreadySolvedMap st (BVSolve_Odd_eq input) with
    | some out =>
      unfold BVSolve_Odd at h
      rw [if_neg (by simp [hk])] at h
      simp only [hmemo, Option.some.injEq] at h
      rw [← h]
    | none =>
      rcases BVSolve_Odd_memo_outcome S st input r hk hmemo h with ⟨_, h2⟩ | h2
      · rw [h2]
      · rw [h2]
        have hne : key ≠ input := fun he => hkey (by rw [he]; exact hk)
        simp [ASTNodeMap.set, hne]
  · rw [BVSolve_Odd_not_eq S st input hk] at h
    simp only [Option.some.injEq] at h
    rw [← h]

theorem TopLevelBVSolve_loop_memo (S : Simplifier) (key : ASTNode) (hkey : key.GetKind ≠ EQ) :
    ∀ (c : ASTVec) (r r2 : DriverLoop), TopLevelBVSolve_loop S c r = some r2 →
      r2.st.FormulasAlreadySolvedMap key = r.st.FormulasAlreadySolvedMap key
  | [], r, r2, h => by
    simp only [TopLevelBVSolve_loop, Option.some.injEq] at h
    subst h
    rfl
  | a :: rest, r, r2, h => by
    cases hb : BVSolve_Odd S r.st (if r.any_solved && EQ = a.GetKind
      then S.SimplifyFormula r.st.SolverMap a else a) with
    | none =>
      rw [TopLevelBVSolve_loop] at h
      simp only [hb] at h
      cases h
    | some p =>
      obtain ⟨aaa1, st1⟩ := p
      rw [TopLevelBVSolve_loop_cons S a rest r aaa1 st1 hb] at h
      have h1 := TopLevelBVSolve_loop_memo S key hkey rest _ r2 h
      rw [h1]
      exact BVSolve_Odd_memo_frame S r.st _ (aaa1, st1) hb key hkey

theorem BVSolve_Even_memo_frame (S : Simplifier) (st : BVSolver) (input : ASTNode)
    (r : ASTNode × BVSolver) (h : BVSolve_Even S st input = some r) :
    r.2.FormulasAlreadySolvedMap = st.FormulasAlreadySolvedMap ∨
      r.2.FormulasAlreadySolvedMap = st.FormulasAlreadySolvedMap.set input r.1 := by
  unfold BVSolve_Even at h
  by_cases h1 : (!(decide (EQ = input.GetKind) || decide (AND = input.GetKind))) = true
  · rw [if_pos h1] at h
    cases h
    exact Or.inl rfl
  · rw [if_neg h1] at h
    cases hc : CheckAlreadySolvedMap st input with
    | some out =>
      rw [hc] at h
      cases h
      exact Or.inl rfl
    | none =>
      rw [hc] at h
      simp only at h
      cases hl : BVSolve_Even_lowest (if EQ = input.GetKind then [input] else input.GetChildren)
          (2 ^ 32 - 1) with
      | none =>
        rw [hl] at h
        cases h
        exact Or.inl rfl
      | some k =>
        rw [hl] at h
        simp only at h
        cases hr : BVSolve_Even_reduce S st.SolverMap k
            (if EQ = input.GetKind then [input] else input.GetChildren) with
        | none => rw [hr] at h; cases h
        | some fo =>
          rw [hr] at h
          cases fo with
          | none => cases h; exact Or.inl rfl
          | some fs => cases h; exact Or.inr rfl

theorem conjunctionOf_ne_output (e : ASTNode) (es : ASTVec) (O : ASTNode)
    (hev : ∀ x ∈ e :: es, x.GetKind = EQ) :
    CreateNode AND [O, ASTTrue] ≠ conjunctionOf (e :: es) := by
  intro hc
  cases es with
  | nil =>
    have := hev e (by simp)
    simp only [conjunctionOf] at hc
    rw [← hc] at this
    cases this
  | cons e2 es2 =>
    simp only [conjunctionOf, CreateNode, ASTNode.mk.injEq, List.cons.injEq, true_and] at hc
    have := hev e2 (by simp)
    rw [← hc.2.1] at this
    cases this

/-- The memo after `TopLevelBVSolve` at an output `AND(O, true)`: the entry the
call made for its input, or what the memo held before the call. -/
theorem TopLevelBVSolve_memo_output (S : Simplifier) (st : BVSolver) (F O : ASTNode)
    (r : ASTNode × BVSolver) (hF : TopLevelBVSolve S st F = some r)
    (hout : r.1 = CreateNode AND [O, ASTTrue]) :
    ∀ v, CheckAlreadySolvedMap r.2 r.1 = some v →
      v = r.1 ∨ CheckAlreadySolvedMap st r.1 = some v := by
  intro v hv
  have hkey : r.1.GetKind ≠ EQ := by
    intro hk
    rw [hout] at hk
    simp [CreateNode, ASTNode.GetKind] at hk
  unfold TopLevelBVSolve at hF
  by_cases h1 : (!(decide (EQ = F.GetKind) || decide (AND = F.GetKind))) = true
  · simp only [h1, if_true] at hF
    cases hF
    exact Or.inr hv
  · simp only [h1, if_false] at hF
    cases hc : CheckAlreadySolvedMap st F with
    | some output =>
      rw [hc] at hF
      cases hF
      exact Or.inr hv
    | none =>
      rw [hc] at hF
      simp only [sort_extracts_last, Bool.false_eq_true, if_false] at hF
      cases hl : TopLevelBVSolve_loop S (if EQ = F.GetKind then [F] else F.GetChildren)
          { st := st, o := [], eveneqns := [], any_solved := false } with
      | none => rw [hl] at hF; cases hF
      | some rl =>
        rw [hl] at hF
        simp only at hF
        have hm1 := TopLevelBVSolve_loop_memo S r.1 hkey _ _ rl hl
        have hev := (TopLevelBVSolve_loop_keeps S _ _ rl hl).2 (by simp)
        have hstep : ∀ (evens : ASTNode) (st2 : BVSolver),
            (match rl.eveneqns with
              | [] => some (ASTTrue, rl.st)
              | e :: es => BVSolve_Even S rl.st (conjunctionOf (e :: es))) = some (evens, st2) →
            st2.FormulasAlreadySolvedMap r.1 = rl.st.FormulasAlreadySolvedMap r.1 := by
          intro evens st2 hsolved
          split at hsolved
          · cases hsolved; rfl
          · rename_i e es hes
            rcases BVSolve_Even_memo_frame S rl.st _ (evens, st2) hsolved with h2 | h2
            · exact congrFun h2 _
            · have h2 := congrFun h2 r.1
              rw [h2]
              have hne : r.1 ≠ conjunctionOf (e :: es) := by
                rw [hout]
                exact conjunctionOf_ne_output e es O (by rw [← hes]; exact hev)
              simp [ASTNodeMap.set, hne]
        split at hF
        · cases hF
        · rename_i evens st2 hsolved
          simp only [Option.some.injEq] at hF
          have hr2 : r.2 = UpdateAlreadySolvedMap st2 F r.1 := by rw [← hF]
          have hst2 := hstep evens st2 hsolved
          by_cases hFk : r.1 = F
          · left
            rw [hr2] at hv
            simp only [CheckAlreadySolvedMap, UpdateAlreadySolvedMap, ASTNodeMap.set, hFk,
              if_true, Option.some.injEq] at hv
            rw [← hv, hFk]
          · right
            rw [hr2] at hv
            simp only [CheckAlreadySolvedMap, UpdateAlreadySolvedMap, ASTNodeMap.set, hFk,
              if_false] at hv
            unfold CheckAlreadySolvedMap
            rw [← hm1, ← hst2]
            exact hv

/-- Claim C5 as stated fails, in three ways.  On its own example
`TopLevelBVSolve` turns `2*x + 4*y = 0` into
`AND(true, 1*x[6:0] + 2*y[6:0] = 0)`; run on that output, in the same solver,
it solves the reduced equation for `x` and returns `AND(true, true)`.  On
`x = x + 1` it returns `AND(x = x + 1, true)` and stores that output under the
input in the memo; run on the output, `BVSolve_Odd` finds that entry for the
conjunct `x = x + 1`, and the driver returns
`AND(AND(x = x + 1, true), true)`.  In a solver whose memo maps
`AND(true, true)` to false, it returns `AND(true, true)` on `x + y = 5`, and
false on that output. -/
theorem C5_counterexample :
    ((TopLevelBVSolve idSimplifier BVSolver.init evenEquation).map Prod.fst
        = some (CreateNode AND [ASTTrue, reducedEquation]) ∧
      solveTwice idSimplifier BVSolver.init evenEquation
        = some (CreateNode AND [ASTTrue, ASTTrue]) ∧
      CreateNode AND [ASTTrue, ASTTrue] ≠ CreateNode AND [ASTTrue, reducedEquation]) ∧
    ((TopLevelBVSolve idSimplifier BVSolver.init eqXisXplus1).map Prod.fst
        = some (CreateNode AND [eqXisXplus1, ASTTrue]) ∧
      CheckAlreadySolvedMap (driverRun idSimplifier BVSolver.init eqXisXplus1).2 eqXisXplus1
        = some (CreateNode AND [eqXisXplus1, ASTTrue]) ∧
      solveTwice idSimplifier BVSolver.init eqXisXplus1
        = some (CreateNode AND [CreateNode AND [eqXisXplus1, ASTTrue], ASTTrue]) ∧
      CreateNode AND [CreateNode AND [eqXisXplus1, ASTTrue], ASTTrue]
        ≠ CreateNode AND [eqXisXplus1, ASTTrue]) ∧
    ((TopLevelBVSolve idSimplifier solverWithMemo scenario1).map Prod.fst
        = some (CreateNode AND [ASTTrue, ASTTrue]) ∧
      solveTwice idSimplifier solverWithMemo scenario1 = some ASTFalse ∧
      ASTFalse ≠ CreateNode AND [ASTTrue, ASTTrue]) :=
  ⟨by decide!, by decide, by decide⟩

/-- Claim C5 as amended, driver idempotence when the open part is not an
equality.  Let `TopLevelBVSolve(F)` return `AND(O, true)`, so that no even
equation was collected, with `O` not an equality: no conjunct stayed open, or
two or more did, or the one that did is not an equality.  When the memo of the
solver before the call has no entry for that output, or maps it to itself,
`TopLevelBVSolve` run on the output in the solver the call leaves returns the
output. -/
theorem C5_idempotence_open_part_not_equality (S : Simplifier) (st : BVSolver) (F O : ASTNode)
    (r : ASTNode × BVSolver) (hF : TopLevelBVSolve S st F = some r)
    (hout : r.1 = CreateNode AND [O, ASTTrue])
    (hO : O.GetKind ≠ EQ)
    (hmemo : ∀ v, CheckAlreadySolvedMap st r.1 = some v → v = r.1) :
    (TopLevelBVSolve S r.2 r.1).map Prod.fst = some r.1 := by
  have hodd := BVSolve_Odd_not_eq S r.2 O hO
  have heven := CheckEvenEqn_not_eq O hO
  have hmemo2 : ∀ v, CheckAlreadySolvedMap r.2 r.1 = some v → v = r.1 := by
    intro v hv
    rcases TopLevelBVSolve_memo_output S st F O r hF hout v hv with h | h
    · exact h
    · exact hmemo v h
  cases hm : CheckAlreadySolvedMap r.2 r.1 with
  | some v =>
    have := hmemo2 v hm
    subst this
    unfold TopLevelBVSolve
    simp only [hm]
    rw [hout]
    simp [CreateNode, ASTNode.GetKind]
  | none =>
    unfold TopLevelBVSolve
    simp only [hm]
    rw [hout]
    have hc : (CreateNode AND [O, ASTTrue]).GetChildren = [O, ASTTrue] := rfl
    have hk : (CreateNode AND [O, ASTTrue]).GetKind = AND := rfl
    simp only [hk, hc, sort_extracts_last, Bool.false_eq_true, if_false, reduceCtorEq,
      decide_False, decide_True, Bool.false_or, Bool.not_true, Bool.or_true,
      TopLevelBVSolve_loop_fixed S r.2 r.2 O hodd heven]
    by_cases hT : ASTTrue = O
    · subst hT; simp [conjunctionOf]
    · simp [hT, conjunctionOf]

/-- The hypotheses of claim C5 as amended hold for the conjunction of
`x = x + 1` and `y = y + 1` in a new solver: both conjuncts stay open, and the
output is `AND(AND(x = x + 1, y = y + 1), true)`. -/
theorem C5_idempotence_open_part_not_equality_witness :
    (TopLevelBVSolve idSimplifier BVSolver.init twoDeclined).isSome = true ∧
    (driverRun idSimplifier BVSolver.init twoDeclined).1
      = CreateNode AND [twoDeclined, ASTTrue] ∧
    twoDeclined.GetKind ≠ EQ ∧
    CheckAlreadySolvedMap BVSolver.init (driverRun idSimplifier BVSolver.init twoDeclined).1
      = none ∧
    (TopLevelBVSolve idSimplifier (driverRun idSimplifier BVSolver.init twoDeclined).2
      (driverRun idSimplifier BVSolver.init twoDeclined).1).map Prod.fst
      = some (driverRun idSimplifier BVSolver.init twoDeclined).1 :=
  ⟨by decide, by decide, by decide, rfl,
    C5_idempotence_open_part_not_equality idSimplifier BVSolver.init twoDeclined twoDeclined
      (driverRun idSimplifier BVSolver.init twoDeclined)
      (driverRun_spec _ _ _ (by decide)) (by decide) (by decide)
      (fun v hv => nomatch hv)⟩

end BEEV
